import Mathlib

/-!
# Siril 0.9.12: the star finder and the image formats

Shallow embeddings of the star-detection engine with the star catalog it
maintains (`src/algos/star_finder.c`, namespace `StarFinder`) and of the import
and export of BMP and NetPBM images (`src/io/image_formats_internal.c`,
namespace `ImageFormats`), followed by the properties established about them.

Conventions of the embedding:

* `WORD` samples are natural numbers; no arithmetic is performed on them, only
  comparisons.
* C `int` values are integers; the sizes involved are far from the 32-bit range.
* C `double` values are modelled by `Dbl`: NaN, the two infinities and the finite
  values, the latter carried as rationals. Comparisons follow IEEE 754 (every
  comparison with NaN is false). The rounding that an arithmetic operation
  applies to its exact result is a parameter `rnd : ℚ → Dbl` of every function
  that computes with doubles, so that the theorems hold for each rounding mode.
* A C array of pointers is the list of its slots, `none` being the NULL
  pointer. An access outside the array, or a length that became negative, is
  undefined behaviour: the function then yields `none`, as it does when an
  `assert` fails and ends the program.
* Functions that `star_finder.c` calls but does not define (the fitter, the
  statistics, the wavelet filter, `qsort`, `malloc`) are inputs of the model.
-/

namespace StarFinder

/-! ## Doubles -/

/-- A C `double`: NaN, minus infinity, a finite value, plus infinity. -/
inductive Dbl where
  | nan : Dbl
  | ninf : Dbl
  | fin (q : ℚ) : Dbl
  | pinf : Dbl
  deriving DecidableEq

namespace Dbl

/-- The C macro `isnan`. -/
def isnan : Dbl → Bool
  | nan => true
  | _ => false

/-- The C operator `<` on doubles. -/
def lt : Dbl → Dbl → Bool
  | nan, _ => false
  | _, nan => false
  | ninf, ninf => false
  | ninf, _ => true
  | fin _, ninf => false
  | fin a, fin b => decide (a < b)
  | fin _, pinf => true
  | pinf, _ => false

/-- The C operator `<=` on doubles. -/
def le : Dbl → Dbl → Bool
  | nan, _ => false
  | _, nan => false
  | ninf, _ => true
  | fin _, ninf => false
  | fin a, fin b => decide (a ≤ b)
  | fin _, pinf => true
  | pinf, pinf => true
  | pinf, _ => false

/-- The C operator `>` on doubles. -/
def gt (a b : Dbl) : Bool := lt b a

/-- The C operator `>=` on doubles. -/
def ge (a b : Dbl) : Bool := le b a

/-- The conversion of a C `int` to `double`, which is exact. -/
def ofInt (i : Int) : Dbl := fin (i : ℚ)

/-- The sign of a rational as an infinity: used for the quotients and products
whose exact value is infinite. -/
def signedInf (q : ℚ) : Dbl := if q < 0 then ninf else pinf

/-- The C operator `/` on doubles. A zero divisor is taken as `+0`. -/
def div (rnd : ℚ → Dbl) : Dbl → Dbl → Dbl
  | nan, _ => nan
  | _, nan => nan
  | fin a, fin b =>
    if b = 0 then (if a = 0 then nan else signedInf a) else rnd (a / b)
  | fin _, _ => fin 0
  | ninf, fin b => signedInf (if b < 0 then 1 else -1)
  | pinf, fin b => signedInf (if b < 0 then -1 else 1)
  | _, _ => nan

/-- The C operator `+` on doubles. -/
def add (rnd : ℚ → Dbl) : Dbl → Dbl → Dbl
  | nan, _ => nan
  | _, nan => nan
  | fin a, fin b => rnd (a + b)
  | fin _, d => d
  | ninf, pinf => nan
  | pinf, ninf => nan
  | d, _ => d

/-- The unary minus on doubles. -/
def neg : Dbl → Dbl
  | nan => nan
  | ninf => pinf
  | fin a => fin (-a)
  | pinf => ninf

/-- The C operator `-` on doubles. -/
def sub (rnd : ℚ → Dbl) : Dbl → Dbl → Dbl
  | nan, _ => nan
  | _, nan => nan
  | fin a, fin b => rnd (a - b)
  | fin _, d => neg d
  | ninf, ninf => nan
  | pinf, pinf => nan
  | d, _ => d

/-- The C function `fabs`. -/
def abs : Dbl → Dbl
  | nan => nan
  | ninf => pinf
  | fin a => fin |a|
  | pinf => pinf

/-- The rounding that keeps the exact result: arithmetic over values for which
no rounding occurs. -/
def exact : ℚ → Dbl := fin

/-- The literal `0.0`. -/
def zero : Dbl := fin 0

/-- The literal `0.01`, that is the double nearest to one hundredth. -/
def c0_01 : Dbl := fin (5764607523034235 / 576460752303423488)

/-- The literal `200` converted to double. -/
def c200 : Dbl := fin 200

/-- The literal `0.9`, that is the double nearest to nine tenths. -/
def c0_9 : Dbl := fin (8106479329266893 / 9007199254740992)

end Dbl

/-! ## Records -/

/-- Modelled from the spec: the declaration of `fitted_PSF` (`algos/PSF.h`) is not
among the sources. The fields are those that `star_finder.c` reads or writes
(`x0`, `y0`, `sx`, `sy`, `fwhmx`, `fwhmy`, `A`, `mag`, `xpos`, `ypos`, `units`)
and the background `B` that the spec lists for a fitted star record. -/
structure fitted_PSF where
  B : Dbl
  A : Dbl
  x0 : Dbl
  y0 : Dbl
  sx : Dbl
  sy : Dbl
  fwhmx : Dbl
  fwhmy : Dbl
  mag : Dbl
  xpos : Dbl
  ypos : Dbl
  units : String
  deriving DecidableEq

/-- Modelled from the spec: the declaration of `star_finder_params`
(`core/siril.h`) is not among the sources; the three fields are those read by
`get_structure` and `init_peaker_default`. -/
structure star_finder_params where
  radius : Int
  sigma : Dbl
  roundness : Dbl
  deriving DecidableEq

/-- The acceptance test `is_star` (star_finder.c, lines 63-82). -/
def is_star (rnd : ℚ → Dbl) (result : fitted_PSF) (sf : star_finder_params) : Bool :=
  if result.fwhmx.isnan || result.fwhmy.isnan then false
  else if result.x0.isnan || result.y0.isnan then false
  else if result.mag.isnan then false
  else if Dbl.le result.x0 Dbl.zero || Dbl.le result.y0 Dbl.zero then false
  else if Dbl.lt result.A Dbl.c0_01 then false
  else if Dbl.gt result.sx Dbl.c200 || Dbl.gt result.sy Dbl.c200 then false
  else if Dbl.le result.fwhmx Dbl.zero || Dbl.le result.fwhmy Dbl.zero then false
  else if Dbl.lt (Dbl.div rnd result.fwhmy result.fwhmx) sf.roundness then false
  else true

/-! ## The star catalog -/

/-- Modelled from the spec: the declaration of `rectangle` (`core/siril.h`) is not
among the sources; the four integer fields are those read by `peaker` and
`add_star`. -/
structure rectangle where
  x : Int
  y : Int
  w : Int
  h : Int
  deriving DecidableEq

/-- The slots of an array of `fitted_PSF *`; `none` is the NULL pointer. -/
abbrev StarTab := List (Option fitted_PSF)

/-- The part of the global `com` that the catalog functions use: the array
`com.stars` (`none` when the pointer is NULL), the selection rectangle and the
flag `star_is_seqdata`. -/
structure Com where
  stars : Option StarTab
  selection : rectangle
  star_is_seqdata : Bool
  deriving DecidableEq

/-- The array that holds the records `stars`, then the NULL terminator, then the
slots `rest` that follow the terminator (their content is whatever the memory
held). -/
def tabOf (stars : List fitted_PSF) (rest : StarTab) : StarTab :=
  stars.map some ++ none :: rest

/-- The test of `add_star` (lines 316-319): the fitted position is within 0.9
pixel of the entry `s` on both axes. -/
def near (rnd : ℚ → Dbl) (result : fitted_PSF) (sel : rectangle) (s : fitted_PSF) : Bool :=
  Dbl.lt (Dbl.abs (Dbl.sub rnd (Dbl.add rnd result.x0 (Dbl.ofInt sel.x)) s.xpos)) Dbl.c0_9
    && Dbl.lt (Dbl.abs (Dbl.sub rnd (Dbl.sub rnd (Dbl.ofInt (sel.y + sel.h)) result.y0) s.ypos))
      Dbl.c0_9

/-- The loop `while (com.stars[i])` of `add_star` (lines 315-322), started at
slot `i` with the slots from `i` on: it yields the index of the first NULL slot
and the final `already_found`, or `none` when it runs past the end of the array. -/
def add_star_loop (rnd : ℚ → Dbl) (result : fitted_PSF) (sel : rectangle) :
    StarTab → Nat → Bool → Option (Nat × Bool)
  | [], _, _ => none
  | none :: _, i, already_found => some (i, already_found)
  | some s :: slots, i, already_found =>
    add_star_loop rnd result sel slots (i + 1) (if near rnd result sel s then true else already_found)

/-- The store `tab[i] = v` into an array, undefined outside the array. -/
def store (tab : StarTab) (i : Nat) (v : Option fitted_PSF) : Option StarTab :=
  if i < tab.length then some (tab.set i v) else none

/-- The outcome of `add_star`: the returned pointer, the value left in `*index`
and the global state. -/
structure AddResult where
  ret : Option fitted_PSF
  index : Int
  com : Com
  deriving DecidableEq

/-- The function `add_star` (lines 302-350). `MAX_STARS` is the constant of
`core/siril.h`, `fit` the outcome of `psf_get_minimisation` on the selection
(`none` for NULL) and `alloc` the outcome of `malloc` should it be called:
`none` when it fails, else the fresh array with its arbitrary content. -/
def add_star (rnd : ℚ → Dbl) (MAX_STARS : Nat) (com : Com) (fit : Option fitted_PSF)
    (alloc : Option StarTab) : Option AddResult :=
  match fit with
  | none => some ⟨none, -1, com⟩
  | some result =>
    let scanned : Option (Option (Com × Nat × Bool)) :=
      match com.stars with
      | some tab =>
        match add_star_loop rnd result com.selection tab 0 false with
        | none => none
        | some (i, already_found) => some (some (com, i, already_found))
      | none =>
        match alloc with
        | none => some none
        | some fresh => some (some ({ com with stars := some fresh, star_is_seqdata := false }, 0, false))
    match scanned with
    | none => none
    | some none => some ⟨none, -1, com⟩
    | some (some (com1, i, already_found)) =>
      if already_found then some ⟨none, -1, com1⟩
      else if i < MAX_STARS then
        let result1 : fitted_PSF :=
          { result with
            xpos := Dbl.add rnd result.x0 (Dbl.ofInt com1.selection.x)
            ypos := Dbl.sub rnd (Dbl.ofInt (com1.selection.y + com1.selection.h)) result.y0 }
        match com1.stars with
        | none => none
        | some tab =>
          match store tab i (some result1) with
          | none => none
          | some tab1 =>
            match store tab1 (i + 1) none with
            | none => none
            | some tab2 => some ⟨some result1, (i : Int), { com1 with stars := some tab2 }⟩
      else some ⟨none, -1, com1⟩

/-- The function `get_size_star_tab` (lines 352-358): the index of the first
NULL slot, or `none` when there is no terminator in the array. -/
def get_size_star_tab : StarTab → Option Nat
  | [] => none
  | none :: _ => some 0
  | some _ :: slots => (get_size_star_tab slots).map (· + 1)

/-- The call `memmove(&tab[dst], &tab[src], count * sizeof(*tab))`: the `count`
slots from `src` on are copied to `dst` on, as if through a temporary buffer.
A negative count converts to a huge `size_t`, and a range that leaves the array
is undefined. -/
def memmove (tab : StarTab) (dst src : Nat) (count : Int) : Option StarTab :=
  if count < 0 then none
  else if src + count.toNat ≤ tab.length ∧ dst + count.toNat ≤ tab.length then
    some (tab.take dst ++ (tab.drop src).take count.toNat ++ tab.drop (dst + count.toNat))
  else none

/-- The function `remove_star` (lines 361-372): the returned value and the
global state. The freed record is no longer reachable; `redraw` only refreshes
the display. -/
def remove_star (com : Com) (index : Int) : Option (Int × Com) :=
  if index < 0 then some (1, com)
  else
    match com.stars with
    | none => some (1, com)
    | some tab =>
      match tab.get? index.toNat with
      | none => none
      | some none => some (1, com)
      | some (some _) =>
        match get_size_star_tab tab with
        | none => none
        | some size =>
          let N : Int := (size : Int) + 1
          match memmove tab index.toNat (index.toNat + 1) (N - index - 1) with
          | none => none
          | some tab1 => some (0, { com with stars := some tab1 })

/-! ## Sample inputs -/

/-- A record whose amplitude, widths `sx`, `sy` and background are NaN and whose
other fields describe a round star. -/
def nanAmplitudeRecord : fitted_PSF :=
  { B := Dbl.nan, A := Dbl.nan, x0 := Dbl.fin 1, y0 := Dbl.fin 1, sx := Dbl.nan, sy := Dbl.nan,
    fwhmx := Dbl.fin 1, fwhmy := Dbl.fin 1, mag := Dbl.fin 0, xpos := Dbl.fin 0,
    ypos := Dbl.fin 0, units := "px" }

/-- The default parameters of `init_peaker_default`: radius 10, sigma 1.0,
roundness 0.5. -/
def defaultParams : star_finder_params :=
  { radius := 10, sigma := Dbl.fin 1, roundness := Dbl.fin (1 / 2) }

/-- A record at image position `(x, y)` of magnitude `m`, as left in the catalog. -/
def starAt (x y m : ℚ) : fitted_PSF :=
  { B := Dbl.fin 0, A := Dbl.fin 1, x0 := Dbl.fin 1, y0 := Dbl.fin 1, sx := Dbl.fin 1,
    sy := Dbl.fin 1, fwhmx := Dbl.fin 2, fwhmy := Dbl.fin 2, mag := Dbl.fin m,
    xpos := Dbl.fin x, ypos := Dbl.fin y, units := "px" }

/-- A fit whose centre is `(x0, y0)` in the coordinates of the selection. -/
def fitAt (x0 y0 : ℚ) : fitted_PSF :=
  { B := Dbl.fin 0, A := Dbl.fin 1, x0 := Dbl.fin x0, y0 := Dbl.fin y0, sx := Dbl.fin 1,
    sy := Dbl.fin 1, fwhmx := Dbl.fin 2, fwhmy := Dbl.fin 2, mag := Dbl.fin 0,
    xpos := Dbl.fin 0, ypos := Dbl.fin 0, units := "px" }

/-- A selection of 10 by 10 pixels whose corner is `(5, 5)`. -/
def sampleSelection : rectangle := { x := 5, y := 5, w := 10, h := 10 }

/-! ## Sorting -/

/-- The function `compare_stars` (lines 374-384). -/
def compare_stars (s1 s2 : fitted_PSF) : Int :=
  if Dbl.lt s1.mag s2.mag then -1
  else if Dbl.gt s1.mag s2.mag then 1
  else 0

/-- The requirement that the C standard puts on the comparison function handed to
`qsort`: its results on the elements of the array are consistent with one
another, that is they define a total ordering (opposite signs when the arguments
are swapped, and transitivity of "not after"). -/
def Consistent (cmp : fitted_PSF → fitted_PSF → Int) (l : List fitted_PSF) : Prop :=
  (∀ a ∈ l, ∀ b ∈ l, (cmp a b < 0 ↔ 0 < cmp b a))
    ∧ (∀ a ∈ l, ∀ b ∈ l, ∀ c ∈ l, cmp a b ≤ 0 → cmp b c ≤ 0 → cmp a c ≤ 0)

/-- The C library function `qsort`, which is not part of the repository: any
function on the elements of the array that, for a consistent comparison
function, returns the same elements in ascending order. The order of elements
that compare as equal is left open, as in the C standard. -/
structure Qsort where
  sort : (fitted_PSF → fitted_PSF → Int) → List fitted_PSF → List fitted_PSF
  perm : ∀ cmp l, Consistent cmp l → (sort cmp l).Perm l
  sorted : ∀ cmp l, Consistent cmp l → (sort cmp l).Pairwise (fun a b => cmp a b ≤ 0)

/-- The records that the first slots of an array point to, or `none` when one of
them is NULL. -/
def derefAll : StarTab → Option (List fitted_PSF)
  | [] => some []
  | none :: _ => none
  | some s :: slots => (derefAll slots).map (s :: ·)

/-- The function `sort_stars` (lines 386-389) on the array `stars` (`none` for a
NULL pointer): `qsort` orders the first `total` slots with `compare_stars`, which
dereferences them. A negative `total` converts to a huge `size_t`. -/
def sort_stars (Q : Qsort) (stars : Option StarTab) (total : Int) : Option (Option StarTab) :=
  match stars with
  | none => some none
  | some tab =>
    if total < 0 then none
    else if total.toNat ≤ tab.length then
      match derefAll (tab.take total.toNat) with
      | none => none
      | some records => some (some ((Q.sort compare_stars records).map some ++ tab.drop total.toNat))
    else none

/-- An implementation of `qsort` by insertion. -/
def insertionQsort_sort (cmp : fitted_PSF → fitted_PSF → Int) (l : List fitted_PSF) :
    List fitted_PSF :=
  l.insertionSort (fun a b => cmp a b ≤ 0)

/-- The insertion sort as an implementation of `qsort`. -/
def insertionQsort : Qsort where
  sort := insertionQsort_sort
  perm := fun cmp l _ => List.perm_insertionSort (fun a b => cmp a b ≤ 0) l
  sorted := by
    intro cmp l hc
    have htot : ∀ a ∈ l, ∀ b ∈ l, cmp a b ≤ 0 ∨ cmp b a ≤ 0 := by
      intro a ha b hb
      by_cases h : cmp a b ≤ 0
      · exact Or.inl h
      · exact Or.inr (le_of_lt ((hc.1 b hb a ha).mpr (lt_of_not_le h)))
    have hins : ∀ (a : fitted_PSF) (m : List fitted_PSF), a ∈ l → (∀ x ∈ m, x ∈ l) →
        m.Pairwise (fun a b => cmp a b ≤ 0) →
        (m.orderedInsert (fun a b => cmp a b ≤ 0) a).Pairwise (fun a b => cmp a b ≤ 0) := by
      intro a m ha
      induction m with
      | nil => intro _ _; simp
      | cons b m ih =>
        intro hm hp
        have hb : b ∈ l := hm b (List.mem_cons_self b m)
        have hm1 : ∀ x ∈ m, x ∈ l := fun x hx => hm x (List.mem_cons_of_mem b hx)
        rw [List.pairwise_cons] at hp
        by_cases hab : cmp a b ≤ 0
        · rw [List.orderedInsert, if_pos hab, List.pairwise_cons, List.pairwise_cons]
          refine ⟨?_, hp⟩
          intro x hx
          rcases List.mem_cons.mp hx with rfl | hx
          · exact hab
          · exact hc.2 a ha b hb x (hm1 x hx) hab (hp.1 x hx)
        · rw [List.orderedInsert, if_neg hab, List.pairwise_cons]
          refine ⟨?_, ih hm1 hp.2⟩
          intro x hx
          rcases (List.mem_orderedInsert (fun a b => cmp a b ≤ 0)).mp hx with rfl | hx
          · exact (htot x ha b hb).resolve_left hab
          · exact hp.1 x hx
    have hsub : ∀ m : List fitted_PSF, (∀ x ∈ m, x ∈ l) →
        (insertionQsort_sort cmp m).Pairwise (fun a b => cmp a b ≤ 0) := by
      intro m
      induction m with
      | nil => intro _; simp [insertionQsort_sort]
      | cons a m ih =>
        intro hm
        have hm1 : ∀ x ∈ m, x ∈ l := fun x hx => hm x (List.mem_cons_of_mem a hx)
        have hmem : ∀ x ∈ m.insertionSort (fun a b => cmp a b ≤ 0), x ∈ l := fun x hx =>
          hm1 x ((List.perm_insertionSort (fun a b => cmp a b ≤ 0) m).mem_iff.mp hx)
        exact hins a _ (hm a (List.mem_cons_self a m)) hmem (ih hm1)
    exact hsub l (fun _ h => h)

/-! ## The peak detector -/

/-- The read `image[y][x]` through the array of row pointers that `peaker` fills
upside-down (lines 192-193 and 204-205): row `y` starts at offset
`(ny - y - 1) * nx` of the sample buffer `data`. The read is undefined when `y`
is outside the array of row pointers or when the sample is outside the buffer. -/
def pixel (nx ny : Int) (data : List Nat) (y x : Int) : Option Nat :=
  if 0 ≤ y ∧ y < ny ∧ 0 ≤ (ny - y - 1) * nx + x then
    data.get? ((ny - y - 1) * nx + x).toNat
  else none

/-- The inner loop `for (xx = x - 1; xx <= x + 1; xx++)` of the neighbour test
(lines 223-236) over the remaining values of `xx`, with the current `bingo`:
the centre is skipped, and a neighbour that is greater, or equal and placed at
`(xx <= x && yy <= y) || (xx > x && yy < y)`, sets `bingo` to FALSE and breaks
out of this loop. -/
def neighbor_row (image : Int → Int → Option Nat) (x y yy : Int) (pix : Nat) :
    List Int → Bool → Option Bool
  | [], bingo => some bingo
  | xx :: more, bingo =>
    if xx = x ∧ yy = y then neighbor_row image x y yy pix more bingo
    else
      match image yy xx with
      | none => none
      | some neighbor =>
        if neighbor > pix then some false
        else if neighbor = pix then
          if (xx ≤ x ∧ yy ≤ y) ∨ (xx > x ∧ yy < y) then some false
          else neighbor_row image x y yy pix more bingo
        else neighbor_row image x y yy pix more bingo

/-- The outer loop `for (yy = y - 1; yy <= y + 1; yy++)` of the neighbour test
(lines 222-237) over the remaining values of `yy`: the `break` of the inner loop
does not leave this one, so the following rows are still read. -/
def neighbor_rows (image : Int → Int → Option Nat) (x y : Int) (pix : Nat) :
    List Int → Bool → Option Bool
  | [], bingo => some bingo
  | yy :: more, bingo =>
    match neighbor_row image x y yy pix [x - 1, x, x + 1] bingo with
    | none => none
    | some bingo1 => neighbor_rows image x y pix more bingo1

/-- The candidate test of `peaker` on the pixel `(x, y)` (lines 217-238): the
range test `pixel > threshold && pixel < norm`, then the neighbour loops started
with `bingo = TRUE`; the value is the final `bingo`, FALSE when the range test
fails. -/
def is_candidate (image : Int → Int → Option Nat) (threshold norm : Nat) (x y : Int) :
    Option Bool :=
  match image y x with
  | none => none
  | some pix =>
    if pix > threshold ∧ pix < norm then neighbor_rows image x y pix [y - 1, y, y + 1] true
    else some false

/-- The values taken by the variable of a loop `for (i = lo; i < hi; i++)`. -/
def loop_range (lo hi : Int) : List Int :=
  (List.range (hi - lo).toNat).map (fun (k : Nat) => lo + (k : Int))

/-- The pixels `(x, y)` visited by the two scan loops of `peaker` (lines 214 and
216), in the order of the visit: `y` from `radius + areaY0` to
`areaY1 - radius - 1`, and for each `y`, `x` from `radius + areaX0` to
`areaX1 - radius - 1`. -/
def scan_positions (radius areaX0 areaY0 areaX1 areaY1 : Int) : List (Int × Int) :=
  (loop_range (radius + areaY0) (areaY1 - radius)).flatMap
    (fun y => (loop_range (radius + areaX0) (areaX1 - radius)).map (fun x => (x, y)))

/-- The pixels among `positions` that pass the candidate test, in the order of
the visit; `none` when a read of the test is undefined. -/
def candidates_of (image : Int → Int → Option Nat) (threshold norm : Nat) :
    List (Int × Int) → Option (List (Int × Int))
  | [] => some []
  | (x, y) :: more =>
    match is_candidate image threshold norm x y with
    | none => none
    | some bingo =>
      match candidates_of image threshold norm more with
      | none => none
      | some found => some (if bingo then (x, y) :: found else found)

/-- The candidates that the scan of `peaker` meets on the filtered image `wave`
of `nx` by `ny` samples, for the search area `[areaX0, areaX1)` by
`[areaY0, areaY1)`. -/
def candidates (nx ny : Int) (wave : List Nat) (threshold norm : Nat)
    (radius areaX0 areaY0 areaX1 areaY1 : Int) : Option (List (Int × Int)) :=
  candidates_of (pixel nx ny wave) threshold norm
    (scan_positions radius areaX0 areaY0 areaX1 areaY1)

/-- A filtered image of 5 by 4 samples that holds one U-shaped plateau of value 5
on a background of 0. The buffer is stored bottom row first; read through the
row pointers it is
`0 0 0 0 0 / 0 5 0 5 0 / 0 5 5 5 0 / 0 0 0 0 0` for `y = 0, 1, 2, 3`. -/
def uPlateau : List Nat :=
  [0, 0, 0, 0, 0,
   0, 5, 5, 5, 0,
   0, 5, 0, 5, 0,
   0, 0, 0, 0, 0]

/-- The condition under which the loop body (lines 224-235) leaves `bingo` alone
for the neighbour `(xx, yy)` of value `neighbor`: it is the centre, or it is
neither greater than the pixel nor an equal value at a losing place. -/
def neighbor_ok (x y : Int) (pix : Nat) (xx yy : Int) (neighbor : Nat) : Bool :=
  decide (xx = x ∧ yy = y)
    || (!decide (neighbor > pix)
        && !(decide (neighbor = pix) && decide ((xx ≤ x ∧ yy ≤ y) ∨ (xx > x ∧ yy < y))))

/-- The candidate condition in the words of the specification, for a pixel of
value `v` inside an image whose sample at row `y`, column `x` is `value y x`:
`threshold < v < normValue` and every one of the 8 neighbours, at offset
`(dx, dy)`, is smaller than `v`, or equals `v` while neither
`(dx <= 0 and dy <= 0)` nor `(dx > 0 and dy < 0)` holds. -/
def SpecCandidate (value : Int → Int → Nat) (threshold norm : Nat) (x y : Int) : Prop :=
  threshold < value y x ∧ value y x < norm
    ∧ ∀ dx dy : Int, -1 ≤ dx → dx ≤ 1 → -1 ≤ dy → dy ≤ 1 → ¬ (dx = 0 ∧ dy = 0) →
        (value (y + dy) (x + dx) < value y x
          ∨ (value (y + dy) (x + dx) = value y x
              ∧ ¬ (dx ≤ 0 ∧ dy ≤ 0) ∧ ¬ (dx > 0 ∧ dy < 0)))

/-- The sample read at `(x, y)`, with 0 standing for an undefined read. -/
def sample (nx ny : Int) (data : List Nat) (y x : Int) : Nat :=
  (pixel nx ny data y x).getD 0

/-- Two pixels are 8-adjacent: distinct, and at most one column and one row apart. -/
def adjacent (p q : Int × Int) : Prop :=
  p ≠ q ∧ |p.1 - q.1| ≤ 1 ∧ |p.2 - q.2| ≤ 1

/-- A path inside a plateau: every pixel is read from the image, and each step
goes to an 8-adjacent pixel of equal value. -/
def plateau_path (image : Int → Int → Option Nat) : List (Int × Int) → Prop
  | [] => True
  | [p] => (image p.2 p.1).isSome = true
  | p :: q :: more =>
    adjacent p q ∧ (image p.2 p.1).isSome = true ∧ image p.2 p.1 = image q.2 q.1
      ∧ plateau_path image (q :: more)

/-- Two pixels belong to the same plateau, that is to the same maximal connected
region of equal-valued pixels: a path of equal-valued, 8-adjacent pixels joins
them. -/
def same_plateau (image : Int → Int → Option Nat) (p q : Int × Int) : Prop :=
  ∃ path : List (Int × Int), path.head? = some p ∧ path.getLast? = some q
    ∧ plateau_path image path

/-! ## The scan -/

/-- The C operator `*` on doubles. -/
def Dbl.mul (rnd : ℚ → Dbl) : Dbl → Dbl → Dbl
  | Dbl.nan, _ => Dbl.nan
  | _, Dbl.nan => Dbl.nan
  | Dbl.fin a, Dbl.fin b => rnd (a * b)
  | Dbl.fin a, Dbl.ninf => if a = 0 then Dbl.nan else Dbl.signedInf a |>.neg
  | Dbl.fin a, Dbl.pinf => if a = 0 then Dbl.nan else Dbl.signedInf a
  | Dbl.ninf, Dbl.fin b => if b = 0 then Dbl.nan else Dbl.signedInf b |>.neg
  | Dbl.pinf, Dbl.fin b => if b = 0 then Dbl.nan else Dbl.signedInf b
  | Dbl.ninf, Dbl.ninf => Dbl.pinf
  | Dbl.ninf, Dbl.pinf => Dbl.ninf
  | Dbl.pinf, Dbl.ninf => Dbl.ninf
  | Dbl.pinf, Dbl.pinf => Dbl.pinf

/-- The C conversion `(WORD) d` of a double: the value is truncated toward zero,
and the conversion is undefined when the truncated value does not fit 16 bits. -/
def Dbl.toWORD : Dbl → Option Nat
  | Dbl.fin q => if -1 < q ∧ q < 65536 then some (Int.toNat ⌊q⌋) else none
  | _ => none

/-- Modelled from the spec: the declaration of `imstats` (`algos/statistics.h`) is
not among the sources; the three fields are those read by `Compute_threshold`,
the median, the sigma and the range maximum of the channel. -/
structure imstats where
  median : Dbl
  sigma : Dbl
  normValue : Dbl
  deriving DecidableEq

/-- The part of a `fits` image that `peaker` reads: the dimensions and, for each
layer, the buffer of samples (`core/siril.h` is not among the sources). -/
structure fits where
  rx : Int
  ry : Int
  pdata : Int → List Nat

/-- What `peaker` obtains from the functions and the allocator it calls, none of
them part of `star_finder.c`. -/
structure PeakerCalls where
  /-- The result of `statistics(NULL, -1, fit, layer, NULL, STATS_BASIC)`. -/
  statistics : Option imstats
  /-- The function `round_to_WORD`. -/
  round_to_WORD : Dbl → Nat
  /-- The buffer `wave_fit.pdata[layer]` left by `copyfits` and `get_wavelet_layers`. -/
  wave : List Nat
  /-- The function `psf_global_minimisation` applied to the patch, the background
  and the layer, the three flags being FALSE; `none` is the NULL pointer. -/
  psf_global_minimisation : List (List Dbl) → Dbl → Int → Option fitted_PSF
  /-- The effect of `fwhm_to_arcsec_if_needed` on the record. -/
  fwhm_to_arcsec_if_needed : fitted_PSF → fitted_PSF
  /-- The C library function `qsort`. -/
  qsort : Qsort
  /-- The array of `MAX_STARS + 1` slots returned by the first `malloc`, with its
  arbitrary content, or `none` when the allocation fails. -/
  results_alloc : Option StarTab
  /-- Whether the allocation of `wave_image` succeeds. -/
  wave_image_alloc : Bool
  /-- Whether the allocation of `real_image` succeeds. -/
  real_image_alloc : Bool

/-- The function `Compute_threshold` (lines 42-61): the threshold, `*norm` and
`*bg`. A failed `assert` ends the program. -/
def Compute_threshold (rnd : ℚ → Dbl) (calls : PeakerCalls) (ksigma : Dbl) (layer : Int) :
    Option (Nat × Nat × Dbl) :=
  if layer ≤ 3 then
    match calls.statistics with
    | none => some (0, 0, Dbl.fin 0)
    | some stat =>
      match Dbl.toWORD stat.normValue with
      | none => none
      | some norm =>
        some (calls.round_to_WORD (Dbl.add rnd stat.median (Dbl.mul rnd ksigma stat.sigma)),
          norm, stat.median)
  else none

/-- All the values of a list of reads, or `none` when one of them is undefined. -/
def allDefined {α : Type} : List (Option α) → Option (List α)
  | [] => some []
  | none :: _ => none
  | some a :: more => (allDefined more).map (a :: ·)

/-- The matrix `z` filled by the loops of lines 243-249 for the pixel `(x, y)`:
`2 * radius` rows and columns, the entry `(ii, jj)` being the sample
`real_image[y - radius + jj][x - radius + ii]` converted to double. -/
def fill_z (real_image : Int → Int → Option Nat) (radius x y : Int) :
    Option (List (List Dbl)) :=
  allDefined ((loop_range (x - radius) (x + radius)).map (fun i =>
    allDefined ((loop_range (y - radius) (y + radius)).map (fun j =>
      (real_image j i).map (fun (v : Nat) => Dbl.ofInt (v : Int))))))

/-- The variables that the scan loops of `peaker` update: the count `nbstars`
and the array `results`. -/
structure ScanState where
  nbstars : Nat
  results : StarTab
  deriving DecidableEq

/-- The body of the scan loops for the pixel `(x, y)` (lines 217-272). -/
def scan_pixel (rnd : ℚ → Dbl) (MAX_STARS : Nat) (calls : PeakerCalls)
    (wave_image real_image : Int → Int → Option Nat) (threshold norm : Nat) (bg : Dbl)
    (layer : Int) (sf : star_finder_params) (st : ScanState) (x y : Int) : Option ScanState :=
  match is_candidate wave_image threshold norm x y with
  | none => none
  | some bingo =>
    if bingo = true ∧ st.nbstars < MAX_STARS then
      match fill_z real_image sf.radius x y with
      | none => none
      | some z =>
        match calls.psf_global_minimisation z bg layer with
        | none => some st
        | some fitted =>
          let cur_star := calls.fwhm_to_arcsec_if_needed fitted
          if is_star rnd cur_star sf then
            let placed : fitted_PSF :=
              { cur_star with
                xpos := Dbl.sub rnd (Dbl.sub rnd (Dbl.add rnd (Dbl.ofInt x) cur_star.x0)
                  (Dbl.ofInt sf.radius)) (Dbl.fin 1)
                ypos := Dbl.sub rnd (Dbl.sub rnd (Dbl.add rnd (Dbl.ofInt y) cur_star.y0)
                  (Dbl.ofInt sf.radius)) (Dbl.fin 1) }
            if st.nbstars < MAX_STARS then
              match store st.results st.nbstars (some placed) with
              | none => none
              | some results1 =>
                match store results1 (st.nbstars + 1) none with
                | none => none
                | some results2 => some ⟨st.nbstars + 1, results2⟩
            else some st
          else some st
    else some st

/-- The two scan loops of `peaker` (lines 214-274) over the pixels still to visit. -/
def scan_loop (rnd : ℚ → Dbl) (MAX_STARS : Nat) (calls : PeakerCalls)
    (wave_image real_image : Int → Int → Option Nat) (threshold norm : Nat) (bg : Dbl)
    (layer : Int) (sf : star_finder_params) : List (Int × Int) → ScanState → Option ScanState
  | [], st => some st
  | (x, y) :: more, st =>
    match scan_pixel rnd MAX_STARS calls wave_image real_image threshold norm bg layer sf st x y with
    | none => none
    | some st1 =>
      scan_loop rnd MAX_STARS calls wave_image real_image threshold norm bg layer sf more st1

/-- The outcome of `peaker`: the returned array (`none` for NULL) and the content
of `*nb_stars` (`none` when the pointer is NULL). -/
structure PeakerResult where
  ret : Option StarTab
  nb_stars : Option Int
  deriving DecidableEq

/-- The function `peaker` (lines 148-291). `nb_stars` is the content of
`*nb_stars` before the call (`none` for a NULL pointer) and `area` the optional
search rectangle. A failed `assert` ends the program. -/
def peaker (rnd : ℚ → Dbl) (MAX_STARS : Nat) (calls : PeakerCalls) (fit : fits) (layer : Int)
    (sf : star_finder_params) (nb_stars : Option Int) (area : Option rectangle) :
    Option PeakerResult :=
  let nx := fit.rx
  let ny := fit.ry
  if nx > 0 ∧ ny > 0 then
    match calls.results_alloc with
    | none => some ⟨none, nb_stars⟩
    | some fresh =>
      match store fresh 0 none with
      | none => none
      | some results =>
        match Compute_threshold rnd calls sf.sigma layer with
        | none => none
        | some (threshold, norm, bg) =>
          if norm = 0 then some ⟨none, nb_stars⟩
          else if calls.wave_image_alloc = false then some ⟨none, nb_stars⟩
          else if calls.real_image_alloc = false then some ⟨none, nb_stars⟩
          else
            let areaX0 := match area with | some a => a.x | none => 0
            let areaY0 := match area with | some a => a.y | none => 0
            let areaX1 := match area with | some a => a.w + a.x | none => nx
            let areaY1 := match area with | some a => a.h + a.y | none => ny
            match scan_loop rnd MAX_STARS calls (pixel nx ny calls.wave)
                (pixel nx ny (fit.pdata layer)) threshold norm bg layer sf
                (scan_positions sf.radius areaX0 areaY0 areaX1 areaY1) ⟨0, results⟩ with
            | none => none
            | some st =>
              let results1 : Option StarTab := if st.nbstars = 0 then none else some st.results
              match sort_stars calls.qsort results1 (st.nbstars : Int) with
              | none => none
              | some sorted => some ⟨sorted, nb_stars.map (fun _ => (st.nbstars : Int))⟩
  else none

/-- What the acceptance test guarantees about a record: fwhmx and fwhmy are
positive, none of fwhmx, fwhmy, x0, y0, mag is NaN, the amplitude is NaN or at
least 0.01, and `fwhmy/fwhmx >= roundness` unless that quotient or the roundness
is NaN. -/
def Accepted (rnd : ℚ → Dbl) (sf : star_finder_params) (r : fitted_PSF) : Prop :=
  Dbl.gt r.fwhmx Dbl.zero = true ∧ Dbl.gt r.fwhmy Dbl.zero = true
    ∧ r.fwhmx.isnan = false ∧ r.fwhmy.isnan = false
    ∧ r.x0.isnan = false ∧ r.y0.isnan = false ∧ r.mag.isnan = false
    ∧ (r.A.isnan = true ∨ Dbl.ge r.A Dbl.c0_01 = true)
    ∧ ((Dbl.div rnd r.fwhmy r.fwhmx).isnan = true ∨ sf.roundness.isnan = true
        ∨ Dbl.ge (Dbl.div rnd r.fwhmy r.fwhmx) sf.roundness = true)

/-- The records of the scan state are `nbstars` accepted records followed by the
NULL terminator. -/
def ScanInv (rnd : ℚ → Dbl) (sf : star_finder_params) (st : ScanState) : Prop :=
  ∃ (records : List fitted_PSF) (rest : StarTab),
    st.results = tabOf records rest ∧ records.length = st.nbstars
      ∧ ∀ s ∈ records, ∃ cur x y, is_star rnd cur sf = true ∧ s = { cur with xpos := x, ypos := y }

/-- A rounding of doubles to samples for the sample runs: half up, clamped to
16 bits. -/
def roundHalfUp : Dbl → Nat
  | Dbl.fin q => if q ≤ 0 then 0 else if q > 65535 then 65535 else Int.toNat ⌊q + 1 / 2⌋
  | Dbl.pinf => 65535
  | _ => 0

/-- The collaborators of a sample run: statistics of median 0, sigma 1 and range
maximum 100, the U-shaped plateau as filtered image, a fitter that always
returns the same round star centred at `(1, 1)` of the patch, no unit
conversion, the insertion sort, and successful allocations (an array of 4
slots, for `MAX_STARS = 3`). -/
def sampleCalls : PeakerCalls :=
  { statistics := some { median := Dbl.fin 0, sigma := Dbl.fin 1, normValue := Dbl.fin 100 }
    round_to_WORD := roundHalfUp
    wave := uPlateau
    psf_global_minimisation := fun _ _ _ => some (fitAt 1 1)
    fwhm_to_arcsec_if_needed := fun r => r
    qsort := insertionQsort
    results_alloc := some [none, none, none, none]
    wave_image_alloc := true
    real_image_alloc := true }

/-- The image of the sample run: 5 by 4 samples, the same in every layer. -/
def sampleFits : fits := { rx := 5, ry := 4, pdata := fun _ => uPlateau }

/-- The parameters of the sample run: radius 1, sigma 1.0, roundness 0.5. -/
def sampleParams : star_finder_params :=
  { radius := 1, sigma := Dbl.fin 1, roundness := Dbl.fin (1 / 2) }

/-- The insertion sort of the reversed array as an implementation of `qsort`: it
meets the contract, and it leaves elements that compare as equal in the reverse
of their input order. -/
def reverseQsort : Qsort where
  sort := fun cmp l => insertionQsort_sort cmp l.reverse
  perm := fun cmp l _ =>
    (List.perm_insertionSort (fun a b => cmp a b ≤ 0) l.reverse).trans (List.reverse_perm l)
  sorted := fun cmp l hc =>
    insertionQsort.sorted cmp l.reverse
      ⟨fun a ha b hb => hc.1 a (List.mem_reverse.mp ha) b (List.mem_reverse.mp hb),
        fun a ha b hb c hc1 =>
          hc.2 a (List.mem_reverse.mp ha) b (List.mem_reverse.mp hb) c (List.mem_reverse.mp hc1)⟩

/-- The record that the scan stores for the pixel `(x, y)` (lines 259-260): the
converted fit `cur_star` with `xpos = x + x0 - radius - 1.0` and
`ypos = y + y0 - radius - 1.0`. -/
def placed_star (rnd : ℚ → Dbl) (sf : star_finder_params) (x y : Int) (cur_star : fitted_PSF) :
    fitted_PSF :=
  { cur_star with
    xpos := Dbl.sub rnd (Dbl.sub rnd (Dbl.add rnd (Dbl.ofInt x) cur_star.x0)
      (Dbl.ofInt sf.radius)) (Dbl.fin 1)
    ypos := Dbl.sub rnd (Dbl.sub rnd (Dbl.add rnd (Dbl.ofInt y) cur_star.y0)
      (Dbl.ofInt sf.radius)) (Dbl.fin 1) }

/-- The record `s` is the one stored for some candidate among `positions`: the
pixel passes the candidate test, its patch is fitted, the converted fit is
accepted by `is_star`, and `s` is that fit placed in the image. -/
def StoredFrom (rnd : ℚ → Dbl) (calls : PeakerCalls)
    (wave_image real_image : Int → Int → Option Nat) (threshold norm : Nat) (bg : Dbl)
    (layer : Int) (sf : star_finder_params) (positions : List (Int × Int)) (s : fitted_PSF) :
    Prop :=
  ∃ (x y : Int) (z : List (List Dbl)) (fitted : fitted_PSF),
    (x, y) ∈ positions ∧ is_candidate wave_image threshold norm x y = some true
      ∧ fill_z real_image sf.radius x y = some z
      ∧ calls.psf_global_minimisation z bg layer = some fitted
      ∧ is_star rnd (calls.fwhm_to_arcsec_if_needed fitted) sf = true
      ∧ s = placed_star rnd sf x y (calls.fwhm_to_arcsec_if_needed fitted)

/-- The scan state holds `nbstars <= MAX_STARS` records, each with the property
`P`, followed by the NULL terminator. -/
def ScanInvP (P : fitted_PSF → Prop) (MAX_STARS : Nat) (st : ScanState) : Prop :=
  ∃ (records : List fitted_PSF) (rest : StarTab),
    st.results = tabOf records rest ∧ records.length = st.nbstars ∧ st.nbstars ≤ MAX_STARS
      ∧ ∀ s ∈ records, P s

/-- The scan state is laid out in an array of `MAX_STARS + 1` slots: `nbstars`
records followed by the NULL terminator. -/
def ScanLayout (MAX_STARS : Nat) (st : ScanState) : Prop :=
  ∃ (records : List fitted_PSF) (rest : StarTab),
    st.results = tabOf records rest ∧ records.length = st.nbstars
      ∧ st.results.length = MAX_STARS + 1

/-- The read of the sample at column `x` and row `y` that faults as soon as a
coordinate leaves the image: `0 <= x < nx` and `0 <= y < ny` are required. -/
def inside (nx ny : Int) (data : List Nat) (y x : Int) : Option Nat :=
  if 0 ≤ x ∧ x < nx ∧ 0 ≤ y ∧ y < ny then pixel nx ny data y x else none

/-- The patch around `(x, y)` in the words of the specification: `2 * radius`
rows, the row `ii` holding for each `jj` the sample of column `x - radius + ii`
and row `y - radius + jj`, as a double. -/
def patch_of (value : Int → Int → Nat) (radius x y : Int) : List (List Dbl) :=
  (List.range (2 * radius).toNat).map (fun (ii : Nat) =>
    (List.range (2 * radius).toNat).map (fun (jj : Nat) =>
      Dbl.ofInt (value (y - radius + (jj : Int)) (x - radius + (ii : Int)))))

/-- The pixels that `peaker` visits for the image `fit` and the optional search
rectangle `area` (lines 207-216): the whole image by default, shrunk by the
radius. -/
def peaker_positions (fit : fits) (sf : star_finder_params) (area : Option rectangle) :
    List (Int × Int) :=
  scan_positions sf.radius
    (match area with | some a => a.x | none => 0)
    (match area with | some a => a.y | none => 0)
    (match area with | some a => a.w + a.x | none => fit.rx)
    (match area with | some a => a.h + a.y | none => fit.ry)

/-- The catalog array is within capacity: the pointer is NULL, or the array has
`MAX_STARS + 1` slots and holds at most `MAX_STARS` records followed by the NULL
terminator. -/
def CatalogInv (MAX_STARS : Nat) (stars : Option StarTab) : Prop :=
  stars = none
    ∨ ∃ (records : List fitted_PSF) (rest : StarTab),
        stars = some (tabOf records rest) ∧ records.length ≤ MAX_STARS
          ∧ (tabOf records rest).length = MAX_STARS + 1

/-! ## Notions of the specification and further sample inputs -/

/-- The 8 neighbours of a pixel, row by row. -/
def neighbours8 (p : Int × Int) : List (Int × Int) :=
  [(p.1 - 1, p.2 - 1), (p.1, p.2 - 1), (p.1 + 1, p.2 - 1),
   (p.1 - 1, p.2), (p.1 + 1, p.2),
   (p.1 - 1, p.2 + 1), (p.1, p.2 + 1), (p.1 + 1, p.2 + 1)]

/-- The requirement on the comparison function can be checked on a given array. -/
instance Consistent.decidable (cmp : fitted_PSF → fitted_PSF → Int) (l : List fitted_PSF) :
    Decidable (Consistent cmp l) := by
  unfold Consistent
  infer_instance

/-- The array in which every slot holds the first element. -/
def fill_with_first : List fitted_PSF → List fitted_PSF
  | [] => []
  | a :: more => List.replicate (more.length + 1) a

/-- An implementation of `qsort` that sorts by insertion when the comparison
function is consistent on the array, as the C standard requires of the caller,
and that otherwise leaves the first element in every slot: the standard leaves
the behaviour undefined in that case, so the contract is met. -/
def overwritingQsort : Qsort where
  sort := fun cmp l => if Consistent cmp l then insertionQsort_sort cmp l else fill_with_first l
  perm := fun cmp l hc => by
    simp only [hc, if_true]
    exact insertionQsort.perm cmp l hc
  sorted := fun cmp l hc => by
    simp only [hc, if_true]
    exact insertionQsort.sorted cmp l hc

/-- A record whose magnitude is NaN, as a fit that `add_star` stores unchecked
may have. -/
def nanMagnitudeRecord : fitted_PSF :=
  { B := Dbl.fin 0, A := Dbl.fin 1, x0 := Dbl.fin 1, y0 := Dbl.fin 1, sx := Dbl.fin 1,
    sy := Dbl.fin 1, fwhmx := Dbl.fin 2, fwhmy := Dbl.fin 2, mag := Dbl.nan,
    xpos := Dbl.fin 3, ypos := Dbl.fin 3, units := "px" }

/-- The record that `add_star` stores (lines 339-341): the fit with
`xpos = x0 + selection.x` and `ypos = selection.y + selection.h - y0`. -/
def picked_star (rnd : ℚ → Dbl) (sel : rectangle) (result : fitted_PSF) : fitted_PSF :=
  { result with
    xpos := Dbl.add rnd result.x0 (Dbl.ofInt sel.x)
    ypos := Dbl.sub rnd (Dbl.ofInt (sel.y + sel.h)) result.y0 }

/-- A fit of amplitude 0.001, otherwise that of a round star centred at `(1, 1)`
of the selection. -/
def faintRecord : fitted_PSF :=
  { B := Dbl.fin 0, A := Dbl.fin (1 / 1000), x0 := Dbl.fin 1, y0 := Dbl.fin 1, sx := Dbl.fin 1,
    sy := Dbl.fin 1, fwhmx := Dbl.fin 2, fwhmy := Dbl.fin 2, mag := Dbl.fin 0,
    xpos := Dbl.fin 0, ypos := Dbl.fin 0, units := "px" }

/-- The collaborators of the sample run, the computation of the statistics
having failed. -/
def failedStatsCalls : PeakerCalls := { sampleCalls with statistics := none }

/-- The distance test of the catalog invariant, in the words of the
specification: the records `a` and `b` are within 0.9 pixel of each other on both
axes, `|a.xpos - b.xpos| < 0.9` and `|a.ypos - b.ypos| < 0.9`, as computed in
doubles. -/
def within_0_9 (rnd : ℚ → Dbl) (a b : fitted_PSF) : Bool :=
  Dbl.lt (Dbl.abs (Dbl.sub rnd a.xpos b.xpos)) Dbl.c0_9
    && Dbl.lt (Dbl.abs (Dbl.sub rnd a.ypos b.ypos)) Dbl.c0_9

/-- The catalog invariant in the words of the specification: no two entries are
within 0.9 pixel of each other on both axes. -/
def Separated (rnd : ℚ → Dbl) (records : List fitted_PSF) : Prop :=
  records.Pairwise (fun a b => within_0_9 rnd a b = false ∧ within_0_9 rnd b a = false)

/-- The catalog invariant on the array `com.stars`: the pointer is NULL, or the
array holds records no two of which are within 0.9 pixel on both axes, followed
by the NULL terminator. -/
def CatalogSeparated (rnd : ℚ → Dbl) (stars : Option StarTab) : Prop :=
  stars = none
    ∨ ∃ (records : List fitted_PSF) (rest : StarTab),
        stars = some (tabOf records rest) ∧ Separated rnd records

/-- The accepted fit of a pixel, in the words of the specification: the pixel is
a candidate, the fitter returns a fit for its patch, `is_star` accepts the fit,
and the fit is placed in the image; `none` when the pixel is no candidate, when
the fit fails or when it is rejected. -/
def spec_accepted_fit (rnd : ℚ → Dbl) (calls : PeakerCalls)
    (wave_image real_image : Int → Int → Option Nat) (threshold norm : Nat) (bg : Dbl)
    (layer : Int) (sf : star_finder_params) (p : Int × Int) : Option fitted_PSF :=
  match is_candidate wave_image threshold norm p.1 p.2 with
  | some true =>
    match fill_z real_image sf.radius p.1 p.2 with
    | none => none
    | some z =>
      match calls.psf_global_minimisation z bg layer with
      | none => none
      | some fitted =>
        if is_star rnd (calls.fwhm_to_arcsec_if_needed fitted) sf then
          some (placed_star rnd sf p.1 p.2 (calls.fwhm_to_arcsec_if_needed fitted))
        else none
  | _ => none

/-- The accepted fits of the specification: the pixels are enumerated in the
order of `positions`, each candidate is fitted, and the fits that the fitter
returns and `is_star` accepts are kept, in that order. -/
def spec_accepted_fits (rnd : ℚ → Dbl) (calls : PeakerCalls)
    (wave_image real_image : Int → Int → Option Nat) (threshold norm : Nat) (bg : Dbl)
    (layer : Int) (sf : star_finder_params) (positions : List (Int × Int)) : List fitted_PSF :=
  positions.filterMap
    (spec_accepted_fit rnd calls wave_image real_image threshold norm bg layer sf)

/-- The records that the specification has `peaker` collect before sorting: the
first `min(MAX_STARS, m)` of the `m` accepted fits of the pixels that `peaker`
visits, enumerated row by row. -/
def spec_collected (rnd : ℚ → Dbl) (MAX_STARS : Nat) (calls : PeakerCalls) (fit : fits)
    (layer : Int) (sf : star_finder_params) (area : Option rectangle) (threshold norm : Nat)
    (bg : Dbl) : List fitted_PSF :=
  (spec_accepted_fits rnd calls (pixel fit.rx fit.ry calls.wave)
    (pixel fit.rx fit.ry (fit.pdata layer)) threshold norm bg layer sf
    (peaker_positions fit sf area)).take MAX_STARS

/-- The collaborators of the sample run with another fitter. -/
def callsWith (fitter : List (List Dbl) → Dbl → Int → Option fitted_PSF) : PeakerCalls :=
  { sampleCalls with psf_global_minimisation := fitter }

/-- An image of 5 by 4 samples, the same in every layer, over the buffer `real`. -/
def fitsOf (real : List Nat) : fits := { rx := 5, ry := 4, pdata := fun _ => real }

/-- An image of 5 by 4 samples that holds one star, three samples wide, whose
brightest sample is at `(2, 1)`. The buffer is stored bottom row first; read
through the row pointers it is
`0 0 0 0 0 / 0 5 9 5 0 / 0 0 0 0 0 / 0 0 0 0 0` for `y = 0, 1, 2, 3`. -/
def oneStar : List Nat :=
  [0, 0, 0, 0, 0,
   0, 0, 0, 0, 0,
   0, 5, 9, 5, 0,
   0, 0, 0, 0, 0]

/-- A fitter that puts the centre of the star at the right edge of a patch whose
first column is dark, and in the left half of the patch otherwise. -/
def edgeFitter (z : List (List Dbl)) (_bg : Dbl) (_layer : Int) : Option fitted_PSF :=
  if z.head? = some [Dbl.fin 0, Dbl.fin 0] then some (fitAt 2 1) else some (fitAt (1 / 2) 1)

/-- A fitter that always puts the centre of the star half a pixel from the left
edge of the patch. -/
def leftFitter (_z : List (List Dbl)) (_bg : Dbl) (_layer : Int) : Option fitted_PSF :=
  some (fitAt (1 / 2) 1)

/-! ## The average width -/

/-- The conversion `(float) d` of a double to single precision. Values of type
`float` are carried like doubles, NaN, the infinities or an exact finite value;
`rndf` is the rounding to single precision. -/
def Dbl.toFloat (rndf : ℚ → Dbl) : Dbl → Dbl
  | Dbl.fin q => rndf q
  | d => d

/-- The loop `while (i < nb)` of `FWHM_average` (lines 405-409) with `k`
iterations left, at index `i`, on the sums `*FWHMx` and `*FWHMy`: each iteration
reads `stars[i]`, which must be a record inside the array, and adds its widths
converted to `float`, in single precision. -/
def FWHM_average_loop (rndf : ℚ → Dbl) (stars : StarTab) : Nat → Nat → Dbl × Dbl →
    Option (Dbl × Dbl)
  | 0, _, sums => some sums
  | k + 1, i, sums =>
    match stars.get? i with
    | some (some s) =>
      FWHM_average_loop rndf stars k (i + 1)
        (Dbl.add rndf sums.1 (Dbl.toFloat rndf s.fwhmx),
          Dbl.add rndf sums.2 (Dbl.toFloat rndf s.fwhmy))
    | _ => none

/-- The function `FWHM_average` (lines 398-413): the values left in `*FWHMx`,
`*FWHMy` and `*units`, given those they held before the call. The loop runs
`nb` times, never for a negative `nb`, and leaves `i` equal to the number of
iterations. -/
def FWHM_average (rndf : ℚ → Dbl) (stars : Option StarTab) (nb : Int) (FWHMx FWHMy : Dbl)
    (units : String) : Option (Dbl × Dbl × String) :=
  match stars with
  | none => some (FWHMx, FWHMy, units)
  | some tab =>
    match tab.get? 0 with
    | none => none
    | some none => some (FWHMx, FWHMy, units)
    | some (some s0) =>
      match FWHM_average_loop rndf tab nb.toNat 0 (Dbl.fin 0, Dbl.fin 0) with
      | none => none
      | some sums =>
        some (Dbl.div rndf sums.1 (Dbl.toFloat rndf (Dbl.ofInt (nb.toNat : Int))),
          Dbl.div rndf sums.2 (Dbl.toFloat rndf (Dbl.ofInt (nb.toNat : Int))), s0.units)

/-- The arithmetic mean of a list of doubles as single-precision arithmetic
computes it: the values converted to `float` are added one after the other to
`0.0f`, and the sum is divided by their number. -/
def float_mean (rndf : ℚ → Dbl) (values : List Dbl) : Dbl :=
  Dbl.div rndf
    (values.foldl (fun sum v => Dbl.add rndf sum (Dbl.toFloat rndf v)) (Dbl.fin 0))
    (Dbl.toFloat rndf (Dbl.ofInt (values.length : Int)))

end StarFinder

/-!
# Image formats (`src/io/image_formats_internal.c`)

Further conventions of this part:

* A byte is a natural number below 256, and a file or a buffer is the list of
  its bytes. The sizes involved are far from the range of `unsigned int`.
* The host is little-endian where the code copies bytes to or from an integer.
* A read outside a buffer or a plane, a read of a slot of a local array that was
  never written, and a conversion that the C standard leaves undefined make the
  function yield `none`.
* Functions that the file calls but does not define (`round_to_BYTE`,
  `fits_flip_top_to_bottom`, the RGB converters) and the outcomes of `fopen`,
  `malloc` and `realloc` are inputs of the model.
-/

namespace ImageFormats

/-! ## Bytes and integers -/

/-- The unsigned integer that `memcpy` leaves in a zero-initialised variable from
the bytes of a file, on a little-endian host: the first byte is the least
significant. -/
def le_value : List Nat → Nat
  | [] => 0
  | b :: more => b + 256 * le_value more

/-- The bytes `buf[pos]`, ..., `buf[pos + n - 1]`; reading outside the buffer is
undefined. -/
def read_bytes (buf : List Nat) (pos n : Nat) : Option (List Nat) :=
  if pos + n ≤ buf.length then some ((buf.drop pos).take n) else none

/-- A loop whose body does not use the loop counter, run `n` times on the
variables `s` that the body updates; an undefined step makes the loop undefined. -/
def repeat_n {σ : Type} (body : σ → Option σ) : Nat → σ → Option σ
  | 0, s => some s
  | n + 1, s =>
    match body s with
    | none => none
    | some s1 => repeat_n body n s1

/-! ## Images -/

/-- The constant `BYTE_IMG` of `fitsio.h`, which is not among the sources. -/
def BYTE_IMG : Int := 8

/-- The constant `USHORT_IMG` of `fitsio.h`, which is not among the sources. -/
def USHORT_IMG : Int := 20

/-- The part of a `fits` image that the import and export functions use
(`core/siril.h` is not among the sources): the dimensions, `naxis` and `naxes`,
`bitpix` and `orig_bitpix`, the binning, the buffer `data` (`none` for a NULL
pointer) and, for each layer `k`, the samples of the plane that `pdata[k]` points
to. A read past the end of a plane is undefined. -/
structure fits where
  rx : Nat
  ry : Nat
  naxis : Int
  naxes : Nat → Int
  bitpix : Int
  orig_bitpix : Int
  binning_x : Int
  binning_y : Int
  data : Option (List Nat)
  pdata : Nat → List Nat

/-! ## BMP import -/

/-- The variables of the conversion loops: the offset of the read pointer `rvb`
in the pixel bytes, and the samples written so far through `rdata`, `gdata` and
`bdata`. -/
structure BmpState where
  rvb : Nat
  rdata : List Nat
  gdata : List Nat
  bdata : List Nat
  deriving DecidableEq

/-- The image left by a colour conversion (lines 66-73, 102-109, 139-146): the
three planes follow one another in `data`. -/
def colour_image (fit : fits) (rx ry : Nat) (st : BmpState) : fits :=
  { fit with
    data := some (st.rdata ++ st.gdata ++ st.bdata)
    pdata := fun k =>
      if k = 0 then st.rdata else if k = 1 then st.gdata else if k = 2 then st.bdata
      else fit.pdata k
    bitpix := BYTE_IMG
    orig_bitpix := BYTE_IMG
    naxis := 3
    rx := rx
    ry := ry
    naxes := fun k => if k = 0 then (rx : Int) else if k = 1 then (ry : Int) else if k = 2 then 3
      else fit.naxes k
    binning_x := 1
    binning_y := 1 }

/-- The body of the pixel loop of `bmp32tofits48` (lines 60-63): blue, green and
red are read, and the fourth byte is skipped. -/
def bmp32_pixel (rvb : List Nat) (st : BmpState) : Option BmpState :=
  match rvb.get? st.rvb, rvb.get? (st.rvb + 1), rvb.get? (st.rvb + 2) with
  | some b, some g, some r =>
    some ⟨st.rvb + 4, st.rdata ++ [r], st.gdata ++ [g], st.bdata ++ [b]⟩
  | _, _, _ => none

/-- The function `bmp32tofits48` (lines 40-75) on the pixel bytes `rvb`: the
returned value and the image. `alloc` tells whether `realloc` succeeds. -/
def bmp32tofits48 (rvb : List Nat) (rx ry : Nat) (fit : fits) (alloc : Bool) :
    Option (Int × fits) :=
  if alloc = false then some (1, { fit with data := none })
  else
    match repeat_n (repeat_n (bmp32_pixel rvb) rx) ry ⟨0, [], [], []⟩ with
    | none => none
    | some st => some (0, colour_image fit rx ry st)

/-- The body of the pixel loop of `bmp24tofits48` (lines 96-98). -/
def bmp24_pixel (rvb : List Nat) (st : BmpState) : Option BmpState :=
  match rvb.get? st.rvb, rvb.get? (st.rvb + 1), rvb.get? (st.rvb + 2) with
  | some b, some g, some r =>
    some ⟨st.rvb + 3, st.rdata ++ [r], st.gdata ++ [g], st.bdata ++ [b]⟩
  | _, _, _ => none

/-- The body of the row loop of `bmp24tofits48` (lines 95-100): `rx` pixels, then
the padding is skipped. -/
def bmp24_row (rvb : List Nat) (rx padsize : Nat) (st : BmpState) : Option BmpState :=
  match repeat_n (bmp24_pixel rvb) rx st with
  | none => none
  | some st1 => some { st1 with rvb := st1.rvb + padsize }

/-- The function `bmp24tofits48` (lines 77-111) on the pixel bytes `rvb`: the
returned value and the image. `alloc` tells whether `realloc` succeeds. -/
def bmp24tofits48 (rvb : List Nat) (rx ry : Nat) (fit : fits) (alloc : Bool) :
    Option (Int × fits) :=
  let padsize := (4 - (rx * 3) % 4) % 4
  if alloc = false then some (1, { fit with data := none })
  else
    match repeat_n (bmp24_row rvb rx padsize) ry ⟨0, [], [], []⟩ with
    | none => none
    | some st => some (0, colour_image fit rx ry st)

/-- The conversion `c * 255.0 / 31.0 + 0.5` of a 5-bit component to a sample
(lines 134-136), computed in doubles and truncated by the assignment to a `WORD`;
`rnd` is the rounding of the double operations. -/
def scale_5_bits (rnd : ℚ → StarFinder.Dbl) (c : Nat) : Option Nat :=
  StarFinder.Dbl.toWORD
    (StarFinder.Dbl.add rnd
      (StarFinder.Dbl.div rnd
        (StarFinder.Dbl.mul rnd (StarFinder.Dbl.ofInt (c : Int)) (StarFinder.Dbl.fin 255))
        (StarFinder.Dbl.fin 31))
      (StarFinder.Dbl.fin (1 / 2)))

/-- The body of the pixel loop of `bmp16tofits48` (lines 130-136): two bytes give
`pixel_data = buf0 | buf1 << 8`, whose bits 10-14, 5-9 and 0-4 are red, green and
blue. -/
def bmp16_pixel (rnd : ℚ → StarFinder.Dbl) (rvb : List Nat) (st : BmpState) : Option BmpState :=
  match rvb.get? st.rvb, rvb.get? (st.rvb + 1) with
  | some buf0, some buf1 =>
    let pixel_data := buf0 ||| (buf1 <<< 8)
    match scale_5_bits rnd ((pixel_data &&& 0x7c00) >>> 10),
        scale_5_bits rnd ((pixel_data &&& 0x03e0) >>> 5),
        scale_5_bits rnd ((pixel_data &&& 0x001f) >>> 0) with
    | some r, some g, some b =>
      some ⟨st.rvb + 2, st.rdata ++ [r], st.gdata ++ [g], st.bdata ++ [b]⟩
    | _, _, _ => none
  | _, _ => none

/-- The function `bmp16tofits48` (lines 113-148) on the pixel bytes `rvb`: the
returned value and the image. Its single loop runs over the `ry * rx` pixels.
`alloc` tells whether `realloc` succeeds. -/
def bmp16tofits48 (rnd : ℚ → StarFinder.Dbl) (rvb : List Nat) (rx ry : Nat) (fit : fits)
    (alloc : Bool) : Option (Int × fits) :=
  if alloc = false then some (1, { fit with data := none })
  else
    match repeat_n (bmp16_pixel rnd rvb) (ry * rx) ⟨0, [], [], []⟩ with
    | none => none
    | some st => some (0, colour_image fit rx ry st)

/-- The variables of the loops of `bmp8tofits`: the offset of the read pointer
`rgb` in the pixel bytes and the samples written so far through `data`. -/
structure GrayState where
  rgb : Nat
  data : List Nat
  deriving DecidableEq

/-- The body of the pixel loop of `bmp8tofits` (line 168). -/
def bmp8_pixel (rgb : List Nat) (st : GrayState) : Option GrayState :=
  match rgb.get? st.rgb with
  | some v => some ⟨st.rgb + 1, st.data ++ [v]⟩
  | none => none

/-- The body of the row loop of `bmp8tofits` (lines 167-170): `rx` pixels, then
the padding is skipped. -/
def bmp8_row (rgb : List Nat) (rx padsize : Nat) (st : GrayState) : Option GrayState :=
  match repeat_n (bmp8_pixel rgb) rx st with
  | none => none
  | some st1 => some { st1 with rgb := st1.rgb + padsize }

/-- The function `bmp8tofits` (lines 150-181) on the pixel bytes `rgb`: the
returned value and the image. `alloc` tells whether `realloc` succeeds. -/
def bmp8tofits (rgb : List Nat) (rx ry : Nat) (fit : fits) (alloc : Bool) :
    Option (Int × fits) :=
  let padsize := (4 - (rx % 4)) % 4
  if alloc = false then some (1, { fit with data := none })
  else
    match repeat_n (bmp8_row rgb rx padsize) ry ⟨0, []⟩ with
    | none => none
    | some st =>
      some (0, { fit with
        data := some st.data
        pdata := fun k => if k = 0 then st.data else fit.pdata k
        bitpix := BYTE_IMG
        orig_bitpix := BYTE_IMG
        rx := rx
        ry := ry
        naxes := fun k => if k = 0 then (rx : Int) else if k = 1 then (ry : Int)
          else if k = 2 then 1 else fit.naxes k
        naxis := 2
        binning_x := 1
        binning_y := 1 })

/-- The function `get_image_size` (lines 183-201) on the header bytes: the width
and the height. A header of 12 bytes holds them as 16-bit values at offsets 18
and 20, any other as 32-bit values at offsets 18 and 22. -/
def get_image_size (header : List Nat) : Option (Nat × Nat) :=
  match read_bytes header 14 4 with
  | none => none
  | some info =>
    if le_value info = 12 then
      match read_bytes header 18 2, read_bytes header 20 2 with
      | some sx, some sy => some (le_value sx, le_value sy)
      | _, _ => none
    else
      match read_bytes header 18 4, read_bytes header 22 4 with
      | some lx, some ly => some (le_value lx, le_value ly)
      | _, _ => none

/-- The padding that `readbmp` counts after each row (line 233). -/
def readbmp_padsize (width nbplane : Nat) : Nat := (4 - (width * nbplane) % 4) % 4

/-- The number of pixel bytes that `readbmp` reads (line 234). -/
def readbmp_nbdata (width height nbplane : Nat) : Nat :=
  width * height * nbplane + height * readbmp_padsize width nbplane

/-- The function `readbmp` (lines 204-280): the returned value and the image.
`file` is the content of the file (`none` when it cannot be opened), `malloc_ok`
and `alloc` tell whether the allocation of `buf` and the `realloc` of the
converter succeed. The value returned by the converter is not looked at. -/
def readbmp (rnd : ℚ → StarFinder.Dbl) (file : Option (List Nat)) (fit : fits)
    (malloc_ok alloc : Bool) : Option (Int × fits) :=
  match file with
  | none => some (-1, fit)
  | some bytes =>
    if bytes.length < 54 then some (-1, fit)
    else
      let header := bytes.take 54
      match get_image_size header, read_bytes header 28 2, read_bytes header 10 4 with
      | some (width, height), some planes, some offset =>
        let nbplane := le_value planes / 8
        let data_offset := le_value offset
        let nbdata := readbmp_nbdata width height nbplane
        if malloc_ok = false then some (-1, fit)
        else if (bytes.drop data_offset).length < nbdata then some (-1, fit)
        else
          let buf := (bytes.drop data_offset).take nbdata
          let converted : Option (Int × fits) :=
            if nbplane = 1 then bmp8tofits buf width height fit alloc
            else if nbplane = 2 then bmp16tofits48 rnd buf width height fit alloc
            else if nbplane = 3 then bmp24tofits48 buf width height fit alloc
            else if nbplane = 4 then bmp32tofits48 buf width height fit alloc
            else some (0, fit)
          match converted with
          | none => none
          | some (_, fit1) => some ((nbplane : Int), fit1)
      | _, _, _ => none

/-! ## BMP export -/

/-- The byte `(unsigned char) (v >> (8 * k))` of a non-negative integer. -/
def byte_of (v k : Nat) : Nat := (v / 256 ^ k) % 256

/-- The four bytes of `v` that `savebmp` stores in a header, least significant
first (lines 313-331). -/
def four_bytes (v : Nat) : List Nat := [byte_of v 0, byte_of v 1, byte_of v 2, byte_of v 3]

/-- The array `bmpfileheader` once filled (lines 283-286 and 313-316). -/
def bmpfileheader (filesize : Nat) : List Nat :=
  [66, 77] ++ four_bytes filesize ++ [0, 0, 0, 0, 54, 0, 0, 0]

/-- The array `bmpinfoheader` once filled (lines 287-298 and 318-331). -/
def bmpinfoheader (width height datasize : Nat) : List Nat :=
  [40, 0, 0, 0] ++ four_bytes width ++ four_bytes height ++ [1, 0, 24, 0, 0, 0, 0, 0]
    ++ four_bytes datasize ++ [0, 0, 0, 0, 0, 0, 0, 0, 0, 0, 0, 0, 0, 0, 0, 0]

/-- The variables of the loops of `savebmp`: the offsets of the three pointers
`gbuf[RLAYER]`, `gbuf[GLAYER]`, `gbuf[BLAYER]` in their planes, and the bytes
written to the file after the headers. -/
structure SaveState where
  red : Nat
  green : Nat
  blue : Nat
  written : List Nat
  deriving DecidableEq

/-- The body of the pixel loop of `savebmp` (lines 353-366). `round_to_BYTE` is
the function of that name, which is not among the sources. -/
def savebmp_pixel (rnd : ℚ → StarFinder.Dbl) (round_to_BYTE : StarFinder.Dbl → Nat) (fit : fits)
    (norm : StarFinder.Dbl) (st : SaveState) : Option SaveState :=
  match (fit.pdata 0).get? st.red with
  | none => none
  | some red =>
    let pixel (red green blue : Nat) : List Nat :=
      [round_to_BYTE (StarFinder.Dbl.mul rnd (StarFinder.Dbl.ofInt (blue : Int)) norm),
        round_to_BYTE (StarFinder.Dbl.mul rnd (StarFinder.Dbl.ofInt (green : Int)) norm),
        round_to_BYTE (StarFinder.Dbl.mul rnd (StarFinder.Dbl.ofInt (red : Int)) norm)]
    if fit.naxes 2 = 3 then
      match (fit.pdata 1).get? st.green, (fit.pdata 2).get? st.blue with
      | some green, some blue =>
        some ⟨st.red + 1, st.green + 1, st.blue + 1, st.written ++ pixel red green blue⟩
      | _, _ => none
    else some ⟨st.red + 1, st.green, st.blue, st.written ++ pixel red red red⟩

/-- The body of the row loop of `savebmp` (lines 352-369): `width` pixels, then
`fwrite("0", 1, padsize, f)` when `padsize` is not 0, which writes the first
`padsize` bytes of the string literal `"0"`, an array of the two bytes `'0'` and
NUL. -/
def savebmp_row (rnd : ℚ → StarFinder.Dbl) (round_to_BYTE : StarFinder.Dbl → Nat) (fit : fits)
    (norm : StarFinder.Dbl) (width padsize : Nat) (st : SaveState) : Option SaveState :=
  match repeat_n (savebmp_pixel rnd round_to_BYTE fit norm) width st with
  | none => none
  | some st1 =>
    if padsize ≠ 0 then
      match read_bytes [48, 0] 0 padsize with
      | none => none
      | some padding => some { st1 with written := st1.written ++ padding }
    else some st1

/-- The function `savebmp` (lines 282-376): the returned value and the content of
the file, `none` when it is not created (`fopen_ok` tells whether it can be).
`UCHAR_MAX_DOUBLE` and `USHRT_MAX_DOUBLE` are 255.0 and 65535.0. -/
def savebmp (rnd : ℚ → StarFinder.Dbl) (round_to_BYTE : StarFinder.Dbl → Nat) (fopen_ok : Bool)
    (fit : fits) : Option (Int × Option (List Nat)) :=
  let width := fit.rx
  let height := fit.ry
  let padsize := (4 - (width * 3) % 4) % 4
  let datasize := width * height * 3 + padsize * height
  let filesize := datasize + 14 + 40
  if fopen_ok = false then some (1, none)
  else
    let norm : StarFinder.Dbl :=
      if fit.orig_bitpix ≠ BYTE_IMG then
        StarFinder.Dbl.div rnd (StarFinder.Dbl.fin 255) (StarFinder.Dbl.fin 65535)
      else StarFinder.Dbl.fin 1
    match repeat_n (savebmp_row rnd round_to_BYTE fit norm width padsize) height ⟨0, 0, 0, []⟩ with
    | none => none
    | some st =>
      some (0, some (bmpfileheader filesize ++ bmpinfoheader width height datasize ++ st.written))

/-! ## The layout of 24-bit pixel bytes -/

/-- The bytes of the `n` pixels from index `i` of an 8-bit colour image in the
order blue, green, red. -/
def bgr_pixels (fit : fits) : Nat → Nat → List Nat
  | _, 0 => []
  | i, n + 1 =>
    [(fit.pdata 2).getD i 0, (fit.pdata 1).getD i 0, (fit.pdata 0).getD i 0]
      ++ bgr_pixels fit (i + 1) n

/-- The bytes of `m` rows of `width` pixels from index `i`, each row followed by
the bytes `padding`. -/
def bgr_rows (fit : fits) (width : Nat) (padding : List Nat) : Nat → Nat → List Nat
  | _, 0 => []
  | i, m + 1 => bgr_pixels fit i width ++ padding ++ bgr_rows fit width padding (i + width) m

/-! ## NetPBM export -/

/-- The assignment `(v >> 8) | (v << 8)` to a `WORD` (lines 524, 626): the
operands are promoted to `int` and the result is truncated to 16 bits. -/
def swap16 (v : Nat) : Nat := ((v >>> 8) ||| (v <<< 8)) % 65536

/-- The two bytes of a `WORD` in memory, as `fwrite` writes them; the host is
taken to be little-endian. -/
def word_bytes (w : Nat) : List Nat := [w % 256, w / 256]

/-- The characters that `fprintf` prints for `%u`. -/
def decimal (n : Nat) : List Nat :=
  if n = 0 then [48] else (Nat.digits 10 n).reverse.map (fun d => d + 48)

/-- The string `"# CREATOR : SIRIL"` (lines 582, 619). -/
def comment : List Nat := [35, 32, 67, 82, 69, 65, 84, 79, 82, 32, 58, 32, 83, 73, 82, 73, 76]

/-- The characters printed by `fprintf(fp, "P5\n%s\n%u %u\n%u\n", comment, rx, ry,
USHRT_MAX)` (line 624). -/
def pgm_header (rx ry : Nat) : List Nat :=
  [80, 53, 10] ++ comment ++ [10] ++ decimal rx ++ [32] ++ decimal ry ++ [10] ++ decimal 65535
    ++ [10]

/-- The variables of the loop of `savepgm`: the offset of `gbuf` in the first
plane and the bytes written so far. -/
structure PgmState where
  gbuf : Nat
  written : List Nat
  deriving DecidableEq

/-- The body of the loop of `savepgm` (lines 628-634) over the plane that `gbuf`
reads: the product with `norm` is a double, converted to a `WORD` by the
assignment to `tmp`. -/
def savepgm_sample (rnd : ℚ → StarFinder.Dbl) (plane : List Nat) (norm : StarFinder.Dbl)
    (st : PgmState) : Option PgmState :=
  match plane.get? st.gbuf with
  | none => none
  | some v =>
    match StarFinder.Dbl.toWORD (StarFinder.Dbl.mul rnd (StarFinder.Dbl.ofInt (v : Int)) norm) with
    | none => none
    | some tmp => some ⟨st.gbuf + 1, st.written ++ word_bytes (swap16 tmp)⟩

/-- The function `savepgm` (lines 613-640): the returned value, the image left
and the content of the file, `none` when it is not created (`fopen_ok` tells
whether it can be). `fits_flip_top_to_bottom` is the function of that name,
which is not among the sources; it is taken to work in place, so that `gbuf`,
which is set before the call, reads the first plane of the flipped image.
`USHRT_MAX_DOUBLE` and `UCHAR_MAX_DOUBLE` are 65535.0 and 255.0. -/
def savepgm (rnd : ℚ → StarFinder.Dbl) (fits_flip_top_to_bottom : fits → fits) (fopen_ok : Bool)
    (fit : fits) : Option (Int × fits × Option (List Nat)) :=
  let ndata := fit.rx * fit.ry
  if fopen_ok = false then some (-1, fit, none)
  else
    let fit1 := fits_flip_top_to_bottom fit
    let norm : StarFinder.Dbl :=
      if fit1.orig_bitpix ≠ BYTE_IMG then StarFinder.Dbl.fin 1
      else StarFinder.Dbl.div rnd (StarFinder.Dbl.fin 65535) (StarFinder.Dbl.fin 255)
    match repeat_n (savepgm_sample rnd (fit1.pdata 0) norm) ndata ⟨0, []⟩ with
    | none => none
    | some st =>
      some (0, fits_flip_top_to_bottom fit1, some (pgm_header fit.rx fit.ry ++ st.written))
/-! ## NetPBM import -/

/-- The characters that `fgets` takes from a stream for a buffer with room for `n`
of them: the line through its newline, or the first `n` characters of the line,
or what is left of the stream. -/
def line_of : Nat → List Nat → List Nat
  | 0, _ => []
  | _, [] => []
  | n + 1, c :: more => if c = 10 then [c] else c :: line_of n more

/-- The library function `fgets(buf, size, file)`: the buffer and the rest of the
stream, or `none` for the NULL of an exhausted stream. The characters of the line
and a terminator are stored at the start of the buffer; the slots after them keep
what they held. A slot that was never written holds `none`. -/
def fgets (buf : List (Option Nat)) (size : Nat) (stream : List Nat) :
    Option (List (Option Nat) × List Nat) :=
  let line := line_of (size - 1) stream
  if line = [] then none
  else some (line.map some ++ [some 0] ++ buf.drop (line.length + 1), stream.drop line.length)

/-- The character `buf[i]`: `none` when `i` is outside the buffer or the slot was
never written. -/
def buf_at (buf : List (Option Nat)) (i : Nat) : Option Nat := (buf.get? i).join

/-- The loop `while (buf[i] >= '0' && buf[i] <= '9') i++` (lines 423-424, 431-432,
449-450) on the slots from index `i` on: the index of the first character that is
not a digit, `none` when the loop reads a slot that was never written or runs
past the buffer. A character above 127 is not a digit, whether `char` is signed
or not. -/
def scan_digits : List (Option Nat) → Nat → Option Nat
  | [], _ => none
  | none :: _, _ => none
  | some c :: more, i => if 48 ≤ c ∧ c ≤ 57 then scan_digits more (i + 1) else some i

/-- The characters of the string at `buf + a` whose terminator is at index `b`. -/
def string_between (buf : List (Option Nat)) (a b : Nat) : List Nat :=
  ((buf.drop a).take (b - a)).filterMap id

/-- The library function `atoi` on a string of digits, the only strings it is
given here: its value when an `int` of 32 bits holds it; the C standard leaves
the behaviour undefined otherwise. -/
def atoi (s : List Nat) : Option Nat :=
  let v := s.foldl (fun acc c => 10 * acc + (c - 48)) 0
  if v ≤ 2147483647 then some v else none

/-- The loop `do fgets(buf, 256, file) while (buf[0] == '#')` (lines 416-421,
442-447): the buffer and the rest of the stream after the first line that is not
a comment, `none` when `fgets` returns NULL. Every line takes at least one
character, so `fuel` is the number of characters of the stream. -/
def next_line : Nat → List (Option Nat) → List Nat → Option (List (Option Nat) × List Nat)
  | 0, _, _ => none
  | fuel + 1, buf, stream =>
    match fgets buf 256 stream with
    | none => none
    | some (buf1, rest) =>
      if buf_at buf1 0 = some 35 then next_line fuel buf1 rest else some (buf1, rest)

/-- The test of the magic cookie (line 403): `some true` when the first line is
accepted, `some false` when it is not. The operator `||` stops at the first
condition that holds. -/
def pnm_magic (buf : List (Option Nat)) : Option Bool :=
  match buf_at buf 0 with
  | none => none
  | some c0 =>
    if c0 ≠ 80 then some false
    else
      match buf_at buf 1 with
      | none => none
      | some c1 =>
        if c1 < 53 ∨ c1 > 54 then some false
        else
          match buf_at buf 2 with
          | none => none
          | some c2 => some (decide (c2 = 10))

/-- The library function `fread(ptr, size, nmemb, file)` on the rest of a stream:
the number of complete items read and their bytes. -/
def fread (stream : List Nat) (size nmemb : Nat) : Nat × List Nat :=
  let items := if size = 0 then 0 else min nmemb (stream.length / size)
  (items, stream.take (items * size))

/-- The `WORD`s that the bytes of a buffer hold; the host is taken to be
little-endian. -/
def words_of : List Nat → List Nat
  | b0 :: b1 :: more => (b0 + 256 * b1) :: words_of more
  | _ => []

/-- The functions that `import_pnm_to_fits` calls and that are not among the
sources. The converters are given the bytes read into `tmpbuf`. -/
structure PnmExternals where
  fits_flip_top_to_bottom : fits → fits
  rgb24bit_to_fits48bit : List Nat → fits → fits
  rgb8bit_to_fits16bit : List Nat → fits → fits
  rgb48bit_to_fits48bit : List Nat → fits → fits

/-- The end of `import_pnm_to_fits` once `max_val` is known (lines 456-575), on the
rest of the stream. `malloc_ok` and `realloc_ok` tell whether the allocation of
`tmpbuf` and the `realloc` of `fit->data` succeed. `UCHAR_MAX`, `SHRT_MAX` and
`USHRT_MAX` are 255, 32767 and 65535, and a `WORD` takes 2 bytes. -/
def pnm_data (ext : PnmExternals) (fit : fits) (stream : List Nat) (max_val : Nat)
    (malloc_ok realloc_ok : Bool) : Option (Int × fits) :=
  if max_val < 255 then some (-1, fit)
  else if max_val = 255 then
    let stride := if fit.naxes 2 = 1 then fit.rx else fit.rx * 3
    if realloc_ok = false ∨ malloc_ok = false then some (-1, { fit with data := none })
    else if (fread stream stride fit.ry).1 < fit.ry then some (-1, { fit with data := none })
    else
      let tmpbuf := (fread stream stride fit.ry).2
      let fit1 :=
        if fit.naxes 2 = 3 then ext.rgb24bit_to_fits48bit tmpbuf fit
        else ext.rgb8bit_to_fits16bit tmpbuf fit
      let fit2 := ext.fits_flip_top_to_bottom
        { fit1 with bitpix := BYTE_IMG, binning_x := 1, binning_y := 1 }
      some (fit2.naxes 2, fit2)
  else if max_val = 65535 ∨ max_val = 32767 then
    if fit.naxes 2 = 1 then
      let stride := fit.rx * 2
      if realloc_ok = false then some (-1, { fit with data := none })
      else if (fread stream stride fit.ry).1 < fit.ry then some (-1, { fit with data := none })
      else
        let nbdata := fit.rx * fit.ry
        let words := words_of (fread stream stride fit.ry).2
        let data := (words.take nbdata).map swap16 ++ words.drop nbdata
        let fit2 := ext.fits_flip_top_to_bottom
          { fit with
            data := some data
            pdata := fun k => if k < 3 then data else fit.pdata k
            bitpix := USHORT_IMG
            binning_x := 1
            binning_y := 1 }
        some (fit2.naxes 2, fit2)
    else
      let stride := fit.rx * 3 * 2
      if realloc_ok = false ∨ malloc_ok = false then some (-1, { fit with data := none })
      else if (fread stream stride fit.ry).1 < fit.ry then some (-1, { fit with data := none })
      else
        let fit1 := ext.rgb48bit_to_fits48bit (fread stream stride fit.ry).2 fit
        let fit2 := ext.fits_flip_top_to_bottom
          { fit1 with bitpix := USHORT_IMG, binning_x := 1, binning_y := 1 }
        some (fit2.naxes 2, fit2)
  else some (-1, fit)

/-- The reading of the maximum value in `import_pnm_to_fits` (lines 442-455), on
the buffer left by the previous line. -/
def pnm_max_val (ext : PnmExternals) (fit : fits) (buf : List (Option Nat)) (stream : List Nat)
    (malloc_ok realloc_ok : Bool) : Option (Int × fits) :=
  match next_line stream.length buf stream with
  | none => some (-1, fit)
  | some (buf1, rest) =>
    match scan_digits buf1 0 with
    | none => none
    | some i =>
      match buf_at buf1 i with
      | none => none
      | some c =>
        if c ≠ 10 then some (-1, fit)
        else
          match atoi (string_between (buf1.set i (some 0)) 0 i) with
          | none => none
          | some max_val => pnm_data ext fit rest max_val malloc_ok realloc_ok

/-- The reading of the width and the height in `import_pnm_to_fits` (lines
416-440), on the buffer left by the first line. -/
def pnm_size (ext : PnmExternals) (fit : fits) (buf : List (Option Nat)) (stream : List Nat)
    (malloc_ok realloc_ok : Bool) : Option (Int × fits) :=
  match next_line stream.length buf stream with
  | none => some (-1, fit)
  | some (buf1, rest) =>
    match scan_digits buf1 0 with
    | none => none
    | some i0 =>
      if i0 = 0 then some (-1, fit)
      else
        let buf2 := buf1.set i0 (some 0)
        match atoi (string_between buf2 0 i0) with
        | none => none
        | some rx =>
          let fit1 := { fit with rx := rx }
          let i := i0 + 1
          match scan_digits (buf2.drop i) i with
          | none => none
          | some j =>
            if j = i then some (-1, fit1)
            else
              match buf_at buf2 j with
              | none => none
              | some c =>
                if c ≠ 10 then some (-1, fit1)
                else
                  match atoi (string_between (buf2.set j (some 0)) i j) with
                  | none => none
                  | some ry =>
                    pnm_max_val ext { fit1 with ry := ry } (buf2.set j (some 0)) rest malloc_ok
                      realloc_ok

/-- The function `import_pnm_to_fits` (lines 387-575): the returned value and the
image, `none` when the C standard does not define them. `file` is the content of
the file, `none` when it cannot be opened. The array `buf` starts with 256 slots
that were never written. -/
def import_pnm_to_fits (ext : PnmExternals) (file : Option (List Nat)) (fit : fits)
    (malloc_ok realloc_ok : Bool) : Option (Int × fits) :=
  match file with
  | none => some (-1, fit)
  | some bytes =>
    match fgets (List.replicate 256 none) 256 bytes with
    | none => some (-1, fit)
    | some (buf, rest) =>
      match pnm_magic buf with
      | none => none
      | some false => some (-1, fit)
      | some true =>
        let fit1 : fits :=
          if buf_at buf 1 = some 54 then
            { fit with naxis := 3, naxes := fun k => if k = 2 then 3 else fit.naxes k }
          else { fit with naxes := fun k => if k = 2 then 1 else fit.naxes k, naxis := 2 }
        pnm_size ext fit1 buf rest malloc_ok realloc_ok

/-! ## Conditions on the functions that are not among the sources -/

/-- Externals that leave the number of layers as it is. -/
def KeepLayers (ext : PnmExternals) : Prop :=
  (∀ f, (ext.fits_flip_top_to_bottom f).naxes 2 = f.naxes 2)
    ∧ (∀ b f, (ext.rgb24bit_to_fits48bit b f).naxes 2 = f.naxes 2)
    ∧ (∀ b f, (ext.rgb8bit_to_fits16bit b f).naxes 2 = f.naxes 2)
    ∧ (∀ b f, (ext.rgb48bit_to_fits48bit b f).naxes 2 = f.naxes 2)

/-- A flip that is given by a function `rows` of the width, the height and a
plane: on an image of one layer it replaces the first plane by its image under
`rows`; it keeps the number of layers and `orig_bitpix`; and `rows`, on a plane of
`rx * ry` samples, is its own inverse, keeps the length and brings no new
sample. -/
def FlipsRows (flip : fits → fits) (rows : Nat → Nat → List Nat → List Nat) : Prop :=
  (∀ f, f.naxes 2 = 1 → (flip f).pdata 0 = rows f.rx f.ry (f.pdata 0))
    ∧ (∀ f, (flip f).naxes 2 = f.naxes 2 ∧ (flip f).orig_bitpix = f.orig_bitpix)
    ∧ (∀ rx ry l, l.length = rx * ry → rows rx ry (rows rx ry l) = l)
    ∧ (∀ rx ry l, l.length = rx * ry → (rows rx ry l).length = l.length)
    ∧ (∀ rx ry l, ∀ v ∈ rows rx ry l, v ∈ l)

/-- The bytes of a buffer at the offsets `i * row_bytes + j * stride + shift`, for
the rows `i` below `ry` and, in each row, the columns `j` below `rx`. -/
def samples_at (buf : List Nat) (rx ry stride row_bytes shift : Nat) : List Nat :=
  (List.range ry).flatMap
    (fun i => (List.range rx).map (fun j => buf.getD (i * row_bytes + j * stride + shift) 0))

/-! ## Sample files and images -/

/-- An image without data, as before a first import. -/
def blankFits : fits :=
  { rx := 0, ry := 0, naxis := 0, naxes := fun _ => 0, bitpix := 0, orig_bitpix := 0,
    binning_x := 0, binning_y := 0, data := none, pdata := fun _ => [] }

/-- The pixel bytes of a 16-bit BMP image of width 1 and height 2 whose two
pixels are white (`0x7fff`, stored as `ff 7f`): each row of 2 bytes is followed
by 2 bytes of padding. -/
def whiteColumn16 : List Nat := [255, 127, 0, 0, 255, 127, 0, 0]

/-- A 16-bit BMP file of width 1 and height 2 whose two pixels are white: the 14
bytes of the file header (the pixel bytes start at offset 54), the 40 bytes of
the information header (width 1 at offset 18, height 2 at offset 22, 16 bits per
pixel at offset 28), and the pixel bytes. -/
def whiteColumn16File : List Nat :=
  [66, 77, 62, 0, 0, 0, 0, 0, 0, 0, 54, 0, 0, 0,
   40, 0, 0, 0, 1, 0, 0, 0, 2, 0, 0, 0, 1, 0, 16, 0, 0, 0, 0, 0, 8, 0, 0, 0,
   0, 0, 0, 0, 0, 0, 0, 0, 0, 0, 0, 0, 0, 0, 0, 0]
    ++ whiteColumn16

/-- An 8-bit colour image of width 3 and height 1. -/
def threePixelRow : fits :=
  colour_image blankFits 3 1 ⟨0, [1, 2, 3], [4, 5, 6], [7, 8, 9]⟩

/-- A sample `round_to_BYTE`: the nearest integer, halves upwards, kept within 0
and 255. -/
def nearestByte : StarFinder.Dbl → Nat
  | StarFinder.Dbl.fin q => if q ≤ 0 then 0 else if 255 < q then 255 else Int.toNat ⌊q + 1 / 2⌋
  | StarFinder.Dbl.pinf => 255
  | _ => 0

/-- An 8-bit colour image of width 2 and height 2. -/
def fourPixels : fits :=
  colour_image blankFits 2 2 ⟨0, [1, 2, 3, 4], [5, 6, 7, 8], [9, 10, 11, 255]⟩

/-- The characters of a string. -/
def bytes_of (s : String) : List Nat := s.toList.map Char.toNat

/-- A graymap of width 1 and height 1 whose header gives the maximum value
4294967551, which is `2 ^ 32 + 255`. -/
def hugeMaxValFile : List Nat := bytes_of "P5\n1 1\n4294967551\n" ++ [7]

/-- Externals that leave the image as it is. -/
def idleExternals : PnmExternals :=
  { fits_flip_top_to_bottom := fun fit => fit
    rgb24bit_to_fits48bit := fun _ fit => fit
    rgb8bit_to_fits16bit := fun _ fit => fit
    rgb48bit_to_fits48bit := fun _ fit => fit }

/-- The rows of a plane of `ry` rows of `rx` samples. -/
def rows_of (rx : Nat) : Nat → List Nat → List (List Nat)
  | 0, _ => []
  | ry + 1, plane => plane.take rx :: rows_of rx ry (plane.drop rx)

/-- The plane whose rows are those of the given plane in the reverse order. -/
def flip_rows (rx ry : Nat) (plane : List Nat) : List Nat := (rows_of rx ry plane).reverse.flatten

/-- A sample flip: the rows of the first plane are put in the reverse order. -/
def flipFirstPlane (fit : fits) : fits :=
  { fit with pdata := fun k => if k = 0 then flip_rows fit.rx fit.ry (fit.pdata 0) else fit.pdata k }

/-- Sample externals: the sample flip, and converters that leave the image as it
is. -/
def flippingExternals : PnmExternals :=
  { fits_flip_top_to_bottom := flipFirstPlane
    rgb24bit_to_fits48bit := fun _ fit => fit
    rgb8bit_to_fits16bit := fun _ fit => fit
    rgb48bit_to_fits48bit := fun _ fit => fit }

/-- A 16-bit graymap of width 2 and height 2. -/
def grayFourPixels : fits :=
  { rx := 2, ry := 2, naxis := 2, naxes := fun k => if k = 2 then 1 else 2, bitpix := USHORT_IMG,
    orig_bitpix := USHORT_IMG, binning_x := 1, binning_y := 1, data := some [1, 2, 300, 65535],
    pdata := fun _ => [1, 2, 300, 65535] }

end ImageFormats

/-! # Theorems -/

namespace StarFinder

/-! ## Properties of the acceptance test -/

/-- The value of `is_star` in terms of its eight guards: TRUE exactly when none of
them fires. -/
theorem is_star_true_iff (rnd : ℚ → Dbl) (result : fitted_PSF) (sf : star_finder_params) :
    is_star rnd result sf = true ↔
      ¬ ((result.fwhmx.isnan = true ∨ result.fwhmy.isnan = true)
        ∨ (result.x0.isnan = true ∨ result.y0.isnan = true)
        ∨ result.mag.isnan = true
        ∨ (Dbl.le result.x0 Dbl.zero = true ∨ Dbl.le result.y0 Dbl.zero = true)
        ∨ Dbl.lt result.A Dbl.c0_01 = true
        ∨ (Dbl.gt result.sx Dbl.c200 = true ∨ Dbl.gt result.sy Dbl.c200 = true)
        ∨ (Dbl.le result.fwhmx Dbl.zero = true ∨ Dbl.le result.fwhmy Dbl.zero = true)
        ∨ Dbl.lt (Dbl.div rnd result.fwhmy result.fwhmx) sf.roundness = true) := by
  unfold is_star
  split_ifs <;> simp_all

/-- C3: `is_star` returns FALSE exactly when one of the listed conditions holds
(a NaN among fwhmx, fwhmy, x0, y0, mag; x0 or y0 not positive; A below 0.01; sx or
sy above 200; fwhmx or fwhmy not positive; fwhmy/fwhmx below roundness), and it
returns TRUE otherwise. -/
theorem is_star_false_iff (rnd : ℚ → Dbl) (result : fitted_PSF) (sf : star_finder_params) :
    (is_star rnd result sf = false ↔
      ((result.fwhmx.isnan = true ∨ result.fwhmy.isnan = true)
        ∨ (result.x0.isnan = true ∨ result.y0.isnan = true)
        ∨ result.mag.isnan = true
        ∨ (Dbl.le result.x0 Dbl.zero = true ∨ Dbl.le result.y0 Dbl.zero = true)
        ∨ Dbl.lt result.A Dbl.c0_01 = true
        ∨ (Dbl.gt result.sx Dbl.c200 = true ∨ Dbl.gt result.sy Dbl.c200 = true)
        ∨ (Dbl.le result.fwhmx Dbl.zero = true ∨ Dbl.le result.fwhmy Dbl.zero = true)
        ∨ Dbl.lt (Dbl.div rnd result.fwhmy result.fwhmx) sf.roundness = true))
    ∧ (is_star rnd result sf = true ↔
      ¬ ((result.fwhmx.isnan = true ∨ result.fwhmy.isnan = true)
        ∨ (result.x0.isnan = true ∨ result.y0.isnan = true)
        ∨ result.mag.isnan = true
        ∨ (Dbl.le result.x0 Dbl.zero = true ∨ Dbl.le result.y0 Dbl.zero = true)
        ∨ Dbl.lt result.A Dbl.c0_01 = true
        ∨ (Dbl.gt result.sx Dbl.c200 = true ∨ Dbl.gt result.sy Dbl.c200 = true)
        ∨ (Dbl.le result.fwhmx Dbl.zero = true ∨ Dbl.le result.fwhmy Dbl.zero = true)
        ∨ Dbl.lt (Dbl.div rnd result.fwhmy result.fwhmx) sf.roundness = true)) := by
  have h := is_star_true_iff rnd result sf
  refine ⟨?_, h⟩
  rw [← Bool.not_eq_true, h, not_not]

/-- Two doubles, neither of them NaN, are comparable: `a < b` or `b <= a`. -/
theorem Dbl.lt_or_ge (a b : Dbl) (ha : a.isnan = false) (hb : b.isnan = false) :
    Dbl.lt a b = true ∨ Dbl.le b a = true := by
  cases a <;> cases b <;> simp_all [Dbl.lt, Dbl.le, Dbl.isnan]
  exact lt_or_le _ _

/-- A double that is not NaN and is not `<= b` is `> b`, for `b` not NaN. -/
theorem Dbl.gt_of_not_le (a b : Dbl) (ha : a.isnan = false) (hb : b.isnan = false)
    (h : Dbl.le a b = false) : Dbl.gt a b = true := by
  cases a <;> cases b <;> simp_all [Dbl.lt, Dbl.le, Dbl.gt, Dbl.isnan]

/-- C4, as stated, fails: `is_star` accepts a record whose amplitude, `sx`, `sy`
and background are NaN, so an accepted record need not satisfy `A >= 0.01` and
may hold NaN fields. -/
theorem is_star_accepts_nan_amplitude :
    is_star Dbl.exact nanAmplitudeRecord defaultParams = true
      ∧ Dbl.ge nanAmplitudeRecord.A Dbl.c0_01 = false
      ∧ nanAmplitudeRecord.A.isnan = true ∧ nanAmplitudeRecord.sx.isnan = true
      ∧ nanAmplitudeRecord.sy.isnan = true ∧ nanAmplitudeRecord.B.isnan = true := by
  simp [is_star, nanAmplitudeRecord, defaultParams, Dbl.isnan, Dbl.le, Dbl.lt, Dbl.gt, Dbl.ge,
    Dbl.div, Dbl.zero, Dbl.c0_01, Dbl.c200, Dbl.exact]
  norm_num

/-- A record accepted by `is_star` has the guaranteed shape. -/
theorem is_star_accepted (rnd : ℚ → Dbl) (result : fitted_PSF) (sf : star_finder_params)
    (h : is_star rnd result sf = true) : Accepted rnd sf result := by
  have h3 := (is_star_true_iff rnd result sf).1 h
  simp only [not_or, Bool.not_eq_true] at h3
  obtain ⟨⟨h1, h2⟩, ⟨h4, h5⟩, h6, -, hA, -, ⟨h7, h8⟩, h9⟩ := h3
  have hz : Dbl.zero.isnan = false := rfl
  refine ⟨Dbl.gt_of_not_le _ _ h1 hz h7, Dbl.gt_of_not_le _ _ h2 hz h8, h1, h2, h4, h5, h6, ?_, ?_⟩
  · cases hn : result.A.isnan
    · right
      rcases Dbl.lt_or_ge result.A Dbl.c0_01 hn rfl with h0 | h0
      · rw [hA] at h0; cases h0
      · exact h0
    · left; rfl
  · cases hq : (Dbl.div rnd result.fwhmy result.fwhmx).isnan
    · cases hr : sf.roundness.isnan
      · right; right
        rcases Dbl.lt_or_ge _ _ hq hr with h0 | h0
        · rw [h9] at h0; cases h0
        · exact h0
      · right; left; rfl
    · left; rfl

/-! ## Properties of the catalog -/

/-- The loop of `add_star` over a terminated array stops at the terminator and
reports whether some record is near. -/
theorem add_star_loop_tabOf (rnd : ℚ → Dbl) (result : fitted_PSF) (sel : rectangle)
    (stars : List fitted_PSF) (rest : StarTab) (i : Nat) (found : Bool) :
    add_star_loop rnd result sel (tabOf stars rest) i found
      = some (i + stars.length, found || stars.any (near rnd result sel)) := by
  induction stars generalizing i found with
  | nil => simp [tabOf, add_star_loop]
  | cons s stars ih =>
    rw [show tabOf (s :: stars) rest = some s :: tabOf stars rest from rfl]
    simp only [add_star_loop]
    rw [ih, List.length_cons, List.any_cons]
    have e : i + 1 + stars.length = i + (stars.length + 1) := by omega
    rw [e]
    cases near rnd result sel s <;> cases found <;> simp

/-- The size of a terminated array is the number of its records. -/
theorem get_size_star_tab_tabOf (stars : List fitted_PSF) (rest : StarTab) :
    get_size_star_tab (tabOf stars rest) = some stars.length := by
  induction stars with
  | nil => simp [tabOf, get_size_star_tab]
  | cons s stars ih =>
    simp only [tabOf] at ih
    simp [tabOf, get_size_star_tab, ih]

/-- C5: when the fitted position is within 0.9 pixel, on both axes, of an entry
of the catalog, `add_star` returns NULL, leaves `index` at -1 and leaves the
catalog (array, size and entries) as it was. -/
theorem add_star_duplicate (rnd : ℚ → Dbl) (MAX_STARS : Nat) (stars : List fitted_PSF)
    (rest : StarTab) (sel : rectangle) (seqdata : Bool) (result : fitted_PSF)
    (alloc : Option StarTab) (hdup : ∃ s ∈ stars, near rnd result sel s = true) :
    add_star rnd MAX_STARS ⟨some (tabOf stars rest), sel, seqdata⟩ (some result) alloc
      = some ⟨none, -1, ⟨some (tabOf stars rest), sel, seqdata⟩⟩ := by
  have hany : stars.any (near rnd result sel) = true := List.any_eq_true.mpr hdup
  simp [add_star, add_star_loop_tabOf, hany]

/-- C8: on a catalog that holds `MAX_STARS` entries, `add_star` returns NULL,
leaves `index` at -1 and leaves the catalog as it was, whatever the fit. -/
theorem add_star_full (rnd : ℚ → Dbl) (MAX_STARS : Nat) (stars : List fitted_PSF)
    (rest : StarTab) (sel : rectangle) (seqdata : Bool) (fit : Option fitted_PSF)
    (alloc : Option StarTab) (hfull : stars.length = MAX_STARS) :
    add_star rnd MAX_STARS ⟨some (tabOf stars rest), sel, seqdata⟩ fit alloc
      = some ⟨none, -1, ⟨some (tabOf stars rest), sel, seqdata⟩⟩ := by
  cases fit with
  | none => simp [add_star]
  | some result =>
    simp only [add_star, add_star_loop_tabOf, Nat.zero_add, Bool.false_or, hfull.symm,
      lt_irrefl, if_false]
    split_ifs <;> rfl

/-- An instance of `add_star_duplicate`: the fit lands on the one star of the
catalog. -/
theorem add_star_duplicate_witness :
    (∃ s ∈ [starAt 10 10 0], near Dbl.exact (fitAt 5 5) sampleSelection s = true)
      ∧ add_star Dbl.exact 3 ⟨some (tabOf [starAt 10 10 0] [none, none]), sampleSelection, false⟩
          (some (fitAt 5 5)) none
        = some ⟨none, -1, ⟨some (tabOf [starAt 10 10 0] [none, none]), sampleSelection, false⟩⟩ := by
  have h : ∃ s ∈ [starAt 10 10 0], near Dbl.exact (fitAt 5 5) sampleSelection s = true := by
    refine ⟨starAt 10 10 0, by simp, ?_⟩
    simp [near, starAt, fitAt, sampleSelection, Dbl.lt, Dbl.abs, Dbl.sub, Dbl.add, Dbl.ofInt,
      Dbl.exact, Dbl.c0_9]
    norm_num
  exact ⟨h, add_star_duplicate Dbl.exact 3 _ _ _ _ _ none h⟩

/-- An instance of `add_star_full`: a catalog of capacity 2 that holds 2 stars. -/
theorem add_star_full_witness :
    [starAt 10 10 0, starAt 20 20 1].length = 2
      ∧ add_star Dbl.exact 2 ⟨some (tabOf [starAt 10 10 0, starAt 20 20 1] []), sampleSelection, false⟩
          (some (fitAt 1 1)) none
        = some ⟨none, -1, ⟨some (tabOf [starAt 10 10 0, starAt 20 20 1] []), sampleSelection, false⟩⟩ :=
  ⟨rfl, add_star_full Dbl.exact 2 _ _ _ _ _ none rfl⟩

/-- Storing at the slot that follows a prefix replaces that slot. -/
theorem store_append (pre : StarTab) (a v : Option fitted_PSF) (post : StarTab) :
    store (pre ++ a :: post) pre.length v = some (pre ++ v :: post) := by
  have h : pre.length < (pre ++ a :: post).length := by simp
  simp only [store, h, if_true]
  congr 1
  induction pre with
  | nil => rfl
  | cons p pre ih => simp

/-- C9: on a catalog array of `MAX_STARS + 1` slots that holds `n < MAX_STARS`
stars, none of them within 0.9 pixel of the fitted position, `add_star` returns
the record with `xpos = x0 + selection.x` and `ypos = selection.y + selection.h - y0`,
sets `index` to `n`, stores the record in slot `n` after the unchanged entries
and puts the NULL terminator in slot `n + 1`. -/
theorem add_star_inserts (rnd : ℚ → Dbl) (MAX_STARS : Nat) (stars : List fitted_PSF)
    (rest : StarTab) (sel : rectangle) (seqdata : Bool) (result : fitted_PSF)
    (alloc : Option StarTab) (hroom : stars.length < MAX_STARS)
    (hlen : (tabOf stars rest).length = MAX_STARS + 1)
    (hnew : ∀ s ∈ stars, near rnd result sel s = false) :
    add_star rnd MAX_STARS ⟨some (tabOf stars rest), sel, seqdata⟩ (some result) alloc
      = some ⟨some { result with
                xpos := Dbl.add rnd result.x0 (Dbl.ofInt sel.x)
                ypos := Dbl.sub rnd (Dbl.ofInt (sel.y + sel.h)) result.y0 },
              (stars.length : Int),
              ⟨some (tabOf (stars ++ [{ result with
                xpos := Dbl.add rnd result.x0 (Dbl.ofInt sel.x)
                ypos := Dbl.sub rnd (Dbl.ofInt (sel.y + sel.h)) result.y0 }]) rest.tail),
                sel, seqdata⟩⟩ := by
  have hany : stars.any (near rnd result sel) = false := by
    rw [List.any_eq_false]
    intro s hs
    simp [hnew s hs]
  cases rest with
  | nil => simp [tabOf] at hlen; omega
  | cons slot rest =>
    generalize hr : ({ result with
        xpos := Dbl.add rnd result.x0 (Dbl.ofInt sel.x)
        ypos := Dbl.sub rnd (Dbl.ofInt (sel.y + sel.h)) result.y0 } : fitted_PSF) = r1
    have hloop := add_star_loop_tabOf rnd result sel stars (slot :: rest) 0 false
    simp only [Nat.zero_add, Bool.false_or, hany] at hloop
    have h1 : store (tabOf stars (slot :: rest)) stars.length (some r1)
        = some (stars.map some ++ some r1 :: slot :: rest) := by
      have h := store_append (stars.map some) none (some r1) (slot :: rest)
      simpa [tabOf] using h
    have h2 : store (stars.map some ++ some r1 :: slot :: rest) (stars.length + 1) none
        = some (tabOf (stars ++ [r1]) rest) := by
      have h := store_append (stars.map some ++ [some r1]) slot none rest
      simpa [tabOf] using h
    simp only [add_star, hloop, hroom, if_true, hr, h1, h2, List.tail_cons]
    simp

/-- An instance of `add_star_inserts`: a second star is added far from the first. -/
theorem add_star_inserts_witness :
    [starAt 10 10 0].length < 3 ∧ (tabOf [starAt 10 10 0] [none, none]).length = 3 + 1
      ∧ (∀ s ∈ [starAt 10 10 0], near Dbl.exact (fitAt 20 1) sampleSelection s = false)
      ∧ add_star Dbl.exact 3 ⟨some (tabOf [starAt 10 10 0] [none, none]), sampleSelection, false⟩
          (some (fitAt 20 1)) none
        = some ⟨some { fitAt 20 1 with xpos := Dbl.fin 25, ypos := Dbl.fin 14 }, 1,
            ⟨some (tabOf [starAt 10 10 0, { fitAt 20 1 with xpos := Dbl.fin 25, ypos := Dbl.fin 14 }]
              [none]), sampleSelection, false⟩⟩ := by
  have hfar : ∀ s ∈ [starAt 10 10 0], near Dbl.exact (fitAt 20 1) sampleSelection s = false := by
    intro s hs
    rw [List.mem_singleton] at hs
    subst hs
    simp [near, starAt, fitAt, sampleSelection, Dbl.lt, Dbl.abs, Dbl.sub, Dbl.add, Dbl.ofInt,
      Dbl.exact, Dbl.c0_9]
    norm_num
  have h := add_star_inserts Dbl.exact 3 [starAt 10 10 0] [none, none] sampleSelection false
    (fitAt 20 1) none (by decide) (by decide) hfar
  refine ⟨by decide, by decide, hfar, ?_⟩
  rw [h]
  simp [fitAt, sampleSelection, Dbl.add, Dbl.sub, Dbl.ofInt, Dbl.exact]
  norm_num

/-- When no array exists yet, `add_star` allocates it: if the allocation fails it
returns NULL and changes nothing; otherwise the record goes to slot 0 and the
terminator to slot 1. -/
theorem add_star_absent (rnd : ℚ → Dbl) (MAX_STARS : Nat) (sel : rectangle) (seqdata : Bool)
    (result : fitted_PSF) (s0 s1 : Option fitted_PSF) (fresh : StarTab) (hpos : 0 < MAX_STARS) :
    add_star rnd MAX_STARS ⟨none, sel, seqdata⟩ (some result) none
        = some ⟨none, -1, ⟨none, sel, seqdata⟩⟩
      ∧ add_star rnd MAX_STARS ⟨none, sel, seqdata⟩ (some result) (some (s0 :: s1 :: fresh))
        = some ⟨some { result with
                  xpos := Dbl.add rnd result.x0 (Dbl.ofInt sel.x)
                  ypos := Dbl.sub rnd (Dbl.ofInt (sel.y + sel.h)) result.y0 }, 0,
                ⟨some (tabOf [{ result with
                  xpos := Dbl.add rnd result.x0 (Dbl.ofInt sel.x)
                  ypos := Dbl.sub rnd (Dbl.ofInt (sel.y + sel.h)) result.y0 }] fresh),
                  sel, false⟩⟩ := by
  constructor
  · simp [add_star]
  · simp [add_star, hpos, store, tabOf]

/-- The move performed by `remove_star` on a terminated array: the slots after
`i`, terminator included, shift down by one and the old terminator slot keeps
its NULL. -/
theorem memmove_tabOf (stars : List fitted_PSF) (rest : StarTab) (i : Nat)
    (hi : i < stars.length) :
    memmove (tabOf stars rest) i (i + 1) ((stars.length : Int) + 1 - (i : Int) - 1)
      = some (tabOf (stars.eraseIdx i) (none :: rest)) := by
  have hc : (stars.length : Int) + 1 - (i : Int) - 1 = ((stars.length - i : Nat) : Int) := by
    omega
  have hlen : (tabOf stars rest).length = stars.length + 1 + rest.length := by
    simp [tabOf]; omega
  rw [hc]
  simp only [memmove, Int.toNat_ofNat]
  rw [if_neg (by omega), if_pos (by constructor <;> omega)]
  congr 1
  have e1 : (tabOf stars rest).take i = (stars.take i).map some := by
    rw [tabOf, List.take_append_of_le_length (by simp; omega), List.map_take]
  have e2 : ((tabOf stars rest).drop (i + 1)).take (stars.length - i)
      = (stars.drop (i + 1)).map some ++ [none] := by
    rw [tabOf, List.drop_append_of_le_length (by simp; omega), ← List.map_drop]
    have hl : ((stars.drop (i + 1)).map some).length + 1 = stars.length - i := by
      simp; omega
    rw [← hl, List.take_append, List.take_one]
    simp
  have e3 : (tabOf stars rest).drop (i + (stars.length - i)) = none :: rest := by
    have hn : i + (stars.length - i) = (stars.map some).length := by simp; omega
    rw [tabOf, hn, List.drop_left]
  rw [e1, e2, e3, List.eraseIdx_eq_take_drop_succ, tabOf, List.map_append]
  simp

/-- C6: on a catalog of `n` stars, `remove_star` at an index `0 <= i < n` returns
0 and leaves the terminated array of the `n - 1` remaining stars, that is the
original sequence with entry `i` deleted and the others in their order. -/
theorem remove_star_valid (stars : List fitted_PSF) (rest : StarTab) (sel : rectangle)
    (seqdata : Bool) (index : Int) (h0 : 0 ≤ index) (hn : index < stars.length) :
    remove_star ⟨some (tabOf stars rest), sel, seqdata⟩ index
        = some (0, ⟨some (tabOf (stars.eraseIdx index.toNat) (none :: rest)), sel, seqdata⟩)
      ∧ (stars.eraseIdx index.toNat).length = stars.length - 1
      ∧ get_size_star_tab (tabOf (stars.eraseIdx index.toNat) (none :: rest))
        = some (stars.length - 1) := by
  obtain ⟨i, rfl⟩ := Int.eq_ofNat_of_zero_le h0
  have hi : i < stars.length := by exact_mod_cast hn
  have hlen : (stars.eraseIdx i).length = stars.length - 1 := List.length_eraseIdx_of_lt hi
  have hget : (tabOf stars rest).get? i = some (some (stars.get ⟨i, hi⟩)) := by
    simp [tabOf, List.getElem?_append_left, hi]
  refine ⟨?_, hlen, ?_⟩
  · have hm := memmove_tabOf stars rest i hi
    simp only [remove_star, Int.toNat_ofNat, hget, get_size_star_tab_tabOf, hm]
    simp
  · rw [get_size_star_tab_tabOf, Int.toNat_ofNat, hlen]

/-- An instance of `remove_star_valid`: the middle star of three is removed. -/
theorem remove_star_valid_witness :
    (0 : Int) ≤ 1 ∧ (1 : Int) < ([starAt 10 10 0, starAt 20 20 1, starAt 30 30 2].length : Int)
      ∧ remove_star ⟨some (tabOf [starAt 10 10 0, starAt 20 20 1, starAt 30 30 2] []),
          sampleSelection, false⟩ 1
        = some (0, ⟨some (tabOf [starAt 10 10 0, starAt 30 30 2] [none]), sampleSelection, false⟩) :=
  ⟨by decide, by decide,
    (remove_star_valid [starAt 10 10 0, starAt 20 20 1, starAt 30 30 2] [] sampleSelection false 1
      (by decide) (by decide)).1⟩

/-- The slots of a terminated array from the terminator on. -/
theorem tabOf_get?_add (stars : List fitted_PSF) (rest : StarTab) (j : Nat) :
    (tabOf stars rest).get? (stars.length + j) = (none :: rest).get? j := by
  induction stars with
  | nil => simp [tabOf]
  | cons s stars ih =>
    have e : (s :: stars).length + j = (stars.length + j) + 1 := by simp; omega
    rw [e, show tabOf (s :: stars) rest = some s :: tabOf stars rest from rfl, List.get?_cons_succ]
    exact ih

/-- The cases in which `remove_star` does reject the index: a negative index, an
absent array, the index of the terminator, and an index past the terminator
whose slot happens to hold NULL. In each the catalog is left as it was. -/
theorem remove_star_rejects (stars : List fitted_PSF) (rest : StarTab) (sel : rectangle)
    (seqdata : Bool) (index : Int) :
    (index < 0 → ∀ com : Com, remove_star com index = some (1, com))
      ∧ remove_star ⟨none, sel, seqdata⟩ index = some (1, ⟨none, sel, seqdata⟩)
      ∧ remove_star ⟨some (tabOf stars rest), sel, seqdata⟩ stars.length
          = some (1, ⟨some (tabOf stars rest), sel, seqdata⟩)
      ∧ (∀ k : Nat, rest.get? k = some none →
          remove_star ⟨some (tabOf stars rest), sel, seqdata⟩ ((stars.length : Int) + 1 + k)
            = some (1, ⟨some (tabOf stars rest), sel, seqdata⟩)) := by
  refine ⟨?_, ?_, ?_, ?_⟩
  · intro h com
    simp [remove_star, h]
  · by_cases h : index < 0 <;> simp [remove_star, h]
  · have hget : (tabOf stars rest).get? stars.length = some none := by
      have h := tabOf_get?_add stars rest 0
      simpa using h
    have e : ((stars.length : Int)).toNat = stars.length := by omega
    have hneg : ¬ ((stars.length : Int) < 0) := by omega
    simp only [remove_star, hneg, if_false, e, hget]
  · intro k hk
    have e : ((stars.length : Int) + 1 + k).toNat = stars.length + 1 + k := by omega
    have hget : (tabOf stars rest).get? (stars.length + 1 + k) = some none := by
      have h := tabOf_get?_add stars rest (k + 1)
      rw [List.get?_cons_succ, hk] at h
      rw [← h]
      congr 1
      omega
    have hneg : ¬ ((stars.length : Int) + 1 + k < 0) := by omega
    simp only [remove_star, hneg, if_false, e, hget]

/-- C7 fails on the code for an index past the terminator. On the three-slot
array `[s0, NULL, s1]` of a one-star catalog, `remove_star(2)` finds a non-NULL
slot, passes the guard and calls `memmove` with the length
`N - index - 1 = -1`; `remove_star(3)` reads `com.stars[3]` outside the array.
Both are undefined behaviour, not the return value 1. -/
theorem remove_star_past_terminator :
    get_size_star_tab (tabOf [starAt 10 10 0] [some (starAt 20 20 1)]) = some 1
      ∧ remove_star ⟨some (tabOf [starAt 10 10 0] [some (starAt 20 20 1)]), sampleSelection, false⟩ 2
          = none
      ∧ remove_star ⟨some (tabOf [starAt 10 10 0] [some (starAt 20 20 1)]), sampleSelection, false⟩ 3
          = none
      ∧ remove_star ⟨some (tabOf [starAt 10 10 0] [some (starAt 20 20 1)]), sampleSelection, false⟩ 2
          ≠ some (1, ⟨some (tabOf [starAt 10 10 0] [some (starAt 20 20 1)]), sampleSelection, false⟩) := by
  have h : remove_star
      ⟨some (tabOf [starAt 10 10 0] [some (starAt 20 20 1)]), sampleSelection, false⟩ 2 = none := by
    simp [remove_star, tabOf, get_size_star_tab, memmove]
  refine ⟨by simp [tabOf, get_size_star_tab], h, by simp [remove_star, tabOf], ?_⟩
  rw [h]
  simp

/-! ## Properties of the sort -/

/-- The operator `<` on doubles is asymmetric. -/
theorem Dbl.lt_asymm (a b : Dbl) (h : Dbl.lt a b = true) : Dbl.lt b a = false := by
  cases a <;> cases b <;> simp_all [Dbl.lt]
  exact le_of_lt h

/-- The operator `<` on doubles is transitive in its negated form, away from NaN:
if `c < b` fails and `b < a` fails then `c < a` fails. -/
theorem Dbl.not_lt_trans (a b c : Dbl) (hb : b.isnan = false)
    (h1 : Dbl.lt b a = false) (h2 : Dbl.lt c b = false) : Dbl.lt c a = false := by
  cases a <;> cases b <;> cases c <;> simp_all [Dbl.lt, Dbl.isnan]
  exact le_trans h1 h2

/-- The records `s1`, `s2` are in order for `compare_stars` exactly when the
magnitude of `s2` is not below that of `s1`. -/
theorem compare_stars_le_iff (s1 s2 : fitted_PSF) :
    compare_stars s1 s2 ≤ 0 ↔ Dbl.lt s2.mag s1.mag = false := by
  unfold compare_stars Dbl.gt
  cases h1 : Dbl.lt s1.mag s2.mag <;> cases h2 : Dbl.lt s2.mag s1.mag <;> simp
  rw [Dbl.lt_asymm _ _ h1] at h2
  cases h2

/-- The function `compare_stars` is consistent on records whose magnitude is not
NaN. -/
theorem compare_stars_consistent (l : List fitted_PSF) (hnan : ∀ s ∈ l, s.mag.isnan = false) :
    Consistent compare_stars l := by
  constructor
  · intro a _ b _
    unfold compare_stars Dbl.gt
    cases h1 : Dbl.lt a.mag b.mag <;> cases h2 : Dbl.lt b.mag a.mag <;> simp
    rw [Dbl.lt_asymm _ _ h1] at h2
    cases h2
  · intro a _ b hb c _ h1 h2
    rw [compare_stars_le_iff] at *
    exact Dbl.not_lt_trans _ _ _ (hnan b hb) h1 h2

/-- Dereferencing slots that all hold a record gives the records. -/
theorem derefAll_map_some (stars : List fitted_PSF) : derefAll (stars.map some) = some stars := by
  induction stars with
  | nil => rfl
  | cons s stars ih => simp [derefAll, ih]

/-- The function `sort_stars` applied to the records of a terminated array: the
records are handed to `qsort` and the slots from the terminator on are kept. -/
theorem sort_stars_tabOf (Q : Qsort) (stars : List fitted_PSF) (rest : StarTab) :
    sort_stars Q (some (tabOf stars rest)) stars.length
      = some (some (tabOf (Q.sort compare_stars stars) rest)) := by
  have h1 : (tabOf stars rest).take stars.length = stars.map some := by
    simp [tabOf]
  have h2 : (tabOf stars rest).drop stars.length = none :: rest := by
    simp [tabOf]
  have h3 : stars.length ≤ (tabOf stars rest).length := by simp [tabOf]
  have h4 : ¬ ((stars.length : Int) < 0) := by omega
  simp only [sort_stars, h4, if_false, Int.toNat_ofNat, h3, if_true, h1, h2, derefAll_map_some]
  rfl

/-- C10: for an array of records whose magnitudes are not NaN, `sort_stars`
returns, and the array it leaves satisfies `mag[i] <= mag[i+1]` for every `i`. -/
theorem sort_stars_sorted (Q : Qsort) (stars : List fitted_PSF) (rest : StarTab)
    (hnan : ∀ s ∈ stars, s.mag.isnan = false) :
    sort_stars Q (some (tabOf stars rest)) stars.length
        = some (some (tabOf (Q.sort compare_stars stars) rest))
      ∧ (Q.sort compare_stars stars).length = stars.length
      ∧ ∀ (i : Nat) (h : i + 1 < (Q.sort compare_stars stars).length),
          Dbl.le ((Q.sort compare_stars stars).get ⟨i, Nat.lt_of_succ_lt h⟩).mag
            ((Q.sort compare_stars stars).get ⟨i + 1, h⟩).mag = true := by
  have hc := compare_stars_consistent stars hnan
  have hperm := Q.perm compare_stars stars hc
  have hsorted := Q.sorted compare_stars stars hc
  refine ⟨sort_stars_tabOf Q stars rest, hperm.length_eq, ?_⟩
  intro i h
  have hle := (List.pairwise_iff_get.mp hsorted) ⟨i, Nat.lt_of_succ_lt h⟩ ⟨i + 1, h⟩
    (by simp [Fin.lt_def])
  rw [compare_stars_le_iff] at hle
  have ha : ((Q.sort compare_stars stars).get ⟨i, Nat.lt_of_succ_lt h⟩).mag.isnan = false :=
    hnan _ (hperm.mem_iff.mp (List.get_mem _ _ _))
  have hb : ((Q.sort compare_stars stars).get ⟨i + 1, h⟩).mag.isnan = false :=
    hnan _ (hperm.mem_iff.mp (List.get_mem _ _ _))
  rcases Dbl.lt_or_ge _ _ hb ha with h0 | h0
  · rw [hle] at h0; cases h0
  · exact h0

/-- An instance of `sort_stars_sorted`: two stars in descending order of
magnitude are swapped by the insertion sort. -/
theorem sort_stars_sorted_witness :
    (∀ s ∈ [starAt 10 10 2, starAt 20 20 1], s.mag.isnan = false)
      ∧ sort_stars insertionQsort (some (tabOf [starAt 10 10 2, starAt 20 20 1] [])) 2
        = some (some (tabOf [starAt 20 20 1, starAt 10 10 2] [])) := by
  have hnan : ∀ s ∈ [starAt 10 10 2, starAt 20 20 1], s.mag.isnan = false := by
    intro s hs
    simp only [List.mem_cons, List.mem_singleton, List.not_mem_nil, or_false] at hs
    rcases hs with rfl | rfl <;> rfl
  have h := (sort_stars_sorted insertionQsort [starAt 10 10 2, starAt 20 20 1] [] hnan).1
  have hs : insertionQsort.sort compare_stars [starAt 10 10 2, starAt 20 20 1]
      = [starAt 20 20 1, starAt 10 10 2] := by
    simp [insertionQsort, insertionQsort_sort, List.insertionSort, List.orderedInsert,
      compare_stars, starAt, Dbl.lt, Dbl.gt]
  rw [hs] at h
  exact ⟨hnan, h⟩

/-! ## Properties of the peak detector -/

/-- The inner neighbour loop, when every read of the row is defined: `bingo`
survives exactly when it was TRUE and every visited neighbour is accepted. -/
theorem neighbor_row_eq (image : Int → Int → Option Nat) (value : Int → Int → Nat)
    (x y yy : Int) (pix : Nat) (xs : List Int) (bingo : Bool)
    (hread : ∀ xx ∈ xs, image yy xx = some (value yy xx)) :
    neighbor_row image x y yy pix xs bingo
      = some (bingo && xs.all (fun xx => neighbor_ok x y pix xx yy (value yy xx))) := by
  induction xs with
  | nil => simp [neighbor_row]
  | cons xx xs ih =>
    have ih1 := ih (fun a ha => hread a (List.mem_cons_of_mem xx ha))
    have hx := hread xx (List.mem_cons_self xx xs)
    simp only [neighbor_row, hx, ih1, List.all_cons, neighbor_ok]
    by_cases hc : xx = x ∧ yy = y
    · simp [hc]
    · by_cases h1 : value yy xx > pix
      · simp [hc, h1]
      · by_cases h2 : value yy xx = pix
        · by_cases h3 : (xx ≤ x ∧ yy ≤ y) ∨ (xx > x ∧ yy < y)
          · simp [hc, h2, h3]
          · simp [hc, h2, h3]
        · simp [hc, h1, h2]

/-- The outer neighbour loop, when every read of the rows is defined. -/
theorem neighbor_rows_eq (image : Int → Int → Option Nat) (value : Int → Int → Nat)
    (x y : Int) (pix : Nat) (ys : List Int) (bingo : Bool)
    (hread : ∀ yy ∈ ys, ∀ xx ∈ [x - 1, x, x + 1], image yy xx = some (value yy xx)) :
    neighbor_rows image x y pix ys bingo
      = some (bingo && ys.all (fun yy =>
          [x - 1, x, x + 1].all (fun xx => neighbor_ok x y pix xx yy (value yy xx)))) := by
  induction ys generalizing bingo with
  | nil => simp [neighbor_rows]
  | cons yy ys ih =>
    have ih1 := fun b => ih b (fun a ha => hread a (List.mem_cons_of_mem yy ha))
    have hrow := neighbor_row_eq image value x y yy pix [x - 1, x, x + 1] bingo
      (hread yy (List.mem_cons_self yy ys))
    simp only [neighbor_rows, hrow, ih1, List.all_cons, Bool.and_assoc]

/-- The loop body accepts a neighbour at a non-zero offset `(dx, dy)` exactly when
the neighbour is smaller, or equal and at a winning place for the pixel. -/
theorem neighbor_ok_iff (x y : Int) (pix : Nat) (xx yy dx dy : Int) (nv : Nat)
    (hx : xx = x + dx) (hy : yy = y + dy) (hne : ¬ (dx = 0 ∧ dy = 0)) :
    neighbor_ok x y pix xx yy nv = true
      ↔ (nv < pix ∨ (nv = pix ∧ ¬ (dx ≤ 0 ∧ dy ≤ 0) ∧ ¬ (dx > 0 ∧ dy < 0))) := by
  subst hx hy
  simp only [neighbor_ok, Bool.or_eq_true, Bool.and_eq_true, decide_eq_true_eq,
    Bool.not_eq_true', decide_eq_false_iff_not, Bool.and_eq_false_imp]
  constructor
  · intro h
    rcases h with h | ⟨h1, h2⟩
    · omega
    · by_cases he : nv = pix
      · have h3 := h2 he
        right
        refine ⟨he, ?_, ?_⟩ <;> omega
      · left; omega
  · intro h
    right
    rcases h with h | ⟨he, h1, h2⟩
    · exact ⟨by omega, fun he => by omega⟩
    · exact ⟨by omega, fun _ => by omega⟩

/-- The loop body always accepts the centre. -/
theorem neighbor_ok_centre (x y : Int) (pix nv : Nat) : neighbor_ok x y pix x y nv = true := by
  simp [neighbor_ok]

/-- The candidate test on a pixel whose 3 by 3 window is read without fault: it
returns, and its value is TRUE exactly when the pixel is a candidate in the
words of the specification. -/
theorem is_candidate_spec (image : Int → Int → Option Nat) (value : Int → Int → Nat)
    (threshold norm : Nat) (x y : Int)
    (hread : ∀ yy ∈ [y - 1, y, y + 1], ∀ xx ∈ [x - 1, x, x + 1],
      image yy xx = some (value yy xx)) :
    ∃ bingo, is_candidate image threshold norm x y = some bingo
      ∧ (bingo = true ↔ SpecCandidate value threshold norm x y) := by
  have hc : image y x = some (value y x) := hread y (by simp) x (by simp)
  have hrows := neighbor_rows_eq image value x y (value y x) [y - 1, y, y + 1] true hread
  by_cases hr : value y x > threshold ∧ value y x < norm
  · refine ⟨_, by simp only [is_candidate, hc, hr, and_self, if_true]; exact hrows, ?_⟩
    simp only [Bool.true_and, List.all_cons, List.all_nil, Bool.and_true, Bool.and_eq_true]
    constructor
    · rintro ⟨⟨a1, a2, a3⟩, ⟨b1, -, b3⟩, ⟨c1, c2, c3⟩⟩
      refine ⟨hr.1, hr.2, ?_⟩
      have hgen : ∀ dx dy xx yy : Int, xx = x + dx → yy = y + dy → ¬ (dx = 0 ∧ dy = 0) →
          neighbor_ok x y (value y x) xx yy (value yy xx) = true →
          (value (y + dy) (x + dx) < value y x
            ∨ (value (y + dy) (x + dx) = value y x
                ∧ ¬ (dx ≤ 0 ∧ dy ≤ 0) ∧ ¬ (dx > 0 ∧ dy < 0))) := by
        intro dx dy xx yy hx hy hne hok
        subst hx hy
        exact (neighbor_ok_iff x y _ _ _ dx dy _ rfl rfl hne).mp hok
      intro dx dy h1 h2 h3 h4 hne
      have hdx : dx = -1 ∨ dx = 0 ∨ dx = 1 := by omega
      have hdy : dy = -1 ∨ dy = 0 ∨ dy = 1 := by omega
      rcases hdx with rfl | rfl | rfl <;> rcases hdy with rfl | rfl | rfl
      · exact hgen (-1) (-1) (x - 1) (y - 1) (by omega) (by omega) hne a1
      · exact hgen (-1) 0 (x - 1) y (by omega) (by omega) hne b1
      · exact hgen (-1) 1 (x - 1) (y + 1) (by omega) (by omega) hne c1
      · exact hgen 0 (-1) x (y - 1) (by omega) (by omega) hne a2
      · exact absurd ⟨rfl, rfl⟩ hne
      · exact hgen 0 1 x (y + 1) (by omega) (by omega) hne c2
      · exact hgen 1 (-1) (x + 1) (y - 1) (by omega) (by omega) hne a3
      · exact hgen 1 0 (x + 1) y (by omega) (by omega) hne b3
      · exact hgen 1 1 (x + 1) (y + 1) (by omega) (by omega) hne c3
    · rintro ⟨-, -, h⟩
      have hback : ∀ dx dy xx yy : Int, xx = x + dx → yy = y + dy → -1 ≤ dx → dx ≤ 1 →
          -1 ≤ dy → dy ≤ 1 → ¬ (dx = 0 ∧ dy = 0) →
          neighbor_ok x y (value y x) xx yy (value yy xx) = true := by
        intro dx dy xx yy hx hy h1 h2 h3 h4 hne
        subst hx hy
        exact (neighbor_ok_iff x y _ _ _ dx dy _ rfl rfl hne).mpr (h dx dy h1 h2 h3 h4 hne)
      refine ⟨⟨?_, ?_, ?_⟩, ⟨?_, neighbor_ok_centre x y _ _, ?_⟩, ⟨?_, ?_, ?_⟩⟩
      · exact hback (-1) (-1) (x - 1) (y - 1) (by omega) (by omega) (by omega) (by omega)
          (by omega) (by omega) (by omega)
      · exact hback 0 (-1) x (y - 1) (by omega) (by omega) (by omega) (by omega)
          (by omega) (by omega) (by omega)
      · exact hback 1 (-1) (x + 1) (y - 1) (by omega) (by omega) (by omega) (by omega)
          (by omega) (by omega) (by omega)
      · exact hback (-1) 0 (x - 1) y (by omega) (by omega) (by omega) (by omega)
          (by omega) (by omega) (by omega)
      · exact hback 1 0 (x + 1) y (by omega) (by omega) (by omega) (by omega)
          (by omega) (by omega) (by omega)
      · exact hback (-1) 1 (x - 1) (y + 1) (by omega) (by omega) (by omega) (by omega)
          (by omega) (by omega) (by omega)
      · exact hback 0 1 x (y + 1) (by omega) (by omega) (by omega) (by omega)
          (by omega) (by omega) (by omega)
      · exact hback 1 1 (x + 1) (y + 1) (by omega) (by omega) (by omega) (by omega)
          (by omega) (by omega) (by omega)
  · refine ⟨false, by simp only [is_candidate, hc, hr, if_false], ?_⟩
    constructor
    · intro h; cases h
    · rintro ⟨h1, h2, -⟩
      exact absurd ⟨h1, h2⟩ hr

/-- The values of a loop variable are those from `lo` up to `hi - 1`. -/
theorem mem_loop_range (lo hi a : Int) : a ∈ loop_range lo hi ↔ lo ≤ a ∧ a < hi := by
  simp only [loop_range, List.mem_map, List.mem_range]
  constructor
  · rintro ⟨k, hk, rfl⟩
    omega
  · rintro ⟨h1, h2⟩
    exact ⟨(a - lo).toNat, by omega, by omega⟩

/-- A loop variable takes each value once. -/
theorem nodup_loop_range (lo hi : Int) : (loop_range lo hi).Nodup := by
  unfold loop_range
  refine List.Nodup.map ?_ (List.nodup_range _)
  intro a b h
  simp only at h
  omega

/-- The pixels visited by the scan are those of the search area shrunk by
`radius` on every side. -/
theorem mem_scan_positions (radius areaX0 areaY0 areaX1 areaY1 x y : Int) :
    (x, y) ∈ scan_positions radius areaX0 areaY0 areaX1 areaY1
      ↔ (radius + areaX0 ≤ x ∧ x < areaX1 - radius)
        ∧ (radius + areaY0 ≤ y ∧ y < areaY1 - radius) := by
  simp only [scan_positions, List.mem_flatMap, List.mem_map, Prod.mk.injEq, mem_loop_range]
  constructor
  · rintro ⟨y1, hy, x1, hx, rfl, rfl⟩
    exact ⟨hx, hy⟩
  · rintro ⟨hx, hy⟩
    exact ⟨y, hy, x, hx, rfl, rfl⟩

/-- The scan visits no pixel twice. -/
theorem nodup_scan_positions (radius areaX0 areaY0 areaX1 areaY1 : Int) :
    (scan_positions radius areaX0 areaY0 areaX1 areaY1).Nodup := by
  unfold scan_positions
  rw [List.nodup_flatMap]
  refine ⟨?_, ?_⟩
  · intro y _
    refine List.Nodup.map ?_ (nodup_loop_range _ _)
    intro a b h
    simpa using h
  · refine List.Pairwise.imp ?_ (nodup_loop_range _ _)
    intro y1 y2 hne
    simp only [Function.onFun, List.disjoint_left, List.mem_map, not_exists, not_and]
    rintro p ⟨x1, -, rfl⟩ x2 _ h
    exact hne (by simpa using (Prod.mk.inj h).2.symm)

/-- A read inside an image whose buffer holds `nx * ny` samples is defined. -/
theorem pixel_defined (nx ny : Int) (data : List Nat) (y x : Int)
    (hlen : (data.length : Int) = nx * ny) (hy0 : 0 ≤ y) (hy1 : y < ny) (hx0 : 0 ≤ x)
    (hx1 : x < nx) : pixel nx ny data y x = some (sample nx ny data y x) := by
  have h1 : 0 ≤ (ny - y - 1) * nx := mul_nonneg (by omega) (by omega)
  have h2 : (ny - y - 1) * nx ≤ (ny - 1) * nx :=
    mul_le_mul_of_nonneg_right (by omega) (by omega)
  have h3 : (ny - 1) * nx = nx * ny - nx := by ring
  have hk : ((ny - y - 1) * nx + x).toNat < data.length := by omega
  have hcond : 0 ≤ y ∧ y < ny ∧ 0 ≤ (ny - y - 1) * nx + x := ⟨hy0, hy1, by omega⟩
  unfold sample pixel
  rw [if_pos hcond, List.get?_eq_get hk]
  rfl

/-- The window of a visited pixel is read without fault, when the radius is at
least 1 and the search area lies inside the image. -/
theorem window_defined (nx ny : Int) (wave : List Nat) (radius areaX0 areaY0 areaX1 areaY1 : Int)
    (x y : Int) (hlen : (wave.length : Int) = nx * ny) (hrad : 1 ≤ radius)
    (hx0 : 0 ≤ areaX0) (hx1 : areaX1 ≤ nx) (hy0 : 0 ≤ areaY0) (hy1 : areaY1 ≤ ny)
    (hvisit : (x, y) ∈ scan_positions radius areaX0 areaY0 areaX1 areaY1) :
    ∀ yy ∈ [y - 1, y, y + 1], ∀ xx ∈ [x - 1, x, x + 1],
      pixel nx ny wave yy xx = some (sample nx ny wave yy xx) := by
  rw [mem_scan_positions] at hvisit
  intro yy hyy xx hxx
  simp only [List.mem_cons, List.mem_singleton, List.not_mem_nil, or_false] at hyy hxx
  exact pixel_defined nx ny wave yy xx hlen (by omega) (by omega) (by omega) (by omega)

/-- C1: for a filtered image of `nx` by `ny` samples, a radius of at least 1 and a
search area inside the image, the test that `peaker` applies to a visited pixel
returns, and it keeps the pixel (range test passed and `bingo` still TRUE)
exactly when its value `v` satisfies `threshold < v < normValue` and each of its 8
neighbours is smaller than `v`, or equals `v` at an offset for which neither
`(dx <= 0 and dy <= 0)` nor `(dx > 0 and dy < 0)` holds. -/
theorem peaker_candidate_iff (nx ny : Int) (wave : List Nat) (threshold norm : Nat)
    (radius areaX0 areaY0 areaX1 areaY1 : Int) (x y : Int)
    (hlen : (wave.length : Int) = nx * ny) (hrad : 1 ≤ radius)
    (hx0 : 0 ≤ areaX0) (hx1 : areaX1 ≤ nx) (hy0 : 0 ≤ areaY0) (hy1 : areaY1 ≤ ny)
    (hvisit : (x, y) ∈ scan_positions radius areaX0 areaY0 areaX1 areaY1) :
    ∃ bingo, is_candidate (pixel nx ny wave) threshold norm x y = some bingo
      ∧ (bingo = true ↔ SpecCandidate (sample nx ny wave) threshold norm x y) :=
  is_candidate_spec (pixel nx ny wave) (sample nx ny wave) threshold norm x y
    (window_defined nx ny wave radius areaX0 areaY0 areaX1 areaY1 x y hlen hrad hx0 hx1 hy0 hy1
      hvisit)

/-- Two 8-adjacent pixels are never both candidates: of two neighbours the
smaller one loses, and of two equal neighbours the one that comes later in the
scan order loses the tie-break. -/
theorem spec_candidate_not_adjacent (value : Int → Int → Nat) (threshold norm : Nat)
    (p q : Int × Int) (hp : SpecCandidate value threshold norm p.1 p.2)
    (hq : SpecCandidate value threshold norm q.1 q.2) : ¬ adjacent p q := by
  rintro ⟨hne, hx, hy⟩
  obtain ⟨px, py⟩ := p
  obtain ⟨qx, qy⟩ := q
  simp only at hp hq hx hy
  rw [abs_le] at hx hy
  have hne1 : ¬ (qx - px = 0 ∧ qy - py = 0) := by
    rintro ⟨h1, h2⟩
    apply hne
    have e1 : px = qx := by omega
    have e2 : py = qy := by omega
    rw [e1, e2]
  have h1 := hp.2.2 (qx - px) (qy - py) (by omega) (by omega) (by omega) (by omega) hne1
  have h2 := hq.2.2 (px - qx) (py - qy) (by omega) (by omega) (by omega) (by omega) (by omega)
  have e1 : px + (qx - px) = qx := by omega
  have e2 : py + (qy - py) = qy := by omega
  have e3 : qx + (px - qx) = px := by omega
  have e4 : qy + (py - qy) = py := by omega
  rw [e1, e2] at h1
  rw [e3, e4] at h2
  omega

/-- The list of candidates among positions whose windows are read without fault:
the scan returns, every pixel it keeps is one of the positions and is a candidate
in the words of the specification, and the kept pixels follow the order of the
positions. -/
theorem candidates_of_spec (image : Int → Int → Option Nat) (value : Int → Int → Nat)
    (threshold norm : Nat) (positions : List (Int × Int))
    (hread : ∀ p ∈ positions, ∀ yy ∈ [p.2 - 1, p.2, p.2 + 1], ∀ xx ∈ [p.1 - 1, p.1, p.1 + 1],
      image yy xx = some (value yy xx)) :
    ∃ found, candidates_of image threshold norm positions = some found
      ∧ found.Sublist positions
      ∧ ∀ p ∈ found, SpecCandidate value threshold norm p.1 p.2 := by
  induction positions with
  | nil => exact ⟨[], rfl, List.Sublist.refl _, by simp⟩
  | cons p positions ih =>
    obtain ⟨x, y⟩ := p
    obtain ⟨found, hf, hsub, hall⟩ := ih (fun q hq => hread q (List.mem_cons_of_mem _ hq))
    obtain ⟨bingo, hb, hiff⟩ := is_candidate_spec image value threshold norm x y
      (hread (x, y) (List.mem_cons_self _ _))
    cases bingo with
    | false =>
      refine ⟨found, by simp [candidates_of, hb, hf], hsub.cons _, hall⟩
    | true =>
      refine ⟨(x, y) :: found, by simp [candidates_of, hb, hf], hsub.cons₂ _, ?_⟩
      intro q hq
      rcases List.mem_cons.mp hq with rfl | hq
      · exact hiff.mp rfl
      · exact hall q hq

/-- An instance of `peaker_candidate_iff`: the pixel `(1, 1)` of the U-shaped
plateau, visited with radius 1 over the whole image. -/
theorem peaker_candidate_iff_witness :
    ((uPlateau.length : Int) = 5 * 4 ∧ (1 : Int) ≤ 1
        ∧ (1, 1) ∈ scan_positions 1 0 0 5 4)
      ∧ ∃ bingo, is_candidate (pixel 5 4 uPlateau) 1 100 1 1 = some bingo
          ∧ (bingo = true ↔ SpecCandidate (sample 5 4 uPlateau) 1 100 1 1) :=
  ⟨⟨by decide, by decide, by decide⟩,
    peaker_candidate_iff 5 4 uPlateau 1 100 1 0 0 5 4 1 1 (by decide) (by decide) (by decide)
      (by decide) (by decide) (by decide) (by decide)⟩

/-- C2, as stated, fails: on the U-shaped plateau the scan keeps both `(1, 1)`
and `(3, 1)`, two pixels of value 5 that the path
`(1,1), (1,2), (2,2), (3,2), (3,1)` of equal-valued neighbours joins. -/
theorem candidates_share_plateau :
    candidates 5 4 uPlateau 1 100 1 0 0 5 4 = some [(1, 1), (3, 1)]
      ∧ same_plateau (pixel 5 4 uPlateau) (1, 1) (3, 1) := by
  refine ⟨by decide, [(1, 1), (1, 2), (2, 2), (3, 2), (3, 1)], rfl, rfl, ?_⟩
  simp only [plateau_path, adjacent]
  decide

/-- C2, amended: for a filtered image of `nx` by `ny` samples, a radius of at
least 1 and a search area inside the image, the scan returns its candidates, no
pixel occurs twice among them, and no two of them are 8-adjacent (so no two
neighbouring pixels of one plateau are both kept). -/
theorem candidates_distinct (nx ny : Int) (wave : List Nat) (threshold norm : Nat)
    (radius areaX0 areaY0 areaX1 areaY1 : Int)
    (hlen : (wave.length : Int) = nx * ny) (hrad : 1 ≤ radius)
    (hx0 : 0 ≤ areaX0) (hx1 : areaX1 ≤ nx) (hy0 : 0 ≤ areaY0) (hy1 : areaY1 ≤ ny) :
    ∃ found, candidates nx ny wave threshold norm radius areaX0 areaY0 areaX1 areaY1 = some found
      ∧ found.Nodup ∧ ∀ p ∈ found, ∀ q ∈ found, ¬ adjacent p q := by
  obtain ⟨found, hf, hsub, hall⟩ := candidates_of_spec (pixel nx ny wave) (sample nx ny wave)
    threshold norm (scan_positions radius areaX0 areaY0 areaX1 areaY1)
    (fun p hp => window_defined nx ny wave radius areaX0 areaY0 areaX1 areaY1 p.1 p.2 hlen hrad
      hx0 hx1 hy0 hy1 hp)
  refine ⟨found, hf, (nodup_scan_positions _ _ _ _ _).sublist hsub, ?_⟩
  intro p hp q hq
  exact spec_candidate_not_adjacent (sample nx ny wave) threshold norm p q (hall p hp) (hall q hq)

/-- An instance of `candidates_distinct`: the image of the U-shaped plateau. -/
theorem candidates_distinct_witness :
    ((uPlateau.length : Int) = 5 * 4 ∧ (1 : Int) ≤ 1)
      ∧ ∃ found, candidates 5 4 uPlateau 1 100 1 0 0 5 4 = some found
          ∧ found.Nodup ∧ ∀ p ∈ found, ∀ q ∈ found, ¬ adjacent p q :=
  ⟨⟨by decide, by decide⟩,
    candidates_distinct 5 4 uPlateau 1 100 1 0 0 5 4 (by decide) (by decide) (by decide)
      (by decide) (by decide) (by decide)⟩

/-! ## Properties of the scan -/

/-- The two stores that append a record to a terminated array succeed only when a
slot follows the terminator, and they leave the array terminated one slot
further. -/
theorem store_record (records : List fitted_PSF) (rest tab1 tab2 : StarTab) (s : fitted_PSF)
    (h1 : store (tabOf records rest) records.length (some s) = some tab1)
    (h2 : store tab1 (records.length + 1) none = some tab2) :
    ∃ rest1, tab2 = tabOf (records ++ [s]) rest1 := by
  have e1 := store_append (records.map some) none (some s) rest
  simp only [List.length_map] at e1
  rw [show records.map some ++ none :: rest = tabOf records rest from rfl, h1] at e1
  cases rest with
  | nil =>
    have hl : ¬ (records.length + 1 < tab1.length) := by
      rw [Option.some.inj e1]; simp
    simp [store, hl] at h2
  | cons slot rest1 =>
    have e2 := store_append (records.map some ++ [some s]) slot none rest1
    simp only [List.length_append, List.length_map, List.length_singleton, List.append_assoc,
      List.singleton_append] at e2
    rw [← Option.some.inj e1, h2] at e2
    refine ⟨rest1, ?_⟩
    rw [Option.some.inj e2]
    simp [tabOf]

/-- The body of the scan loops keeps the invariant of the scan state. -/
theorem scan_pixel_inv (rnd : ℚ → Dbl) (MAX_STARS : Nat) (calls : PeakerCalls)
    (wave_image real_image : Int → Int → Option Nat) (threshold norm : Nat) (bg : Dbl)
    (layer : Int) (sf : star_finder_params) (st st1 : ScanState) (x y : Int)
    (hinv : ScanInv rnd sf st)
    (h : scan_pixel rnd MAX_STARS calls wave_image real_image threshold norm bg layer sf st x y
      = some st1) : ScanInv rnd sf st1 := by
  unfold scan_pixel at h
  split at h
  · cases h
  · split at h
    · split at h
      · cases h
      · split at h
        · cases h; exact hinv
        · rename_i fitted _
          simp only at h
          split at h
          · rename_i hstar
            split at h
            · split at h
              · cases h
              · rename_i tab1 hs1
                split at h
                · cases h
                · rename_i tab2 hs2
                  cases h
                  obtain ⟨records, rest, hres, hlen, hall⟩ := hinv
                  rw [hres, ← hlen] at hs1
                  rw [← hlen] at hs2
                  obtain ⟨rest1, htab⟩ := store_record records rest tab1 tab2 _ hs1 hs2
                  refine ⟨_, rest1, htab, by simp [hlen], ?_⟩
                  intro s hs
                  rcases List.mem_append.mp hs with hs | hs
                  · exact hall s hs
                  · rw [List.mem_singleton] at hs
                    exact ⟨_, _, _, hstar, hs⟩
            · cases h; exact hinv
          · cases h; exact hinv
    · cases h; exact hinv

/-- The scan loops keep the invariant of the scan state. -/
theorem scan_loop_inv (rnd : ℚ → Dbl) (MAX_STARS : Nat) (calls : PeakerCalls)
    (wave_image real_image : Int → Int → Option Nat) (threshold norm : Nat) (bg : Dbl)
    (layer : Int) (sf : star_finder_params) (positions : List (Int × Int)) (st st1 : ScanState)
    (hinv : ScanInv rnd sf st)
    (h : scan_loop rnd MAX_STARS calls wave_image real_image threshold norm bg layer sf
      positions st = some st1) : ScanInv rnd sf st1 := by
  induction positions generalizing st with
  | nil =>
    simp only [scan_loop] at h
    cases h
    exact hinv
  | cons p positions ih =>
    obtain ⟨x, y⟩ := p
    simp only [scan_loop] at h
    split at h
    · cases h
    · rename_i st2 hst2
      exact ih st2 (scan_pixel_inv rnd MAX_STARS calls wave_image real_image threshold norm bg
        layer sf st st2 x y hinv hst2) h

/-- Changing the position of a record does not change what the acceptance test
guarantees. -/
theorem Accepted_placed (rnd : ℚ → Dbl) (sf : star_finder_params) (cur : fitted_PSF)
    (x y : Dbl) (h : Accepted rnd sf cur) : Accepted rnd sf { cur with xpos := x, ypos := y } :=
  h

/-- The array returned by `peaker`, when it returns one: a non-empty sequence of
records followed by the NULL terminator, each record being a fit that `is_star`
accepted, with its position set; the count stored in `*nb_stars` is their number. -/
theorem peaker_returned_array (rnd : ℚ → Dbl) (MAX_STARS : Nat) (calls : PeakerCalls)
    (fit : fits) (layer : Int) (sf : star_finder_params) (nb_stars : Option Int)
    (area : Option rectangle) (tab : StarTab) (nb : Option Int)
    (h : peaker rnd MAX_STARS calls fit layer sf nb_stars area = some ⟨some tab, nb⟩) :
    ∃ (records : List fitted_PSF) (rest : StarTab),
      tab = tabOf records rest ∧ records ≠ []
        ∧ nb = nb_stars.map (fun _ => (records.length : Int))
        ∧ ∀ s ∈ records, ∃ cur x y, is_star rnd cur sf = true
            ∧ s = { cur with xpos := x, ypos := y } := by
  unfold peaker at h
  simp only at h
  split at h
  · split at h
    · cases h
    · rename_i fresh _
      split at h
      · cases h
      · rename_i results hres
        split at h
        · cases h
        · rename_i threshold norm bg _
          split at h
          · cases h
          · split at h
            · cases h
            · split at h
              · cases h
              · split at h
                · cases h
                · rename_i st hst
                  have hinit : ScanInv rnd sf ⟨0, results⟩ := by
                    cases fresh with
                    | nil => simp [store] at hres
                    | cons slot rest0 =>
                      simp only [store, List.length_cons, Nat.zero_lt_succ, if_true,
                        List.set_cons_zero, Option.some.injEq] at hres
                      exact ⟨[], rest0, by simp [tabOf, ← hres], rfl, by simp⟩
                  obtain ⟨records, rest, hr, hlen, hall⟩ :=
                    scan_loop_inv rnd MAX_STARS calls _ _ threshold norm bg layer sf _ _ st hinit hst
                  by_cases hz : st.nbstars = 0
                  · simp [hz, sort_stars] at h
                  · rw [if_neg hz, hr, ← hlen, sort_stars_tabOf] at h
                    simp only [Option.some.injEq, PeakerResult.mk.injEq] at h
                    have hnan : ∀ s ∈ records, s.mag.isnan = false := by
                      intro s hs
                      obtain ⟨cur, x, y, hstar, rfl⟩ := hall s hs
                      exact (is_star_accepted rnd cur sf hstar).2.2.2.2.2.2.1
                    have hperm := calls.qsort.perm compare_stars records
                      (compare_stars_consistent records hnan)
                    refine ⟨_, rest, h.1.symm, ?_, ?_, ?_⟩
                    · intro he
                      have hl := hperm.length_eq
                      rw [he] at hl
                      simp only [List.length_nil] at hl
                      omega
                    · rw [← h.2, hperm.length_eq]
                    · intro s hs
                      exact hall s (hperm.mem_iff.mp hs)
  · cases h

/-- C4, amended: a record accepted by `is_star`, and therefore every record of the
array returned by `peaker`, has fwhmx > 0 and fwhmy > 0, has no NaN among fwhmx,
fwhmy, x0, y0 and mag, has an amplitude that is NaN or `>= 0.01`, and has
`fwhmy/fwhmx >= roundness` unless that quotient or the roundness is NaN. -/
theorem accepted_records (rnd : ℚ → Dbl) (sf : star_finder_params) :
    (∀ result : fitted_PSF, is_star rnd result sf = true → Accepted rnd sf result)
      ∧ ∀ (MAX_STARS : Nat) (calls : PeakerCalls) (fit : fits) (layer : Int)
          (nb_stars : Option Int) (area : Option rectangle) (tab : StarTab) (nb : Option Int),
          peaker rnd MAX_STARS calls fit layer sf nb_stars area = some ⟨some tab, nb⟩ →
          ∃ (records : List fitted_PSF) (rest : StarTab),
            tab = tabOf records rest ∧ ∀ s ∈ records, Accepted rnd sf s := by
  refine ⟨fun result h => is_star_accepted rnd result sf h, ?_⟩
  intro MAX_STARS calls fit layer nb_stars area tab nb h
  obtain ⟨records, rest, htab, -, -, hall⟩ :=
    peaker_returned_array rnd MAX_STARS calls fit layer sf nb_stars area tab nb h
  refine ⟨records, rest, htab, ?_⟩
  intro s hs
  obtain ⟨cur, x, y, hstar, rfl⟩ := hall s hs
  exact Accepted_placed rnd sf cur x y (is_star_accepted rnd cur sf hstar)

/-- The sample run of `peaker`: both tips of the U-shaped plateau are fitted and
accepted, and the array of the two records is returned with the count 2. -/
theorem peaker_sample_run :
    peaker Dbl.exact 3 sampleCalls sampleFits 0 sampleParams (some 0) none
      = some ⟨some (tabOf [{ fitAt 1 1 with xpos := Dbl.fin 0, ypos := Dbl.fin 0 },
          { fitAt 1 1 with xpos := Dbl.fin 2, ypos := Dbl.fin 0 }] [none]), some 2⟩ := by
  have hthr : Compute_threshold Dbl.exact sampleCalls sampleParams.sigma 0
      = some (1, 100, Dbl.fin 0) := by
    simp [Compute_threshold, sampleCalls, sampleParams, Dbl.toWORD, roundHalfUp, Dbl.add,
      Dbl.mul, Dbl.exact]
    norm_num
  have hstar : is_star Dbl.exact (fitAt 1 1) sampleParams = true := by
    simp [is_star, fitAt, sampleParams, Dbl.isnan, Dbl.le, Dbl.lt, Dbl.gt, Dbl.div, Dbl.zero,
      Dbl.c0_01, Dbl.c200, Dbl.exact]
    norm_num
  have hpos : scan_positions sampleParams.radius 0 0 5 4
      = [(1, 1), (2, 1), (3, 1), (1, 2), (2, 2), (3, 2)] := by decide
  have hc11 : is_candidate (pixel 5 4 uPlateau) 1 100 1 1 = some true := by decide
  have hc21 : is_candidate (pixel 5 4 uPlateau) 1 100 2 1 = some false := by decide
  have hc31 : is_candidate (pixel 5 4 uPlateau) 1 100 3 1 = some true := by decide
  have hc12 : is_candidate (pixel 5 4 uPlateau) 1 100 1 2 = some false := by decide
  have hc22 : is_candidate (pixel 5 4 uPlateau) 1 100 2 2 = some false := by decide
  have hc32 : is_candidate (pixel 5 4 uPlateau) 1 100 3 2 = some false := by decide
  obtain ⟨z1, hz1⟩ : ∃ z, fill_z (pixel 5 4 uPlateau) 1 1 1 = some z := ⟨_, rfl⟩
  obtain ⟨z3, hz3⟩ : ∃ z, fill_z (pixel 5 4 uPlateau) 1 3 1 = some z := ⟨_, rfl⟩
  have hsort : ∀ a b : fitted_PSF, compare_stars a b ≤ 0 →
      insertionQsort.sort compare_stars [a, b] = [a, b] := by
    intro a b hab
    simp [insertionQsort, insertionQsort_sort, List.insertionSort, List.orderedInsert, hab]
  have hx1 : Dbl.sub Dbl.exact (Dbl.sub Dbl.exact (Dbl.add Dbl.exact (Dbl.ofInt 1) (Dbl.fin 1))
      (Dbl.ofInt 1)) (Dbl.fin 1) = Dbl.fin 0 := by
    simp [Dbl.sub, Dbl.add, Dbl.ofInt, Dbl.exact]
  have hx3 : Dbl.sub Dbl.exact (Dbl.sub Dbl.exact (Dbl.add Dbl.exact (Dbl.ofInt 3) (Dbl.fin 1))
      (Dbl.ofInt 1)) (Dbl.fin 1) = Dbl.fin 2 := by
    simp [Dbl.sub, Dbl.add, Dbl.ofInt, Dbl.exact]
    norm_num
  have hrad : sampleParams.radius = 1 := rfl
  have hfx : (fitAt 1 1).x0 = Dbl.fin 1 := rfl
  have hfy : (fitAt 1 1).y0 = Dbl.fin 1 := rfl
  simp only [peaker, sampleFits, hthr, hpos, scan_loop, scan_pixel]
  simp [sampleCalls, store, hc11, hc21, hc31, hc12, hc22, hc32, hz1, hz3, hstar, hrad, hfx, hfy,
    hx1, hx3, sort_stars, derefAll, tabOf]
  rw [hsort _ _ (by simp [compare_stars, fitAt, Dbl.lt, Dbl.gt])]
  rfl

/-- An instance of `accepted_records`: the two records returned by the sample run
of `peaker` have the guaranteed shape. -/
theorem accepted_records_witness :
    peaker Dbl.exact 3 sampleCalls sampleFits 0 sampleParams (some 0) none
        = some ⟨some (tabOf [{ fitAt 1 1 with xpos := Dbl.fin 0, ypos := Dbl.fin 0 },
            { fitAt 1 1 with xpos := Dbl.fin 2, ypos := Dbl.fin 0 }] [none]), some 2⟩
      ∧ ∃ (records : List fitted_PSF) (rest : StarTab),
          tabOf [{ fitAt 1 1 with xpos := Dbl.fin 0, ypos := Dbl.fin 0 },
            { fitAt 1 1 with xpos := Dbl.fin 2, ypos := Dbl.fin 0 }] [none] = tabOf records rest
            ∧ ∀ s ∈ records, Accepted Dbl.exact sampleParams s :=
  ⟨peaker_sample_run,
    (accepted_records Dbl.exact sampleParams).2 3 sampleCalls sampleFits 0 (some 0) none _ _
      peaker_sample_run⟩

/-! ## Idempotence and stability of the sort -/

/-- The operator `<=` on doubles is antisymmetric. -/
theorem Dbl.eq_of_le_of_ge (a b : Dbl) (h1 : Dbl.le a b = true) (h2 : Dbl.le b a = true) :
    a = b := by
  cases a <;> cases b <;> simp_all [Dbl.le]
  exact le_antisymm h1 h2

/-- After `qsort` with `compare_stars`, records whose magnitudes are not NaN are
in ascending order of magnitude: every record has a magnitude `<=` that of every
later record. -/
theorem qsort_mags_ascending (Q : Qsort) (stars : List fitted_PSF)
    (hnan : ∀ s ∈ stars, s.mag.isnan = false) :
    (Q.sort compare_stars stars).Pairwise (fun a b => Dbl.le a.mag b.mag = true) := by
  have hc := compare_stars_consistent stars hnan
  have hperm := Q.perm compare_stars stars hc
  refine List.Pairwise.imp_of_mem ?_ (Q.sorted compare_stars stars hc)
  intro a b ha hb hab
  rw [compare_stars_le_iff] at hab
  rcases Dbl.lt_or_ge b.mag a.mag (hnan b (hperm.mem_iff.mp hb)) (hnan a (hperm.mem_iff.mp ha))
    with h0 | h0
  · rw [hab] at h0; cases h0
  · exact h0

/-- Two arrangements of the same records, both in ascending order of magnitude,
show the same sequence of magnitudes. -/
theorem mags_eq_of_perm (l1 l2 : List fitted_PSF) (hp : l1.Perm l2)
    (h1 : l1.Pairwise (fun a b => Dbl.le a.mag b.mag = true))
    (h2 : l2.Pairwise (fun a b => Dbl.le a.mag b.mag = true)) :
    l1.map (fun s => s.mag) = l2.map (fun s => s.mag) := by
  haveI : IsAntisymm Dbl (fun a b => Dbl.le a b = true) := ⟨Dbl.eq_of_le_of_ge⟩
  have e1 : (l1.map (fun s => s.mag)).Sorted (fun a b => Dbl.le a b = true) :=
    List.pairwise_map.mpr h1
  have e2 : (l2.map (fun s => s.mag)).Sorted (fun a b => Dbl.le a b = true) :=
    List.pairwise_map.mpr h2
  exact List.eq_of_perm_of_sorted (hp.map _) e1 e2

/-- Two lists with the same sequence of magnitudes are equal when the magnitude
determines the record among the records involved. -/
theorem eq_of_mags_eq (l1 l2 : List fitted_PSF)
    (hinj : ∀ a ∈ l1, ∀ b ∈ l2, a.mag = b.mag → a = b)
    (h : l1.map (fun s => s.mag) = l2.map (fun s => s.mag)) : l1 = l2 := by
  induction l1 generalizing l2 with
  | nil =>
    cases l2 with
    | nil => rfl
    | cons b l2 => simp at h
  | cons a l1 ih =>
    cases l2 with
    | nil => simp at h
    | cons b l2 =>
      simp only [List.map_cons, List.cons.injEq] at h
      have hab : a = b := hinj a (List.mem_cons_self _ _) b (List.mem_cons_self _ _) h.1
      rw [hab, ih l2 (fun x hx y hy => hinj x (List.mem_cons_of_mem _ hx) y
        (List.mem_cons_of_mem _ hy)) h.2]

/-- C12, as stated, fails: with a `qsort` that leaves equal elements in reverse
order, sorting two records of equal magnitude swaps them, and sorting the
sorted array swaps them back. -/
theorem sort_stars_not_idempotent :
    sort_stars reverseQsort (some (tabOf [starAt 10 10 1, starAt 20 20 1] [])) 2
        = some (some (tabOf [starAt 20 20 1, starAt 10 10 1] []))
      ∧ sort_stars reverseQsort (some (tabOf [starAt 20 20 1, starAt 10 10 1] [])) 2
        = some (some (tabOf [starAt 10 10 1, starAt 20 20 1] []))
      ∧ tabOf [starAt 10 10 1, starAt 20 20 1] [] ≠ tabOf [starAt 20 20 1, starAt 10 10 1] [] := by
  have h1 := sort_stars_tabOf reverseQsort [starAt 10 10 1, starAt 20 20 1] []
  have h2 := sort_stars_tabOf reverseQsort [starAt 20 20 1, starAt 10 10 1] []
  have e1 : reverseQsort.sort compare_stars [starAt 10 10 1, starAt 20 20 1]
      = [starAt 20 20 1, starAt 10 10 1] := by
    simp [reverseQsort, insertionQsort_sort, List.insertionSort, List.orderedInsert,
      compare_stars, starAt, Dbl.lt, Dbl.gt]
  have e2 : reverseQsort.sort compare_stars [starAt 20 20 1, starAt 10 10 1]
      = [starAt 10 10 1, starAt 20 20 1] := by
    simp [reverseQsort, insertionQsort_sort, List.insertionSort, List.orderedInsert,
      compare_stars, starAt, Dbl.lt, Dbl.gt]
  rw [e1] at h1
  rw [e2] at h2
  refine ⟨h1, h2, ?_⟩
  simp [tabOf, starAt]

/-- C12, amended: for an array of records whose magnitudes are not NaN, sorting
the sorted array again returns an array with the same sequence of magnitudes,
and with the same sequence of records when no two records share a magnitude. -/
theorem sort_stars_idempotent_mags (Q : Qsort) (stars : List fitted_PSF) (rest : StarTab)
    (hnan : ∀ s ∈ stars, s.mag.isnan = false) :
    sort_stars Q (some (tabOf stars rest)) stars.length
        = some (some (tabOf (Q.sort compare_stars stars) rest))
      ∧ sort_stars Q (some (tabOf (Q.sort compare_stars stars) rest)) stars.length
        = some (some (tabOf (Q.sort compare_stars (Q.sort compare_stars stars)) rest))
      ∧ (Q.sort compare_stars (Q.sort compare_stars stars)).map (fun s => s.mag)
        = (Q.sort compare_stars stars).map (fun s => s.mag)
      ∧ ((∀ a ∈ stars, ∀ b ∈ stars, a.mag = b.mag → a = b) →
          Q.sort compare_stars (Q.sort compare_stars stars) = Q.sort compare_stars stars) := by
  have hc := compare_stars_consistent stars hnan
  have hperm := Q.perm compare_stars stars hc
  have hnan1 : ∀ s ∈ Q.sort compare_stars stars, s.mag.isnan = false :=
    fun s hs => hnan s (hperm.mem_iff.mp hs)
  have hperm1 := Q.perm compare_stars _ (compare_stars_consistent _ hnan1)
  have hmags := mags_eq_of_perm _ _ hperm1 (qsort_mags_ascending Q _ hnan1)
    (qsort_mags_ascending Q stars hnan)
  refine ⟨sort_stars_tabOf Q stars rest, ?_, hmags, ?_⟩
  · have h := sort_stars_tabOf Q (Q.sort compare_stars stars) rest
    rw [hperm.length_eq] at h
    exact h
  · intro hinj
    refine eq_of_mags_eq _ _ ?_ hmags
    intro a ha b hb hab
    exact hinj a (hperm.mem_iff.mp (hperm1.mem_iff.mp ha)) b (hperm.mem_iff.mp hb) hab

/-- An instance of `sort_stars_idempotent_mags`: two stars of magnitudes 2 and 1. -/
theorem sort_stars_idempotent_mags_witness :
    (∀ s ∈ [starAt 10 10 2, starAt 20 20 1], s.mag.isnan = false)
      ∧ (insertionQsort.sort compare_stars
            (insertionQsort.sort compare_stars [starAt 10 10 2, starAt 20 20 1])).map
          (fun s => s.mag)
        = (insertionQsort.sort compare_stars [starAt 10 10 2, starAt 20 20 1]).map
          (fun s => s.mag) := by
  have hnan : ∀ s ∈ [starAt 10 10 2, starAt 20 20 1], s.mag.isnan = false := by
    intro s hs
    simp only [List.mem_cons, List.mem_singleton, List.not_mem_nil, or_false] at hs
    rcases hs with rfl | rfl <;> rfl
  exact ⟨hnan, (sort_stars_idempotent_mags insertionQsort _ [] hnan).2.2.1⟩

/-- C13, as stated, fails: with a `qsort` that leaves equal elements in reverse
order, the two records of magnitude 1 come out in the order opposite to their
input order. -/
theorem sort_stars_not_stable :
    sort_stars reverseQsort
        (some (tabOf [starAt 10 10 1, starAt 30 30 0, starAt 20 20 1] [])) 3
        = some (some (tabOf [starAt 30 30 0, starAt 20 20 1, starAt 10 10 1] []))
      ∧ (starAt 10 10 1).mag = (starAt 20 20 1).mag
      ∧ List.Sublist [starAt 10 10 1, starAt 20 20 1]
          [starAt 10 10 1, starAt 30 30 0, starAt 20 20 1]
      ∧ ¬ List.Sublist [starAt 10 10 1, starAt 20 20 1]
          [starAt 30 30 0, starAt 20 20 1, starAt 10 10 1] := by
  have h1 := sort_stars_tabOf reverseQsort [starAt 10 10 1, starAt 30 30 0, starAt 20 20 1] []
  have e1 : reverseQsort.sort compare_stars [starAt 10 10 1, starAt 30 30 0, starAt 20 20 1]
      = [starAt 30 30 0, starAt 20 20 1, starAt 10 10 1] := by
    simp [reverseQsort, insertionQsort_sort, List.insertionSort, List.orderedInsert,
      compare_stars, starAt, Dbl.lt, Dbl.gt]
    norm_num
  rw [e1] at h1
  exact ⟨h1, rfl, by decide, by decide⟩

/-- A double strictly below another is not above or equal to it. -/
theorem Dbl.not_ge_of_lt (a b : Dbl) (h : Dbl.lt a b = true) : Dbl.le b a = false := by
  cases a <;> cases b <;> simp_all [Dbl.lt, Dbl.le]

/-- C13, amended: `sort_stars` orders the records by magnitude alone. For an
array of records whose magnitudes are not NaN, two records of different
magnitudes come out with the smaller magnitude first, whatever their input
order: the record of larger magnitude never precedes the other one. -/
theorem sort_stars_orders_by_mag (Q : Qsort) (stars : List fitted_PSF) (rest : StarTab)
    (hnan : ∀ s ∈ stars, s.mag.isnan = false) :
    sort_stars Q (some (tabOf stars rest)) stars.length
        = some (some (tabOf (Q.sort compare_stars stars) rest))
      ∧ ∀ a b : fitted_PSF, Dbl.lt a.mag b.mag = true →
          ¬ List.Sublist [b, a] (Q.sort compare_stars stars) := by
  refine ⟨sort_stars_tabOf Q stars rest, ?_⟩
  intro a b hlt hsub
  have hp := (qsort_mags_ascending Q stars hnan).sublist hsub
  rw [List.pairwise_pair] at hp
  rw [Dbl.not_ge_of_lt _ _ hlt] at hp
  cases hp

/-- An instance of `sort_stars_orders_by_mag`: of two stars in descending order of
magnitude, the brighter one comes first after the sort. -/
theorem sort_stars_orders_by_mag_witness :
    (∀ s ∈ [starAt 10 10 2, starAt 20 20 1], s.mag.isnan = false)
      ∧ ¬ List.Sublist [starAt 10 10 2, starAt 20 20 1]
          (reverseQsort.sort compare_stars [starAt 10 10 2, starAt 20 20 1]) := by
  have hnan : ∀ s ∈ [starAt 10 10 2, starAt 20 20 1], s.mag.isnan = false := by
    intro s hs
    simp only [List.mem_cons, List.mem_singleton, List.not_mem_nil, or_false] at hs
    rcases hs with rfl | rfl <;> rfl
  refine ⟨hnan, (sort_stars_orders_by_mag reverseQsort _ [] hnan).2 (starAt 20 20 1)
    (starAt 10 10 2) ?_⟩
  simp [starAt, Dbl.lt]

/-! ## Properties of the threshold -/

/-- The conversion to `WORD` of a double that holds a 16-bit integer is exact. -/
theorem Dbl.toWORD_ofInt (n : Nat) (hw : n < 65536) : Dbl.toWORD (Dbl.ofInt n) = some n := by
  have h1 : (-1 : ℚ) < ((n : Int) : ℚ) := by
    have : (0 : ℚ) ≤ ((n : Int) : ℚ) := by exact_mod_cast Nat.zero_le n
    linarith
  have h2 : (((n : Int) : ℚ)) < 65536 := by exact_mod_cast hw
  simp only [Dbl.toWORD, Dbl.ofInt, h1, h2, and_self, if_true, Int.floor_intCast, Int.toNat_ofNat]

/-- The value of `Compute_threshold` when the statistics are available and the
conversion of their range maximum to `WORD` is defined. -/
theorem Compute_threshold_some (rnd : ℚ → Dbl) (calls : PeakerCalls) (ksigma : Dbl) (layer : Int)
    (stat : imstats) (norm : Nat) (hl : layer ≤ 3) (hs : calls.statistics = some stat)
    (hw : Dbl.toWORD stat.normValue = some norm) :
    Compute_threshold rnd calls ksigma layer
      = some (calls.round_to_WORD (Dbl.add rnd stat.median (Dbl.mul rnd ksigma stat.sigma)),
          norm, stat.median) := by
  simp only [Compute_threshold, hl, if_true, hs, hw]

/-- C14: when the statistics are available (their range maximum being a 16-bit
value `n`), `Compute_threshold` returns `round_to_WORD(median + k * sigma)`, sets
`*norm` to `n` and sets `*bg` to the median. -/
theorem Compute_threshold_available (rnd : ℚ → Dbl) (calls : PeakerCalls) (ksigma : Dbl)
    (layer : Int) (stat : imstats) (n : Nat) (hl : layer ≤ 3)
    (hs : calls.statistics = some stat) (hn : stat.normValue = Dbl.ofInt n) (hw : n < 65536) :
    Compute_threshold rnd calls ksigma layer
      = some (calls.round_to_WORD (Dbl.add rnd stat.median (Dbl.mul rnd ksigma stat.sigma)),
          n, stat.median) :=
  Compute_threshold_some rnd calls ksigma layer stat n hl hs (by rw [hn]; exact Dbl.toWORD_ofInt n hw)

/-- An instance of `Compute_threshold_available`: median 0, sigma 1, range maximum
100 and `k = 1` give the threshold 1. -/
theorem Compute_threshold_available_witness :
    ((0 : Int) ≤ 3 ∧ (100 : Nat) < 65536)
      ∧ Compute_threshold Dbl.exact sampleCalls (Dbl.fin 1) 0 = some (1, 100, Dbl.fin 0) := by
  have h := Compute_threshold_available Dbl.exact sampleCalls (Dbl.fin 1) 0
    { median := Dbl.fin 0, sigma := Dbl.fin 1, normValue := Dbl.fin 100 } 100 (by decide) rfl
    (by simp [Dbl.ofInt]) (by decide)
  refine ⟨⟨by decide, by decide⟩, ?_⟩
  rw [h]
  simp [sampleCalls, roundHalfUp, Dbl.add, Dbl.mul, Dbl.exact]
  norm_num

/-- A double that compares `<=` with itself is below plus infinity and above
minus infinity. -/
theorem Dbl.le_bounds (a : Dbl) (h : Dbl.le a a = true) :
    Dbl.le a Dbl.pinf = true ∧ Dbl.le Dbl.ninf a = true := by
  cases a <;> simp_all [Dbl.le]

/-- Adding a finite double on the left is monotone, for a monotone rounding. -/
theorem Dbl.add_le_add_left (rnd : ℚ → Dbl)
    (hrnd : ∀ p q : ℚ, p ≤ q → Dbl.le (rnd p) (rnd q) = true) (m : ℚ) (d1 d2 : Dbl)
    (h : Dbl.le d1 d2 = true) :
    Dbl.le (Dbl.add rnd (Dbl.fin m) d1) (Dbl.add rnd (Dbl.fin m) d2) = true := by
  cases d1 <;> cases d2 <;> simp_all [Dbl.le, Dbl.add]
  · exact (Dbl.le_bounds _ (hrnd _ _ (le_refl _))).2
  · exact (Dbl.le_bounds _ (hrnd _ _ (le_refl _))).1

/-- C15: for fixed statistics with a finite median and a finite, non-negative
sigma, a rounding of the arithmetic that is monotone and a `round_to_WORD` that
is monotone, the threshold returned by `Compute_threshold` does not decrease
when the multiplier `k` increases. -/
theorem Compute_threshold_monotone (rnd : ℚ → Dbl) (calls : PeakerCalls) (layer : Int)
    (stat : imstats) (norm : Nat) (m s k1 k2 : ℚ)
    (hrnd : ∀ p q : ℚ, p ≤ q → Dbl.le (rnd p) (rnd q) = true)
    (hround : ∀ a b : Dbl, Dbl.le a b = true → calls.round_to_WORD a ≤ calls.round_to_WORD b)
    (hl : layer ≤ 3) (hs : calls.statistics = some stat)
    (hw : Dbl.toWORD stat.normValue = some norm)
    (hm : stat.median = Dbl.fin m) (hsig : stat.sigma = Dbl.fin s) (hs0 : 0 ≤ s)
    (hk : k1 ≤ k2) :
    ∃ t1 t2 : Nat,
      Compute_threshold rnd calls (Dbl.fin k1) layer = some (t1, norm, stat.median)
        ∧ Compute_threshold rnd calls (Dbl.fin k2) layer = some (t2, norm, stat.median)
        ∧ t1 ≤ t2 := by
  refine ⟨_, _, Compute_threshold_some rnd calls (Dbl.fin k1) layer stat norm hl hs hw,
    Compute_threshold_some rnd calls (Dbl.fin k2) layer stat norm hl hs hw, ?_⟩
  apply hround
  rw [hm, hsig]
  apply Dbl.add_le_add_left rnd hrnd
  simp only [Dbl.mul]
  exact hrnd _ _ (mul_le_mul_of_nonneg_right hk hs0)

/-- The exact arithmetic is a monotone rounding. -/
theorem Dbl.exact_monotone (p q : ℚ) (h : p ≤ q) : Dbl.le (Dbl.exact p) (Dbl.exact q) = true := by
  simp [Dbl.exact, Dbl.le, h]

/-- The sample rounding of doubles to samples never exceeds 65535. -/
theorem roundHalfUp_le (a : Dbl) : roundHalfUp a ≤ 65535 := by
  cases a with
  | nan => simp [roundHalfUp]
  | ninf => simp [roundHalfUp]
  | pinf => simp [roundHalfUp]
  | fin p =>
    simp only [roundHalfUp]
    split_ifs with h1 h2
    · omega
    · omega
    · rw [Int.toNat_le]
      have h3 : ⌊p + 1 / 2⌋ < 65536 := by
        rw [Int.floor_lt]
        push_neg at h2
        push_cast
        linarith
      omega

/-- The sample rounding of doubles to samples is monotone. -/
theorem roundHalfUp_monotone (a b : Dbl) (h : Dbl.le a b = true) :
    roundHalfUp a ≤ roundHalfUp b := by
  cases a with
  | nan => simp [Dbl.le] at h
  | ninf => simp [roundHalfUp]
  | pinf =>
    cases b <;> simp_all [Dbl.le, roundHalfUp]
  | fin p =>
    cases b with
    | nan => simp [Dbl.le] at h
    | ninf => simp [Dbl.le] at h
    | pinf => exact roundHalfUp_le (Dbl.fin p)
    | fin q =>
      simp only [Dbl.le, decide_eq_true_eq] at h
      simp only [roundHalfUp]
      split_ifs with h1 h2 h3 h4 h5 h6
      · omega
      · omega
      · omega
      · linarith
      · omega
      · linarith
      · linarith
      · have h0 := roundHalfUp_le (Dbl.fin p)
        simp only [roundHalfUp, h1, h4, if_false] at h0
        exact h0
      · exact Int.toNat_le_toNat (Int.floor_mono (by linarith))

/-- An instance of `Compute_threshold_monotone`: with median 0 and sigma 1, the
multipliers 1 and 2 give thresholds in that order. -/
theorem Compute_threshold_monotone_witness :
    ((0 : Int) ≤ 3 ∧ (0 : ℚ) ≤ 1 ∧ (1 : ℚ) ≤ 2)
      ∧ ∃ t1 t2 : Nat,
          Compute_threshold Dbl.exact sampleCalls (Dbl.fin 1) 0 = some (t1, 100, Dbl.fin 0)
            ∧ Compute_threshold Dbl.exact sampleCalls (Dbl.fin 2) 0 = some (t2, 100, Dbl.fin 0)
            ∧ t1 ≤ t2 :=
  ⟨⟨by decide, by norm_num, by norm_num⟩,
    Compute_threshold_monotone Dbl.exact sampleCalls 0
      { median := Dbl.fin 0, sigma := Dbl.fin 1, normValue := Dbl.fin 100 } 100 0 1 1 2
      Dbl.exact_monotone roundHalfUp_monotone (by decide) rfl
      (by have h := Dbl.toWORD_ofInt 100 (by decide); simpa [Dbl.ofInt] using h) rfl rfl
      (by norm_num) (by norm_num)⟩

/-- When `Compute_threshold` leaves 0 in `norm`, `peaker` returns NULL before its
scan loops and leaves `*nb_stars` as it was. -/
theorem peaker_norm_zero (rnd : ℚ → Dbl) (MAX_STARS : Nat) (calls : PeakerCalls) (fit : fits)
    (layer : Int) (sf : star_finder_params) (nb_stars : Option Int) (area : Option rectangle)
    (threshold : Nat) (bg : Dbl) (hx : fit.rx > 0) (hy : fit.ry > 0)
    (halloc : ∀ fresh, calls.results_alloc = some fresh → fresh ≠ [])
    (hct : Compute_threshold rnd calls sf.sigma layer = some (threshold, 0, bg)) :
    peaker rnd MAX_STARS calls fit layer sf nb_stars area = some ⟨none, nb_stars⟩ := by
  unfold peaker
  simp only [hx, hy, and_self, if_true]
  cases hr : calls.results_alloc with
  | none => rfl
  | some fresh =>
    cases fresh with
    | nil => exact absurd rfl (halloc [] hr)
    | cons slot slots =>
      simp [store, hct]

/-- C16: when the statistics computation fails, `Compute_threshold` returns the
threshold 0 with `norm = 0` and `bg = 0`; in that case, and whenever the
statistics give a range maximum whose conversion to `WORD` is 0, `peaker`
returns NULL. It does so whatever the image buffers hold, even buffers with no
sample at all, in which any pixel read would be undefined. -/
theorem peaker_statistics_failure (rnd : ℚ → Dbl) (MAX_STARS : Nat) (calls : PeakerCalls)
    (fit : fits) (layer : Int) (sf : star_finder_params) (nb_stars : Option Int)
    (area : Option rectangle) (hx : fit.rx > 0) (hy : fit.ry > 0) (hl : layer ≤ 3)
    (halloc : ∀ fresh, calls.results_alloc = some fresh → fresh ≠ [])
    (hstat : calls.statistics = none
      ∨ ∃ stat, calls.statistics = some stat ∧ Dbl.toWORD stat.normValue = some 0) :
    (calls.statistics = none →
        Compute_threshold rnd calls sf.sigma layer = some (0, 0, Dbl.fin 0))
      ∧ peaker rnd MAX_STARS calls fit layer sf nb_stars area = some ⟨none, nb_stars⟩
      ∧ peaker rnd MAX_STARS { calls with wave := [] } { fit with pdata := fun _ => [] } layer sf
          nb_stars area = some ⟨none, nb_stars⟩ := by
  have hfail : calls.statistics = none →
      Compute_threshold rnd calls sf.sigma layer = some (0, 0, Dbl.fin 0) := by
    intro h
    simp only [Compute_threshold, hl, if_true, h]
  have hct : ∃ threshold bg, Compute_threshold rnd calls sf.sigma layer = some (threshold, 0, bg) := by
    rcases hstat with h | ⟨stat, h, hw⟩
    · exact ⟨0, Dbl.fin 0, hfail h⟩
    · exact ⟨_, _, Compute_threshold_some rnd calls sf.sigma layer stat 0 hl h hw⟩
  obtain ⟨threshold, bg, hct⟩ := hct
  refine ⟨hfail, peaker_norm_zero rnd MAX_STARS calls fit layer sf nb_stars area threshold bg hx hy
    halloc hct, ?_⟩
  refine peaker_norm_zero rnd MAX_STARS _ _ layer sf nb_stars area threshold bg hx hy halloc ?_
  simpa [Compute_threshold] using hct

/-- An instance of `peaker_statistics_failure`: the sample run with failing
statistics. -/
theorem peaker_statistics_failure_witness :
    (sampleFits.rx > 0 ∧ sampleFits.ry > 0 ∧ (0 : Int) ≤ 3)
      ∧ peaker Dbl.exact 3 { sampleCalls with statistics := none } sampleFits 0 sampleParams
          (some 7) none = some ⟨none, some 7⟩ :=
  ⟨⟨by decide, by decide, by decide⟩,
    (peaker_statistics_failure Dbl.exact 3 { sampleCalls with statistics := none } sampleFits 0
      sampleParams (some 7) none (by decide) (by decide) (by decide)
      (by intro fresh h; simp [sampleCalls] at h; subst h; simp) (Or.inl rfl)).2.1⟩

/-! ## The steps of the scan -/

/-- What a step of the scan does: it leaves the state alone, or, for a candidate
met below capacity whose fit is accepted, it stores the placed record in slot
`nbstars`, the terminator in the next slot, and increments `nbstars`. -/
theorem scan_pixel_cases (rnd : ℚ → Dbl) (MAX_STARS : Nat) (calls : PeakerCalls)
    (wave_image real_image : Int → Int → Option Nat) (threshold norm : Nat) (bg : Dbl)
    (layer : Int) (sf : star_finder_params) (st st1 : ScanState) (x y : Int)
    (h : scan_pixel rnd MAX_STARS calls wave_image real_image threshold norm bg layer sf st x y
      = some st1) :
    st1 = st
      ∨ ∃ (z : List (List Dbl)) (fitted : fitted_PSF) (tab1 : StarTab),
          is_candidate wave_image threshold norm x y = some true
            ∧ st.nbstars < MAX_STARS
            ∧ fill_z real_image sf.radius x y = some z
            ∧ calls.psf_global_minimisation z bg layer = some fitted
            ∧ is_star rnd (calls.fwhm_to_arcsec_if_needed fitted) sf = true
            ∧ store st.results st.nbstars
                (some (placed_star rnd sf x y (calls.fwhm_to_arcsec_if_needed fitted)))
              = some tab1
            ∧ store tab1 (st.nbstars + 1) none = some st1.results
            ∧ st1.nbstars = st.nbstars + 1 := by
  unfold scan_pixel at h
  split at h
  · cases h
  · rename_i bingo hb
    split at h
    · rename_i hcond
      split at h
      · cases h
      · rename_i z hz
        split at h
        · cases h; exact Or.inl rfl
        · rename_i fitted hfit
          simp only at h
          split at h
          · rename_i hstar
            split at h
            · split at h
              · cases h
              · rename_i tab1 hs1
                split at h
                · cases h
                · rename_i tab2 hs2
                  cases h
                  right
                  refine ⟨z, fitted, tab1, ?_, hcond.2, hz, hfit, hstar, hs1, hs2, rfl⟩
                  rw [hb, hcond.1]
            · cases h; exact Or.inl rfl
          · cases h; exact Or.inl rfl
    · cases h; exact Or.inl rfl

/-- A step of the scan keeps the records in place and keeps their property,
provided the record it may store for the pixel has the property. -/
theorem scan_pixel_invP (P : fitted_PSF → Prop) (rnd : ℚ → Dbl) (MAX_STARS : Nat)
    (calls : PeakerCalls) (wave_image real_image : Int → Int → Option Nat)
    (threshold norm : Nat) (bg : Dbl) (layer : Int) (sf : star_finder_params)
    (st st1 : ScanState) (x y : Int)
    (hP : ∀ s, StoredFrom rnd calls wave_image real_image threshold norm bg layer sf [(x, y)] s →
      P s)
    (hinv : ScanInvP P MAX_STARS st)
    (h : scan_pixel rnd MAX_STARS calls wave_image real_image threshold norm bg layer sf st x y
      = some st1) : ScanInvP P MAX_STARS st1 := by
  rcases scan_pixel_cases rnd MAX_STARS calls wave_image real_image threshold norm bg layer sf
    st st1 x y h with rfl | ⟨z, fitted, tab1, hc, hcap, hz, hfit, hstar, hs1, hs2, hn⟩
  · exact hinv
  · obtain ⟨records, rest, hres, hlen, -, hall⟩ := hinv
    rw [hres, ← hlen] at hs1
    rw [← hlen] at hs2
    obtain ⟨rest1, htab⟩ := store_record records rest tab1 st1.results _ hs1 hs2
    refine ⟨_, rest1, htab, by simp [hlen, hn], by omega, ?_⟩
    intro s hs
    rcases List.mem_append.mp hs with hs | hs
    · exact hall s hs
    · rw [List.mem_singleton] at hs
      exact hP s ⟨x, y, z, fitted, List.mem_singleton.mpr rfl, hc, hz, hfit, hstar, hs⟩

/-- The scan loops keep the records in place, and every record they hold at the
end was in the initial state or is the one stored for a visited candidate. -/
theorem scan_loop_invP (P : fitted_PSF → Prop) (rnd : ℚ → Dbl) (MAX_STARS : Nat)
    (calls : PeakerCalls) (wave_image real_image : Int → Int → Option Nat)
    (threshold norm : Nat) (bg : Dbl) (layer : Int) (sf : star_finder_params)
    (positions : List (Int × Int)) (st st1 : ScanState)
    (hP : ∀ s, StoredFrom rnd calls wave_image real_image threshold norm bg layer sf positions s →
      P s)
    (hinv : ScanInvP P MAX_STARS st)
    (h : scan_loop rnd MAX_STARS calls wave_image real_image threshold norm bg layer sf
      positions st = some st1) : ScanInvP P MAX_STARS st1 := by
  induction positions generalizing st with
  | nil =>
    simp only [scan_loop] at h
    cases h
    exact hinv
  | cons p positions ih =>
    obtain ⟨x, y⟩ := p
    simp only [scan_loop] at h
    split at h
    · cases h
    · rename_i st2 hst2
      have hmono : ∀ (ps qs : List (Int × Int)), (∀ q ∈ ps, q ∈ qs) → ∀ s,
          StoredFrom rnd calls wave_image real_image threshold norm bg layer sf ps s →
          StoredFrom rnd calls wave_image real_image threshold norm bg layer sf qs s := by
        rintro ps qs hsub s ⟨x1, y1, z, fitted, hmem, hrest⟩
        exact ⟨x1, y1, z, fitted, hsub _ hmem, hrest⟩
      refine ih st2 (fun s hs => hP s (hmono _ _ (fun q hq => List.mem_cons_of_mem _ hq) s hs))
        ?_ h
      refine scan_pixel_invP P rnd MAX_STARS calls wave_image real_image threshold norm bg layer
        sf st st2 x y (fun s hs => hP s (hmono _ _ ?_ s hs)) hinv hst2
      intro q hq
      rw [List.mem_singleton] at hq
      rw [hq]
      exact List.mem_cons_self _ _

/-- The two ways in which `peaker` returns: early with NULL, `*nb_stars` being
left alone (failed allocation, or `norm == 0`); or after the scan loops, with the
sorted array (NULL when no record was stored) and the count in `*nb_stars`. -/
theorem peaker_cases (rnd : ℚ → Dbl) (MAX_STARS : Nat) (calls : PeakerCalls) (fit : fits)
    (layer : Int) (sf : star_finder_params) (nb_stars : Option Int) (area : Option rectangle)
    (r : PeakerResult)
    (h : peaker rnd MAX_STARS calls fit layer sf nb_stars area = some r) :
    r = ⟨none, nb_stars⟩
      ∨ ∃ (fresh results : StarTab) (threshold norm : Nat) (bg : Dbl) (st : ScanState),
          calls.results_alloc = some fresh ∧ store fresh 0 none = some results
            ∧ Compute_threshold rnd calls sf.sigma layer = some (threshold, norm, bg)
            ∧ norm ≠ 0
            ∧ scan_loop rnd MAX_STARS calls (pixel fit.rx fit.ry calls.wave)
                (pixel fit.rx fit.ry (fit.pdata layer)) threshold norm bg layer sf
                (peaker_positions fit sf area) ⟨0, results⟩ = some st
            ∧ sort_stars calls.qsort (if st.nbstars = 0 then none else some st.results)
                (st.nbstars : Int) = some r.ret
            ∧ r.nb_stars = nb_stars.map (fun _ => (st.nbstars : Int)) := by
  unfold peaker at h
  simp only at h
  split at h
  · split at h
    · cases h; exact Or.inl rfl
    · rename_i fresh hfresh
      split at h
      · cases h
      · rename_i results hres
        split at h
        · cases h
        · rename_i threshold norm bg hct
          split at h
          · cases h; exact Or.inl rfl
          · rename_i hnorm
            split at h
            · cases h; exact Or.inl rfl
            · split at h
              · cases h; exact Or.inl rfl
              · split at h
                · cases h
                · rename_i st hst
                  split at h
                  · cases h
                  · rename_i sorted hsorted
                    cases h
                    exact Or.inr ⟨fresh, results, threshold, norm, bg, st, hfresh, hres, hct,
                      hnorm, hst, hsorted, rfl⟩
  · cases h

/-- A stored record has the magnitude of an accepted fit, which is not NaN. -/
theorem StoredFrom_mag (rnd : ℚ → Dbl) (calls : PeakerCalls)
    (wave_image real_image : Int → Int → Option Nat) (threshold norm : Nat) (bg : Dbl)
    (layer : Int) (sf : star_finder_params) (positions : List (Int × Int)) (s : fitted_PSF)
    (h : StoredFrom rnd calls wave_image real_image threshold norm bg layer sf positions s) :
    s.mag.isnan = false := by
  obtain ⟨x, y, z, fitted, -, -, -, -, hstar, rfl⟩ := h
  exact (is_star_accepted rnd _ sf hstar).2.2.2.2.2.2.1

/-- The result of a call of `peaker` that went through its scan loops: the
records collected by the scan, at most `MAX_STARS` of them, each stored for a
visited candidate whose fit was accepted; their number in `*nb_stars`; and as
returned array NULL when there is none, else the array of the records sorted by
`qsort` and followed by the NULL terminator. -/
theorem peaker_scan_result (rnd : ℚ → Dbl) (MAX_STARS : Nat) (calls : PeakerCalls) (fit : fits)
    (layer : Int) (sf : star_finder_params) (nb_stars : Option Int) (area : Option rectangle)
    (r : PeakerResult)
    (h : peaker rnd MAX_STARS calls fit layer sf nb_stars area = some r) :
    r = ⟨none, nb_stars⟩
      ∨ ∃ (threshold norm : Nat) (bg : Dbl) (collected : List fitted_PSF) (rest : StarTab),
          Compute_threshold rnd calls sf.sigma layer = some (threshold, norm, bg)
            ∧ norm ≠ 0 ∧ collected.length ≤ MAX_STARS
            ∧ (∀ s ∈ collected, StoredFrom rnd calls (pixel fit.rx fit.ry calls.wave)
                (pixel fit.rx fit.ry (fit.pdata layer)) threshold norm bg layer sf
                (peaker_positions fit sf area) s)
            ∧ r.nb_stars = nb_stars.map (fun _ => (collected.length : Int))
            ∧ ((collected = [] ∧ r.ret = none)
                ∨ (collected ≠ []
                    ∧ r.ret = some (tabOf (calls.qsort.sort compare_stars collected) rest))) := by
  rcases peaker_cases rnd MAX_STARS calls fit layer sf nb_stars area r h with
    h0 | ⟨fresh, results, threshold, norm, bg, st, hfresh, hres, hct, hnorm, hst, hsort, hnb⟩
  · exact Or.inl h0
  · right
    have hinit : ScanInvP (StoredFrom rnd calls (pixel fit.rx fit.ry calls.wave)
        (pixel fit.rx fit.ry (fit.pdata layer)) threshold norm bg layer sf
        (peaker_positions fit sf area)) MAX_STARS ⟨0, results⟩ := by
      cases fresh with
      | nil => simp [store] at hres
      | cons slot rest0 =>
        simp only [store, List.length_cons, Nat.zero_lt_succ, if_true,
          List.set_cons_zero, Option.some.injEq] at hres
        exact ⟨[], rest0, by simp [tabOf, ← hres], rfl, Nat.zero_le _, by simp⟩
    obtain ⟨collected, rest, hr, hlen, hcap, hall⟩ :=
      scan_loop_invP _ rnd MAX_STARS calls _ _ threshold norm bg layer sf _ _ st
        (fun _ hs => hs) hinit hst
    refine ⟨threshold, norm, bg, collected, rest, hct, hnorm, by omega, hall, by rw [hnb, hlen],
      ?_⟩
    by_cases hz : st.nbstars = 0
    · left
      rw [if_pos hz] at hsort
      simp only [sort_stars, Option.some.injEq] at hsort
      exact ⟨List.length_eq_zero.mp (by omega), hsort.symm⟩
    · right
      rw [if_neg hz, hr, ← hlen, sort_stars_tabOf] at hsort
      refine ⟨?_, (Option.some.inj hsort).symm⟩
      intro he
      rw [he] at hlen
      exact hz hlen.symm

/-! ## The array returned by the scan -/

/-- C11: the array returned by `peaker` is sorted in ascending order of magnitude.
When `peaker` returns an array, it holds `n` records followed by the NULL
terminator, `n` being the count left in `*nb_stars`; none of them has a NaN
magnitude and `mag[i] <= mag[i+1]` holds for every `i` with `i + 1 < n`. -/
theorem peaker_sorted (rnd : ℚ → Dbl) (MAX_STARS : Nat) (calls : PeakerCalls) (fit : fits)
    (layer : Int) (sf : star_finder_params) (nb_stars : Option Int) (area : Option rectangle)
    (tab : StarTab) (nb : Option Int)
    (h : peaker rnd MAX_STARS calls fit layer sf nb_stars area = some ⟨some tab, nb⟩) :
    ∃ (records : List fitted_PSF) (rest : StarTab),
      tab = tabOf records rest ∧ nb = nb_stars.map (fun _ => (records.length : Int))
        ∧ (∀ s ∈ records, s.mag.isnan = false)
        ∧ ∀ (i : Nat) (hi : i + 1 < records.length),
            Dbl.le (records.get ⟨i, Nat.lt_of_succ_lt hi⟩).mag (records.get ⟨i + 1, hi⟩).mag
              = true := by
  rcases peaker_scan_result rnd MAX_STARS calls fit layer sf nb_stars area _ h with
    h0 | ⟨threshold, norm, bg, collected, rest, -, -, -, hall, hnb, hret⟩
  · cases h0
  · rcases hret with ⟨-, hnone⟩ | ⟨-, hsome⟩
    · cases hnone
    · have hnan : ∀ s ∈ collected, s.mag.isnan = false := fun s hs =>
        StoredFrom_mag rnd calls _ _ threshold norm bg layer sf _ s (hall s hs)
      have hperm := calls.qsort.perm compare_stars collected
        (compare_stars_consistent collected hnan)
      refine ⟨calls.qsort.sort compare_stars collected, rest, Option.some.inj hsome, ?_, ?_, ?_⟩
      · simp only at hnb
        rw [hnb, hperm.length_eq]
      · exact fun s hs => hnan s (hperm.mem_iff.mp hs)
      · intro i hi
        exact (List.pairwise_iff_get.mp (qsort_mags_ascending calls.qsort collected hnan))
          ⟨i, Nat.lt_of_succ_lt hi⟩ ⟨i + 1, hi⟩ (by simp [Fin.lt_def])

/-- An instance of `peaker_sorted`: the array returned by the sample run. -/
theorem peaker_sorted_witness :
    peaker Dbl.exact 3 sampleCalls sampleFits 0 sampleParams (some 0) none
        = some ⟨some (tabOf [{ fitAt 1 1 with xpos := Dbl.fin 0, ypos := Dbl.fin 0 },
            { fitAt 1 1 with xpos := Dbl.fin 2, ypos := Dbl.fin 0 }] [none]), some 2⟩
      ∧ ∃ (records : List fitted_PSF) (rest : StarTab),
          tabOf [{ fitAt 1 1 with xpos := Dbl.fin 0, ypos := Dbl.fin 0 },
              { fitAt 1 1 with xpos := Dbl.fin 2, ypos := Dbl.fin 0 }] [none] = tabOf records rest
            ∧ some 2 = (some (0 : Int)).map (fun _ => (records.length : Int))
            ∧ (∀ s ∈ records, s.mag.isnan = false)
            ∧ ∀ (i : Nat) (hi : i + 1 < records.length),
                Dbl.le (records.get ⟨i, Nat.lt_of_succ_lt hi⟩).mag
                  (records.get ⟨i + 1, hi⟩).mag = true :=
  ⟨peaker_sample_run,
    peaker_sorted Dbl.exact 3 sampleCalls sampleFits 0 sampleParams (some 0) none _ _
      peaker_sample_run⟩

/-! ## The reads of the scan -/

/-- Reads that are all defined give all their values. -/
theorem allDefined_map_some {α β : Type} (l : List α) (f : α → β) :
    allDefined (l.map (fun a => some (f a))) = some (l.map f) := by
  induction l with
  | nil => rfl
  | cons a l ih => simp [allDefined, ih]

/-- The values of a loop variable, counted from the start of the loop. -/
theorem loop_range_eq (lo : Int) (n : Int) :
    loop_range lo (lo + n) = (List.range n.toNat).map (fun (k : Nat) => lo + (k : Int)) := by
  unfold loop_range
  rw [show lo + n - lo = n by omega]

/-- The matrix filled for a pixel whose patch is read without fault: it is the
patch of the specification, taken from the image that is read. -/
theorem fill_z_eq (real_image : Int → Int → Option Nat) (value : Int → Int → Nat)
    (radius x y : Int)
    (hread : ∀ i ∈ loop_range (x - radius) (x + radius),
      ∀ j ∈ loop_range (y - radius) (y + radius), real_image j i = some (value j i)) :
    fill_z real_image radius x y = some (patch_of value radius x y) := by
  have hinner : ∀ i ∈ loop_range (x - radius) (x + radius),
      allDefined ((loop_range (y - radius) (y + radius)).map (fun j =>
        (real_image j i).map (fun (v : Nat) => Dbl.ofInt (v : Int))))
      = some ((loop_range (y - radius) (y + radius)).map (fun j => Dbl.ofInt (value j i))) := by
    intro i hi
    rw [← allDefined_map_some]
    congr 1
    apply List.map_congr_left
    intro j hj
    rw [hread i hi j hj]
    rfl
  unfold fill_z
  rw [List.map_congr_left hinner, allDefined_map_some]
  have ex : x + radius = (x - radius) + 2 * radius := by omega
  have ey : y + radius = (y - radius) + 2 * radius := by omega
  rw [ex, ey, loop_range_eq, loop_range_eq, patch_of, List.map_map]
  congr 1
  apply List.map_congr_left
  intro ii _
  simp only [Function.comp, List.map_map]
  rfl

/-- A step of the scan returns when the candidate test and the patch of the pixel
are read without fault and the state is laid out in an array of
`MAX_STARS + 1` slots; the state it returns is laid out in the same way. -/
theorem scan_pixel_total (rnd : ℚ → Dbl) (MAX_STARS : Nat) (calls : PeakerCalls)
    (wave_image real_image : Int → Int → Option Nat) (threshold norm : Nat) (bg : Dbl)
    (layer : Int) (sf : star_finder_params) (st : ScanState) (x y : Int)
    (hlay : ScanLayout MAX_STARS st)
    (hc : ∃ bingo, is_candidate wave_image threshold norm x y = some bingo)
    (hz : ∃ z, fill_z real_image sf.radius x y = some z) :
    ∃ st1, scan_pixel rnd MAX_STARS calls wave_image real_image threshold norm bg layer sf st x y
        = some st1 ∧ ScanLayout MAX_STARS st1 := by
  obtain ⟨bingo, hc⟩ := hc
  obtain ⟨z, hz⟩ := hz
  unfold scan_pixel
  simp only [hc]
  by_cases hcond : bingo = true ∧ st.nbstars < MAX_STARS
  · simp only [hcond, and_self, if_true, hz]
    cases hfit : calls.psf_global_minimisation z bg layer with
    | none => exact ⟨st, rfl, hlay⟩
    | some fitted =>
      simp only
      by_cases hstar : is_star rnd (calls.fwhm_to_arcsec_if_needed fitted) sf = true
      · simp only [hstar, if_true]
        obtain ⟨records, rest, hres, hlen, hsize⟩ := hlay
        cases rest with
        | nil =>
          rw [hres] at hsize
          simp [tabOf] at hsize
          omega
        | cons slot rest1 =>
          have h1 := store_append (records.map some) none
            (some (placed_star rnd sf x y (calls.fwhm_to_arcsec_if_needed fitted))) (slot :: rest1)
          have h2 := store_append (records.map some
            ++ [some (placed_star rnd sf x y (calls.fwhm_to_arcsec_if_needed fitted))]) slot none
            rest1
          simp only [List.length_map, List.length_append, List.length_singleton,
            List.append_assoc, List.singleton_append] at h1 h2
          rw [hlen] at h1 h2
          rw [show records.map some ++ none :: slot :: rest1 = st.results from hres.symm] at h1
          refine ⟨⟨st.nbstars + 1, records.map some
            ++ some (placed_star rnd sf x y (calls.fwhm_to_arcsec_if_needed fitted))
              :: none :: rest1⟩, ?_, ?_⟩
          · show (match store st.results st.nbstars
                (some (placed_star rnd sf x y (calls.fwhm_to_arcsec_if_needed fitted))) with
              | none => none
              | some results1 =>
                match store results1 (st.nbstars + 1) none with
                | none => none
                | some results2 => some (ScanState.mk (st.nbstars + 1) results2)) = _
            rw [h1]
            simp only
            rw [h2]
          · refine ⟨records ++ [placed_star rnd sf x y (calls.fwhm_to_arcsec_if_needed fitted)],
              rest1, by simp [tabOf], by simp [hlen], ?_⟩
            rw [hres] at hsize
            simp only [tabOf, List.length_append, List.length_map, List.length_cons] at hsize ⊢
            omega
      · simp only [hstar]
        exact ⟨st, rfl, hlay⟩
  · simp only [hcond, if_false]
    exact ⟨st, rfl, hlay⟩

/-- The scan loops return when every visited pixel has its candidate test and
its patch read without fault, from a state laid out in an array of
`MAX_STARS + 1` slots. -/
theorem scan_loop_total (rnd : ℚ → Dbl) (MAX_STARS : Nat) (calls : PeakerCalls)
    (wave_image real_image : Int → Int → Option Nat) (threshold norm : Nat) (bg : Dbl)
    (layer : Int) (sf : star_finder_params) (positions : List (Int × Int)) (st : ScanState)
    (hlay : ScanLayout MAX_STARS st)
    (hc : ∀ p ∈ positions, ∃ bingo, is_candidate wave_image threshold norm p.1 p.2 = some bingo)
    (hz : ∀ p ∈ positions, ∃ z, fill_z real_image sf.radius p.1 p.2 = some z) :
    ∃ st1, scan_loop rnd MAX_STARS calls wave_image real_image threshold norm bg layer sf
        positions st = some st1 ∧ ScanLayout MAX_STARS st1 := by
  induction positions generalizing st with
  | nil => exact ⟨st, rfl, hlay⟩
  | cons p positions ih =>
    obtain ⟨x, y⟩ := p
    obtain ⟨st2, hst2, hlay2⟩ := scan_pixel_total rnd MAX_STARS calls wave_image real_image
      threshold norm bg layer sf st x y hlay (hc (x, y) (List.mem_cons_self _ _))
      (hz (x, y) (List.mem_cons_self _ _))
    obtain ⟨st1, hst1, hlay1⟩ := ih st2 hlay2
      (fun q hq => hc q (List.mem_cons_of_mem _ hq)) (fun q hq => hz q (List.mem_cons_of_mem _ hq))
    exact ⟨st1, by simp only [scan_loop, hst2, hst1], hlay1⟩

/-- A checked read inside an image whose buffer holds `nx * ny` samples is
defined. -/
theorem inside_defined (nx ny : Int) (data : List Nat) (y x : Int)
    (hlen : (data.length : Int) = nx * ny) (hy0 : 0 ≤ y) (hy1 : y < ny) (hx0 : 0 ≤ x)
    (hx1 : x < nx) : inside nx ny data y x = some (sample nx ny data y x) := by
  unfold inside
  rw [if_pos ⟨hx0, hx1, hy0, hy1⟩]
  exact pixel_defined nx ny data y x hlen hy0 hy1 hx0 hx1

/-- The candidate test gives the same value on two images that agree on the
window of the pixel. -/
theorem is_candidate_congr (image1 image2 : Int → Int → Option Nat) (value : Int → Int → Nat)
    (threshold norm : Nat) (x y : Int)
    (h1 : ∀ yy ∈ [y - 1, y, y + 1], ∀ xx ∈ [x - 1, x, x + 1], image1 yy xx = some (value yy xx))
    (h2 : ∀ yy ∈ [y - 1, y, y + 1], ∀ xx ∈ [x - 1, x, x + 1], image2 yy xx = some (value yy xx)) :
    is_candidate image1 threshold norm x y = is_candidate image2 threshold norm x y := by
  obtain ⟨b1, e1, i1⟩ := is_candidate_spec image1 value threshold norm x y h1
  obtain ⟨b2, e2, i2⟩ := is_candidate_spec image2 value threshold norm x y h2
  rw [e1, e2]
  congr 1
  rw [Bool.eq_iff_iff, i1, i2]

/-- The scan loops give the same result with two pairs of images on which the
candidate tests and the patches of the visited pixels are the same. -/
theorem scan_loop_congr (rnd : ℚ → Dbl) (MAX_STARS : Nat) (calls : PeakerCalls)
    (wave1 real1 wave2 real2 : Int → Int → Option Nat) (threshold norm : Nat) (bg : Dbl)
    (layer : Int) (sf : star_finder_params) (positions : List (Int × Int)) (st : ScanState)
    (hc : ∀ p ∈ positions,
      is_candidate wave1 threshold norm p.1 p.2 = is_candidate wave2 threshold norm p.1 p.2)
    (hz : ∀ p ∈ positions, fill_z real1 sf.radius p.1 p.2 = fill_z real2 sf.radius p.1 p.2) :
    scan_loop rnd MAX_STARS calls wave1 real1 threshold norm bg layer sf positions st
      = scan_loop rnd MAX_STARS calls wave2 real2 threshold norm bg layer sf positions st := by
  induction positions generalizing st with
  | nil => rfl
  | cons p positions ih =>
    obtain ⟨x, y⟩ := p
    have e : scan_pixel rnd MAX_STARS calls wave1 real1 threshold norm bg layer sf st x y
        = scan_pixel rnd MAX_STARS calls wave2 real2 threshold norm bg layer sf st x y := by
      unfold scan_pixel
      rw [hc (x, y) (List.mem_cons_self _ _), hz (x, y) (List.mem_cons_self _ _)]
    simp only [scan_loop, e]
    cases scan_pixel rnd MAX_STARS calls wave2 real2 threshold norm bg layer sf st x y with
    | none => rfl
    | some st1 =>
      exact ih st1 (fun q hq => hc q (List.mem_cons_of_mem _ hq))
        (fun q hq => hz q (List.mem_cons_of_mem _ hq))

/-- The coordinates read for a visited pixel, in its window and in its patch, are
inside the image when the radius is at least 1 and the search area lies inside
the image. -/
theorem visited_reads_inside (nx ny radius areaX0 areaY0 areaX1 areaY1 : Int) (p : Int × Int)
    (hrad : 1 ≤ radius) (hx0 : 0 ≤ areaX0) (hx1 : areaX1 ≤ nx) (hy0 : 0 ≤ areaY0)
    (hy1 : areaY1 ≤ ny) (hp : p ∈ scan_positions radius areaX0 areaY0 areaX1 areaY1) :
    (∀ dx dy : Int, -1 ≤ dx → dx ≤ 1 → -1 ≤ dy → dy ≤ 1 →
        0 ≤ p.1 + dx ∧ p.1 + dx < nx ∧ 0 ≤ p.2 + dy ∧ p.2 + dy < ny)
      ∧ ∀ i ∈ loop_range (p.1 - radius) (p.1 + radius),
          ∀ j ∈ loop_range (p.2 - radius) (p.2 + radius), 0 ≤ i ∧ i < nx ∧ 0 ≤ j ∧ j < ny := by
  obtain ⟨x, y⟩ := p
  rw [mem_scan_positions] at hp
  constructor
  · intro dx dy h1 h2 h3 h4
    simp only
    omega
  · intro i hi j hj
    rw [mem_loop_range] at hi hj
    simp only at hi hj
    omega

/-- The scan loops with every read checked against the bounds of the image: for a
radius of at least 1 and a search area inside the image they run to their end,
with the result they have without the check. -/
theorem scan_loop_checked (rnd : ℚ → Dbl) (MAX_STARS : Nat) (calls : PeakerCalls)
    (nx ny : Int) (wave real : List Nat) (threshold norm : Nat) (bg : Dbl) (layer : Int)
    (sf : star_finder_params) (areaX0 areaY0 areaX1 areaY1 : Int) (st : ScanState)
    (hwave : (wave.length : Int) = nx * ny) (hreal : (real.length : Int) = nx * ny)
    (hrad : 1 ≤ sf.radius) (hx0 : 0 ≤ areaX0) (hx1 : areaX1 ≤ nx) (hy0 : 0 ≤ areaY0)
    (hy1 : areaY1 ≤ ny) (hlay : ScanLayout MAX_STARS st) :
    (∀ p ∈ scan_positions sf.radius areaX0 areaY0 areaX1 areaY1,
        (∀ dx dy : Int, -1 ≤ dx → dx ≤ 1 → -1 ≤ dy → dy ≤ 1 →
            0 ≤ p.1 + dx ∧ p.1 + dx < nx ∧ 0 ≤ p.2 + dy ∧ p.2 + dy < ny)
          ∧ ∀ i ∈ loop_range (p.1 - sf.radius) (p.1 + sf.radius),
              ∀ j ∈ loop_range (p.2 - sf.radius) (p.2 + sf.radius),
                0 ≤ i ∧ i < nx ∧ 0 ≤ j ∧ j < ny)
      ∧ ∃ st1,
          scan_loop rnd MAX_STARS calls (inside nx ny wave) (inside nx ny real) threshold norm bg
              layer sf (scan_positions sf.radius areaX0 areaY0 areaX1 areaY1) st = some st1
            ∧ scan_loop rnd MAX_STARS calls (pixel nx ny wave) (pixel nx ny real) threshold norm
              bg layer sf (scan_positions sf.radius areaX0 areaY0 areaX1 areaY1) st = some st1 := by
  have hb := fun p hp => visited_reads_inside nx ny sf.radius areaX0 areaY0 areaX1 areaY1 p hrad
    hx0 hx1 hy0 hy1 hp
  have hwin : ∀ p ∈ scan_positions sf.radius areaX0 areaY0 areaX1 areaY1,
      ∀ yy ∈ [p.2 - 1, p.2, p.2 + 1], ∀ xx ∈ [p.1 - 1, p.1, p.1 + 1],
        inside nx ny wave yy xx = some (sample nx ny wave yy xx) := by
    intro p hp yy hyy xx hxx
    have h := (hb p hp).1 (xx - p.1) (yy - p.2)
    simp only [List.mem_cons, List.mem_singleton, List.not_mem_nil, or_false] at hyy hxx
    have h' := h (by omega) (by omega) (by omega) (by omega)
    exact inside_defined nx ny wave yy xx hwave (by omega) (by omega) (by omega) (by omega)
  have hpat : ∀ p ∈ scan_positions sf.radius areaX0 areaY0 areaX1 areaY1,
      ∀ i ∈ loop_range (p.1 - sf.radius) (p.1 + sf.radius),
        ∀ j ∈ loop_range (p.2 - sf.radius) (p.2 + sf.radius),
          inside nx ny real j i = some (sample nx ny real j i) := by
    intro p hp i hi j hj
    have h := (hb p hp).2 i hi j hj
    exact inside_defined nx ny real j i hreal h.2.2.1 h.2.2.2 h.1 h.2.1
  have hc : ∀ p ∈ scan_positions sf.radius areaX0 areaY0 areaX1 areaY1,
      ∃ bingo, is_candidate (inside nx ny wave) threshold norm p.1 p.2 = some bingo := by
    intro p hp
    obtain ⟨b, hb1, -⟩ := is_candidate_spec (inside nx ny wave) (sample nx ny wave) threshold norm
      p.1 p.2 (hwin p hp)
    exact ⟨b, hb1⟩
  have hz : ∀ p ∈ scan_positions sf.radius areaX0 areaY0 areaX1 areaY1,
      ∃ z, fill_z (inside nx ny real) sf.radius p.1 p.2 = some z := fun p hp =>
    ⟨_, fill_z_eq (inside nx ny real) (sample nx ny real) sf.radius p.1 p.2 (hpat p hp)⟩
  obtain ⟨st1, hst1, -⟩ := scan_loop_total rnd MAX_STARS calls (inside nx ny wave)
    (inside nx ny real) threshold norm bg layer sf _ st hlay hc hz
  refine ⟨hb, st1, hst1, ?_⟩
  rw [← hst1]
  symm
  apply scan_loop_congr
  · intro p hp
    refine is_candidate_congr _ _ (sample nx ny wave) threshold norm p.1 p.2 (hwin p hp) ?_
    intro yy hyy xx hxx
    have h := hwin p hp yy hyy xx hxx
    unfold inside at h
    split_ifs at h
    exact h
  · intro p hp
    rw [fill_z_eq (inside nx ny real) (sample nx ny real) sf.radius p.1 p.2 (hpat p hp)]
    refine (fill_z_eq (pixel nx ny real) (sample nx ny real) sf.radius p.1 p.2 ?_).symm
    intro i hi j hj
    have h := hpat p hp i hi j hj
    unfold inside at h
    split_ifs at h
    exact h

/-- C18: for an image of `nx` by `ny` samples, a radius of at least 1 and a search
area inside the image, every read of the scan is in bounds. The coordinates of
the 3 by 3 window and of the patch of every visited pixel satisfy
`0 <= i < nx` and `0 <= j < ny`; and the scan loops run to their end when every
read of the filtered and of the original image is checked against these bounds,
with the result they have without the check. -/
theorem scan_reads_in_bounds (rnd : ℚ → Dbl) (MAX_STARS : Nat) (calls : PeakerCalls)
    (nx ny : Int) (wave real : List Nat) (threshold norm : Nat) (bg : Dbl) (layer : Int)
    (sf : star_finder_params) (areaX0 areaY0 areaX1 areaY1 : Int) (st : ScanState)
    (hwave : (wave.length : Int) = nx * ny) (hreal : (real.length : Int) = nx * ny)
    (hrad : 1 ≤ sf.radius) (hx0 : 0 ≤ areaX0) (hx1 : areaX1 ≤ nx) (hy0 : 0 ≤ areaY0)
    (hy1 : areaY1 ≤ ny) (hlay : ScanLayout MAX_STARS st) :
    (∀ p ∈ scan_positions sf.radius areaX0 areaY0 areaX1 areaY1,
        (∀ dx dy : Int, -1 ≤ dx → dx ≤ 1 → -1 ≤ dy → dy ≤ 1 →
            0 ≤ p.1 + dx ∧ p.1 + dx < nx ∧ 0 ≤ p.2 + dy ∧ p.2 + dy < ny)
          ∧ ∀ i ∈ loop_range (p.1 - sf.radius) (p.1 + sf.radius),
              ∀ j ∈ loop_range (p.2 - sf.radius) (p.2 + sf.radius),
                0 ≤ i ∧ i < nx ∧ 0 ≤ j ∧ j < ny)
      ∧ ∃ st1,
          scan_loop rnd MAX_STARS calls (inside nx ny wave) (inside nx ny real) threshold norm bg
              layer sf (scan_positions sf.radius areaX0 areaY0 areaX1 areaY1) st = some st1
            ∧ scan_loop rnd MAX_STARS calls (pixel nx ny wave) (pixel nx ny real) threshold norm
              bg layer sf (scan_positions sf.radius areaX0 areaY0 areaX1 areaY1) st = some st1 :=
  scan_loop_checked rnd MAX_STARS calls nx ny wave real threshold norm bg layer sf areaX0 areaY0
    areaX1 areaY1 st hwave hreal hrad hx0 hx1 hy0 hy1 hlay

/-- An instance of `scan_reads_in_bounds`: the scan of the sample image with
radius 1 over the whole image, from the empty array of 4 slots. -/
theorem scan_reads_in_bounds_witness :
    ((uPlateau.length : Int) = 5 * 4 ∧ (1 : Int) ≤ sampleParams.radius
        ∧ ScanLayout 3 ⟨0, [none, none, none, none]⟩)
      ∧ ∃ st1,
          scan_loop Dbl.exact 3 sampleCalls (inside 5 4 uPlateau) (inside 5 4 uPlateau) 1 100
              (Dbl.fin 0) 0 sampleParams (scan_positions sampleParams.radius 0 0 5 4)
              ⟨0, [none, none, none, none]⟩ = some st1
            ∧ scan_loop Dbl.exact 3 sampleCalls (pixel 5 4 uPlateau) (pixel 5 4 uPlateau) 1 100
              (Dbl.fin 0) 0 sampleParams (scan_positions sampleParams.radius 0 0 5 4)
              ⟨0, [none, none, none, none]⟩ = some st1 := by
  have hlay : ScanLayout 3 ⟨0, [none, none, none, none]⟩ :=
    ⟨[], [none, none, none], rfl, rfl, rfl⟩
  exact ⟨⟨by decide, by decide, hlay⟩,
    (scan_reads_in_bounds Dbl.exact 3 sampleCalls 5 4 uPlateau uPlateau 1 100 (Dbl.fin 0) 0
      sampleParams 0 0 5 4 ⟨0, [none, none, none, none]⟩ (by decide) (by decide) (by decide)
      (by decide) (by decide) (by decide) (by decide) hlay).2⟩

/-- The definition of `peaker`, with the visited pixels named. -/
theorem peaker_unfold (rnd : ℚ → Dbl) (MAX_STARS : Nat) (calls : PeakerCalls) (fit : fits)
    (layer : Int) (sf : star_finder_params) (nb_stars : Option Int) (area : Option rectangle) :
    peaker rnd MAX_STARS calls fit layer sf nb_stars area
      = if fit.rx > 0 ∧ fit.ry > 0 then
          match calls.results_alloc with
          | none => some ⟨none, nb_stars⟩
          | some fresh =>
            match store fresh 0 none with
            | none => none
            | some results =>
              match Compute_threshold rnd calls sf.sigma layer with
              | none => none
              | some (threshold, norm, bg) =>
                if norm = 0 then some ⟨none, nb_stars⟩
                else if calls.wave_image_alloc = false then some ⟨none, nb_stars⟩
                else if calls.real_image_alloc = false then some ⟨none, nb_stars⟩
                else
                  match scan_loop rnd MAX_STARS calls (pixel fit.rx fit.ry calls.wave)
                      (pixel fit.rx fit.ry (fit.pdata layer)) threshold norm bg layer sf
                      (peaker_positions fit sf area) ⟨0, results⟩ with
                  | none => none
                  | some st =>
                    match sort_stars calls.qsort
                        (if st.nbstars = 0 then none else some st.results) (st.nbstars : Int) with
                    | none => none
                    | some sorted => some ⟨sorted, nb_stars.map (fun _ => (st.nbstars : Int))⟩
        else none :=
  rfl

/-- The scan loops of `peaker` run to their end from the empty array of
`MAX_STARS + 1` slots, for buffers of `rx * ry` samples, a radius of at least 1
and a search rectangle inside the image. -/
theorem peaker_scan_returns (rnd : ℚ → Dbl) (MAX_STARS : Nat) (calls : PeakerCalls) (fit : fits)
    (layer : Int) (sf : star_finder_params) (area : Option rectangle) (threshold norm : Nat)
    (bg : Dbl) (slots : StarTab) (hfl : (none :: slots).length = MAX_STARS + 1)
    (hwave : (calls.wave.length : Int) = fit.rx * fit.ry)
    (hreal : ((fit.pdata layer).length : Int) = fit.rx * fit.ry)
    (hrad : 1 ≤ sf.radius)
    (harea : ∀ a, area = some a → 0 ≤ a.x ∧ a.w + a.x ≤ fit.rx ∧ 0 ≤ a.y ∧ a.h + a.y ≤ fit.ry) :
    ∃ st1, scan_loop rnd MAX_STARS calls (pixel fit.rx fit.ry calls.wave)
        (pixel fit.rx fit.ry (fit.pdata layer)) threshold norm bg layer sf
        (peaker_positions fit sf area) ⟨0, none :: slots⟩ = some st1
      ∧ ScanLayout MAX_STARS st1 := by
  have hlay : ScanLayout MAX_STARS ⟨0, none :: slots⟩ := ⟨[], slots, rfl, rfl, hfl⟩
  have key : ∀ aX0 aY0 aX1 aY1 : Int, 0 ≤ aX0 → aX1 ≤ fit.rx → 0 ≤ aY0 → aY1 ≤ fit.ry →
      ∃ st1, scan_loop rnd MAX_STARS calls (pixel fit.rx fit.ry calls.wave)
        (pixel fit.rx fit.ry (fit.pdata layer)) threshold norm bg layer sf
        (scan_positions sf.radius aX0 aY0 aX1 aY1) ⟨0, none :: slots⟩ = some st1
      ∧ ScanLayout MAX_STARS st1 := by
    intro aX0 aY0 aX1 aY1 h1 h2 h3 h4
    obtain ⟨st1, -, hst1⟩ := (scan_loop_checked rnd MAX_STARS calls fit.rx fit.ry
      calls.wave (fit.pdata layer) threshold norm bg layer sf aX0 aY0 aX1 aY1 ⟨0, none :: slots⟩
      hwave hreal hrad h1 h2 h3 h4 hlay).2
    refine ⟨st1, hst1, ?_⟩
    have hwin : ∀ p ∈ scan_positions sf.radius aX0 aY0 aX1 aY1,
        ∃ bingo, is_candidate (pixel fit.rx fit.ry calls.wave) threshold norm p.1 p.2
          = some bingo := by
      intro p hp
      obtain ⟨b, hb1, -⟩ := is_candidate_spec (pixel fit.rx fit.ry calls.wave)
        (sample fit.rx fit.ry calls.wave) threshold norm p.1 p.2
        (window_defined fit.rx fit.ry calls.wave sf.radius aX0 aY0 aX1 aY1 p.1 p.2 hwave hrad h1
          h2 h3 h4 hp)
      exact ⟨b, hb1⟩
    have hpat : ∀ p ∈ scan_positions sf.radius aX0 aY0 aX1 aY1,
        ∃ z, fill_z (pixel fit.rx fit.ry (fit.pdata layer)) sf.radius p.1 p.2 = some z := by
      intro p hp
      refine ⟨_, fill_z_eq _ (sample fit.rx fit.ry (fit.pdata layer)) sf.radius p.1 p.2 ?_⟩
      intro i hi j hj
      have h := (visited_reads_inside fit.rx fit.ry sf.radius aX0 aY0 aX1 aY1 p hrad h1 h2 h3
        h4 hp).2 i hi j hj
      exact pixel_defined _ _ _ j i hreal h.2.2.1 h.2.2.2 h.1 h.2.1
    obtain ⟨st2, hst2, hlay2⟩ := scan_loop_total rnd MAX_STARS calls _ _ threshold norm bg layer
      sf _ ⟨0, none :: slots⟩ hlay hwin hpat
    rw [hst1] at hst2
    rw [Option.some.inj hst2]
    exact hlay2
  cases area with
  | none => exact key 0 0 fit.rx fit.ry (le_refl _) (le_refl _) (le_refl _) (le_refl _)
  | some a =>
    obtain ⟨h1, h2, h3, h4⟩ := harea a rfl
    exact key a.x a.y (a.w + a.x) (a.h + a.y) h1 h2 h3 h4

/-- The function `peaker` returns: with positive dimensions, a layer at most 3,
an array of `MAX_STARS + 1` slots when the allocation succeeds, statistics
whose range maximum converts to `WORD` when they are available, buffers of
`rx * ry` samples, a radius of at least 1 and a search rectangle inside the
image. -/
theorem peaker_returns (rnd : ℚ → Dbl) (MAX_STARS : Nat) (calls : PeakerCalls) (fit : fits)
    (layer : Int) (sf : star_finder_params) (nb_stars : Option Int) (area : Option rectangle)
    (hx : fit.rx > 0) (hy : fit.ry > 0) (hl : layer ≤ 3)
    (halloc : ∀ fresh, calls.results_alloc = some fresh → fresh.length = MAX_STARS + 1)
    (hstat : ∀ stat, calls.statistics = some stat → ∃ norm, Dbl.toWORD stat.normValue = some norm)
    (hwave : (calls.wave.length : Int) = fit.rx * fit.ry)
    (hreal : ((fit.pdata layer).length : Int) = fit.rx * fit.ry)
    (hrad : 1 ≤ sf.radius)
    (harea : ∀ a, area = some a → 0 ≤ a.x ∧ a.w + a.x ≤ fit.rx ∧ 0 ≤ a.y ∧ a.h + a.y ≤ fit.ry) :
    ∃ r, peaker rnd MAX_STARS calls fit layer sf nb_stars area = some r := by
  rw [peaker_unfold]
  simp only [hx, hy, and_self, if_true]
  cases hr : calls.results_alloc with
  | none => exact ⟨_, rfl⟩
  | some fresh =>
    have hfl := halloc fresh hr
    cases fresh with
    | nil => simp at hfl
    | cons slot slots =>
      have hct : ∃ threshold norm bg,
          Compute_threshold rnd calls sf.sigma layer = some (threshold, norm, bg) := by
        cases hs : calls.statistics with
        | none => exact ⟨0, 0, Dbl.fin 0, by simp only [Compute_threshold, hl, if_true, hs]⟩
        | some stat =>
          obtain ⟨norm, hw⟩ := hstat stat hs
          exact ⟨_, _, _, Compute_threshold_some rnd calls sf.sigma layer stat norm hl hs hw⟩
      obtain ⟨threshold, norm, bg, hct⟩ := hct
      simp only [store, List.length_cons, Nat.zero_lt_succ, if_true, List.set_cons_zero, hct]
      by_cases hn : norm = 0
      · rw [if_pos hn]
        exact ⟨_, rfl⟩
      · rw [if_neg hn]
        by_cases hwa : calls.wave_image_alloc = false
        · rw [if_pos hwa]
          exact ⟨_, rfl⟩
        · rw [if_neg hwa]
          by_cases hra : calls.real_image_alloc = false
          · rw [if_pos hra]
            exact ⟨_, rfl⟩
          · rw [if_neg hra]
            obtain ⟨st1, hst1, records, rest, hres, hlen, -⟩ := peaker_scan_returns rnd MAX_STARS
              calls fit layer sf area threshold norm bg slots (by simpa using hfl) hwave hreal
              hrad harea
            simp only [hst1]
            by_cases hz : st1.nbstars = 0
            · rw [if_pos hz]
              exact ⟨_, rfl⟩
            · rw [if_neg hz, hres, ← hlen, sort_stars_tabOf]
              exact ⟨_, rfl⟩

/-! ## The capacity of the catalog -/

/-- The value of `add_star` on an existing array, for a fit that succeeded. -/
theorem add_star_tabOf (rnd : ℚ → Dbl) (MAX_STARS : Nat) (stars : List fitted_PSF)
    (rest : StarTab) (sel : rectangle) (seqdata : Bool) (result : fitted_PSF)
    (alloc : Option StarTab) :
    add_star rnd MAX_STARS ⟨some (tabOf stars rest), sel, seqdata⟩ (some result) alloc
      = if stars.any (near rnd result sel) = true then
          some ⟨none, -1, ⟨some (tabOf stars rest), sel, seqdata⟩⟩
        else if stars.length < MAX_STARS then
          match store (tabOf stars rest) stars.length
              (some { result with
                xpos := Dbl.add rnd result.x0 (Dbl.ofInt sel.x)
                ypos := Dbl.sub rnd (Dbl.ofInt (sel.y + sel.h)) result.y0 }) with
          | none => none
          | some tab1 =>
            match store tab1 (stars.length + 1) none with
            | none => none
            | some tab2 =>
              some ⟨some { result with
                  xpos := Dbl.add rnd result.x0 (Dbl.ofInt sel.x)
                  ypos := Dbl.sub rnd (Dbl.ofInt (sel.y + sel.h)) result.y0 },
                (stars.length : Int), ⟨some tab2, sel, seqdata⟩⟩
        else some ⟨none, -1, ⟨some (tabOf stars rest), sel, seqdata⟩⟩ := by
  simp only [add_star, add_star_loop_tabOf, Nat.zero_add, Bool.false_or]

/-- The outcomes of `remove_star` on an existing array, when it returns: the
catalog is left as it was, or the index is that of a record and the record is
taken out. -/
theorem remove_star_tabOf_cases (records : List fitted_PSF) (rest : StarTab) (sel : rectangle)
    (seqdata : Bool) (index code : Int) (com1 : Com)
    (h : remove_star ⟨some (tabOf records rest), sel, seqdata⟩ index = some (code, com1)) :
    com1 = ⟨some (tabOf records rest), sel, seqdata⟩
      ∨ (0 ≤ index ∧ index < records.length
          ∧ com1 = ⟨some (tabOf (records.eraseIdx index.toNat) (none :: rest)), sel, seqdata⟩) := by
  unfold remove_star at h
  split_ifs at h with hneg
  · cases h; exact Or.inl rfl
  · simp only at h
    split at h
    · cases h
    · cases h; exact Or.inl rfl
    · rename_i rec hget
      rw [get_size_star_tab_tabOf] at h
      simp only at h
      by_cases hlt : index.toNat < records.length
      · right
        have hi : index = (index.toNat : Int) := by omega
        have hm := memmove_tabOf records rest index.toNat hlt
        rw [← hi] at hm
        rw [hm] at h
        cases h
        exact ⟨by omega, by omega, rfl⟩
      · by_cases heq : index.toNat = records.length
        · have hg := tabOf_get?_add records rest 0
          rw [Nat.add_zero, ← heq, hget] at hg
          simp at hg
        · have hc : (records.length : Int) + 1 - index - 1 < 0 := by omega
          simp only [memmove, hc, if_true] at h
          cases h

/-- A store keeps the number of slots of the array. -/
theorem store_length (tab tab1 : StarTab) (i : Nat) (v : Option fitted_PSF)
    (h : store tab i v = some tab1) : tab1.length = tab.length := by
  unfold store at h
  split_ifs at h
  cases h
  simp

/-- The scan loops keep the number of slots of the array. -/
theorem scan_loop_length (rnd : ℚ → Dbl) (MAX_STARS : Nat) (calls : PeakerCalls)
    (wave_image real_image : Int → Int → Option Nat) (threshold norm : Nat) (bg : Dbl)
    (layer : Int) (sf : star_finder_params) (positions : List (Int × Int)) (st st1 : ScanState)
    (h : scan_loop rnd MAX_STARS calls wave_image real_image threshold norm bg layer sf
      positions st = some st1) : st1.results.length = st.results.length := by
  induction positions generalizing st with
  | nil =>
    simp only [scan_loop] at h
    cases h
    rfl
  | cons p positions ih =>
    obtain ⟨x, y⟩ := p
    simp only [scan_loop] at h
    split at h
    · cases h
    · rename_i st2 hst2
      rw [ih st2 h]
      rcases scan_pixel_cases rnd MAX_STARS calls wave_image real_image threshold norm bg layer
        sf st st2 x y hst2 with rfl | ⟨z, fitted, tab1, -, -, -, -, -, hs1, hs2, -⟩
      · rfl
      · rw [store_length _ _ _ _ hs2, store_length _ _ _ _ hs1]

/-- The array returned by `peaker` is within capacity when the allocated array
has `MAX_STARS + 1` slots, and the count left in `*nb_stars`, when one is
written, is at most `MAX_STARS`. -/
theorem peaker_capacity (rnd : ℚ → Dbl) (MAX_STARS : Nat) (calls : PeakerCalls) (fit : fits)
    (layer : Int) (sf : star_finder_params) (nb_stars : Option Int) (area : Option rectangle)
    (r : PeakerResult)
    (halloc : ∀ fresh, calls.results_alloc = some fresh → fresh.length = MAX_STARS + 1)
    (h : peaker rnd MAX_STARS calls fit layer sf nb_stars area = some r) :
    CatalogInv MAX_STARS r.ret
      ∧ (r.nb_stars = nb_stars
          ∨ ∃ n : Nat, n ≤ MAX_STARS ∧ r.nb_stars = nb_stars.map (fun _ => (n : Int))) := by
  rcases peaker_cases rnd MAX_STARS calls fit layer sf nb_stars area r h with
    h0 | ⟨fresh, results, threshold, norm, bg, st, hfresh, hres, hct, hnorm, hst, hsort, hnb⟩
  · rw [h0]
    exact ⟨Or.inl rfl, Or.inl rfl⟩
  · have hinit : ScanInvP (StoredFrom rnd calls (pixel fit.rx fit.ry calls.wave)
        (pixel fit.rx fit.ry (fit.pdata layer)) threshold norm bg layer sf
        (peaker_positions fit sf area)) MAX_STARS ⟨0, results⟩ := by
      cases fresh with
      | nil => simp [store] at hres
      | cons slot rest0 =>
        simp only [store, List.length_cons, Nat.zero_lt_succ, if_true,
          List.set_cons_zero, Option.some.injEq] at hres
        exact ⟨[], rest0, by simp [tabOf, ← hres], rfl, Nat.zero_le _, by simp⟩
    obtain ⟨collected, rest, hr, hlen, hcap, hall⟩ :=
      scan_loop_invP _ rnd MAX_STARS calls _ _ threshold norm bg layer sf _ _ st
        (fun _ hs => hs) hinit hst
    have hsize : st.results.length = MAX_STARS + 1 := by
      rw [scan_loop_length _ _ _ _ _ _ _ _ _ _ _ _ _ hst]
      simp only
      rw [store_length _ _ _ _ hres]
      exact halloc fresh hfresh
    refine ⟨?_, Or.inr ⟨st.nbstars, hcap, hnb⟩⟩
    by_cases hz : st.nbstars = 0
    · rw [if_pos hz] at hsort
      simp only [sort_stars, Option.some.injEq] at hsort
      exact Or.inl hsort.symm
    · rw [if_neg hz, hr, ← hlen, sort_stars_tabOf] at hsort
      have hnan : ∀ s ∈ collected, s.mag.isnan = false := fun s hs =>
        StoredFrom_mag rnd calls _ _ threshold norm bg layer sf _ s (hall s hs)
      have hperm := calls.qsort.perm compare_stars collected
        (compare_stars_consistent collected hnan)
      right
      refine ⟨_, rest, (Option.some.inj hsort).symm, by rw [hperm.length_eq]; omega, ?_⟩
      rw [hr] at hsize
      simp only [tabOf, List.length_append, List.length_map, List.length_cons] at hsize ⊢
      rw [hperm.length_eq]
      exact hsize

/-- The function `add_star` returns on a catalog within capacity, and it leaves
the catalog within capacity. -/
theorem add_star_capacity (rnd : ℚ → Dbl) (MAX_STARS : Nat) (hcap : 0 < MAX_STARS) (com : Com)
    (fit : Option fitted_PSF) (alloc : Option StarTab) (hinv : CatalogInv MAX_STARS com.stars)
    (halloc : ∀ fresh, alloc = some fresh → fresh.length = MAX_STARS + 1) :
    ∃ r, add_star rnd MAX_STARS com fit alloc = some r ∧ CatalogInv MAX_STARS r.com.stars := by
  obtain ⟨stars, sel, seqdata⟩ := com
  cases fit with
  | none => exact ⟨⟨none, -1, ⟨stars, sel, seqdata⟩⟩, by simp [add_star], hinv⟩
  | some result =>
    rcases hinv with hnone | ⟨records, rest, hsome, hle, hsize⟩
    · simp only at hnone
      subst hnone
      cases alloc with
      | none => exact ⟨_, (add_star_absent rnd MAX_STARS sel seqdata result none none [] hcap).1,
          Or.inl rfl⟩
      | some fresh =>
        have hfl := halloc fresh rfl
        cases fresh with
        | nil => simp at hfl
        | cons s0 fresh1 =>
          cases fresh1 with
          | nil => simp at hfl; omega
          | cons s1 fresh2 =>
            refine ⟨_, (add_star_absent rnd MAX_STARS sel seqdata result s0 s1 fresh2 hcap).2, ?_⟩
            right
            refine ⟨_, fresh2, rfl, by simpa using hcap, ?_⟩
            simp only [tabOf, List.map_cons, List.map_nil, List.length_append, List.length_cons,
              List.length_nil] at hfl ⊢
            omega
    · simp only at hsome
      subst hsome
      rw [add_star_tabOf]
      by_cases hany : records.any (near rnd result sel) = true
      · rw [if_pos hany]
        exact ⟨_, rfl, Or.inr ⟨records, rest, rfl, hle, hsize⟩⟩
      · rw [if_neg hany]
        by_cases hroom : records.length < MAX_STARS
        · rw [if_pos hroom]
          cases rest with
          | nil => simp [tabOf] at hsize; omega
          | cons slot rest1 =>
            generalize ({ result with
              xpos := Dbl.add rnd result.x0 (Dbl.ofInt sel.x)
              ypos := Dbl.sub rnd (Dbl.ofInt (sel.y + sel.h)) result.y0 } : fitted_PSF) = r1
            have h1 : store (tabOf records (slot :: rest1)) records.length (some r1)
                = some (records.map some ++ some r1 :: slot :: rest1) := by
              have h := store_append (records.map some) none (some r1) (slot :: rest1)
              simpa [tabOf] using h
            have h2 : store (records.map some ++ some r1 :: slot :: rest1) (records.length + 1)
                none = some (tabOf (records ++ [r1]) rest1) := by
              have h := store_append (records.map some ++ [some r1]) slot none rest1
              simpa [tabOf] using h
            simp only [h1, h2]
            refine ⟨_, rfl, Or.inr ⟨records ++ [r1], rest1, rfl, by simp; omega, ?_⟩⟩
            simp only [tabOf, List.length_append, List.length_map, List.length_cons,
              List.length_nil] at hsize ⊢
            omega
        · rw [if_neg hroom]
          exact ⟨_, rfl, Or.inr ⟨records, rest, rfl, hle, hsize⟩⟩

/-- The function `remove_star`, when it returns, leaves within capacity a catalog
that was within capacity. -/
theorem remove_star_capacity (MAX_STARS : Nat) (com com1 : Com) (index code : Int)
    (hinv : CatalogInv MAX_STARS com.stars)
    (h : remove_star com index = some (code, com1)) : CatalogInv MAX_STARS com1.stars := by
  obtain ⟨stars, sel, seqdata⟩ := com
  rcases hinv with hnone | ⟨records, rest, hsome, hle, hsize⟩
  · simp only at hnone
    subst hnone
    have hr := (remove_star_rejects [] [] sel seqdata index).2.1
    rw [hr] at h
    cases h
    exact Or.inl rfl
  · simp only at hsome
    subst hsome
    rcases remove_star_tabOf_cases records rest sel seqdata index code com1 h with
      rfl | ⟨h0, hn, rfl⟩
    · exact Or.inr ⟨records, rest, rfl, hle, hsize⟩
    · have hi : index.toNat < records.length := by omega
      have hl : (records.eraseIdx index.toNat).length = records.length - 1 :=
        List.length_eraseIdx_of_lt hi
      refine Or.inr ⟨_, none :: rest, rfl, by omega, ?_⟩
      simp only [tabOf, List.length_append, List.length_map, List.length_cons] at hsize ⊢
      omega

/-- The function `remove_star` returns for every index that is negative or at most
the number of records of the catalog. -/
theorem remove_star_returns (records : List fitted_PSF) (rest : StarTab) (sel : rectangle)
    (seqdata : Bool) (index : Int) (hi : index ≤ records.length) :
    ∃ code com1, remove_star ⟨some (tabOf records rest), sel, seqdata⟩ index
      = some (code, com1) := by
  by_cases hneg : index < 0
  · exact ⟨_, _, (remove_star_rejects records rest sel seqdata index).1 hneg _⟩
  · by_cases heq : index = records.length
    · rw [heq]
      exact ⟨_, _, (remove_star_rejects records rest sel seqdata index).2.2.1⟩
    · obtain ⟨i, rfl⟩ := Int.eq_ofNat_of_zero_le (not_lt.mp hneg)
      have hlt : i < records.length := by omega
      have hget : (tabOf records rest).get? i = some (some (records.get ⟨i, hlt⟩)) := by
        simp [tabOf, List.getElem?_append_left, hlt]
      have hm := memmove_tabOf records rest i hlt
      refine ⟨0, ⟨some (tabOf (records.eraseIdx i) (none :: rest)), sel, seqdata⟩, ?_⟩
      simp only [remove_star, Int.toNat_ofNat, hget, get_size_star_tab_tabOf, hm]
      simp

/-- C17: the catalog never exceeds `MAX_STARS` entries. The count that `peaker`
leaves in `*nb_stars` is at most `MAX_STARS` and the array it returns is within
capacity; `add_star` returns on a catalog within capacity and leaves it within
capacity; and so does `remove_star` whenever it returns, which it does for every
index that is negative or at most the number of records. Within capacity means:
at most `MAX_STARS` records followed by the NULL terminator, in an array of
`MAX_STARS + 1` slots. -/
theorem catalog_capacity (rnd : ℚ → Dbl) (MAX_STARS : Nat) (hcap : 0 < MAX_STARS) :
    (∀ (calls : PeakerCalls) (fit : fits) (layer : Int) (sf : star_finder_params)
        (nb_stars : Option Int) (area : Option rectangle) (r : PeakerResult),
        (∀ fresh, calls.results_alloc = some fresh → fresh.length = MAX_STARS + 1) →
        peaker rnd MAX_STARS calls fit layer sf nb_stars area = some r →
        CatalogInv MAX_STARS r.ret
          ∧ (r.nb_stars = nb_stars
              ∨ ∃ n : Nat, n ≤ MAX_STARS ∧ r.nb_stars = nb_stars.map (fun _ => (n : Int))))
      ∧ (∀ (com : Com) (fit : Option fitted_PSF) (alloc : Option StarTab),
          CatalogInv MAX_STARS com.stars →
          (∀ fresh, alloc = some fresh → fresh.length = MAX_STARS + 1) →
          ∃ r, add_star rnd MAX_STARS com fit alloc = some r
            ∧ CatalogInv MAX_STARS r.com.stars)
      ∧ (∀ (com com1 : Com) (index code : Int), CatalogInv MAX_STARS com.stars →
          remove_star com index = some (code, com1) → CatalogInv MAX_STARS com1.stars)
      ∧ ∀ (records : List fitted_PSF) (rest : StarTab) (sel : rectangle) (seqdata : Bool)
          (index : Int), index ≤ records.length →
          ∃ code com1, remove_star ⟨some (tabOf records rest), sel, seqdata⟩ index
            = some (code, com1) :=
  ⟨fun calls fit layer sf nb_stars area r halloc h =>
      peaker_capacity rnd MAX_STARS calls fit layer sf nb_stars area r halloc h,
    fun com fit alloc hinv halloc => add_star_capacity rnd MAX_STARS hcap com fit alloc hinv halloc,
    fun com com1 index code hinv h => remove_star_capacity MAX_STARS com com1 index code hinv h,
    fun records rest sel seqdata index hi => remove_star_returns records rest sel seqdata index hi⟩

/-- An instance of `catalog_capacity`: with `MAX_STARS = 3`, adding a star to a
one-star catalog leaves a catalog within capacity. -/
theorem catalog_capacity_witness :
    (0 < 3 ∧ CatalogInv 3 (some (tabOf [starAt 10 10 0] [none, none])))
      ∧ ∃ r, add_star Dbl.exact 3
            ⟨some (tabOf [starAt 10 10 0] [none, none]), sampleSelection, false⟩
            (some (fitAt 20 1)) none = some r
          ∧ CatalogInv 3 r.com.stars := by
  have hinv : CatalogInv 3 (some (tabOf [starAt 10 10 0] [none, none])) :=
    Or.inr ⟨[starAt 10 10 0], [none, none], rfl, by decide, rfl⟩
  exact ⟨⟨by decide, hinv⟩,
    (catalog_capacity Dbl.exact 3 (by decide)).2.1
      ⟨some (tabOf [starAt 10 10 0] [none, none]), sampleSelection, false⟩ (some (fitAt 20 1))
      none hinv (by intro fresh h; cases h)⟩

/-! ## The patch and the stored record -/

/-- The shape of the patch of the specification: `2 * radius` rows of
`2 * radius` entries, the entry `(ii, jj)` being the sample of column
`x - radius + ii` and row `y - radius + jj`. -/
theorem patch_of_entries (value : Int → Int → Nat) (radius x y : Int) :
    (patch_of value radius x y).length = (2 * radius).toNat
      ∧ (∀ row ∈ patch_of value radius x y, row.length = (2 * radius).toNat)
      ∧ ∀ ii jj : Nat, ii < (2 * radius).toNat → jj < (2 * radius).toNat →
          (patch_of value radius x y)[ii]?.bind (fun row => row[jj]?)
            = some (Dbl.ofInt (value (y - radius + (jj : Int)) (x - radius + (ii : Int)))) := by
  refine ⟨by simp [patch_of], ?_, ?_⟩
  · intro row hrow
    simp only [patch_of, List.mem_map] at hrow
    obtain ⟨ii, -, rfl⟩ := hrow
    simp
  · intro ii jj hii hjj
    simp [patch_of, List.getElem?_map, List.getElem?_range, hii, hjj]

/-- C19: for a pixel visited by the scan of an image whose original buffer holds
`nx * ny` samples, with a search area inside the image, the matrix filled for
the fitter has `2 * radius` rows and columns and its entry `(ii, jj)` is the
sample of the original channel at column `x - radius + ii` and row
`y - radius + jj`; the step of the scan hands that matrix and no other to the
fitter, whatever the filtered buffer holds. -/
theorem patch_from_original (rnd : ℚ → Dbl) (MAX_STARS : Nat) (calls : PeakerCalls)
    (nx ny : Int) (wave real : List Nat) (threshold norm : Nat) (bg : Dbl) (layer : Int)
    (sf : star_finder_params) (areaX0 areaY0 areaX1 areaY1 : Int) (st : ScanState) (x y : Int)
    (hreal : (real.length : Int) = nx * ny)
    (hx0 : 0 ≤ areaX0) (hx1 : areaX1 ≤ nx) (hy0 : 0 ≤ areaY0) (hy1 : areaY1 ≤ ny)
    (hvisit : (x, y) ∈ scan_positions sf.radius areaX0 areaY0 areaX1 areaY1) :
    fill_z (pixel nx ny real) sf.radius x y = some (patch_of (sample nx ny real) sf.radius x y)
      ∧ (patch_of (sample nx ny real) sf.radius x y).length = (2 * sf.radius).toNat
      ∧ (∀ row ∈ patch_of (sample nx ny real) sf.radius x y,
          row.length = (2 * sf.radius).toNat)
      ∧ (∀ ii jj : Nat, ii < (2 * sf.radius).toNat → jj < (2 * sf.radius).toNat →
          (patch_of (sample nx ny real) sf.radius x y)[ii]?.bind (fun row => row[jj]?)
            = some (Dbl.ofInt (sample nx ny real (y - sf.radius + (jj : Int))
                (x - sf.radius + (ii : Int)))))
      ∧ scan_pixel rnd MAX_STARS calls (pixel nx ny wave) (pixel nx ny real) threshold norm bg
            layer sf st x y
          = scan_pixel rnd MAX_STARS
              { calls with psf_global_minimisation := fun _ b l =>
                  calls.psf_global_minimisation (patch_of (sample nx ny real) sf.radius x y) b l }
              (pixel nx ny wave) (pixel nx ny real) threshold norm bg layer sf st x y := by
  have hfill : fill_z (pixel nx ny real) sf.radius x y
      = some (patch_of (sample nx ny real) sf.radius x y) := by
    apply fill_z_eq
    intro i hi j hj
    rw [mem_scan_positions] at hvisit
    rw [mem_loop_range] at hi hj
    exact pixel_defined nx ny real j i hreal (by omega) (by omega) (by omega) (by omega)
  obtain ⟨h1, h2, h3⟩ := patch_of_entries (sample nx ny real) sf.radius x y
  refine ⟨hfill, h1, h2, h3, ?_⟩
  simp only [scan_pixel, hfill]

/-- An instance of `patch_from_original`: the patch of the pixel `(1, 1)` of the
sample image, for the radius 1. -/
theorem patch_from_original_witness :
    ((uPlateau.length : Int) = 5 * 4 ∧ (1, 1) ∈ scan_positions sampleParams.radius 0 0 5 4)
      ∧ fill_z (pixel 5 4 uPlateau) sampleParams.radius 1 1
        = some (patch_of (sample 5 4 uPlateau) sampleParams.radius 1 1) :=
  ⟨⟨by decide, by decide⟩,
    (patch_from_original Dbl.exact 3 sampleCalls 5 4 uPlateau uPlateau 1 100 (Dbl.fin 0) 0
      sampleParams 0 0 5 4 ⟨0, [none, none, none, none]⟩ 1 1 (by decide) (by decide) (by decide)
      (by decide) (by decide) (by decide)).1⟩

/-- C20: for a candidate `(x, y)` met below capacity whose fit is accepted, the
step of the scan stores in slot `nbstars` the fit returned by the fitter after
unit conversion, with `xpos = x + x0 - radius - 1` and
`ypos = y + y0 - radius - 1` and every other field as converted; and every
record of an array returned by `peaker` is such a record, stored for a visited
candidate. -/
theorem stored_record_position (rnd : ℚ → Dbl) (MAX_STARS : Nat) (calls : PeakerCalls)
    (wave_image real_image : Int → Int → Option Nat) (threshold norm : Nat) (bg : Dbl)
    (layer : Int) (sf : star_finder_params) (records : List fitted_PSF)
    (slot : Option fitted_PSF) (rest : StarTab) (x y : Int) (z : List (List Dbl))
    (fitted : fitted_PSF) (hroom : records.length < MAX_STARS)
    (hc : is_candidate wave_image threshold norm x y = some true)
    (hz : fill_z real_image sf.radius x y = some z)
    (hfit : calls.psf_global_minimisation z bg layer = some fitted)
    (hstar : is_star rnd (calls.fwhm_to_arcsec_if_needed fitted) sf = true) :
    scan_pixel rnd MAX_STARS calls wave_image real_image threshold norm bg layer sf
        ⟨records.length, tabOf records (slot :: rest)⟩ x y
        = some ⟨records.length + 1,
            tabOf (records ++ [placed_star rnd sf x y (calls.fwhm_to_arcsec_if_needed fitted)])
              rest⟩
      ∧ placed_star rnd sf x y (calls.fwhm_to_arcsec_if_needed fitted)
        = { calls.fwhm_to_arcsec_if_needed fitted with
            xpos := Dbl.sub rnd (Dbl.sub rnd (Dbl.add rnd (Dbl.ofInt x)
              (calls.fwhm_to_arcsec_if_needed fitted).x0) (Dbl.ofInt sf.radius)) (Dbl.fin 1)
            ypos := Dbl.sub rnd (Dbl.sub rnd (Dbl.add rnd (Dbl.ofInt y)
              (calls.fwhm_to_arcsec_if_needed fitted).y0) (Dbl.ofInt sf.radius)) (Dbl.fin 1) }
      ∧ ∀ (fit : fits) (nb_stars : Option Int) (area : Option rectangle) (tab : StarTab)
          (nb : Option Int),
          peaker rnd MAX_STARS calls fit layer sf nb_stars area = some ⟨some tab, nb⟩ →
          ∃ (stored : List fitted_PSF) (rest1 : StarTab) (threshold1 norm1 : Nat) (bg1 : Dbl),
            tab = tabOf stored rest1
              ∧ ∀ s ∈ stored, StoredFrom rnd calls (pixel fit.rx fit.ry calls.wave)
                  (pixel fit.rx fit.ry (fit.pdata layer)) threshold1 norm1 bg1 layer sf
                  (peaker_positions fit sf area) s := by
  refine ⟨?_, rfl, ?_⟩
  · have h1 := store_append (records.map some) none
      (some (placed_star rnd sf x y (calls.fwhm_to_arcsec_if_needed fitted))) (slot :: rest)
    have h2 := store_append (records.map some
      ++ [some (placed_star rnd sf x y (calls.fwhm_to_arcsec_if_needed fitted))]) slot none rest
    simp only [List.length_map, List.length_append, List.length_singleton,
      List.append_assoc, List.singleton_append] at h1 h2
    have e : tabOf (records ++ [placed_star rnd sf x y (calls.fwhm_to_arcsec_if_needed fitted)])
        rest = records.map some
          ++ some (placed_star rnd sf x y (calls.fwhm_to_arcsec_if_needed fitted))
            :: none :: rest := by simp [tabOf]
    rw [e]
    unfold scan_pixel
    simp only [hc, hroom, and_self, if_true, hz, hfit, hstar]
    show (match store (records.map some ++ none :: slot :: rest) records.length
          (some (placed_star rnd sf x y (calls.fwhm_to_arcsec_if_needed fitted))) with
        | none => none
        | some results1 =>
          match store results1 (records.length + 1) none with
          | none => none
          | some results2 => some (ScanState.mk (records.length + 1) results2)) = _
    rw [h1]
    simp only
    rw [h2]
  · intro fit nb_stars area tab nb h
    rcases peaker_scan_result rnd MAX_STARS calls fit layer sf nb_stars area _ h with
      h0 | ⟨threshold1, norm1, bg1, collected, rest1, -, -, -, hall, -, hret⟩
    · cases h0
    · rcases hret with ⟨-, hnone⟩ | ⟨-, hsome⟩
      · cases hnone
      · have hnan : ∀ s ∈ collected, s.mag.isnan = false := fun s hs =>
          StoredFrom_mag rnd calls _ _ threshold1 norm1 bg1 layer sf _ s (hall s hs)
        have hperm := calls.qsort.perm compare_stars collected
          (compare_stars_consistent collected hnan)
        exact ⟨_, rest1, threshold1, norm1, bg1, Option.some.inj hsome,
          fun s hs => hall s (hperm.mem_iff.mp hs)⟩

/-- An instance of `stored_record_position`: the first candidate of the sample
run, stored in the empty array of 4 slots. -/
theorem stored_record_position_witness :
    (([] : List fitted_PSF).length < 3
        ∧ is_candidate (pixel 5 4 uPlateau) 1 100 1 1 = some true
        ∧ is_star Dbl.exact (sampleCalls.fwhm_to_arcsec_if_needed (fitAt 1 1)) sampleParams = true)
      ∧ scan_pixel Dbl.exact 3 sampleCalls (pixel 5 4 uPlateau) (pixel 5 4 uPlateau) 1 100
          (Dbl.fin 0) 0 sampleParams ⟨0, tabOf [] [none, none, none]⟩ 1 1
        = some ⟨1, tabOf [placed_star Dbl.exact sampleParams 1 1
            (sampleCalls.fwhm_to_arcsec_if_needed (fitAt 1 1))] [none, none]⟩ := by
  have hstar : is_star Dbl.exact (sampleCalls.fwhm_to_arcsec_if_needed (fitAt 1 1)) sampleParams
      = true := by
    simp [sampleCalls, is_star, fitAt, sampleParams, Dbl.isnan, Dbl.le, Dbl.lt, Dbl.gt, Dbl.div,
      Dbl.zero, Dbl.c0_01, Dbl.c200, Dbl.exact]
    norm_num
  have hc : is_candidate (pixel 5 4 uPlateau) 1 100 1 1 = some true := by decide
  obtain ⟨z, hz⟩ : ∃ z, fill_z (pixel 5 4 uPlateau) sampleParams.radius 1 1 = some z := ⟨_, rfl⟩
  exact ⟨⟨by decide, hc, hstar⟩,
    (stored_record_position Dbl.exact 3 sampleCalls (pixel 5 4 uPlateau) (pixel 5 4 uPlateau) 1
      100 (Dbl.fin 0) 0 sampleParams [] none [none, none] 1 1 z (fitAt 1 1) (by decide) hc hz rfl
      hstar).1⟩

/-! ## Neighbouring candidates -/

/-- Of two distinct pixels of equal value, exactly one is at a losing place for
the other: the loop body of the first accepts the second exactly when the loop
body of the second rejects the first. -/
theorem neighbor_ok_opposite (x y xx yy : Int) (pix : Nat) (hne : (x, y) ≠ (xx, yy)) :
    neighbor_ok x y pix xx yy pix = !neighbor_ok xx yy pix x y pix := by
  have h1 : ¬ (xx = x ∧ yy = y) := by
    rintro ⟨rfl, rfl⟩
    exact hne rfl
  have h2 : ¬ (x = xx ∧ y = yy) := by
    rintro ⟨rfl, rfl⟩
    exact hne rfl
  by_cases hl : (xx ≤ x ∧ yy ≤ y) ∨ (xx > x ∧ yy < y)
  · have hl2 : ¬ ((x ≤ xx ∧ y ≤ yy) ∨ (x > xx ∧ y < yy)) := by omega
    simp [neighbor_ok, h1, h2, hl, hl2]
  · have hl2 : (x ≤ xx ∧ y ≤ yy) ∨ (x > xx ∧ y < yy) := by omega
    simp [neighbor_ok, h1, h2, hl, hl2]

/-- The neighbour loops of a pixel whose window is read without fault leave
`bingo` TRUE only if the loop body accepts the neighbour `q`. -/
theorem neighbor_rows_accepts (image : Int → Int → Option Nat) (value : Int → Int → Nat)
    (p q : Int × Int) (pix : Nat)
    (hread : ∀ yy ∈ [p.2 - 1, p.2, p.2 + 1], ∀ xx ∈ [p.1 - 1, p.1, p.1 + 1],
      image yy xx = some (value yy xx))
    (hadj : adjacent p q) :
    ∃ bingo, neighbor_rows image p.1 p.2 pix [p.2 - 1, p.2, p.2 + 1] true = some bingo
      ∧ (bingo = true → neighbor_ok p.1 p.2 pix q.1 q.2 (value q.2 q.1) = true) := by
  obtain ⟨px, py⟩ := p
  obtain ⟨qx, qy⟩ := q
  obtain ⟨-, hx, hy⟩ := hadj
  simp only at hx hy hread ⊢
  rw [abs_le] at hx hy
  refine ⟨_, neighbor_rows_eq image value px py pix [py - 1, py, py + 1] true hread, ?_⟩
  intro hall
  simp only [Bool.true_and, List.all_eq_true] at hall
  exact hall qy (by simp; omega) qx (by simp; omega)

/-- The loop body accepts a neighbour other than the centre only if it is not
greater than the pixel. -/
theorem neighbor_ok_le (x y : Int) (pix : Nat) (xx yy : Int) (nv : Nat)
    (hne : (x, y) ≠ (xx, yy)) (h : neighbor_ok x y pix xx yy nv = true) : nv ≤ pix := by
  have h1 : ¬ (xx = x ∧ yy = y) := by
    rintro ⟨rfl, rfl⟩
    exact hne rfl
  simp only [neighbor_ok, h1, decide_False, Bool.false_or, Bool.and_eq_true, Bool.not_eq_true',
    decide_eq_false_iff_not] at h
  omega

/-- C28: for every filtered image, two 8-adjacent pixels `p` and `q` whose 3 by 3
windows are read without fault are never both candidates. If the neighbour loops
of `p` leave `bingo` TRUE then those of `q` set it to FALSE; hence if `p` passes
the candidate test, `q` fails it; and of two adjacent pixels of equal value the
tie-break disqualifies exactly one, the place of `q` being a losing one for `p`
exactly when the place of `p` is not a losing one for `q`. -/
theorem adjacent_not_both_candidates (image : Int → Int → Option Nat)
    (value : Int → Int → Nat) (threshold norm : Nat) (p q : Int × Int)
    (hp : ∀ yy ∈ [p.2 - 1, p.2, p.2 + 1], ∀ xx ∈ [p.1 - 1, p.1, p.1 + 1],
      image yy xx = some (value yy xx))
    (hq : ∀ yy ∈ [q.2 - 1, q.2, q.2 + 1], ∀ xx ∈ [q.1 - 1, q.1, q.1 + 1],
      image yy xx = some (value yy xx))
    (hadj : adjacent p q) :
    (neighbor_rows image p.1 p.2 (value p.2 p.1) [p.2 - 1, p.2, p.2 + 1] true = some true →
        neighbor_rows image q.1 q.2 (value q.2 q.1) [q.2 - 1, q.2, q.2 + 1] true = some false)
      ∧ (is_candidate image threshold norm p.1 p.2 = some true →
          is_candidate image threshold norm q.1 q.2 = some false)
      ∧ ∀ pix : Nat,
          neighbor_ok p.1 p.2 pix q.1 q.2 pix = !neighbor_ok q.1 q.2 pix p.1 p.2 pix := by
  have hadj2 : adjacent q p := ⟨fun h => hadj.1 h.symm, by rw [abs_sub_comm]; exact hadj.2.1,
    by rw [abs_sub_comm]; exact hadj.2.2⟩
  have hloops : neighbor_rows image p.1 p.2 (value p.2 p.1) [p.2 - 1, p.2, p.2 + 1] true
        = some true →
      neighbor_rows image q.1 q.2 (value q.2 q.1) [q.2 - 1, q.2, q.2 + 1] true = some false := by
    intro hpt
    obtain ⟨b1, hb1, hok1⟩ := neighbor_rows_accepts image value p q (value p.2 p.1) hp hadj
    obtain ⟨b2, hb2, hok2⟩ := neighbor_rows_accepts image value q p (value q.2 q.1) hq hadj2
    rw [hb1] at hpt
    have h1 := hok1 (Option.some.inj hpt)
    rw [hb2]
    cases b2 with
    | false => rfl
    | true =>
      have h2 := hok2 rfl
      have hle1 := neighbor_ok_le p.1 p.2 _ q.1 q.2 _ hadj.1 h1
      have hle2 := neighbor_ok_le q.1 q.2 _ p.1 p.2 _ hadj2.1 h2
      have he : value q.2 q.1 = value p.2 p.1 := le_antisymm hle1 hle2
      rw [he] at h1 h2
      have hopp := neighbor_ok_opposite p.1 p.2 q.1 q.2 (value p.2 p.1) hadj.1
      rw [h1, h2] at hopp
      cases hopp
  refine ⟨hloops, ?_, fun pix => neighbor_ok_opposite p.1 p.2 q.1 q.2 pix hadj.1⟩
  intro hcand
  have hcp : image p.2 p.1 = some (value p.2 p.1) := hp p.2 (by simp) p.1 (by simp)
  have hcq : image q.2 q.1 = some (value q.2 q.1) := hq q.2 (by simp) q.1 (by simp)
  simp only [is_candidate, hcp] at hcand
  simp only [is_candidate, hcq]
  split_ifs at hcand with hr
  · rw [hloops hcand]
    split_ifs <;> rfl
  · cases hcand

/-- An instance of `adjacent_not_both_candidates`: on the U-shaped plateau the
pixel `(1, 1)` is a candidate and its neighbour `(1, 2)` of equal value is not. -/
theorem adjacent_not_both_candidates_witness :
    adjacent ((1, 1) : Int × Int) (1, 2)
      ∧ is_candidate (pixel 5 4 uPlateau) 1 100 1 1 = some true
      ∧ is_candidate (pixel 5 4 uPlateau) 1 100 1 2 = some false :=
  ⟨by unfold adjacent; decide, by decide,
    (adjacent_not_both_candidates (pixel 5 4 uPlateau) (sample 5 4 uPlateau) 1 100 (1, 1) (1, 2)
      (by decide) (by decide) (by unfold adjacent; decide)).2.1 (by decide)⟩

/-! ## The first pixel of a plateau -/

/-- The pixels kept by the scan are the visited pixels that pass the candidate
test. -/
theorem mem_candidates_of (image : Int → Int → Option Nat) (threshold norm : Nat)
    (positions found : List (Int × Int))
    (h : candidates_of image threshold norm positions = some found) (p : Int × Int) :
    p ∈ found ↔ p ∈ positions ∧ is_candidate image threshold norm p.1 p.2 = some true := by
  induction positions generalizing found with
  | nil =>
    simp only [candidates_of, Option.some.injEq] at h
    subst h
    simp
  | cons q positions ih =>
    obtain ⟨x, y⟩ := q
    simp only [candidates_of] at h
    split at h
    · cases h
    · rename_i bingo hb
      split at h
      · cases h
      · rename_i found1 hf
        have ih1 := ih found1 hf
        simp only [Option.some.injEq] at h
        subst h
        cases bingo with
        | false =>
          simp only [Bool.false_eq_true, if_false, ih1, List.mem_cons]
          constructor
          · rintro ⟨h1, h2⟩
            exact ⟨Or.inr h1, h2⟩
          · rintro ⟨h1 | h1, h2⟩
            · rw [h1] at h2
              rw [hb] at h2
              cases h2
            · exact ⟨h1, h2⟩
        | true =>
          simp only [if_true, List.mem_cons, ih1]
          constructor
          · rintro (h1 | ⟨h1, h2⟩)
            · rw [h1]
              exact ⟨Or.inl rfl, hb⟩
            · exact ⟨Or.inr h1, h2⟩
          · rintro ⟨h1 | h1, h2⟩
            · exact Or.inl h1
            · exact Or.inr ⟨h1, h2⟩

/-- A neighbour at a non-zero offset within one row and one column is one of the
8 neighbours. -/
theorem mem_neighbours8 (x y dx dy : Int) (h1 : -1 ≤ dx) (h2 : dx ≤ 1) (h3 : -1 ≤ dy)
    (h4 : dy ≤ 1) (hne : ¬ (dx = 0 ∧ dy = 0)) : (x + dx, y + dy) ∈ neighbours8 (x, y) := by
  have hdx : dx = -1 ∨ dx = 0 ∨ dx = 1 := by omega
  have hdy : dy = -1 ∨ dy = 0 ∨ dy = 1 := by omega
  rcases hdx with rfl | rfl | rfl <;> rcases hdy with rfl | rfl | rfl <;>
    simp [neighbours8] at hne ⊢ <;> omega

/-- C29: on a filtered image of `nx` by `ny` samples scanned with a radius of at
least 1 over an area inside the image, let `plateau` be a set of pixels of value
`v`, `threshold < v < normValue`, that is closed under 8-neighbours of equal
value (as a maximal 8-connected plateau is) and none of whose pixels has a
greater neighbour. If its row-major-first pixel `p` (smallest `y`, then smallest
`x`) is visited by the scan, then `p` passes the candidate test, and the scan
returns a list of candidates that contains `p`. -/
theorem plateau_first_pixel_candidate (nx ny : Int) (wave : List Nat) (threshold norm : Nat)
    (radius areaX0 areaY0 areaX1 areaY1 : Int) (plateau : List (Int × Int)) (v : Nat)
    (p : Int × Int) (hlen : (wave.length : Int) = nx * ny) (hrad : 1 ≤ radius)
    (hx0 : 0 ≤ areaX0) (hx1 : areaX1 ≤ nx) (hy0 : 0 ≤ areaY0) (hy1 : areaY1 ≤ ny)
    (hv : threshold < v ∧ v < norm)
    (hval : ∀ q ∈ plateau, sample nx ny wave q.2 q.1 = v)
    (hmax : ∀ q ∈ plateau, ∀ n ∈ neighbours8 q, sample nx ny wave n.2 n.1 = v → n ∈ plateau)
    (hgreater : ∀ q ∈ plateau, ∀ n ∈ neighbours8 q, sample nx ny wave n.2 n.1 ≤ v)
    (hp : p ∈ plateau)
    (hfirst : ∀ q ∈ plateau, p.2 < q.2 ∨ (p.2 = q.2 ∧ p.1 ≤ q.1))
    (hvisit : p ∈ scan_positions radius areaX0 areaY0 areaX1 areaY1) :
    is_candidate (pixel nx ny wave) threshold norm p.1 p.2 = some true
      ∧ ∃ found, candidates nx ny wave threshold norm radius areaX0 areaY0 areaX1 areaY1
            = some found
          ∧ p ∈ found := by
  obtain ⟨x, y⟩ := p
  have hcand : is_candidate (pixel nx ny wave) threshold norm x y = some true := by
    obtain ⟨bingo, hb, hiff⟩ := is_candidate_spec (pixel nx ny wave) (sample nx ny wave)
      threshold norm x y
      (window_defined nx ny wave radius areaX0 areaY0 areaX1 areaY1 x y hlen hrad hx0 hx1 hy0
        hy1 hvisit)
    have hvp : sample nx ny wave y x = v := hval (x, y) hp
    have hspec : SpecCandidate (sample nx ny wave) threshold norm x y := by
      refine ⟨by rw [hvp]; exact hv.1, by rw [hvp]; exact hv.2, ?_⟩
      intro dx dy h1 h2 h3 h4 hne
      have hn := mem_neighbours8 x y dx dy h1 h2 h3 h4 hne
      have hle := hgreater (x, y) hp _ hn
      simp only at hle
      rw [hvp]
      rcases Nat.lt_or_ge (sample nx ny wave (y + dy) (x + dx)) v with hlt | hge
      · exact Or.inl hlt
      · have he : sample nx ny wave (y + dy) (x + dx) = v := le_antisymm hle hge
        have hin := hmax (x, y) hp _ hn he
        have hf := hfirst _ hin
        simp only at hf
        exact Or.inr ⟨he, by omega, by omega⟩
    rw [hb, hiff.mpr hspec]
  refine ⟨hcand, ?_⟩
  obtain ⟨found, hf, -, -⟩ := candidates_of_spec (pixel nx ny wave) (sample nx ny wave)
    threshold norm (scan_positions radius areaX0 areaY0 areaX1 areaY1)
    (fun q hq => window_defined nx ny wave radius areaX0 areaY0 areaX1 areaY1 q.1 q.2 hlen hrad
      hx0 hx1 hy0 hy1 hq)
  exact ⟨found, hf, (mem_candidates_of _ _ _ _ _ hf (x, y)).mpr ⟨hvisit, hcand⟩⟩

/-- An instance of `plateau_first_pixel_candidate`: the U-shaped plateau of value
5, whose first pixel in row-major order is `(1, 1)`. -/
theorem plateau_first_pixel_candidate_witness :
    ((uPlateau.length : Int) = 5 * 4
        ∧ (∀ q ∈ [((1 : Int), (1 : Int)), (3, 1), (1, 2), (2, 2), (3, 2)],
            sample 5 4 uPlateau q.2 q.1 = 5)
        ∧ (1, 1) ∈ scan_positions 1 0 0 5 4)
      ∧ is_candidate (pixel 5 4 uPlateau) 1 100 1 1 = some true
      ∧ ∃ found, candidates 5 4 uPlateau 1 100 1 0 0 5 4 = some found
          ∧ ((1 : Int), (1 : Int)) ∈ found :=
  ⟨⟨by decide, by decide, by decide⟩,
    plateau_first_pixel_candidate 5 4 uPlateau 1 100 1 0 0 5 4
      [(1, 1), (3, 1), (1, 2), (2, 2), (3, 2)] 5 (1, 1) (by decide) (by decide) (by decide)
      (by decide) (by decide) (by decide) (by decide) (by decide) (by decide) (by decide)
      (by decide) (by decide) (by decide)⟩

/-! ## The sort as a permutation -/

/-- C30, as stated, fails: with a NaN magnitude in the array `compare_stars` is
not a consistent comparison (the NaN record compares as equal to two records that
compare as different), so the C standard leaves the result of `qsort` open; with
an implementation that then leaves the first element in every slot, the array
`[nan, a(2), b(1)]` is turned into `[nan, nan, nan]`, which loses `a` and `b`. -/
theorem sort_stars_not_permutation :
    ¬ Consistent compare_stars [nanMagnitudeRecord, starAt 0 0 2, starAt 5 5 1]
      ∧ sort_stars overwritingQsort
          (some (tabOf [nanMagnitudeRecord, starAt 0 0 2, starAt 5 5 1] [])) 3
        = some (some (tabOf [nanMagnitudeRecord, nanMagnitudeRecord, nanMagnitudeRecord] []))
      ∧ ¬ List.Perm [nanMagnitudeRecord, nanMagnitudeRecord, nanMagnitudeRecord]
          [nanMagnitudeRecord, starAt 0 0 2, starAt 5 5 1] := by
  have hc : ¬ Consistent compare_stars [nanMagnitudeRecord, starAt 0 0 2, starAt 5 5 1] := by
    intro hc
    have h := hc.2 (starAt 0 0 2) (by simp) nanMagnitudeRecord (by simp) (starAt 5 5 1)
      (by simp) (by decide) (by decide)
    revert h
    decide
  refine ⟨hc, ?_, ?_⟩
  · have h := sort_stars_tabOf overwritingQsort
      [nanMagnitudeRecord, starAt 0 0 2, starAt 5 5 1] []
    have hs : overwritingQsort.sort compare_stars
        [nanMagnitudeRecord, starAt 0 0 2, starAt 5 5 1]
        = [nanMagnitudeRecord, nanMagnitudeRecord, nanMagnitudeRecord] := by
      simp only [overwritingQsort, if_neg hc]
      rfl
    rw [hs] at h
    exact h
  · intro hp
    have hm : starAt 5 5 1 ∈ [nanMagnitudeRecord, nanMagnitudeRecord, nanMagnitudeRecord] :=
      hp.mem_iff.mpr (by simp)
    revert hm
    decide

/-- C30, amended: `sort_stars` only reorders an array of records whose magnitudes
are not NaN. It returns, the array it leaves holds a permutation of the input
records (same length, every record with the same multiplicity) before the same
terminator and slots; and since every record collected by the scan of `peaker`
has a magnitude that is not NaN, the array that `peaker` returns holds a
permutation of the records its scan collected: the sort neither loses nor
duplicates a star. -/
theorem sort_stars_permutes :
    (∀ (Q : Qsort) (stars : List fitted_PSF) (rest : StarTab),
        (∀ s ∈ stars, s.mag.isnan = false) →
        sort_stars Q (some (tabOf stars rest)) stars.length
            = some (some (tabOf (Q.sort compare_stars stars) rest))
          ∧ (Q.sort compare_stars stars).Perm stars
          ∧ (Q.sort compare_stars stars).length = stars.length
          ∧ ∀ s, (Q.sort compare_stars stars).count s = stars.count s)
      ∧ ∀ (rnd : ℚ → Dbl) (MAX_STARS : Nat) (calls : PeakerCalls) (fit : fits) (layer : Int)
          (sf : star_finder_params) (nb_stars : Option Int) (area : Option rectangle)
          (r : PeakerResult),
          peaker rnd MAX_STARS calls fit layer sf nb_stars area = some r →
          r = ⟨none, nb_stars⟩
            ∨ ∃ (results0 : StarTab) (threshold norm : Nat) (bg : Dbl) (st : ScanState)
                (collected : List fitted_PSF) (rest : StarTab),
                scan_loop rnd MAX_STARS calls (pixel fit.rx fit.ry calls.wave)
                    (pixel fit.rx fit.ry (fit.pdata layer)) threshold norm bg layer sf
                    (peaker_positions fit sf area) ⟨0, results0⟩ = some st
                  ∧ st.results = tabOf collected rest ∧ collected.length = st.nbstars
                  ∧ ((collected = [] ∧ r.ret = none)
                      ∨ ∃ sorted : List fitted_PSF,
                          r.ret = some (tabOf sorted rest) ∧ sorted.Perm collected) := by
  constructor
  · intro Q stars rest hnan
    have hperm := Q.perm compare_stars stars (compare_stars_consistent stars hnan)
    exact ⟨sort_stars_tabOf Q stars rest, hperm, hperm.length_eq, fun s => hperm.count_eq s⟩
  · intro rnd MAX_STARS calls fit layer sf nb_stars area r h
    rcases peaker_cases rnd MAX_STARS calls fit layer sf nb_stars area r h with
      h0 | ⟨fresh, results, threshold, norm, bg, st, -, hres, -, -, hst, hsort, -⟩
    · exact Or.inl h0
    · right
      have hinit : ScanInvP (fun s => s.mag.isnan = false) MAX_STARS ⟨0, results⟩ := by
        cases fresh with
        | nil => simp [store] at hres
        | cons slot rest0 =>
          simp only [store, List.length_cons, Nat.zero_lt_succ, if_true,
            List.set_cons_zero, Option.some.injEq] at hres
          exact ⟨[], rest0, by simp [tabOf, ← hres], rfl, Nat.zero_le _, by simp⟩
      obtain ⟨collected, rest, hr, hlen, -, hall⟩ :=
        scan_loop_invP _ rnd MAX_STARS calls _ _ threshold norm bg layer sf _ _ st
          (fun s hs => StoredFrom_mag rnd calls _ _ threshold norm bg layer sf _ s hs) hinit hst
      refine ⟨results, threshold, norm, bg, st, collected, rest, hst, hr, hlen, ?_⟩
      by_cases hz : st.nbstars = 0
      · left
        rw [if_pos hz] at hsort
        simp only [sort_stars, Option.some.injEq] at hsort
        exact ⟨List.length_eq_zero.mp (by omega), hsort.symm⟩
      · right
        rw [if_neg hz, hr, ← hlen, sort_stars_tabOf] at hsort
        exact ⟨_, (Option.some.inj hsort).symm,
          calls.qsort.perm compare_stars collected (compare_stars_consistent collected hall)⟩

/-- An instance of `sort_stars_permutes`: two stars in descending order of
magnitude are swapped by the insertion sort, none being lost. -/
theorem sort_stars_permutes_witness :
    (∀ s ∈ [starAt 10 10 2, starAt 20 20 1], s.mag.isnan = false)
      ∧ (insertionQsort.sort compare_stars [starAt 10 10 2, starAt 20 20 1]).Perm
          [starAt 10 10 2, starAt 20 20 1] := by
  have hnan : ∀ s ∈ [starAt 10 10 2, starAt 20 20 1], s.mag.isnan = false := by
    intro s hs
    simp only [List.mem_cons, List.mem_singleton, List.not_mem_nil, or_false] at hs
    rcases hs with rfl | rfl <;> rfl
  exact ⟨hnan,
    (sort_stars_permutes.1 insertionQsort [starAt 10 10 2, starAt 20 20 1] [] hnan).2.1⟩

/-! ## Manual insertion and the acceptance test -/

/-- The value of `add_star` on an existing array with a slot after the
terminator, for a fit that succeeded: the fit is turned down when an entry is
within 0.9 pixel on both axes or when the catalog is full, and appended
otherwise. -/
theorem add_star_outcome (rnd : ℚ → Dbl) (MAX_STARS : Nat) (stars : List fitted_PSF)
    (slot : Option fitted_PSF) (rest : StarTab) (sel : rectangle) (seqdata : Bool)
    (result : fitted_PSF) (alloc : Option StarTab) :
    add_star rnd MAX_STARS ⟨some (tabOf stars (slot :: rest)), sel, seqdata⟩ (some result) alloc
      = if stars.any (near rnd result sel) = true then
          some ⟨none, -1, ⟨some (tabOf stars (slot :: rest)), sel, seqdata⟩⟩
        else if stars.length < MAX_STARS then
          some ⟨some (picked_star rnd sel result), (stars.length : Int),
            ⟨some (tabOf (stars ++ [picked_star rnd sel result]) rest), sel, seqdata⟩⟩
        else some ⟨none, -1, ⟨some (tabOf stars (slot :: rest)), sel, seqdata⟩⟩ := by
  rw [add_star_tabOf]
  have h1 : store (tabOf stars (slot :: rest)) stars.length (some (picked_star rnd sel result))
      = some (stars.map some ++ some (picked_star rnd sel result) :: slot :: rest) := by
    have h := store_append (stars.map some) none (some (picked_star rnd sel result))
      (slot :: rest)
    simpa [tabOf] using h
  have h2 : store (stars.map some ++ some (picked_star rnd sel result) :: slot :: rest)
      (stars.length + 1) none = some (tabOf (stars ++ [picked_star rnd sel result]) rest) := by
    have h := store_append (stars.map some ++ [some (picked_star rnd sel result)]) slot none rest
    simpa [tabOf] using h
  split_ifs with ha hl
  · rfl
  · show (match store (tabOf stars (slot :: rest)) stars.length
        (some (picked_star rnd sel result)) with
      | none => none
      | some tab1 =>
        match store tab1 (stars.length + 1) none with
        | none => none
        | some tab2 =>
          some (AddResult.mk (some (picked_star rnd sel result)) (stars.length : Int)
            (Com.mk (some tab2) sel seqdata))) = _
    rw [h1]
    simp only
    rw [h2]
  · rfl

/-- The fit of amplitude 0.001 is rejected by the acceptance test, whatever the
roundness bound and the rounding. -/
theorem is_star_faintRecord (rnd : ℚ → Dbl) (sf : star_finder_params) :
    is_star rnd faintRecord sf = false := by
  have hA : Dbl.lt faintRecord.A Dbl.c0_01 = true := by
    simp [faintRecord, Dbl.lt, Dbl.c0_01]
    norm_num
  cases h : is_star rnd faintRecord sf with
  | false => rfl
  | true =>
    exact absurd (Or.inr (Or.inr (Or.inr (Or.inr (Or.inl hA)))))
      ((is_star_true_iff rnd faintRecord sf).mp h)

/-- C26: manual insertion bypasses the acceptance filter. The fit of amplitude
0.001 is rejected by `is_star` for every roundness, yet `add_star` inserts it in
every catalog with free capacity and no entry within 0.9 pixel; and for every
fit, accepted by `is_star` or not, `add_star` returns a record exactly when the
catalog has free capacity and no entry within 0.9 pixel on both axes: its outcome
is that of the position test and of the capacity test alone. -/
theorem add_star_bypasses_is_star :
    (∀ (rnd : ℚ → Dbl) (sf : star_finder_params), is_star rnd faintRecord sf = false)
      ∧ (∀ (rnd : ℚ → Dbl) (MAX_STARS : Nat) (stars : List fitted_PSF) (slot : Option fitted_PSF)
          (rest : StarTab) (sel : rectangle) (seqdata : Bool) (alloc : Option StarTab),
          stars.length < MAX_STARS →
          (∀ s ∈ stars, near rnd faintRecord sel s = false) →
          add_star rnd MAX_STARS ⟨some (tabOf stars (slot :: rest)), sel, seqdata⟩
              (some faintRecord) alloc
            = some ⟨some (picked_star rnd sel faintRecord), (stars.length : Int),
                ⟨some (tabOf (stars ++ [picked_star rnd sel faintRecord]) rest), sel, seqdata⟩⟩)
      ∧ ∀ (rnd : ℚ → Dbl) (MAX_STARS : Nat) (stars : List fitted_PSF) (slot : Option fitted_PSF)
          (rest : StarTab) (sel : rectangle) (seqdata : Bool) (alloc : Option StarTab)
          (result : fitted_PSF),
          ∃ r, add_star rnd MAX_STARS ⟨some (tabOf stars (slot :: rest)), sel, seqdata⟩
                (some result) alloc = some r
            ∧ (r.ret.isSome = true
                ↔ (stars.length < MAX_STARS ∧ ∀ s ∈ stars, near rnd result sel s = false)) := by
  have hany : ∀ (rnd : ℚ → Dbl) (result : fitted_PSF) (sel : rectangle)
      (stars : List fitted_PSF),
      (¬ stars.any (near rnd result sel) = true) ↔ ∀ s ∈ stars, near rnd result sel s = false := by
    intro rnd result sel stars
    simp [List.any_eq_true]
  refine ⟨is_star_faintRecord, ?_, ?_⟩
  · intro rnd MAX_STARS stars slot rest sel seqdata alloc hroom hnew
    rw [add_star_outcome, if_neg ((hany rnd faintRecord sel stars).mpr hnew), if_pos hroom]
  · intro rnd MAX_STARS stars slot rest sel seqdata alloc result
    rw [add_star_outcome]
    by_cases ha : stars.any (near rnd result sel) = true
    · rw [if_pos ha]
      refine ⟨_, rfl, ?_⟩
      simp only [Option.isSome_none, Bool.false_eq_true, false_iff, not_and]
      intro _ hnew
      exact (hany rnd result sel stars).mpr hnew ha
    · rw [if_neg ha]
      by_cases hl : stars.length < MAX_STARS
      · rw [if_pos hl]
        exact ⟨_, rfl, iff_of_true rfl ⟨hl, (hany rnd result sel stars).mp ha⟩⟩
      · rw [if_neg hl]
        exact ⟨_, rfl, by simp [hl]⟩

/-- An instance of `add_star_bypasses_is_star`: the rejected fit is added to a
one-star catalog of capacity 3. -/
theorem add_star_bypasses_is_star_witness :
    ([starAt 10 10 0].length < 3
        ∧ ∀ s ∈ [starAt 10 10 0], near Dbl.exact faintRecord sampleSelection s = false)
      ∧ is_star Dbl.exact faintRecord defaultParams = false
      ∧ add_star Dbl.exact 3 ⟨some (tabOf [starAt 10 10 0] [none, none]), sampleSelection, false⟩
          (some faintRecord) none
        = some ⟨some (picked_star Dbl.exact sampleSelection faintRecord), 1,
            ⟨some (tabOf [starAt 10 10 0, picked_star Dbl.exact sampleSelection faintRecord]
              [none]), sampleSelection, false⟩⟩ := by
  have hfar : ∀ s ∈ [starAt 10 10 0], near Dbl.exact faintRecord sampleSelection s = false := by
    intro s hs
    rw [List.mem_singleton] at hs
    subst hs
    simp [near, starAt, faintRecord, sampleSelection, Dbl.lt, Dbl.abs, Dbl.sub, Dbl.add,
      Dbl.ofInt, Dbl.exact, Dbl.c0_9]
    norm_num
  exact ⟨⟨by decide, hfar⟩, add_star_bypasses_is_star.1 Dbl.exact defaultParams,
    add_star_bypasses_is_star.2.1 Dbl.exact 3 [starAt 10 10 0] none [none] sampleSelection false
      none (by decide) hfar⟩

/-! ## The count left by the scan -/

/-- The two ways in which `peaker` returns, with their causes: early with NULL,
`*nb_stars` being left alone, when an allocation failed or `norm == 0`; or, when
none of these occurred, after the scan loops, which start from the allocated
array with NULL in slot 0. -/
theorem peaker_cases_cause (rnd : ℚ → Dbl) (MAX_STARS : Nat) (calls : PeakerCalls) (fit : fits)
    (layer : Int) (sf : star_finder_params) (nb_stars : Option Int) (area : Option rectangle)
    (r : PeakerResult)
    (h : peaker rnd MAX_STARS calls fit layer sf nb_stars area = some r) :
    ((calls.results_alloc = none
          ∨ (∃ threshold bg, Compute_threshold rnd calls sf.sigma layer = some (threshold, 0, bg))
          ∨ calls.wave_image_alloc = false ∨ calls.real_image_alloc = false)
        ∧ r = ⟨none, nb_stars⟩)
      ∨ ∃ (slot : Option fitted_PSF) (slots : StarTab) (threshold norm : Nat) (bg : Dbl)
          (st : ScanState),
          calls.results_alloc = some (slot :: slots)
            ∧ Compute_threshold rnd calls sf.sigma layer = some (threshold, norm, bg)
            ∧ norm ≠ 0 ∧ calls.wave_image_alloc = true ∧ calls.real_image_alloc = true
            ∧ scan_loop rnd MAX_STARS calls (pixel fit.rx fit.ry calls.wave)
                (pixel fit.rx fit.ry (fit.pdata layer)) threshold norm bg layer sf
                (peaker_positions fit sf area) ⟨0, none :: slots⟩ = some st
            ∧ sort_stars calls.qsort (if st.nbstars = 0 then none else some st.results)
                (st.nbstars : Int) = some r.ret
            ∧ r.nb_stars = nb_stars.map (fun _ => (st.nbstars : Int)) := by
  rw [peaker_unfold] at h
  split at h
  · split at h
    · rename_i hfresh
      cases h
      exact Or.inl ⟨Or.inl hfresh, rfl⟩
    · rename_i fresh hfresh
      split at h
      · cases h
      · rename_i results hres
        split at h
        · cases h
        · rename_i threshold norm bg hct
          split at h
          · rename_i hnorm
            cases h
            subst hnorm
            exact Or.inl ⟨Or.inr (Or.inl ⟨threshold, bg, hct⟩), rfl⟩
          · rename_i hnorm
            split at h
            · rename_i hw
              cases h
              exact Or.inl ⟨Or.inr (Or.inr (Or.inl hw)), rfl⟩
            · rename_i hw
              split at h
              · rename_i hre
                cases h
                exact Or.inl ⟨Or.inr (Or.inr (Or.inr hre)), rfl⟩
              · rename_i hre
                split at h
                · cases h
                · rename_i st hst
                  split at h
                  · cases h
                  · rename_i sorted hsorted
                    cases h
                    cases fresh with
                    | nil => simp [store] at hres
                    | cons slot slots =>
                      simp only [store, List.length_cons, Nat.zero_lt_succ, if_true,
                        List.set_cons_zero, Option.some.injEq] at hres
                      subst hres
                      exact Or.inr ⟨slot, slots, threshold, norm, bg, st, hfresh, hct, hnorm,
                        by simpa using hw, by simpa using hre, hst, hsorted, rfl⟩
  · cases h

/-- The records that the scan loops of `peaker` leave, started from the empty
array: `nbstars` records, at most `MAX_STARS`, whose magnitude is not NaN,
followed by the NULL terminator. -/
theorem scan_loop_collected (rnd : ℚ → Dbl) (MAX_STARS : Nat) (calls : PeakerCalls)
    (wave_image real_image : Int → Int → Option Nat) (threshold norm : Nat) (bg : Dbl)
    (layer : Int) (sf : star_finder_params) (positions : List (Int × Int)) (slots : StarTab)
    (st : ScanState)
    (h : scan_loop rnd MAX_STARS calls wave_image real_image threshold norm bg layer sf
      positions ⟨0, none :: slots⟩ = some st) :
    ∃ (collected : List fitted_PSF) (rest : StarTab),
      st.results = tabOf collected rest ∧ collected.length = st.nbstars
        ∧ st.nbstars ≤ MAX_STARS ∧ ∀ s ∈ collected, s.mag.isnan = false := by
  have hinit : ScanInvP (fun s => s.mag.isnan = false) MAX_STARS ⟨0, none :: slots⟩ :=
    ⟨[], slots, rfl, rfl, Nat.zero_le _, by simp⟩
  exact scan_loop_invP _ rnd MAX_STARS calls _ _ threshold norm bg layer sf _ _ st
    (fun s hs => StoredFrom_mag rnd calls _ _ threshold norm bg layer sf _ s hs) hinit h

/-- C24, as stated, fails: when the statistics fail, `norm` is 0 and `peaker`
returns NULL before the scan without writing the count; a caller whose count
variable held 7 finds no array and the count 7. -/
theorem peaker_early_return_count :
    peaker Dbl.exact 3 failedStatsCalls sampleFits 0 sampleParams (some 7) none
      = some ⟨none, some 7⟩ := by
  simp [peaker, failedStatsCalls, sampleCalls, sampleFits, store, Compute_threshold]

/-- C24, amended: on a return of `peaker` called with a count pointer, either the
call ended early (failed allocation of `results`, `wave_image` or `real_image`,
or `norm == 0`), NULL is returned and the count is left as the caller had it; or
none of these occurred, and then the count is the number of records of the
returned NULL-terminated array, NULL being returned with the count 0 when no
candidate was accepted. -/
theorem peaker_count (rnd : ℚ → Dbl) (MAX_STARS : Nat) (calls : PeakerCalls) (fit : fits)
    (layer : Int) (sf : star_finder_params) (count : Int) (area : Option rectangle)
    (r : PeakerResult)
    (h : peaker rnd MAX_STARS calls fit layer sf (some count) area = some r) :
    ((calls.results_alloc = none
          ∨ (∃ threshold bg, Compute_threshold rnd calls sf.sigma layer = some (threshold, 0, bg))
          ∨ calls.wave_image_alloc = false ∨ calls.real_image_alloc = false)
        ∧ r = ⟨none, some count⟩)
      ∨ ((calls.results_alloc ≠ none
            ∧ (∃ threshold norm bg,
                Compute_threshold rnd calls sf.sigma layer = some (threshold, norm, bg)
                  ∧ norm ≠ 0)
            ∧ calls.wave_image_alloc = true ∧ calls.real_image_alloc = true)
          ∧ (r = ⟨none, some 0⟩
              ∨ ∃ (records : List fitted_PSF) (rest : StarTab),
                  records ≠ [] ∧ r.ret = some (tabOf records rest)
                    ∧ get_size_star_tab (tabOf records rest) = some records.length
                    ∧ r.nb_stars = some (records.length : Int))) := by
  rcases peaker_cases_cause rnd MAX_STARS calls fit layer sf (some count) area r h with
    h0 | ⟨slot, slots, threshold, norm, bg, st, hfresh, hct, hnorm, hw, hre, hst, hsort, hnb⟩
  · exact Or.inl h0
  · refine Or.inr ⟨⟨by rw [hfresh]; simp, ⟨threshold, norm, bg, hct, hnorm⟩, hw, hre⟩, ?_⟩
    obtain ⟨collected, rest, hr, hlen, -, hall⟩ := scan_loop_collected rnd MAX_STARS calls _ _
      threshold norm bg layer sf _ slots st hst
    by_cases hz : st.nbstars = 0
    · left
      rw [if_pos hz] at hsort
      simp only [sort_stars, Option.some.injEq] at hsort
      obtain ⟨ret, nb⟩ := r
      simp only at hsort hnb
      rw [← hsort, hnb, hz]
      rfl
    · right
      rw [if_neg hz, hr, ← hlen, sort_stars_tabOf] at hsort
      have hperm := calls.qsort.perm compare_stars collected
        (compare_stars_consistent collected hall)
      refine ⟨calls.qsort.sort compare_stars collected, rest, ?_, (Option.some.inj hsort).symm,
        get_size_star_tab_tabOf _ _, ?_⟩
      · intro he
        have hl := hperm.length_eq
        rw [he] at hl
        simp only [List.length_nil] at hl
        omega
      · rw [hnb, hperm.length_eq, hlen]
        rfl

/-- An instance of `peaker_count`: the sample run returns two records and the
count 2. -/
theorem peaker_count_witness :
    peaker Dbl.exact 3 sampleCalls sampleFits 0 sampleParams (some 0) none
        = some ⟨some (tabOf [{ fitAt 1 1 with xpos := Dbl.fin 0, ypos := Dbl.fin 0 },
            { fitAt 1 1 with xpos := Dbl.fin 2, ypos := Dbl.fin 0 }] [none]), some 2⟩
      ∧ (((sampleCalls.results_alloc = none
            ∨ (∃ threshold bg, Compute_threshold Dbl.exact sampleCalls sampleParams.sigma 0
                = some (threshold, 0, bg))
            ∨ sampleCalls.wave_image_alloc = false ∨ sampleCalls.real_image_alloc = false)
          ∧ (⟨some (tabOf [{ fitAt 1 1 with xpos := Dbl.fin 0, ypos := Dbl.fin 0 },
              { fitAt 1 1 with xpos := Dbl.fin 2, ypos := Dbl.fin 0 }] [none]), some 2⟩
              : PeakerResult) = ⟨none, some 0⟩)
        ∨ ((sampleCalls.results_alloc ≠ none
              ∧ (∃ threshold norm bg,
                  Compute_threshold Dbl.exact sampleCalls sampleParams.sigma 0
                    = some (threshold, norm, bg) ∧ norm ≠ 0)
              ∧ sampleCalls.wave_image_alloc = true ∧ sampleCalls.real_image_alloc = true)
            ∧ ((⟨some (tabOf [{ fitAt 1 1 with xpos := Dbl.fin 0, ypos := Dbl.fin 0 },
                  { fitAt 1 1 with xpos := Dbl.fin 2, ypos := Dbl.fin 0 }] [none]), some 2⟩
                  : PeakerResult) = ⟨none, some 0⟩
                ∨ ∃ (records : List fitted_PSF) (rest : StarTab),
                    records ≠ []
                      ∧ some (tabOf [{ fitAt 1 1 with xpos := Dbl.fin 0, ypos := Dbl.fin 0 },
                          { fitAt 1 1 with xpos := Dbl.fin 2, ypos := Dbl.fin 0 }] [none])
                        = some (tabOf records rest)
                      ∧ get_size_star_tab (tabOf records rest) = some records.length
                      ∧ some (2 : Int) = some (records.length : Int)))) :=
  ⟨peaker_sample_run, peaker_count Dbl.exact 3 sampleCalls sampleFits 0 sampleParams 0 none _
    peaker_sample_run⟩

/-! ## Manual edits and the distance between entries -/

/-- The absolute value ignores the sign. -/
theorem Dbl.abs_neg (d : Dbl) : Dbl.abs (Dbl.neg d) = Dbl.abs d := by
  cases d <;> simp [Dbl.abs, Dbl.neg]

/-- The distance `|a - b|` does not depend on the order of the operands, for a
rounding that commutes with the change of sign. -/
theorem Dbl.abs_sub_comm (rnd : ℚ → Dbl) (hsym : ∀ q, rnd (-q) = Dbl.neg (rnd q)) (a b : Dbl) :
    Dbl.abs (Dbl.sub rnd a b) = Dbl.abs (Dbl.sub rnd b a) := by
  cases a with
  | fin p =>
    cases b with
    | fin q =>
      have e : q - p = -(p - q) := by ring
      show Dbl.abs (rnd (p - q)) = Dbl.abs (rnd (q - p))
      rw [e, hsym, Dbl.abs_neg]
    | nan => rfl
    | ninf => rfl
    | pinf => rfl
  | nan => cases b <;> rfl
  | ninf => cases b <;> rfl
  | pinf => cases b <;> rfl

/-- The distance test does not depend on the order of the two records, for a
rounding that commutes with the change of sign. -/
theorem within_0_9_comm (rnd : ℚ → Dbl) (hsym : ∀ q, rnd (-q) = Dbl.neg (rnd q))
    (a b : fitted_PSF) : within_0_9 rnd a b = within_0_9 rnd b a := by
  simp only [within_0_9, Dbl.abs_sub_comm rnd hsym a.xpos b.xpos,
    Dbl.abs_sub_comm rnd hsym a.ypos b.ypos]

/-- The test that `add_star` applies to a fit and an entry is the distance test
between the record it would store and the entry. -/
theorem near_eq_within (rnd : ℚ → Dbl) (result : fitted_PSF) (sel : rectangle) (s : fitted_PSF) :
    near rnd result sel s = within_0_9 rnd (picked_star rnd sel result) s :=
  rfl

/-- A record that is within 0.9 pixel of no entry can be appended to a catalog
that satisfies the invariant. -/
theorem Separated_append (rnd : ℚ → Dbl) (hsym : ∀ q, rnd (-q) = Dbl.neg (rnd q))
    (records : List fitted_PSF) (s : fitted_PSF) (hinv : Separated rnd records)
    (hnew : ∀ t ∈ records, within_0_9 rnd s t = false) : Separated rnd (records ++ [s]) := by
  unfold Separated
  rw [List.pairwise_append]
  refine ⟨hinv, List.pairwise_singleton _ _, ?_⟩
  intro t ht u hu
  rw [List.mem_singleton] at hu
  subst hu
  exact ⟨by rw [within_0_9_comm rnd hsym]; exact hnew t ht, hnew t ht⟩

/-- Whenever `add_star` returns, it leaves a catalog that satisfies the distance
invariant if the catalog satisfied it before the call. -/
theorem add_star_separated (rnd : ℚ → Dbl) (hsym : ∀ q, rnd (-q) = Dbl.neg (rnd q))
    (MAX_STARS : Nat) (hcap : 0 < MAX_STARS) (com : Com) (fit : Option fitted_PSF)
    (alloc : Option StarTab) (r : AddResult) (hinv : CatalogSeparated rnd com.stars)
    (h : add_star rnd MAX_STARS com fit alloc = some r) : CatalogSeparated rnd r.com.stars := by
  obtain ⟨stars, sel, seqdata⟩ := com
  cases fit with
  | none =>
    simp only [add_star, Option.some.injEq] at h
    subst h
    exact hinv
  | some result =>
    rcases hinv with hnone | ⟨records, rest, hsome, hsep⟩
    · simp only at hnone
      subst hnone
      cases alloc with
      | none =>
        rw [(add_star_absent rnd MAX_STARS sel seqdata result none none [] hcap).1] at h
        cases h
        exact Or.inl rfl
      | some fresh =>
        match fresh, h with
        | [], h => simp [add_star, hcap, store] at h
        | [_], h => simp [add_star, hcap, store] at h
        | s0 :: s1 :: more, h =>
          rw [(add_star_absent rnd MAX_STARS sel seqdata result s0 s1 more hcap).2] at h
          cases h
          exact Or.inr ⟨_, more, rfl, List.pairwise_singleton _ _⟩
    · simp only at hsome
      subst hsome
      have hany : (¬ records.any (near rnd result sel) = true)
          → ∀ t ∈ records, within_0_9 rnd (picked_star rnd sel result) t = false := by
        intro ha t ht
        rw [← near_eq_within]
        simp only [List.any_eq_true, not_exists, not_and, Bool.not_eq_true] at ha
        exact ha t ht
      cases rest with
      | nil =>
        rw [add_star_tabOf] at h
        split_ifs at h with ha hl
        · cases h
          exact Or.inr ⟨records, [], rfl, hsep⟩
        · exfalso
          have h1 := store_append (records.map some) none (some (picked_star rnd sel result)) []
          simp only [List.length_map] at h1
          have h2 : store (records.map some ++ [some (picked_star rnd sel result)])
              (records.length + 1) none = none := by
            simp [store]
          have e : tabOf records [] = records.map some ++ [none] := rfl
          rw [e] at h
          change (match store (records.map some ++ [none]) records.length
              (some (picked_star rnd sel result)) with
            | none => none
            | some tab1 =>
              match store tab1 (records.length + 1) none with
              | none => none
              | some tab2 =>
                some (AddResult.mk (some (picked_star rnd sel result)) (records.length : Int)
                  (Com.mk (some tab2) sel seqdata))) = some r at h
          rw [h1] at h
          simp only at h
          rw [h2] at h
          cases h
        · cases h
          exact Or.inr ⟨records, [], rfl, hsep⟩
      | cons slot rest =>
        rw [add_star_outcome] at h
        split_ifs at h with ha hl
        · cases h
          exact Or.inr ⟨records, slot :: rest, rfl, hsep⟩
        · cases h
          exact Or.inr ⟨_, rest, rfl, Separated_append rnd hsym records _ hsep (hany ha)⟩
        · cases h
          exact Or.inr ⟨records, slot :: rest, rfl, hsep⟩

/-- Whenever `remove_star` returns, it leaves a catalog that satisfies the
distance invariant if the catalog satisfied it before the call. -/
theorem remove_star_separated (rnd : ℚ → Dbl) (com com1 : Com) (index code : Int)
    (hinv : CatalogSeparated rnd com.stars)
    (h : remove_star com index = some (code, com1)) : CatalogSeparated rnd com1.stars := by
  obtain ⟨stars, sel, seqdata⟩ := com
  rcases hinv with hnone | ⟨records, rest, hsome, hsep⟩
  · simp only at hnone
    subst hnone
    have hr := (remove_star_rejects [] [] sel seqdata index).2.1
    rw [hr] at h
    cases h
    exact Or.inl rfl
  · simp only at hsome
    subst hsome
    rcases remove_star_tabOf_cases records rest sel seqdata index code com1 h with
      rfl | ⟨-, -, rfl⟩
    · exact Or.inr ⟨records, rest, rfl, hsep⟩
    · exact Or.inr ⟨_, none :: rest, rfl,
        List.Pairwise.sublist (List.eraseIdx_sublist records index.toNat) hsep⟩

/-- C23: manual edits preserve the catalog invariant, for a rounding that
commutes with the change of sign (as rounding to nearest does) and a capacity of
at least 1. On a catalog in which no two entries are within 0.9 pixel on both
axes, every call of `add_star` that returns, whether it adds the star or not,
and every call of `remove_star` that returns, leave a catalog in which no two
entries are within 0.9 pixel on both axes; `add_star` does return on an array of
`MAX_STARS + 1` slots within capacity, and `remove_star` returns for every index
that is negative or at most the number of records. -/
theorem manual_edits_keep_separation (rnd : ℚ → Dbl)
    (hsym : ∀ q, rnd (-q) = Dbl.neg (rnd q)) (MAX_STARS : Nat) (hcap : 0 < MAX_STARS) :
    (∀ (com : Com) (fit : Option fitted_PSF) (alloc : Option StarTab) (r : AddResult),
        CatalogSeparated rnd com.stars →
        add_star rnd MAX_STARS com fit alloc = some r → CatalogSeparated rnd r.com.stars)
      ∧ (∀ (com : Com) (fit : Option fitted_PSF) (alloc : Option StarTab),
          CatalogSeparated rnd com.stars → CatalogInv MAX_STARS com.stars →
          (∀ fresh, alloc = some fresh → fresh.length = MAX_STARS + 1) →
          ∃ r, add_star rnd MAX_STARS com fit alloc = some r
            ∧ CatalogSeparated rnd r.com.stars)
      ∧ (∀ (com com1 : Com) (index code : Int), CatalogSeparated rnd com.stars →
          remove_star com index = some (code, com1) → CatalogSeparated rnd com1.stars)
      ∧ ∀ (records : List fitted_PSF) (rest : StarTab) (sel : rectangle) (seqdata : Bool)
          (index : Int), Separated rnd records → index ≤ records.length →
          ∃ code com1, remove_star ⟨some (tabOf records rest), sel, seqdata⟩ index
              = some (code, com1)
            ∧ CatalogSeparated rnd com1.stars := by
  refine ⟨fun com fit alloc r hinv h =>
      add_star_separated rnd hsym MAX_STARS hcap com fit alloc r hinv h, ?_,
    fun com com1 index code hinv h => remove_star_separated rnd com com1 index code hinv h, ?_⟩
  · intro com fit alloc hinv hsize halloc
    obtain ⟨r, hr, -⟩ := add_star_capacity rnd MAX_STARS hcap com fit alloc hsize halloc
    exact ⟨r, hr, add_star_separated rnd hsym MAX_STARS hcap com fit alloc r hinv hr⟩
  · intro records rest sel seqdata index hsep hi
    obtain ⟨code, com1, h⟩ := remove_star_returns records rest sel seqdata index hi
    exact ⟨code, com1, h, remove_star_separated rnd _ com1 index code
      (Or.inr ⟨records, rest, rfl, hsep⟩) h⟩

/-- An instance of `manual_edits_keep_separation`: in exact arithmetic and with
`MAX_STARS = 3`, adding a star to a one-star catalog leaves a catalog that
satisfies the invariant. -/
theorem manual_edits_keep_separation_witness :
    ((∀ q : ℚ, Dbl.exact (-q) = Dbl.neg (Dbl.exact q)) ∧ 0 < 3
        ∧ CatalogSeparated Dbl.exact (some (tabOf [starAt 10 10 0] [none, none]))
        ∧ CatalogInv 3 (some (tabOf [starAt 10 10 0] [none, none])))
      ∧ ∃ r, add_star Dbl.exact 3
            ⟨some (tabOf [starAt 10 10 0] [none, none]), sampleSelection, false⟩
            (some (fitAt 20 1)) none = some r
          ∧ CatalogSeparated Dbl.exact r.com.stars := by
  have hsep : CatalogSeparated Dbl.exact (some (tabOf [starAt 10 10 0] [none, none])) :=
    Or.inr ⟨[starAt 10 10 0], [none, none], rfl, List.pairwise_singleton _ _⟩
  have hinv : CatalogInv 3 (some (tabOf [starAt 10 10 0] [none, none])) :=
    Or.inr ⟨[starAt 10 10 0], [none, none], rfl, by decide, rfl⟩
  exact ⟨⟨fun _ => rfl, by decide, hsep, hinv⟩,
    (manual_edits_keep_separation Dbl.exact (fun _ => rfl) 3 (by decide)).2.1
      ⟨some (tabOf [starAt 10 10 0] [none, none]), sampleSelection, false⟩ (some (fitAt 20 1))
      none hsep hinv (by intro fresh h; cases h)⟩

/-! ## The records collected by the scan -/

/-- What a step of the scan does, in terms of the accepted fit of the pixel: at
capacity, or when the pixel has no accepted fit, the state is left alone;
otherwise the accepted fit is stored in slot `nbstars`, the terminator in the
next slot, and `nbstars` is incremented. -/
theorem scan_pixel_spec (rnd : ℚ → Dbl) (MAX_STARS : Nat) (calls : PeakerCalls)
    (wave_image real_image : Int → Int → Option Nat) (threshold norm : Nat) (bg : Dbl)
    (layer : Int) (sf : star_finder_params) (st st1 : ScanState) (x y : Int)
    (h : scan_pixel rnd MAX_STARS calls wave_image real_image threshold norm bg layer sf st x y
      = some st1) :
    ((MAX_STARS ≤ st.nbstars
          ∨ spec_accepted_fit rnd calls wave_image real_image threshold norm bg layer sf (x, y)
            = none)
        ∧ st1 = st)
      ∨ (st.nbstars < MAX_STARS
          ∧ ∃ (s : fitted_PSF) (tab1 : StarTab),
              spec_accepted_fit rnd calls wave_image real_image threshold norm bg layer sf (x, y)
                = some s
              ∧ store st.results st.nbstars (some s) = some tab1
              ∧ store tab1 (st.nbstars + 1) none = some st1.results
              ∧ st1.nbstars = st.nbstars + 1) := by
  cases hb : is_candidate wave_image threshold norm x y with
  | none => simp [scan_pixel, hb] at h
  | some bingo =>
    by_cases hcond : bingo = true ∧ st.nbstars < MAX_STARS
    · obtain ⟨hbt, hcap⟩ := hcond
      subst hbt
      cases hz : fill_z real_image sf.radius x y with
      | none => simp [scan_pixel, hb, hcap, hz] at h
      | some z =>
        cases hfit : calls.psf_global_minimisation z bg layer with
        | none =>
          simp only [scan_pixel, hb, hcap, and_self, if_true, hz, hfit, Option.some.injEq] at h
          exact Or.inl ⟨Or.inr (by simp only [spec_accepted_fit, hb, hz, hfit]), h.symm⟩
        | some fitted =>
          by_cases hstar : is_star rnd (calls.fwhm_to_arcsec_if_needed fitted) sf = true
          · right
            have h1 : (match store st.results st.nbstars
                  (some (placed_star rnd sf x y (calls.fwhm_to_arcsec_if_needed fitted))) with
                | none => none
                | some results1 =>
                  match store results1 (st.nbstars + 1) none with
                  | none => none
                  | some results2 => some (ScanState.mk (st.nbstars + 1) results2)) = some st1 := by
              simp only [scan_pixel, hb, hcap, and_self, if_true, hz, hfit, hstar] at h
              exact h
            refine ⟨hcap, placed_star rnd sf x y (calls.fwhm_to_arcsec_if_needed fitted), ?_⟩
            cases hs1 : store st.results st.nbstars
                (some (placed_star rnd sf x y (calls.fwhm_to_arcsec_if_needed fitted))) with
            | none => rw [hs1] at h1; cases h1
            | some tab1 =>
              rw [hs1] at h1
              simp only at h1
              cases hs2 : store tab1 (st.nbstars + 1) none with
              | none => rw [hs2] at h1; cases h1
              | some tab2 =>
                rw [hs2] at h1
                simp only [Option.some.injEq] at h1
                subst h1
                exact ⟨tab1, by simp only [spec_accepted_fit, hb, hz, hfit, hstar, if_true], rfl,
                  hs2, rfl⟩
          · simp only [scan_pixel, hb, hcap, and_self, if_true, hz, hfit, hstar,
              Bool.false_eq_true, if_false, Option.some.injEq] at h
            exact Or.inl ⟨Or.inr (by simp only [spec_accepted_fit, hb, hz, hfit, hstar,
              Bool.false_eq_true, if_false]), h.symm⟩
    · simp only [scan_pixel, hb, hcond, if_false, Option.some.injEq] at h
      cases bingo with
      | false => exact Or.inl ⟨Or.inr (by simp only [spec_accepted_fit, hb]), h.symm⟩
      | true =>
        refine Or.inl ⟨Or.inl ?_, h.symm⟩
        by_contra hlt
        exact hcond ⟨rfl, by omega⟩

/-- The scan loops append to the records of the state the first accepted fits of
the visited pixels, as many as the capacity leaves room for. -/
theorem scan_loop_spec (rnd : ℚ → Dbl) (MAX_STARS : Nat) (calls : PeakerCalls)
    (wave_image real_image : Int → Int → Option Nat) (threshold norm : Nat) (bg : Dbl)
    (layer : Int) (sf : star_finder_params) (positions : List (Int × Int)) (st st1 : ScanState)
    (records : List fitted_PSF) (rest : StarTab)
    (hres : st.results = tabOf records rest) (hlen : records.length = st.nbstars)
    (h : scan_loop rnd MAX_STARS calls wave_image real_image threshold norm bg layer sf
      positions st = some st1) :
    ∃ rest1,
      st1.results = tabOf (records ++ (spec_accepted_fits rnd calls wave_image real_image
          threshold norm bg layer sf positions).take (MAX_STARS - records.length)) rest1
        ∧ st1.nbstars = (records ++ (spec_accepted_fits rnd calls wave_image real_image
            threshold norm bg layer sf positions).take (MAX_STARS - records.length)).length := by
  induction positions generalizing st records rest with
  | nil =>
    simp only [scan_loop, Option.some.injEq] at h
    subst h
    exact ⟨rest, by simp [spec_accepted_fits, hres], by simp [spec_accepted_fits, hlen]⟩
  | cons p positions ih =>
    obtain ⟨x, y⟩ := p
    simp only [scan_loop] at h
    split at h
    · cases h
    · rename_i st2 hst2
      rcases scan_pixel_spec rnd MAX_STARS calls wave_image real_image threshold norm bg layer sf
        st st2 x y hst2 with ⟨hskip, rfl⟩ | ⟨hcap, s, tab1, hfit, hs1, hs2, hn⟩
      · obtain ⟨rest1, h1, h2⟩ := ih st2 records rest hres hlen h
        rcases hskip with hfull | hnone
        · have hz : MAX_STARS - records.length = 0 := by omega
          rw [hz] at h1 h2 ⊢
          exact ⟨rest1, by simpa using h1, by simpa using h2⟩
        · have e : spec_accepted_fits rnd calls wave_image real_image threshold norm bg layer sf
              ((x, y) :: positions)
              = spec_accepted_fits rnd calls wave_image real_image threshold norm bg layer sf
                positions := by
            simp only [spec_accepted_fits]
            exact List.filterMap_cons_none hnone
          rw [e]
          exact ⟨rest1, h1, h2⟩
      · rw [hres, ← hlen] at hs1
        rw [← hlen] at hs2
        obtain ⟨rest2, htab⟩ := store_record records rest tab1 st2.results s hs1 hs2
        obtain ⟨rest1, h1, h2⟩ := ih st2 (records ++ [s]) rest2 htab (by simp [hlen, hn]) h
        have e : spec_accepted_fits rnd calls wave_image real_image threshold norm bg layer sf
            ((x, y) :: positions)
            = s :: spec_accepted_fits rnd calls wave_image real_image threshold norm bg layer sf
              positions := by
          simp only [spec_accepted_fits]
          exact List.filterMap_cons_some hfit
        have hk : MAX_STARS - records.length = (MAX_STARS - (records ++ [s]).length) + 1 := by
          simp only [List.length_append, List.length_singleton]
          omega
        rw [e, hk, List.take_succ_cons]
        refine ⟨rest1, ?_, ?_⟩
        · rw [h1]
          simp
        · rw [h2]
          simp

/-- The scan loops over two lists of pixels in a row. -/
theorem scan_loop_append (rnd : ℚ → Dbl) (MAX_STARS : Nat) (calls : PeakerCalls)
    (wave_image real_image : Int → Int → Option Nat) (threshold norm : Nat) (bg : Dbl)
    (layer : Int) (sf : star_finder_params) (ps qs : List (Int × Int)) (st : ScanState) :
    scan_loop rnd MAX_STARS calls wave_image real_image threshold norm bg layer sf (ps ++ qs) st
      = (scan_loop rnd MAX_STARS calls wave_image real_image threshold norm bg layer sf ps
          st).bind
          (scan_loop rnd MAX_STARS calls wave_image real_image threshold norm bg layer sf qs) := by
  induction ps generalizing st with
  | nil => rfl
  | cons p ps ih =>
    obtain ⟨x, y⟩ := p
    simp only [List.cons_append, scan_loop]
    cases scan_pixel rnd MAX_STARS calls wave_image real_image threshold norm bg layer sf st x y
      with
    | none => rfl
    | some st1 => exact ih st1

/-- A pixel without accepted fit can be dropped from the pixels to visit: the
scan loops end in the same state. -/
theorem scan_loop_skip (rnd : ℚ → Dbl) (MAX_STARS : Nat) (calls : PeakerCalls)
    (wave_image real_image : Int → Int → Option Nat) (threshold norm : Nat) (bg : Dbl)
    (layer : Int) (sf : star_finder_params) (ps qs : List (Int × Int)) (p : Int × Int)
    (st0 st : ScanState)
    (hskip : spec_accepted_fit rnd calls wave_image real_image threshold norm bg layer sf p
      = none)
    (h : scan_loop rnd MAX_STARS calls wave_image real_image threshold norm bg layer sf
      (ps ++ p :: qs) st0 = some st) :
    scan_loop rnd MAX_STARS calls wave_image real_image threshold norm bg layer sf (ps ++ qs) st0
      = some st := by
  obtain ⟨x, y⟩ := p
  rw [scan_loop_append] at h ⊢
  cases h1 : scan_loop rnd MAX_STARS calls wave_image real_image threshold norm bg layer sf ps
      st0 with
  | none => rw [h1] at h; cases h
  | some st1 =>
    rw [h1] at h
    rw [Option.some_bind] at h ⊢
    simp only [scan_loop] at h
    split at h
    · cases h
    · rename_i st2 hst2
      rcases scan_pixel_spec rnd MAX_STARS calls wave_image real_image threshold norm bg layer sf
        st1 st2 x y hst2 with ⟨-, rfl⟩ | ⟨-, s, -, hfit, -⟩
      · exact h
      · rw [hskip] at hfit
        cases hfit

/-- The state in which the scan loops of `peaker` end, started from the empty
array: the records are the first accepted fits of the visited pixels, up to the
capacity. -/
theorem scan_loop_from_empty (rnd : ℚ → Dbl) (MAX_STARS : Nat) (calls : PeakerCalls)
    (fit : fits) (layer : Int) (sf : star_finder_params) (area : Option rectangle)
    (threshold norm : Nat) (bg : Dbl) (slots : StarTab) (st : ScanState)
    (h : scan_loop rnd MAX_STARS calls (pixel fit.rx fit.ry calls.wave)
      (pixel fit.rx fit.ry (fit.pdata layer)) threshold norm bg layer sf
      (peaker_positions fit sf area) ⟨0, none :: slots⟩ = some st) :
    ∃ rest,
      st.results
          = tabOf (spec_collected rnd MAX_STARS calls fit layer sf area threshold norm bg) rest
        ∧ st.nbstars
          = (spec_collected rnd MAX_STARS calls fit layer sf area threshold norm bg).length := by
  obtain ⟨rest, h1, h2⟩ := scan_loop_spec rnd MAX_STARS calls _ _ threshold norm bg layer sf _
    ⟨0, none :: slots⟩ st [] slots rfl rfl h
  simp only [List.nil_append, List.length_nil, Nat.sub_zero] at h1 h2
  exact ⟨rest, h1, h2⟩

/-- C27: before sorting, the records collected by `peaker` are the first
`min(MAX_STARS, m)` of the `m` accepted fits obtained by enumerating the visited
pixels row by row, fitting each candidate and keeping the fits that the fitter
returns and `is_star` accepts. For buffers of `rx * ry` samples, a radius of at
least 1, a search rectangle inside the image and an array of `MAX_STARS + 1`
slots, the scan loops run to their end and leave exactly these records before
the NULL terminator, with their number in `nbstars`; a pixel whose fit fails or
is rejected can be dropped from the visited pixels without changing the state
in which the loops end; and the array that `peaker` then returns holds these
records as sorted by `qsort`, their number being left in `*nb_stars`. -/
theorem scan_collects_first_accepted (rnd : ℚ → Dbl) (MAX_STARS : Nat) (calls : PeakerCalls)
    (fit : fits) (layer : Int) (sf : star_finder_params) (area : Option rectangle)
    (threshold norm : Nat) (bg : Dbl) (slots : StarTab)
    (hfl : (none :: slots).length = MAX_STARS + 1)
    (hwave : (calls.wave.length : Int) = fit.rx * fit.ry)
    (hreal : ((fit.pdata layer).length : Int) = fit.rx * fit.ry)
    (hrad : 1 ≤ sf.radius)
    (harea : ∀ a, area = some a → 0 ≤ a.x ∧ a.w + a.x ≤ fit.rx ∧ 0 ≤ a.y ∧ a.h + a.y ≤ fit.ry) :
    (∃ (st : ScanState) (rest : StarTab),
        scan_loop rnd MAX_STARS calls (pixel fit.rx fit.ry calls.wave)
            (pixel fit.rx fit.ry (fit.pdata layer)) threshold norm bg layer sf
            (peaker_positions fit sf area) ⟨0, none :: slots⟩ = some st
          ∧ st.results
            = tabOf (spec_collected rnd MAX_STARS calls fit layer sf area threshold norm bg) rest
          ∧ (st.nbstars : Int)
            = min (MAX_STARS : Int)
                ((spec_accepted_fits rnd calls (pixel fit.rx fit.ry calls.wave)
                  (pixel fit.rx fit.ry (fit.pdata layer)) threshold norm bg layer sf
                  (peaker_positions fit sf area)).length : Int))
      ∧ (∀ (ps qs : List (Int × Int)) (p : Int × Int) (st0 st : ScanState),
          spec_accepted_fit rnd calls (pixel fit.rx fit.ry calls.wave)
            (pixel fit.rx fit.ry (fit.pdata layer)) threshold norm bg layer sf p = none →
          scan_loop rnd MAX_STARS calls (pixel fit.rx fit.ry calls.wave)
            (pixel fit.rx fit.ry (fit.pdata layer)) threshold norm bg layer sf
            (ps ++ p :: qs) st0 = some st →
          scan_loop rnd MAX_STARS calls (pixel fit.rx fit.ry calls.wave)
            (pixel fit.rx fit.ry (fit.pdata layer)) threshold norm bg layer sf
            (ps ++ qs) st0 = some st)
      ∧ ∀ (nb_stars : Option Int) (r : PeakerResult),
          Compute_threshold rnd calls sf.sigma layer = some (threshold, norm, bg) →
          peaker rnd MAX_STARS calls fit layer sf nb_stars area = some r →
          r = ⟨none, nb_stars⟩
            ∨ (r.nb_stars = nb_stars.map (fun _ =>
                  ((spec_collected rnd MAX_STARS calls fit layer sf area threshold norm
                    bg).length : Int))
                ∧ ((spec_collected rnd MAX_STARS calls fit layer sf area threshold norm bg = []
                      ∧ r.ret = none)
                  ∨ (spec_collected rnd MAX_STARS calls fit layer sf area threshold norm bg ≠ []
                      ∧ ∃ rest, r.ret = some (tabOf (calls.qsort.sort compare_stars
                          (spec_collected rnd MAX_STARS calls fit layer sf area threshold norm
                            bg)) rest)))) := by
  refine ⟨?_, ?_, ?_⟩
  · obtain ⟨st, hst, -⟩ := peaker_scan_returns rnd MAX_STARS calls fit layer sf area threshold
      norm bg slots hfl hwave hreal hrad harea
    obtain ⟨rest, h1, h2⟩ := scan_loop_from_empty rnd MAX_STARS calls fit layer sf area threshold
      norm bg slots st hst
    refine ⟨st, rest, hst, h1, ?_⟩
    rw [h2]
    simp only [spec_collected, List.length_take]
    omega
  · intro ps qs p st0 st hskip h
    exact scan_loop_skip rnd MAX_STARS calls _ _ threshold norm bg layer sf ps qs p st0 st hskip h
  · intro nb_stars r hct h
    rcases peaker_cases_cause rnd MAX_STARS calls fit layer sf nb_stars area r h with
      h0 | ⟨slot, slots1, threshold1, norm1, bg1, st, -, hct1, -, -, -, hst, hsort, hnb⟩
    · exact Or.inl h0.2
    · right
      rw [hct] at hct1
      simp only [Option.some.injEq, Prod.mk.injEq] at hct1
      obtain ⟨rfl, rfl, rfl⟩ := hct1
      obtain ⟨rest, h1, h2⟩ := scan_loop_from_empty rnd MAX_STARS calls fit layer sf area
        threshold norm bg slots1 st hst
      refine ⟨by rw [hnb, h2], ?_⟩
      by_cases hz : st.nbstars = 0
      · left
        rw [if_pos hz] at hsort
        simp only [sort_stars, Option.some.injEq] at hsort
        exact ⟨List.length_eq_zero.mp (by omega), hsort.symm⟩
      · right
        rw [if_neg hz, h1, h2, sort_stars_tabOf] at hsort
        refine ⟨?_, rest, (Option.some.inj hsort).symm⟩
        intro he
        rw [he] at h2
        exact hz h2

/-- An instance of `scan_collects_first_accepted`: the scan of the sample run,
with `MAX_STARS = 3` and the threshold 1, collects the accepted fits of the
visited pixels. -/
theorem scan_collects_first_accepted_witness :
    (([none, none, none, none] : StarTab).length = 3 + 1
        ∧ (sampleCalls.wave.length : Int) = sampleFits.rx * sampleFits.ry
        ∧ ((sampleFits.pdata 0).length : Int) = sampleFits.rx * sampleFits.ry
        ∧ 1 ≤ sampleParams.radius)
      ∧ ∃ (st : ScanState) (rest : StarTab),
          scan_loop Dbl.exact 3 sampleCalls (pixel sampleFits.rx sampleFits.ry sampleCalls.wave)
              (pixel sampleFits.rx sampleFits.ry (sampleFits.pdata 0)) 1 100 (Dbl.fin 0) 0
              sampleParams (peaker_positions sampleFits sampleParams none)
              ⟨0, [none, none, none, none]⟩ = some st
            ∧ st.results
              = tabOf (spec_collected Dbl.exact 3 sampleCalls sampleFits 0 sampleParams none 1 100
                  (Dbl.fin 0)) rest
            ∧ (st.nbstars : Int)
              = min ((3 : Nat) : Int)
                  ((spec_accepted_fits Dbl.exact sampleCalls
                    (pixel sampleFits.rx sampleFits.ry sampleCalls.wave)
                    (pixel sampleFits.rx sampleFits.ry (sampleFits.pdata 0)) 1 100 (Dbl.fin 0) 0
                    sampleParams (peaker_positions sampleFits sampleParams none)).length : Int) :=
  ⟨⟨by decide, by decide, by decide, by decide⟩,
    (scan_collects_first_accepted Dbl.exact 3 sampleCalls sampleFits 0 sampleParams none 1 100
      (Dbl.fin 0) [none, none, none] (by decide) (by decide) (by decide) (by decide)
      (by intro a h; cases h)).1⟩

/-! ## The positions of the collected records -/

/-- A run of `peaker` on the U-shaped plateau as filtered image, with radius 1 and
`MAX_STARS = 3`: when the fits of both tips are accepted and the first does not
compare as greater than the second, the array of the two placed fits is returned
with the count 2. -/
theorem peaker_two_tips (fitter : List (List Dbl) → Dbl → Int → Option fitted_PSF)
    (real : List Nat) (z1 z3 : List (List Dbl)) (f1 f3 : fitted_PSF)
    (hz1 : fill_z (pixel 5 4 real) 1 1 1 = some z1)
    (hz3 : fill_z (pixel 5 4 real) 1 3 1 = some z3)
    (hf1 : fitter z1 (Dbl.fin 0) 0 = some f1) (hf3 : fitter z3 (Dbl.fin 0) 0 = some f3)
    (hs1 : is_star Dbl.exact f1 sampleParams = true)
    (hs3 : is_star Dbl.exact f3 sampleParams = true)
    (hcmp : compare_stars f1 f3 ≤ 0) :
    peaker Dbl.exact 3 (callsWith fitter) (fitsOf real) 0 sampleParams (some 0) none
      = some ⟨some (tabOf [placed_star Dbl.exact sampleParams 1 1 f1,
          placed_star Dbl.exact sampleParams 3 1 f3] [none]), some 2⟩ := by
  have hthr : Compute_threshold Dbl.exact (callsWith fitter) sampleParams.sigma 0
      = some (1, 100, Dbl.fin 0) := by
    simp [Compute_threshold, callsWith, sampleCalls, sampleParams, Dbl.toWORD, roundHalfUp,
      Dbl.add, Dbl.mul, Dbl.exact]
    norm_num
  have hpos : scan_positions sampleParams.radius 0 0 5 4
      = [(1, 1), (2, 1), (3, 1), (1, 2), (2, 2), (3, 2)] := by decide
  have hc11 : is_candidate (pixel 5 4 uPlateau) 1 100 1 1 = some true := by decide
  have hc21 : is_candidate (pixel 5 4 uPlateau) 1 100 2 1 = some false := by decide
  have hc31 : is_candidate (pixel 5 4 uPlateau) 1 100 3 1 = some true := by decide
  have hc12 : is_candidate (pixel 5 4 uPlateau) 1 100 1 2 = some false := by decide
  have hc22 : is_candidate (pixel 5 4 uPlateau) 1 100 2 2 = some false := by decide
  have hc32 : is_candidate (pixel 5 4 uPlateau) 1 100 3 2 = some false := by decide
  have hsort : insertionQsort.sort compare_stars [placed_star Dbl.exact sampleParams 1 1 f1,
      placed_star Dbl.exact sampleParams 3 1 f3]
      = [placed_star Dbl.exact sampleParams 1 1 f1, placed_star Dbl.exact sampleParams 3 1 f3] := by
    have hab : compare_stars (placed_star Dbl.exact sampleParams 1 1 f1)
        (placed_star Dbl.exact sampleParams 3 1 f3) ≤ 0 := hcmp
    simp [insertionQsort, insertionQsort_sort, List.insertionSort, List.orderedInsert, hab]
  have hrad : sampleParams.radius = 1 := rfl
  have hw : (callsWith fitter).wave = uPlateau := rfl
  have hq : (callsWith fitter).qsort = insertionQsort := rfl
  have hfit : (callsWith fitter).psf_global_minimisation = fitter := rfl
  have hconv : ∀ r, (callsWith fitter).fwhm_to_arcsec_if_needed r = r := fun _ => rfl
  have halloc : (callsWith fitter).results_alloc = some [none, none, none, none] := rfl
  have hwa : (callsWith fitter).wave_image_alloc = true := rfl
  have hra : (callsWith fitter).real_image_alloc = true := rfl
  have hp1 : ∀ r : fitted_PSF, ({ r with
      xpos := Dbl.sub Dbl.exact (Dbl.sub Dbl.exact (Dbl.add Dbl.exact (Dbl.ofInt 1) r.x0)
        (Dbl.ofInt 1)) (Dbl.fin 1)
      ypos := Dbl.sub Dbl.exact (Dbl.sub Dbl.exact (Dbl.add Dbl.exact (Dbl.ofInt 1) r.y0)
        (Dbl.ofInt 1)) (Dbl.fin 1) } : fitted_PSF) = placed_star Dbl.exact sampleParams 1 1 r :=
    fun _ => rfl
  have hp3 : ∀ r : fitted_PSF, ({ r with
      xpos := Dbl.sub Dbl.exact (Dbl.sub Dbl.exact (Dbl.add Dbl.exact (Dbl.ofInt 3) r.x0)
        (Dbl.ofInt 1)) (Dbl.fin 1)
      ypos := Dbl.sub Dbl.exact (Dbl.sub Dbl.exact (Dbl.add Dbl.exact (Dbl.ofInt 1) r.y0)
        (Dbl.ofInt 1)) (Dbl.fin 1) } : fitted_PSF) = placed_star Dbl.exact sampleParams 3 1 r :=
    fun _ => rfl
  simp only [peaker, fitsOf, hthr, hpos, scan_loop, scan_pixel, hw, hq, hfit, hconv, halloc, hwa,
    hra]
  simp [store, hc11, hc21, hc31, hc12, hc22, hc32, hz1, hz3, hf1, hf3, hs1, hs3, hrad, hp1,
    hp3, sort_stars, derefAll, tabOf]
  rw [hsort]
  rfl

/-- C22, as stated, fails: on the image of one star whose filtered image shows the
two tips `(1, 1)` and `(3, 1)`, with a fitter that finds the star at the right
edge of the patch of the first tip and in the left half of the patch of the
second, `peaker` returns two entries at `(1, 0)` and `(1.5, 0)`, which are
within 0.9 pixel of each other on both axes. -/
theorem peaker_close_entries :
    peaker Dbl.exact 3 (callsWith edgeFitter) (fitsOf oneStar) 0 sampleParams (some 0) none
        = some ⟨some (tabOf [{ fitAt 2 1 with xpos := Dbl.fin 1, ypos := Dbl.fin 0 },
            { fitAt (1 / 2) 1 with xpos := Dbl.fin (3 / 2), ypos := Dbl.fin 0 }] [none]), some 2⟩
      ∧ within_0_9 Dbl.exact { fitAt 2 1 with xpos := Dbl.fin 1, ypos := Dbl.fin 0 }
          { fitAt (1 / 2) 1 with xpos := Dbl.fin (3 / 2), ypos := Dbl.fin 0 } = true
      ∧ ¬ Separated Dbl.exact [{ fitAt 2 1 with xpos := Dbl.fin 1, ypos := Dbl.fin 0 },
          { fitAt (1 / 2) 1 with xpos := Dbl.fin (3 / 2), ypos := Dbl.fin 0 }] := by
  have hclose : within_0_9 Dbl.exact { fitAt 2 1 with xpos := Dbl.fin 1, ypos := Dbl.fin 0 }
      { fitAt (1 / 2) 1 with xpos := Dbl.fin (3 / 2), ypos := Dbl.fin 0 } = true := by
    simp [within_0_9, Dbl.lt, Dbl.abs, Dbl.sub, Dbl.exact, Dbl.c0_9]
    rw [abs_lt]
    constructor <;> norm_num
  have hz1 : fill_z (pixel 5 4 oneStar) 1 1 1
      = some [[Dbl.ofInt 0, Dbl.ofInt 0], [Dbl.ofInt 0, Dbl.ofInt 5]] := by decide
  have hz3 : fill_z (pixel 5 4 oneStar) 1 3 1
      = some [[Dbl.ofInt 0, Dbl.ofInt 9], [Dbl.ofInt 0, Dbl.ofInt 5]] := by decide
  have hs1 : is_star Dbl.exact (fitAt 2 1) sampleParams = true := by
    simp [is_star, fitAt, sampleParams, Dbl.isnan, Dbl.le, Dbl.lt, Dbl.gt, Dbl.div, Dbl.zero,
      Dbl.c0_01, Dbl.c200, Dbl.exact]
    norm_num
  have hs3 : is_star Dbl.exact (fitAt (1 / 2) 1) sampleParams = true := by
    simp [is_star, fitAt, sampleParams, Dbl.isnan, Dbl.le, Dbl.lt, Dbl.gt, Dbl.div, Dbl.zero,
      Dbl.c0_01, Dbl.c200, Dbl.exact]
    norm_num
  have hrun := peaker_two_tips edgeFitter oneStar _ _ (fitAt 2 1) (fitAt (1 / 2) 1) hz1 hz3
    (by simp [edgeFitter, Dbl.ofInt]) (by simp [edgeFitter, Dbl.ofInt]) hs1 hs3 (by decide)
  have e1 : placed_star Dbl.exact sampleParams 1 1 (fitAt 2 1)
      = { fitAt 2 1 with xpos := Dbl.fin 1, ypos := Dbl.fin 0 } := by
    simp [placed_star, sampleParams, fitAt, Dbl.sub, Dbl.add, Dbl.ofInt, Dbl.exact]
    norm_num
  have e3 : placed_star Dbl.exact sampleParams 3 1 (fitAt (1 / 2) 1)
      = { fitAt (1 / 2) 1 with xpos := Dbl.fin (3 / 2), ypos := Dbl.fin 0 } := by
    simp [placed_star, sampleParams, fitAt, Dbl.sub, Dbl.add, Dbl.ofInt, Dbl.exact]
    norm_num
  rw [e1, e3] at hrun
  refine ⟨hrun, hclose, ?_⟩
  intro hsep
  have h := (List.pairwise_cons.mp hsep).1 _ (List.mem_singleton.mpr rfl)
  rw [hclose] at h
  exact Bool.noConfusion h.1

/-- The first `n` values of a filtered enumeration come, in order, from a sublist
of the enumerated elements, each of which has a value. -/
theorem filterMap_take_sources {α β : Type} (f : α → Option β) (l : List α) (n : Nat) :
    ∃ ps : List α, ps.Sublist l
      ∧ List.Forall₂ (fun p s => f p = some s) ps ((l.filterMap f).take n)
      ∧ ∀ p ∈ ps, ∃ s, f p = some s := by
  induction l generalizing n with
  | nil => exact ⟨[], List.Sublist.slnil, by simp, by simp⟩
  | cons a l ih =>
    cases hfa : f a with
    | none =>
      obtain ⟨ps, hsub, hall, hval⟩ := ih n
      exact ⟨ps, hsub.cons a, by rw [List.filterMap_cons_none hfa]; exact hall, hval⟩
    | some b =>
      rw [List.filterMap_cons_some hfa]
      cases n with
      | zero => exact ⟨[], List.nil_sublist _, by simp, by simp⟩
      | succ n =>
        obtain ⟨ps, hsub, hall, hval⟩ := ih n
        refine ⟨a :: ps, hsub.cons₂ a, by rw [List.take_succ_cons]; exact List.Forall₂.cons hfa hall,
          ?_⟩
        intro p hp
        rcases List.mem_cons.mp hp with rfl | hp
        · exact ⟨b, hfa⟩
        · exact hval p hp

/-- The first `n` values of a filtered enumeration are values of enumerated
elements. -/
theorem mem_filterMap_take {α β : Type} (f : α → Option β) (l : List α) (n : Nat) (s : β)
    (h : s ∈ (l.filterMap f).take n) : ∃ p ∈ l, f p = some s :=
  List.mem_filterMap.mp (List.mem_of_mem_take h)

/-- A pixel that has an accepted fit passes the candidate test. -/
theorem spec_accepted_fit_candidate (rnd : ℚ → Dbl) (calls : PeakerCalls)
    (wave_image real_image : Int → Int → Option Nat) (threshold norm : Nat) (bg : Dbl)
    (layer : Int) (sf : star_finder_params) (p : Int × Int) (s : fitted_PSF)
    (h : spec_accepted_fit rnd calls wave_image real_image threshold norm bg layer sf p = some s) :
    is_candidate wave_image threshold norm p.1 p.2 = some true
      ∧ ∃ cur, is_star rnd cur sf = true ∧ s = placed_star rnd sf p.1 p.2 cur := by
  unfold spec_accepted_fit at h
  split at h
  · rename_i hc
    refine ⟨hc, ?_⟩
    split at h
    · cases h
    · split at h
      · cases h
      · rename_i fitted _
        split_ifs at h with hstar
        cases h
        exact ⟨_, hstar, rfl⟩
  · cases h

/-- The window of a pixel that `peaker` visits is read without fault, for a
filtered image of `rx * ry` samples, a radius of at least 1 and a search
rectangle inside the image. -/
theorem peaker_window_defined (calls : PeakerCalls) (fit : fits) (sf : star_finder_params)
    (area : Option rectangle) (p : Int × Int)
    (hwave : (calls.wave.length : Int) = fit.rx * fit.ry) (hrad : 1 ≤ sf.radius)
    (harea : ∀ a, area = some a → 0 ≤ a.x ∧ a.w + a.x ≤ fit.rx ∧ 0 ≤ a.y ∧ a.h + a.y ≤ fit.ry)
    (hp : p ∈ peaker_positions fit sf area) :
    ∀ yy ∈ [p.2 - 1, p.2, p.2 + 1], ∀ xx ∈ [p.1 - 1, p.1, p.1 + 1],
      pixel fit.rx fit.ry calls.wave yy xx = some (sample fit.rx fit.ry calls.wave yy xx) := by
  cases area with
  | none =>
    exact window_defined fit.rx fit.ry calls.wave sf.radius 0 0 fit.rx fit.ry p.1 p.2 hwave hrad
      (le_refl _) (le_refl _) (le_refl _) (le_refl _) hp
  | some a =>
    obtain ⟨h1, h2, h3, h4⟩ := harea a rfl
    exact window_defined fit.rx fit.ry calls.wave sf.radius a.x a.y (a.w + a.x) (a.h + a.y) p.1
      p.2 hwave hrad h1 h2 h3 h4 hp

/-- C22, amended: the entries of the array returned by `peaker` are, up to the
order left by the sort, the accepted fits of pairwise distinct visited pixels,
no two of which are 8-adjacent, one entry for each of these pixels taken in the
order of the scan (for a filtered image of `rx * ry` samples, a radius of at
least 1 and a search rectangle inside the image). The positions of the entries
are those that the fitter gives: `peaker` compares no two of them, and two
entries can be within 0.9 pixel of each other. -/
theorem peaker_entries_from_candidates (rnd : ℚ → Dbl) (MAX_STARS : Nat) (calls : PeakerCalls)
    (fit : fits) (layer : Int) (sf : star_finder_params) (nb_stars : Option Int)
    (area : Option rectangle) (r : PeakerResult)
    (hwave : (calls.wave.length : Int) = fit.rx * fit.ry) (hrad : 1 ≤ sf.radius)
    (harea : ∀ a, area = some a → 0 ≤ a.x ∧ a.w + a.x ≤ fit.rx ∧ 0 ≤ a.y ∧ a.h + a.y ≤ fit.ry)
    (h : peaker rnd MAX_STARS calls fit layer sf nb_stars area = some r) :
    r.ret = none
      ∨ ∃ (threshold norm : Nat) (bg : Dbl) (pixels : List (Int × Int))
          (collected sorted : List fitted_PSF) (rest : StarTab),
          r.ret = some (tabOf sorted rest) ∧ sorted.Perm collected
            ∧ pixels.Sublist (peaker_positions fit sf area) ∧ pixels.Nodup
            ∧ (∀ p ∈ pixels, ∀ q ∈ pixels, ¬ adjacent p q)
            ∧ List.Forall₂ (fun p s =>
                spec_accepted_fit rnd calls (pixel fit.rx fit.ry calls.wave)
                  (pixel fit.rx fit.ry (fit.pdata layer)) threshold norm bg layer sf p = some s)
                pixels collected := by
  rcases peaker_cases_cause rnd MAX_STARS calls fit layer sf nb_stars area r h with
    h0 | ⟨slot, slots, threshold, norm, bg, st, -, -, -, -, -, hst, hsort, -⟩
  · left
    rw [h0.2]
  · obtain ⟨rest, h1, h2⟩ := scan_loop_from_empty rnd MAX_STARS calls fit layer sf area threshold
      norm bg slots st hst
    by_cases hz : st.nbstars = 0
    · left
      rw [if_pos hz] at hsort
      simp only [sort_stars, Option.some.injEq] at hsort
      exact hsort.symm
    · right
      rw [if_neg hz, h1, h2, sort_stars_tabOf] at hsort
      obtain ⟨pixels, hsub, hall, hval⟩ := filterMap_take_sources
        (spec_accepted_fit rnd calls (pixel fit.rx fit.ry calls.wave)
          (pixel fit.rx fit.ry (fit.pdata layer)) threshold norm bg layer sf)
        (peaker_positions fit sf area) MAX_STARS
      have hnan : ∀ s ∈ spec_collected rnd MAX_STARS calls fit layer sf area threshold norm bg,
          s.mag.isnan = false := by
        intro s hs
        obtain ⟨p, -, hp⟩ := mem_filterMap_take _ _ _ s hs
        obtain ⟨-, cur, hstar, rfl⟩ := spec_accepted_fit_candidate rnd calls _ _ threshold norm bg
          layer sf p s hp
        exact (is_star_accepted rnd cur sf hstar).2.2.2.2.2.2.1
      refine ⟨threshold, norm, bg, pixels, _, _, rest, (Option.some.inj hsort).symm,
        calls.qsort.perm compare_stars _ (compare_stars_consistent _ hnan), hsub, ?_, ?_, hall⟩
      · have hnd : (peaker_positions fit sf area).Nodup := nodup_scan_positions _ _ _ _ _
        exact hnd.sublist hsub
      · intro p hp q hq
        have hcand : ∀ p ∈ pixels, SpecCandidate (sample fit.rx fit.ry calls.wave) threshold norm
            p.1 p.2 := by
          intro p hp
          obtain ⟨s, hs⟩ := hval p hp
          have hc := (spec_accepted_fit_candidate rnd calls _ _ threshold norm bg layer sf p s
            hs).1
          obtain ⟨bingo, hb, hiff⟩ := is_candidate_spec (pixel fit.rx fit.ry calls.wave)
            (sample fit.rx fit.ry calls.wave) threshold norm p.1 p.2
            (peaker_window_defined calls fit sf area p hwave hrad harea (hsub.subset hp))
          rw [hc] at hb
          exact hiff.mp (Option.some.inj hb).symm
        exact spec_candidate_not_adjacent (sample fit.rx fit.ry calls.wave) threshold norm p q
          (hcand p hp) (hcand q hq)

/-- An instance of `peaker_entries_from_candidates`: the two entries returned by
the sample run. -/
theorem peaker_entries_from_candidates_witness :
    ((sampleCalls.wave.length : Int) = sampleFits.rx * sampleFits.ry ∧ 1 ≤ sampleParams.radius
        ∧ peaker Dbl.exact 3 sampleCalls sampleFits 0 sampleParams (some 0) none
          = some ⟨some (tabOf [{ fitAt 1 1 with xpos := Dbl.fin 0, ypos := Dbl.fin 0 },
              { fitAt 1 1 with xpos := Dbl.fin 2, ypos := Dbl.fin 0 }] [none]), some 2⟩)
      ∧ ∃ (threshold norm : Nat) (bg : Dbl) (pixels : List (Int × Int))
          (collected sorted : List fitted_PSF) (rest : StarTab),
          tabOf [{ fitAt 1 1 with xpos := Dbl.fin 0, ypos := Dbl.fin 0 },
              { fitAt 1 1 with xpos := Dbl.fin 2, ypos := Dbl.fin 0 }] [none] = tabOf sorted rest
            ∧ sorted.Perm collected
            ∧ pixels.Sublist (peaker_positions sampleFits sampleParams none) ∧ pixels.Nodup
            ∧ (∀ p ∈ pixels, ∀ q ∈ pixels, ¬ adjacent p q)
            ∧ List.Forall₂ (fun p s =>
                spec_accepted_fit Dbl.exact sampleCalls
                  (pixel sampleFits.rx sampleFits.ry sampleCalls.wave)
                  (pixel sampleFits.rx sampleFits.ry (sampleFits.pdata 0)) threshold norm bg 0
                  sampleParams p = some s) pixels collected := by
  refine ⟨⟨by decide, by decide, peaker_sample_run⟩, ?_⟩
  rcases peaker_entries_from_candidates Dbl.exact 3 sampleCalls sampleFits 0 sampleParams (some 0)
    none _ (by decide) (by decide) (by intro a h; cases h) peaker_sample_run with h0 | h1
  · cases h0
  · obtain ⟨threshold, norm, bg, pixels, collected, sorted, rest, hret, hrest⟩ := h1
    exact ⟨threshold, norm, bg, pixels, collected, sorted, rest, Option.some.inj hret, hrest⟩

/-! ## The position of an accepted record -/

/-- A fit accepted by `is_star` has a centre with positive coordinates in the
patch. -/
theorem is_star_centre_positive (rnd : ℚ → Dbl) (result : fitted_PSF) (sf : star_finder_params)
    (h : is_star rnd result sf = true) :
    Dbl.gt result.x0 Dbl.zero = true ∧ Dbl.gt result.y0 Dbl.zero = true := by
  have h3 := (is_star_true_iff rnd result sf).1 h
  simp only [not_or, Bool.not_eq_true] at h3
  obtain ⟨-, ⟨h4, h5⟩, -, ⟨h6, h7⟩, -⟩ := h3
  exact ⟨Dbl.gt_of_not_le _ _ h4 rfl h6, Dbl.gt_of_not_le _ _ h5 rfl h7⟩

/-- In exact arithmetic, the coordinate `x + x0 - radius - 1.0` of a placed fit
is greater than `x - radius - 1` when `x0` is positive. -/
theorem placed_coordinate_lower (x radius : Int) (x0 : Dbl)
    (h : Dbl.gt x0 Dbl.zero = true) :
    Dbl.lt (Dbl.ofInt (x - radius - 1))
      (Dbl.sub Dbl.exact (Dbl.sub Dbl.exact (Dbl.add Dbl.exact (Dbl.ofInt x) x0)
        (Dbl.ofInt radius)) (Dbl.fin 1)) = true := by
  cases x0 with
  | nan => simp [Dbl.gt, Dbl.lt, Dbl.zero] at h
  | ninf => simp [Dbl.gt, Dbl.lt, Dbl.zero] at h
  | pinf => rfl
  | fin q =>
    simp only [Dbl.gt, Dbl.lt, Dbl.zero, decide_eq_true_eq] at h
    simp only [Dbl.ofInt, Dbl.add, Dbl.sub, Dbl.exact, Dbl.lt, decide_eq_true_eq]
    push_cast
    linarith

/-- C25, as stated, fails: with a fitter that finds the star half a pixel from the
left edge of the patch, the candidate `(1, 1)` of the sample image, scanned with
radius 1, is stored with `xpos = 1 + 0.5 - 1 - 1 = -0.5`, which is not in
`[0, rx)`. -/
theorem peaker_negative_position :
    peaker Dbl.exact 3 (callsWith leftFitter) (fitsOf uPlateau) 0 sampleParams (some 0) none
        = some ⟨some (tabOf [{ fitAt (1 / 2) 1 with xpos := Dbl.fin (-1 / 2), ypos := Dbl.fin 0 },
            { fitAt (1 / 2) 1 with xpos := Dbl.fin (3 / 2), ypos := Dbl.fin 0 }] [none]), some 2⟩
      ∧ Dbl.le (Dbl.ofInt 0)
          ({ fitAt (1 / 2) 1 with xpos := Dbl.fin (-1 / 2), ypos := Dbl.fin 0 } : fitted_PSF).xpos
        = false := by
  obtain ⟨z1, hz1⟩ : ∃ z, fill_z (pixel 5 4 uPlateau) 1 1 1 = some z := ⟨_, rfl⟩
  obtain ⟨z3, hz3⟩ : ∃ z, fill_z (pixel 5 4 uPlateau) 1 3 1 = some z := ⟨_, rfl⟩
  have hs : is_star Dbl.exact (fitAt (1 / 2) 1) sampleParams = true := by
    simp [is_star, fitAt, sampleParams, Dbl.isnan, Dbl.le, Dbl.lt, Dbl.gt, Dbl.div, Dbl.zero,
      Dbl.c0_01, Dbl.c200, Dbl.exact]
    norm_num
  have hrun := peaker_two_tips leftFitter uPlateau z1 z3 (fitAt (1 / 2) 1) (fitAt (1 / 2) 1)
    hz1 hz3 rfl rfl hs hs (by decide)
  have e1 : placed_star Dbl.exact sampleParams 1 1 (fitAt (1 / 2) 1)
      = { fitAt (1 / 2) 1 with xpos := Dbl.fin (-1 / 2), ypos := Dbl.fin 0 } := by
    simp [placed_star, sampleParams, fitAt, Dbl.sub, Dbl.add, Dbl.ofInt, Dbl.exact]
    norm_num
  have e3 : placed_star Dbl.exact sampleParams 3 1 (fitAt (1 / 2) 1)
      = { fitAt (1 / 2) 1 with xpos := Dbl.fin (3 / 2), ypos := Dbl.fin 0 } := by
    simp [placed_star, sampleParams, fitAt, Dbl.sub, Dbl.add, Dbl.ofInt, Dbl.exact]
    norm_num
  rw [e1, e3] at hrun
  refine ⟨hrun, ?_⟩
  simp [Dbl.le, Dbl.ofInt]
  norm_num

/-- C25, amended: every record of an array returned by `peaker` is the accepted
fit of a visited pixel `(x, y)`, placed at `xpos = x + x0 - radius - 1.0` and
`ypos = y + y0 - radius - 1.0` with `x0 > 0` and `y0 > 0`, and its amplitude is
NaN or at least 0.01. In exact arithmetic such a coordinate is greater than
`x - radius - 1`, respectively `y - radius - 1`; no other bound on the position
is enforced, so that `xpos` may be negative or exceed `rx`. -/
theorem scan_record_position (rnd : ℚ → Dbl) (MAX_STARS : Nat) (calls : PeakerCalls)
    (fit : fits) (layer : Int) (sf : star_finder_params) (nb_stars : Option Int)
    (area : Option rectangle) (tab : StarTab) (nb : Option Int)
    (h : peaker rnd MAX_STARS calls fit layer sf nb_stars area = some ⟨some tab, nb⟩) :
    (∃ (records : List fitted_PSF) (rest : StarTab),
        tab = tabOf records rest
          ∧ ∀ s ∈ records, ∃ x y : Int,
              (x, y) ∈ peaker_positions fit sf area
                ∧ Dbl.gt s.x0 Dbl.zero = true ∧ Dbl.gt s.y0 Dbl.zero = true
                ∧ s.xpos = Dbl.sub rnd (Dbl.sub rnd (Dbl.add rnd (Dbl.ofInt x) s.x0)
                    (Dbl.ofInt sf.radius)) (Dbl.fin 1)
                ∧ s.ypos = Dbl.sub rnd (Dbl.sub rnd (Dbl.add rnd (Dbl.ofInt y) s.y0)
                    (Dbl.ofInt sf.radius)) (Dbl.fin 1)
                ∧ (s.A.isnan = true ∨ Dbl.ge s.A Dbl.c0_01 = true))
      ∧ ∀ (x radius : Int) (x0 : Dbl), Dbl.gt x0 Dbl.zero = true →
          Dbl.lt (Dbl.ofInt (x - radius - 1))
            (Dbl.sub Dbl.exact (Dbl.sub Dbl.exact (Dbl.add Dbl.exact (Dbl.ofInt x) x0)
              (Dbl.ofInt radius)) (Dbl.fin 1)) = true := by
  refine ⟨?_, placed_coordinate_lower⟩
  rcases peaker_scan_result rnd MAX_STARS calls fit layer sf nb_stars area _ h with
    h0 | ⟨threshold, norm, bg, collected, rest, -, -, -, hall, -, hret⟩
  · cases h0
  · rcases hret with ⟨-, hnone⟩ | ⟨-, hsome⟩
    · cases hnone
    · have hnan : ∀ s ∈ collected, s.mag.isnan = false := fun s hs =>
        StoredFrom_mag rnd calls _ _ threshold norm bg layer sf _ s (hall s hs)
      have hperm := calls.qsort.perm compare_stars collected
        (compare_stars_consistent collected hnan)
      refine ⟨calls.qsort.sort compare_stars collected, rest, Option.some.inj hsome, ?_⟩
      intro s hs
      obtain ⟨x, y, z, fitted, hmem, -, -, -, hstar, rfl⟩ := hall s (hperm.mem_iff.mp hs)
      obtain ⟨hx0, hy0⟩ := is_star_centre_positive rnd _ sf hstar
      exact ⟨x, y, hmem, hx0, hy0, rfl, rfl, (is_star_accepted rnd _ sf hstar).2.2.2.2.2.2.2.1⟩

/-- An instance of `scan_record_position`: the two records returned by the sample
run. -/
theorem scan_record_position_witness :
    peaker Dbl.exact 3 sampleCalls sampleFits 0 sampleParams (some 0) none
        = some ⟨some (tabOf [{ fitAt 1 1 with xpos := Dbl.fin 0, ypos := Dbl.fin 0 },
            { fitAt 1 1 with xpos := Dbl.fin 2, ypos := Dbl.fin 0 }] [none]), some 2⟩
      ∧ ∃ (records : List fitted_PSF) (rest : StarTab),
          tabOf [{ fitAt 1 1 with xpos := Dbl.fin 0, ypos := Dbl.fin 0 },
              { fitAt 1 1 with xpos := Dbl.fin 2, ypos := Dbl.fin 0 }] [none] = tabOf records rest
            ∧ ∀ s ∈ records, ∃ x y : Int,
                (x, y) ∈ peaker_positions sampleFits sampleParams none
                  ∧ Dbl.gt s.x0 Dbl.zero = true ∧ Dbl.gt s.y0 Dbl.zero = true
                  ∧ s.xpos = Dbl.sub Dbl.exact (Dbl.sub Dbl.exact
                      (Dbl.add Dbl.exact (Dbl.ofInt x) s.x0) (Dbl.ofInt sampleParams.radius))
                      (Dbl.fin 1)
                  ∧ s.ypos = Dbl.sub Dbl.exact (Dbl.sub Dbl.exact
                      (Dbl.add Dbl.exact (Dbl.ofInt y) s.y0) (Dbl.ofInt sampleParams.radius))
                      (Dbl.fin 1)
                  ∧ (s.A.isnan = true ∨ Dbl.ge s.A Dbl.c0_01 = true) :=
  ⟨peaker_sample_run,
    (scan_record_position Dbl.exact 3 sampleCalls sampleFits 0 sampleParams (some 0) none _ _
      peaker_sample_run).1⟩

/-! ## The average width of the catalog -/

/-- The loop of `FWHM_average` over records that the array holds: it returns, and
the sums are those of the widths of the `k` records from index `i` on, added one
after the other. -/
theorem FWHM_average_loop_tabOf (rndf : ℚ → Dbl) (stars : List fitted_PSF) (rest : StarTab)
    (k i : Nat) (sums : Dbl × Dbl) (h : i + k ≤ stars.length) :
    FWHM_average_loop rndf (tabOf stars rest) k i sums
      = some ((((stars.drop i).take k).map (fun s => s.fwhmx)).foldl
            (fun sum v => Dbl.add rndf sum (Dbl.toFloat rndf v)) sums.1,
          (((stars.drop i).take k).map (fun s => s.fwhmy)).foldl
            (fun sum v => Dbl.add rndf sum (Dbl.toFloat rndf v)) sums.2) := by
  induction k generalizing i sums with
  | zero => simp [FWHM_average_loop]
  | succ k ih =>
    have hi : i < stars.length := by omega
    have hget : (tabOf stars rest).get? i = some (some (stars.get ⟨i, hi⟩)) := by
      simp [tabOf, List.getElem?_append_left, hi]
    have hdrop : stars.drop i = stars.get ⟨i, hi⟩ :: stars.drop (i + 1) := by
      simp
    simp only [FWHM_average_loop, hget]
    rw [ih (i + 1) _ (by omega), hdrop, List.take_succ_cons]
    simp only [List.map_cons, List.foldl_cons]

/-- In exact arithmetic the sum of finite values is their sum. -/
theorem foldl_add_exact (qs : List ℚ) (q0 : ℚ) :
    (qs.map Dbl.fin).foldl (fun sum v => Dbl.add Dbl.exact sum (Dbl.toFloat Dbl.exact v))
      (Dbl.fin q0) = Dbl.fin (q0 + qs.sum) := by
  induction qs generalizing q0 with
  | nil => simp
  | cons q qs ih =>
    simp only [List.map_cons, List.foldl_cons, List.sum_cons]
    have e : Dbl.add Dbl.exact (Dbl.fin q0) (Dbl.toFloat Dbl.exact (Dbl.fin q))
        = Dbl.fin (q0 + q) := rfl
    rw [e, ih, add_assoc]

/-- In exact arithmetic the mean of finite values, as the single-precision
computation forms it, is their arithmetic mean. -/
theorem float_mean_exact (qs : List ℚ) (hne : qs ≠ []) :
    float_mean Dbl.exact (qs.map Dbl.fin) = Dbl.fin (qs.sum / (qs.length : ℚ)) := by
  have hlen : ((qs.length : Int) : ℚ) ≠ 0 := by
    have : qs.length ≠ 0 := fun h => hne (List.length_eq_zero.mp h)
    exact_mod_cast this
  unfold float_mean
  rw [foldl_add_exact, List.length_map]
  show (if ((qs.length : Int) : ℚ) = 0 then _ else Dbl.exact ((0 + qs.sum) / ((qs.length : Int) : ℚ)))
    = _
  rw [if_neg hlen, zero_add]
  simp [Dbl.exact]

/-- C21: on a catalog of `n` records and for `1 <= nb <= n`, `FWHM_average`
returns with `*FWHMx` set to the mean of `fwhmx` over the entries `0..nb-1`,
`*FWHMy` to the mean of `fwhmy` over the same entries, and `*units` to the units
label of entry 0; the means are those that single-precision arithmetic computes,
which in exact arithmetic are the arithmetic means of the values. On an absent
array and on an empty catalog the three outputs are left unchanged. -/
theorem FWHM_average_mean (rndf : ℚ → Dbl) (stars : List fitted_PSF) (rest : StarTab)
    (nb : Int) (FWHMx FWHMy : Dbl) (units : String) (h1 : 1 ≤ nb) (h2 : nb ≤ stars.length) :
    (∃ s0, stars.head? = some s0
        ∧ FWHM_average rndf (some (tabOf stars rest)) nb FWHMx FWHMy units
          = some (float_mean rndf ((stars.take nb.toNat).map (fun s => s.fwhmx)),
              float_mean rndf ((stars.take nb.toNat).map (fun s => s.fwhmy)), s0.units))
      ∧ (∀ qs : List ℚ, qs ≠ [] →
          float_mean Dbl.exact (qs.map Dbl.fin) = Dbl.fin (qs.sum / (qs.length : ℚ)))
      ∧ FWHM_average rndf none nb FWHMx FWHMy units = some (FWHMx, FWHMy, units)
      ∧ FWHM_average rndf (some (tabOf [] rest)) nb FWHMx FWHMy units
        = some (FWHMx, FWHMy, units) := by
  refine ⟨?_, float_mean_exact, rfl, rfl⟩
  cases stars with
  | nil =>
    simp only [List.length_nil, Nat.cast_zero] at h2
    omega
  | cons s0 more =>
    refine ⟨s0, rfl, ?_⟩
    have hk : 0 + nb.toNat ≤ (s0 :: more).length := by omega
    have hloop := FWHM_average_loop_tabOf rndf (s0 :: more) rest nb.toNat 0
      (Dbl.fin 0, Dbl.fin 0) hk
    have hlen : ((s0 :: more).take nb.toNat).length = nb.toNat := by
      rw [List.length_take]
      omega
    have hget : (tabOf (s0 :: more) rest).get? 0 = some (some s0) := rfl
    simp only [FWHM_average, hget, hloop, List.drop_zero, float_mean, List.length_map, hlen]

/-- An instance of `FWHM_average_mean`: in exact arithmetic, the average over the
first two of three stars of widths 2, 4 and 9 is 3 on both axes. -/
theorem FWHM_average_mean_witness :
    ((1 : Int) ≤ 2
        ∧ (2 : Int) ≤ ([{ starAt 0 0 0 with fwhmx := Dbl.fin 2, fwhmy := Dbl.fin 2 },
            { starAt 5 5 0 with fwhmx := Dbl.fin 4, fwhmy := Dbl.fin 4 },
            { starAt 9 9 0 with fwhmx := Dbl.fin 9, fwhmy := Dbl.fin 9 }] : List fitted_PSF).length)
      ∧ FWHM_average Dbl.exact
          (some (tabOf [{ starAt 0 0 0 with fwhmx := Dbl.fin 2, fwhmy := Dbl.fin 2 },
            { starAt 5 5 0 with fwhmx := Dbl.fin 4, fwhmy := Dbl.fin 4 },
            { starAt 9 9 0 with fwhmx := Dbl.fin 9, fwhmy := Dbl.fin 9 }] [])) 2
          (Dbl.fin 0) (Dbl.fin 0) ""
        = some (Dbl.fin 3, Dbl.fin 3, "px") := by
  obtain ⟨⟨s0, hs0, hrun⟩, hmean, -⟩ := FWHM_average_mean Dbl.exact
    [{ starAt 0 0 0 with fwhmx := Dbl.fin 2, fwhmy := Dbl.fin 2 },
      { starAt 5 5 0 with fwhmx := Dbl.fin 4, fwhmy := Dbl.fin 4 },
      { starAt 9 9 0 with fwhmx := Dbl.fin 9, fwhmy := Dbl.fin 9 }] [] 2 (Dbl.fin 0) (Dbl.fin 0)
    "" (by decide) (by decide)
  refine ⟨⟨by decide, by decide⟩, ?_⟩
  rw [hrun]
  have hm := hmean [2, 4] (by simp)
  have e : (([{ starAt 0 0 0 with fwhmx := Dbl.fin 2, fwhmy := Dbl.fin 2 },
      { starAt 5 5 0 with fwhmx := Dbl.fin 4, fwhmy := Dbl.fin 4 },
      { starAt 9 9 0 with fwhmx := Dbl.fin 9, fwhmy := Dbl.fin 9 }] : List fitted_PSF).take
        (2 : Int).toNat).map (fun s => s.fwhmx) = [2, 4].map Dbl.fin := rfl
  have e2 : (([{ starAt 0 0 0 with fwhmx := Dbl.fin 2, fwhmy := Dbl.fin 2 },
      { starAt 5 5 0 with fwhmx := Dbl.fin 4, fwhmy := Dbl.fin 4 },
      { starAt 9 9 0 with fwhmx := Dbl.fin 9, fwhmy := Dbl.fin 9 }] : List fitted_PSF).take
        (2 : Int).toNat).map (fun s => s.fwhmy) = [2, 4].map Dbl.fin := rfl
  simp only [List.head?_cons, Option.some.injEq] at hs0
  rw [e, e2, hm, ← hs0]
  norm_num [starAt]

end StarFinder

namespace ImageFormats

/-! ## Integers read from bytes -/

/-- A list of one byte is read as that byte. -/
theorem le_value_singleton (b : Nat) : le_value [b] = b := by
  simp [le_value]

/-! ## The row padding in the BMP converters -/

/-- In exact arithmetic the 5-bit component 31 is converted to 255 and the
component 0 to 0. -/
theorem scale_5_bits_exact :
    scale_5_bits StarFinder.Dbl.exact 31 = some 255
      ∧ scale_5_bits StarFinder.Dbl.exact 0 = some 0 := by
  constructor
  · simp [scale_5_bits, StarFinder.Dbl.toWORD, StarFinder.Dbl.add, StarFinder.Dbl.div,
      StarFinder.Dbl.mul, StarFinder.Dbl.ofInt, StarFinder.Dbl.exact]
    norm_num
    rfl
  · simp [scale_5_bits, StarFinder.Dbl.toWORD, StarFinder.Dbl.add, StarFinder.Dbl.div,
      StarFinder.Dbl.mul, StarFinder.Dbl.ofInt, StarFinder.Dbl.exact]
    norm_num

/-- The pixel bytes `ff 7f` decode to the components 255, 255, 255. -/
theorem bmp16_pixel_white (rvb : List Nat) (st : BmpState)
    (h0 : rvb.get? st.rvb = some 255) (h1 : rvb.get? (st.rvb + 1) = some 127) :
    bmp16_pixel StarFinder.Dbl.exact rvb st
      = some ⟨st.rvb + 2, st.rdata ++ [255], st.gdata ++ [255], st.bdata ++ [255]⟩ := by
  have e1 : ((255 ||| (127 <<< 8)) &&& 0x7c00) >>> 10 = 31 := by decide
  have e2 : ((255 ||| (127 <<< 8)) &&& 0x03e0) >>> 5 = 31 := by decide
  have e3 : ((255 ||| (127 <<< 8)) &&& 0x001f) >>> 0 = 31 := by decide
  simp only [bmp16_pixel, h0, h1, e1, e2, e3, scale_5_bits_exact.1]

/-- The pixel bytes `00 00` decode to the components 0, 0, 0. -/
theorem bmp16_pixel_black (rvb : List Nat) (st : BmpState)
    (h0 : rvb.get? st.rvb = some 0) (h1 : rvb.get? (st.rvb + 1) = some 0) :
    bmp16_pixel StarFinder.Dbl.exact rvb st
      = some ⟨st.rvb + 2, st.rdata ++ [0], st.gdata ++ [0], st.bdata ++ [0]⟩ := by
  have e1 : ((0 ||| (0 <<< 8)) &&& 0x7c00) >>> 10 = 0 := by decide
  have e2 : ((0 ||| (0 <<< 8)) &&& 0x03e0) >>> 5 = 0 := by decide
  have e3 : ((0 ||| (0 <<< 8)) &&& 0x001f) >>> 0 = 0 := by decide
  simp only [bmp16_pixel, h0, h1, e1, e2, e3, scale_5_bits_exact.2]

/-- The 16-bit converter on the pixel bytes of the white column: the second
pixel is decoded from the padding of the first row. -/
theorem bmp16tofits48_whiteColumn16 (fit : fits) :
    bmp16tofits48 StarFinder.Dbl.exact whiteColumn16 1 2 fit true
      = some (0, colour_image fit 1 2 ⟨4, [255, 0], [255, 0], [255, 0]⟩) := by
  have p1 : bmp16_pixel StarFinder.Dbl.exact whiteColumn16 ⟨0, [], [], []⟩
      = some ⟨2, [255], [255], [255]⟩ :=
    bmp16_pixel_white whiteColumn16 ⟨0, [], [], []⟩ (by decide) (by decide)
  have p2 : bmp16_pixel StarFinder.Dbl.exact whiteColumn16 ⟨2, [255], [255], [255]⟩
      = some ⟨4, [255, 0], [255, 0], [255, 0]⟩ :=
    bmp16_pixel_black whiteColumn16 ⟨2, [255], [255], [255]⟩ (by decide) (by decide)
  simp [bmp16tofits48, repeat_n, p1, p2]

/-- C32, on a 16-bit file the code departs from it: `readbmp` counts 2 bytes of
padding per row for the 16-bit image of width 1 and height 2 (8 pixel bytes),
whose pixel of row 1 lies at offset `1 * (1 * 2 + 2) + 0 * 2 = 4` and is white;
the converter `bmp16tofits48` that `readbmp` calls decodes it from the bytes at
offset 2, the padding of row 0, and the image has the planes `[255, 0]`. -/
theorem readbmp_16_bit_ignores_padding :
    readbmp_padsize 1 2 = 2 ∧ readbmp_nbdata 1 2 2 = 8
      ∧ bmp16_pixel StarFinder.Dbl.exact whiteColumn16 ⟨1 * (1 * 2 + 2) + 0 * 2, [], [], []⟩
          = some ⟨6, [255], [255], [255]⟩
      ∧ ∃ fit1, readbmp StarFinder.Dbl.exact (some whiteColumn16File) blankFits true true
            = some (2, fit1)
          ∧ fit1.pdata 0 = [255, 0] ∧ fit1.pdata 1 = [255, 0] ∧ fit1.pdata 2 = [255, 0] := by
  refine ⟨by decide, by decide, bmp16_pixel_white whiteColumn16 _ (by decide) (by decide),
    colour_image blankFits 1 2 ⟨4, [255, 0], [255, 0], [255, 0]⟩, ?_, rfl, rfl, rfl⟩
  have hs : get_image_size (whiteColumn16File.take 54) = some (1, 2) := by decide
  have hp : read_bytes (whiteColumn16File.take 54) 28 2 = some [16, 0] := by decide
  have ho : read_bytes (whiteColumn16File.take 54) 10 4 = some [54, 0, 0, 0] := by decide
  have hl : le_value [16, 0] / 8 = 2 := by decide
  have hd : le_value [54, 0, 0, 0] = 54 := by decide
  have hn : readbmp_nbdata 1 2 2 = 8 := by decide
  have hb : (whiteColumn16File.drop 54).take 8 = whiteColumn16 := by decide
  have hlen : ¬ whiteColumn16File.length < 54 := by decide
  have hlen2 : ¬ (whiteColumn16File.drop 54).length < 8 := by decide
  simp only [readbmp, hlen, if_false, hs, hp, ho, hl, hd, hn, hb, hlen2,
    bmp16tofits48_whiteColumn16]
  simp

/-! ## BMP export -/

/-- A row whose padding is 3 bytes long cannot be written: the padding is read
from the two bytes of the string literal `"0"`. -/
theorem savebmp_row_padding_three (rnd : ℚ → StarFinder.Dbl)
    (round_to_BYTE : StarFinder.Dbl → Nat) (fit : fits) (norm : StarFinder.Dbl) (width : Nat)
    (st : SaveState) : savebmp_row rnd round_to_BYTE fit norm width 3 st = none := by
  unfold savebmp_row
  cases repeat_n (savebmp_pixel rnd round_to_BYTE fit norm) width st with
  | none => rfl
  | some st1 => simp [read_bytes]

/-- Whenever the width leaves the remainder 3 modulo 4 and the image has a row, `savebmp`
over-reads the string literal. -/
theorem savebmp_padding_three (rnd : ℚ → StarFinder.Dbl)
    (round_to_BYTE : StarFinder.Dbl → Nat) (fit : fits) (hw : fit.rx % 4 = 3)
    (hh : 0 < fit.ry) : savebmp rnd round_to_BYTE true fit = none := by
  have hp : (4 - (fit.rx * 3) % 4) % 4 = 3 := by omega
  obtain ⟨n, hn⟩ : ∃ n, fit.ry = n + 1 := ⟨fit.ry - 1, by omega⟩
  simp only [savebmp, hp, hn, repeat_n, savebmp_row_padding_three]
  simp

/-- C31, on a width of 3 the code departs from it: each row of the 8-bit colour
image of width 3 and height 1 needs 3 bytes of padding, which `savebmp` takes
from the string literal `"0"` of 2 bytes (the character `0` and the
terminator), reading one byte beyond it; the bytes written are not defined,
whatever the rounding functions. -/
theorem savebmp_width_three_undefined :
    threePixelRow.rx = 3 ∧ threePixelRow.ry = 1 ∧ threePixelRow.orig_bitpix = BYTE_IMG
      ∧ threePixelRow.naxes 2 = 3
      ∧ read_bytes [48, 0] 0 ((4 - (threePixelRow.rx * 3) % 4) % 4) = none
      ∧ ∀ (rnd : ℚ → StarFinder.Dbl) (round_to_BYTE : StarFinder.Dbl → Nat),
          savebmp rnd round_to_BYTE true threePixelRow = none :=
  ⟨rfl, rfl, rfl, rfl, by decide,
    fun rnd round_to_BYTE => savebmp_padding_three rnd round_to_BYTE threePixelRow rfl (by decide)⟩


/-- An element of a list within its length. -/
theorem get?_eq_some_getD (l : List Nat) (i : Nat) (h : i < l.length) :
    l.get? i = some (l.getD i 0) := by
  simp [List.getD, List.get?_eq_getElem?, List.getElem?_eq_getElem h]

/-- The samples of a list of samples of at most 255 are at most 255. -/
theorem getD_le_255 (l : List Nat) (h : ∀ v ∈ l, v ≤ 255) (i : Nat) : l.getD i 0 ≤ 255 := by
  by_cases hi : i < l.length
  · have : l.getD i 0 = l[i] := by simp [List.getD, List.getElem?_eq_getElem hi]
    rw [this]
    exact h _ (List.getElem_mem hi)
  · have : l.getD i 0 = 0 := by simp [List.getD, List.getElem?_eq_none (Nat.le_of_not_lt hi)]
    omega

/-- The pixel loop of `savebmp` on an 8-bit colour image writes the samples in
the order blue, green, red. -/
theorem savebmp_pixels (rnd : ℚ → StarFinder.Dbl) (round_to_BYTE : StarFinder.Dbl → Nat)
    (fit : fits) (norm : StarFinder.Dbl) (hn : fit.naxes 2 = 3)
    (hr : ∀ v : Nat, v ≤ 255 →
      round_to_BYTE (StarFinder.Dbl.mul rnd (StarFinder.Dbl.ofInt (v : Int)) norm) = v)
    (hs : ∀ k, k < 3 → ∀ v ∈ fit.pdata k, v ≤ 255) :
    ∀ (n i : Nat) (w : List Nat), i + n ≤ (fit.pdata 0).length → i + n ≤ (fit.pdata 1).length →
      i + n ≤ (fit.pdata 2).length →
      repeat_n (savebmp_pixel rnd round_to_BYTE fit norm) n ⟨i, i, i, w⟩
        = some ⟨i + n, i + n, i + n, w ++ bgr_pixels fit i n⟩ := by
  intro n
  induction n with
  | zero => intro i w _ _ _; simp [repeat_n, bgr_pixels]
  | succ n ih =>
    intro i w h0 h1 h2
    have e0 := get?_eq_some_getD (fit.pdata 0) i (by omega)
    have e1 := get?_eq_some_getD (fit.pdata 1) i (by omega)
    have e2 := get?_eq_some_getD (fit.pdata 2) i (by omega)
    simp only [repeat_n, savebmp_pixel, e0, e1, e2, hn, if_true,
      hr _ (getD_le_255 _ (hs 0 (by omega)) i), hr _ (getD_le_255 _ (hs 1 (by omega)) i),
      hr _ (getD_le_255 _ (hs 2 (by omega)) i)]
    rw [ih (i + 1) _ (by omega) (by omega) (by omega)]
    simp [bgr_pixels, Nat.add_assoc, Nat.add_comm 1 n]

/-- The length of the bytes of `n` pixels. -/
theorem bgr_pixels_length (fit : fits) : ∀ n i : Nat, (bgr_pixels fit i n).length = 3 * n := by
  intro n
  induction n with
  | zero => intro i; rfl
  | succ n ih => intro i; simp [bgr_pixels, ih]; omega

/-- The first element of the rest of a list, taken with the elements after it. -/
theorem take_succ_drop (l : List Nat) (i n : Nat) (h : i < l.length) :
    (l.drop i).take (n + 1) = l.getD i 0 :: (l.drop (i + 1)).take n := by
  rw [List.drop_eq_getElem_cons h, List.take_succ_cons]
  simp [List.getD, List.getElem?_eq_getElem h]

/-- An element of the second part of a concatenation. -/
theorem get?_append_add (pre l : List Nat) (k : Nat) :
    (pre ++ l).get? (pre.length + k) = l.get? k := by
  rw [List.get?_eq_getElem?, List.getElem?_append_right (by omega)]
  simp

/-- The pixel loop of `bmp24tofits48` on the bytes of `n` pixels appends their
samples to the three planes. -/
theorem bmp24_pixels (fit : fits) :
    ∀ (n i : Nat) (pre post r g b : List Nat), i + n ≤ (fit.pdata 0).length →
      i + n ≤ (fit.pdata 1).length → i + n ≤ (fit.pdata 2).length →
      repeat_n (bmp24_pixel (pre ++ bgr_pixels fit i n ++ post)) n ⟨pre.length, r, g, b⟩
        = some ⟨pre.length + 3 * n, r ++ ((fit.pdata 0).drop i).take n,
            g ++ ((fit.pdata 1).drop i).take n, b ++ ((fit.pdata 2).drop i).take n⟩ := by
  intro n
  induction n with
  | zero => intro i pre post r g b _ _ _; simp [repeat_n]
  | succ n ih =>
    intro i pre post r g b h0 h1 h2
    have hb : (pre ++ bgr_pixels fit i (n + 1) ++ post)
        = (pre ++ [(fit.pdata 2).getD i 0, (fit.pdata 1).getD i 0, (fit.pdata 0).getD i 0])
            ++ bgr_pixels fit (i + 1) n ++ post := by
      simp [bgr_pixels]
    have hc : (pre ++ bgr_pixels fit i (n + 1) ++ post)
        = pre ++ ((fit.pdata 2).getD i 0 :: (fit.pdata 1).getD i 0 :: (fit.pdata 0).getD i 0
            :: (bgr_pixels fit (i + 1) n ++ post)) := by
      simp [bgr_pixels]
    have g0 : (pre ++ bgr_pixels fit i (n + 1) ++ post).get? pre.length
        = some ((fit.pdata 2).getD i 0) := by
      rw [hc]; exact get?_append_add pre _ 0
    have g1 : (pre ++ bgr_pixels fit i (n + 1) ++ post).get? (pre.length + 1)
        = some ((fit.pdata 1).getD i 0) := by
      rw [hc]; exact get?_append_add pre _ 1
    have g2 : (pre ++ bgr_pixels fit i (n + 1) ++ post).get? (pre.length + 2)
        = some ((fit.pdata 0).getD i 0) := by
      rw [hc]; exact get?_append_add pre _ 2
    simp only [repeat_n, bmp24_pixel, g0, g1, g2]
    rw [hb]
    have hl : pre.length + 3
        = (pre ++ [(fit.pdata 2).getD i 0, (fit.pdata 1).getD i 0,
            (fit.pdata 0).getD i 0]).length := by simp
    rw [hl, ih (i + 1) _ post _ _ _ (by omega) (by omega) (by omega)]
    rw [take_succ_drop _ i n (by omega), take_succ_drop _ i n (by omega),
      take_succ_drop _ i n (by omega)]
    simp
    omega

/-- A row of `savebmp` whose padding has at most 2 bytes: the pixels, then the
first bytes of the string literal. -/
theorem savebmp_row_short_padding (rnd : ℚ → StarFinder.Dbl)
    (round_to_BYTE : StarFinder.Dbl → Nat) (fit : fits) (norm : StarFinder.Dbl)
    (width padsize : Nat) (hp : padsize ≤ 2) (st st1 : SaveState)
    (h : repeat_n (savebmp_pixel rnd round_to_BYTE fit norm) width st = some st1) :
    savebmp_row rnd round_to_BYTE fit norm width padsize st
      = some { st1 with written := st1.written ++ [48, 0].take padsize } := by
  unfold savebmp_row
  rw [h]
  interval_cases padsize <;> simp [read_bytes]

/-- The row loop of `savebmp` on an 8-bit colour image writes the rows one after
the other, each with its padding. -/
theorem savebmp_rows (rnd : ℚ → StarFinder.Dbl) (round_to_BYTE : StarFinder.Dbl → Nat)
    (fit : fits) (norm : StarFinder.Dbl) (hn : fit.naxes 2 = 3)
    (hr : ∀ v : Nat, v ≤ 255 →
      round_to_BYTE (StarFinder.Dbl.mul rnd (StarFinder.Dbl.ofInt (v : Int)) norm) = v)
    (hs : ∀ k, k < 3 → ∀ v ∈ fit.pdata k, v ≤ 255) (width padsize : Nat) (hp : padsize ≤ 2) :
    ∀ (m i : Nat) (w : List Nat), i + m * width ≤ (fit.pdata 0).length →
      i + m * width ≤ (fit.pdata 1).length → i + m * width ≤ (fit.pdata 2).length →
      repeat_n (savebmp_row rnd round_to_BYTE fit norm width padsize) m ⟨i, i, i, w⟩
        = some ⟨i + m * width, i + m * width, i + m * width,
            w ++ bgr_rows fit width ([48, 0].take padsize) i m⟩ := by
  intro m
  induction m with
  | zero => intro i w _ _ _; simp [repeat_n, bgr_rows]
  | succ m ih =>
    intro i w h0 h1 h2
    have e : (m + 1) * width = width + m * width := by ring
    rw [e] at h0 h1 h2
    have hpix := savebmp_pixels rnd round_to_BYTE fit norm hn hr hs width i w (by omega)
      (by omega) (by omega)
    simp only [repeat_n,
      savebmp_row_short_padding rnd round_to_BYTE fit norm width padsize hp _ _ hpix]
    rw [ih (i + width) _ (by omega) (by omega) (by omega)]
    simp [bgr_rows, e, Nat.add_assoc]

/-- The length of the bytes of `m` rows. -/
theorem bgr_rows_length (fit : fits) (width : Nat) (padding : List Nat) :
    ∀ m i : Nat, (bgr_rows fit width padding i m).length = m * (3 * width + padding.length) := by
  intro m
  induction m with
  | zero => intro i; simp [bgr_rows]
  | succ m ih => intro i; simp [bgr_rows, ih, bgr_pixels_length]; ring

/-- The row loop of `bmp24tofits48` on the bytes of `m` padded rows appends their
samples to the three planes. -/
theorem bmp24_rows (fit : fits) (width : Nat) (padding : List Nat) :
    ∀ (m i : Nat) (pre post r g b : List Nat), i + m * width ≤ (fit.pdata 0).length →
      i + m * width ≤ (fit.pdata 1).length → i + m * width ≤ (fit.pdata 2).length →
      repeat_n (bmp24_row (pre ++ bgr_rows fit width padding i m ++ post) width padding.length)
          m ⟨pre.length, r, g, b⟩
        = some ⟨pre.length + m * (3 * width + padding.length),
            r ++ ((fit.pdata 0).drop i).take (m * width),
            g ++ ((fit.pdata 1).drop i).take (m * width),
            b ++ ((fit.pdata 2).drop i).take (m * width)⟩ := by
  intro m
  induction m with
  | zero => intro i pre post r g b _ _ _; simp [repeat_n]
  | succ m ih =>
    intro i pre post r g b h0 h1 h2
    have e : (m + 1) * width = width + m * width := by ring
    rw [e] at h0 h1 h2
    have hb : pre ++ bgr_rows fit width padding i (m + 1) ++ post
        = pre ++ bgr_pixels fit i width ++ (padding ++ bgr_rows fit width padding (i + width) m
            ++ post) := by
      simp [bgr_rows]
    have hc : pre ++ bgr_rows fit width padding i (m + 1) ++ post
        = (pre ++ bgr_pixels fit i width ++ padding) ++ bgr_rows fit width padding (i + width) m
            ++ post := by
      simp [bgr_rows]
    have hpix := bmp24_pixels fit width i pre
      (padding ++ bgr_rows fit width padding (i + width) m ++ post) r g b (by omega) (by omega)
      (by omega)
    rw [← hb] at hpix
    simp only [repeat_n, bmp24_row, hpix]
    have hl : pre.length + 3 * width + padding.length
        = (pre ++ bgr_pixels fit i width ++ padding).length := by
      simp [bgr_pixels_length, Nat.add_assoc]
    rw [hc, hl, ih (i + width) _ post _ _ _ (by omega) (by omega) (by omega)]
    have ht : ∀ l : List Nat, (l.drop i).take (width + m * width)
        = (l.drop i).take width ++ (l.drop (i + width)).take (m * width) := by
      intro l
      rw [List.take_add, List.drop_drop]
    simp only [e, ht, List.append_assoc, List.length_append, bgr_pixels_length]
    congr 2
    ring

/-- Four bytes, least significant first, hold a value below `2 ^ 32`. -/
theorem le_value_four_bytes (v : Nat) (h : v < 2 ^ 32) : le_value (four_bytes v) = v := by
  simp only [four_bytes, byte_of, le_value]
  norm_num
  omega

/-- The two headers of `savebmp` take 54 bytes. -/
theorem bmp_headers_length (filesize width height datasize : Nat) :
    (bmpfileheader filesize ++ bmpinfoheader width height datasize).length = 54 := by
  simp [bmpfileheader, bmpinfoheader, four_bytes]

/-- The width and the height that `savebmp` stores in its headers are read back
by `get_image_size`. -/
theorem get_image_size_headers (filesize width height datasize : Nat) (hw : width < 2 ^ 32)
    (hh : height < 2 ^ 32) :
    get_image_size (bmpfileheader filesize ++ bmpinfoheader width height datasize)
      = some (width, height) := by
  have e1 : read_bytes (bmpfileheader filesize ++ bmpinfoheader width height datasize) 14 4
      = some [40, 0, 0, 0] := by
    simp [read_bytes, bmpfileheader, bmpinfoheader, four_bytes]
  have e2 : read_bytes (bmpfileheader filesize ++ bmpinfoheader width height datasize) 18 4
      = some (four_bytes width) := by
    simp [read_bytes, bmpfileheader, bmpinfoheader, four_bytes]
  have e3 : read_bytes (bmpfileheader filesize ++ bmpinfoheader width height datasize) 22 4
      = some (four_bytes height) := by
    simp [read_bytes, bmpfileheader, bmpinfoheader, four_bytes]
  have e4 : le_value [40, 0, 0, 0] ≠ 12 := by decide
  simp only [get_image_size, e1, e2, e3, if_neg e4, le_value_four_bytes _ hw,
    le_value_four_bytes _ hh]

/-- Round trip of the BMP export whenever the width does not leave the remainder 3
modulo 4:
for an 8-bit colour image whose samples are at most 255, `savebmp` writes 54
bytes of headers and the pixel bytes counted by `readbmp`, `get_image_size`
reads the width and the height back from the headers, and `bmp24tofits48`
decodes the pixel bytes to the three planes of the image. The rounding of a
sample multiplied by 1.0 is taken to give the sample back. -/
theorem savebmp_round_trip (rnd : ℚ → StarFinder.Dbl) (round_to_BYTE : StarFinder.Dbl → Nat)
    (fit : fits) (hn : fit.naxes 2 = 3) (hb : fit.orig_bitpix = BYTE_IMG)
    (hr : ∀ v : Nat, v ≤ 255 →
      round_to_BYTE (StarFinder.Dbl.mul rnd (StarFinder.Dbl.ofInt (v : Int))
        (StarFinder.Dbl.fin 1)) = v)
    (hs : ∀ k, k < 3 → ∀ v ∈ fit.pdata k, v ≤ 255)
    (hl : ∀ k, k < 3 → (fit.pdata k).length = fit.rx * fit.ry)
    (hw : fit.rx % 4 ≠ 3) (hx : fit.rx < 2 ^ 32) (hy : fit.ry < 2 ^ 32) :
    ∃ bytes, savebmp rnd round_to_BYTE true fit = some (0, some bytes)
      ∧ bytes.length = 54 + readbmp_nbdata fit.rx fit.ry 3
      ∧ get_image_size (bytes.take 54) = some (fit.rx, fit.ry)
      ∧ ∀ fit0 : fits, ∃ fit1, bmp24tofits48 (bytes.drop 54) fit.rx fit.ry fit0 true
            = some (0, fit1)
          ∧ fit1.pdata 0 = fit.pdata 0 ∧ fit1.pdata 1 = fit.pdata 1
          ∧ fit1.pdata 2 = fit.pdata 2 := by
  have hp : (4 - (fit.rx * 3) % 4) % 4 ≤ 2 := by omega
  have hm : ∀ k, k < 3 → 0 + fit.ry * fit.rx ≤ (fit.pdata k).length := by
    intro k hk
    rw [hl k hk, Nat.mul_comm]
    omega
  have hrows := savebmp_rows rnd round_to_BYTE fit (StarFinder.Dbl.fin 1) hn hr hs fit.rx
    ((4 - (fit.rx * 3) % 4) % 4) hp fit.ry 0 [] (hm 0 (by omega)) (hm 1 (by omega))
    (hm 2 (by omega))
  have hpl : ([48, 0].take ((4 - (fit.rx * 3) % 4) % 4)).length = (4 - (fit.rx * 3) % 4) % 4 := by
    simp
    omega
  have hsave : savebmp rnd round_to_BYTE true fit
      = some (0, some ((bmpfileheader (fit.rx * fit.ry * 3 + (4 - (fit.rx * 3) % 4) % 4 * fit.ry
            + 14 + 40)
          ++ bmpinfoheader fit.rx fit.ry
            (fit.rx * fit.ry * 3 + (4 - (fit.rx * 3) % 4) % 4 * fit.ry))
          ++ bgr_rows fit fit.rx ([48, 0].take ((4 - (fit.rx * 3) % 4) % 4)) 0 fit.ry)) := by
    simp only [savebmp, hb, ne_eq, not_true_eq_false, if_false, hrows]
    simp
  refine ⟨_, hsave, ?_, ?_, ?_⟩
  · rw [List.length_append, bmp_headers_length, bgr_rows_length, hpl]
    simp only [readbmp_nbdata, readbmp_padsize]
    ring
  · rw [List.take_left' (bmp_headers_length _ _ _ _)]
    exact get_image_size_headers _ _ _ _ hx hy
  · intro fit0
    rw [List.drop_left' (bmp_headers_length _ _ _ _)]
    have hdec := bmp24_rows fit fit.rx ([48, 0].take ((4 - (fit.rx * 3) % 4) % 4)) fit.ry 0 []
      [] [] [] [] (hm 0 (by omega)) (hm 1 (by omega)) (hm 2 (by omega))
    rw [hpl] at hdec
    simp only [List.nil_append, List.append_nil, List.length_nil, List.drop_zero] at hdec
    have ht : ∀ k, k < 3 → (fit.pdata k).take (fit.ry * fit.rx) = fit.pdata k := by
      intro k hk
      apply List.take_of_length_le
      rw [hl k hk, Nat.mul_comm]
    rw [ht 0 (by omega), ht 1 (by omega), ht 2 (by omega)] at hdec
    refine ⟨colour_image fit0 fit.rx fit.ry
      ⟨0 + fit.ry * (3 * fit.rx + (4 - (fit.rx * 3) % 4) % 4), fit.pdata 0, fit.pdata 1,
        fit.pdata 2⟩, ?_, rfl, rfl, rfl⟩
    simp only [bmp24tofits48, hdec]
    simp


/-- In exact arithmetic the sample rounding gives a sample multiplied by 1.0
back. -/
theorem nearestByte_sample (v : Nat) (h : v ≤ 255) :
    nearestByte (StarFinder.Dbl.mul StarFinder.Dbl.exact (StarFinder.Dbl.ofInt (v : Int))
      (StarFinder.Dbl.fin 1)) = v := by
  have h1 : ((v : ℚ)) ≤ 255 := by exact_mod_cast h
  have h2 : (0 : ℚ) ≤ (v : ℚ) := by positivity
  by_cases h0 : v = 0
  · subst h0
    simp [nearestByte, StarFinder.Dbl.mul, StarFinder.Dbl.ofInt, StarFinder.Dbl.exact]
  · have h3 : ¬ ((v : ℚ) ≤ 0) := by
      have : (0 : ℚ) < (v : ℚ) := by exact_mod_cast Nat.pos_of_ne_zero h0
      linarith
    have h4 : ¬ ((255 : ℚ) < (v : ℚ)) := by linarith
    have hf2 : ⌊(2 : ℚ)⁻¹⌋ = 0 := by
      rw [Int.floor_eq_iff]
      norm_num
    simp [nearestByte, StarFinder.Dbl.mul, StarFinder.Dbl.ofInt, StarFinder.Dbl.exact, h3, h4,
      hf2]

/-- The round trip on an image of width 2 and height 2, whose rows are padded
with the 2 bytes of the string literal. -/
theorem savebmp_round_trip_fourPixels :
    ∃ bytes, savebmp StarFinder.Dbl.exact nearestByte true fourPixels = some (0, some bytes)
      ∧ bytes.length = 54 + readbmp_nbdata 2 2 3
      ∧ get_image_size (bytes.take 54) = some (2, 2)
      ∧ ∀ fit0 : fits, ∃ fit1, bmp24tofits48 (bytes.drop 54) 2 2 fit0 true = some (0, fit1)
          ∧ fit1.pdata 0 = [1, 2, 3, 4] ∧ fit1.pdata 1 = [5, 6, 7, 8]
          ∧ fit1.pdata 2 = [9, 10, 11, 255] :=
  savebmp_round_trip StarFinder.Dbl.exact nearestByte fourPixels rfl rfl nearestByte_sample
    (by intro k hk; interval_cases k <;> decide)
    (by intro k hk; interval_cases k <;> rfl) (by decide) (by decide) (by decide)

/-! ## NetPBM import -/

/-- A maximum value other than 255, 32767 and 65535 is refused. -/
theorem pnm_data_refuses (ext : PnmExternals) (fit : fits) (stream : List Nat) (max_val : Nat)
    (malloc_ok realloc_ok : Bool) (h1 : max_val ≠ 255) (h2 : max_val ≠ 32767)
    (h3 : max_val ≠ 65535) :
    pnm_data ext fit stream max_val malloc_ok realloc_ok = some (-1, fit) := by
  unfold pnm_data
  by_cases h : max_val < 255
  · simp [h]
  · simp [h, h1, h2, h3]

/-- The value returned once the maximum value is known is -1 or the number of
layers, and the number of layers only for the maximum values 255, 32767 and
65535. -/
theorem pnm_data_value (ext : PnmExternals) (hk : KeepLayers ext) (fit : fits)
    (stream : List Nat) (max_val : Nat) (malloc_ok realloc_ok : Bool) (v : Int) (f : fits)
    (h : pnm_data ext fit stream max_val malloc_ok realloc_ok = some (v, f)) :
    v = -1 ∨ (v = fit.naxes 2 ∧ (max_val = 255 ∨ max_val = 32767 ∨ max_val = 65535)) := by
  obtain ⟨k1, k2, k3, k4⟩ := hk
  unfold pnm_data at h
  dsimp only at h
  repeat' (split_ifs at h)
  all_goals
    simp only [Option.some.injEq, Prod.mk.injEq] at h
    obtain ⟨hv, -⟩ := h
    subst hv
    first
    | exact Or.inl rfl
    | exact Or.inr ⟨by simp [k1, k2, k3, k4], by omega⟩

/-- The value returned once the height is known is -1 or the number of layers. -/
theorem pnm_max_val_value (ext : PnmExternals) (hk : KeepLayers ext) (fit : fits)
    (buf : List (Option Nat)) (stream : List Nat) (malloc_ok realloc_ok : Bool) (v : Int)
    (f : fits) (h : pnm_max_val ext fit buf stream malloc_ok realloc_ok = some (v, f)) :
    v = -1 ∨ v = fit.naxes 2 := by
  unfold pnm_max_val at h
  cases h1 : next_line stream.length buf stream with
  | none =>
    simp only [h1, Option.some.injEq, Prod.mk.injEq] at h
    exact Or.inl h.1.symm
  | some p =>
    obtain ⟨buf1, rest⟩ := p
    simp only [h1] at h
    cases h2 : scan_digits buf1 0 with
    | none => simp [h2] at h
    | some i =>
      simp only [h2] at h
      cases h3 : buf_at buf1 i with
      | none => simp [h3] at h
      | some c =>
        simp only [h3] at h
        by_cases hc : c = 10
        · simp only [hc, ne_eq, not_true_eq_false, if_false] at h
          cases h4 : atoi (string_between (buf1.set i (some 0)) 0 i) with
          | none => simp [h4] at h
          | some max_val =>
            simp only [h4] at h
            rcases pnm_data_value ext hk fit rest max_val malloc_ok realloc_ok v f h with
              hv | ⟨hv, -⟩
            · exact Or.inl hv
            · exact Or.inr hv
        · simp only [hc, ne_eq, not_false_eq_true, if_true, Option.some.injEq,
            Prod.mk.injEq] at h
          exact Or.inl h.1.symm

/-- The value returned once the first line is accepted is -1 or the number of
layers. -/
theorem pnm_size_value (ext : PnmExternals) (hk : KeepLayers ext) (fit : fits)
    (buf : List (Option Nat)) (stream : List Nat) (malloc_ok realloc_ok : Bool) (v : Int)
    (f : fits) (h : pnm_size ext fit buf stream malloc_ok realloc_ok = some (v, f)) :
    v = -1 ∨ v = fit.naxes 2 := by
  unfold pnm_size at h
  cases h1 : next_line stream.length buf stream with
  | none =>
    simp only [h1, Option.some.injEq, Prod.mk.injEq] at h
    exact Or.inl h.1.symm
  | some p =>
    obtain ⟨buf1, rest⟩ := p
    simp only [h1] at h
    cases h2 : scan_digits buf1 0 with
    | none => simp [h2] at h
    | some i0 =>
      simp only [h2] at h
      by_cases hi : i0 = 0
      · simp only [hi, if_true, Option.some.injEq, Prod.mk.injEq] at h
        exact Or.inl h.1.symm
      · simp only [hi, if_false] at h
        cases h3 : atoi (string_between (buf1.set i0 (some 0)) 0 i0) with
        | none => simp [h3] at h
        | some rx =>
          simp only [h3] at h
          cases h4 : scan_digits ((buf1.set i0 (some 0)).drop (i0 + 1)) (i0 + 1) with
          | none => simp [h4] at h
          | some j =>
            simp only [h4] at h
            by_cases hj : j = i0 + 1
            · simp only [hj, if_true, Option.some.injEq, Prod.mk.injEq] at h
              exact Or.inl h.1.symm
            · simp only [hj, if_false] at h
              cases h5 : buf_at (buf1.set i0 (some 0)) j with
              | none => simp [h5] at h
              | some c =>
                simp only [h5] at h
                by_cases hc : c = 10
                · simp only [hc, ne_eq, not_true_eq_false, if_false] at h
                  cases h6 : atoi (string_between ((buf1.set i0 (some 0)).set j (some 0))
                      (i0 + 1) j) with
                  | none => simp [h6] at h
                  | some ry =>
                    simp only [h6] at h
                    have h7 := pnm_max_val_value ext hk _ _ _ _ _ v f h
                    exact h7
                · simp only [hc, ne_eq, not_false_eq_true, if_true, Option.some.injEq,
                    Prod.mk.injEq] at h
                  exact Or.inl h.1.symm

/-- Nothing follows the newline in what `fgets` takes. -/
theorem line_of_newline_last : ∀ (n : Nat) (s pre post : List Nat),
    line_of n s = pre ++ 10 :: post → post = [] := by
  intro n
  induction n with
  | zero => intro s pre post h; cases pre <;> simp [line_of] at h
  | succ n ih =>
    intro s pre post h
    cases s with
    | nil => cases pre <;> simp [line_of] at h
    | cons c more =>
      by_cases hc : c = 10
      · simp only [line_of, hc, if_true] at h
        cases pre with
        | nil => simpa using h.symm
        | cons p pre1 => cases pre1 <;> simp at h
      · simp only [line_of, hc, if_false] at h
        cases pre with
        | nil => simp at h; exact absurd h.1 hc
        | cons p pre1 =>
          simp only [List.cons_append, List.cons.injEq] at h
          exact ih more pre1 post h.2

/-- The magic cookie is accepted exactly when the first line is `P5` or `P6`
followed by a newline, and the test reads no slot that was never written. -/
theorem pnm_magic_first_line (bytes : List Nat) (buf0 buf : List (Option Nat))
    (rest : List Nat) (h : fgets buf0 256 bytes = some (buf, rest)) :
    pnm_magic buf
      = some (decide (line_of 255 bytes = [80, 53, 10] ∨ line_of 255 bytes = [80, 54, 10])) := by
  unfold fgets at h
  simp only [Nat.add_one_sub_one] at h
  by_cases he : line_of 255 bytes = []
  · simp [he] at h
  · simp only [he, if_false, Option.some.injEq, Prod.mk.injEq] at h
    obtain ⟨hb, -⟩ := h
    subst hb
    cases hl : line_of 255 bytes with
    | nil => exact absurd hl he
    | cons c0 l1 =>
      by_cases h0 : c0 = 80
      · subst h0
        cases l1 with
        | nil => simp [pnm_magic, buf_at]
        | cons c1 l2 =>
          by_cases h1 : c1 < 53 ∨ c1 > 54
          · have : c1 ≠ 53 ∧ c1 ≠ 54 := by omega
            simp [pnm_magic, buf_at, h1, this]
          · cases l2 with
            | nil => simp [pnm_magic, buf_at, h1]
            | cons c2 l3 =>
              by_cases h2 : c2 = 10
              · subst h2
                have h3 : l3 = [] := line_of_newline_last 255 bytes [80, c1] l3 hl
                subst h3
                have : c1 = 53 ∨ c1 = 54 := by omega
                simp [pnm_magic, buf_at, h1, this]
              · simp [pnm_magic, buf_at, h1, h2]
      · simp [pnm_magic, buf_at, h0]

/-- The second character of the buffer after an accepted first line. -/
theorem fgets_second_char (bytes : List Nat) (buf0 buf : List (Option Nat)) (rest : List Nat)
    (c1 : Nat) (h : fgets buf0 256 bytes = some (buf, rest))
    (hl : line_of 255 bytes = [80, c1, 10]) : buf_at buf 1 = some c1 := by
  unfold fgets at h
  simp only [Nat.add_one_sub_one, hl] at h
  simp only [List.cons_ne_nil, if_false, Option.some.injEq, Prod.mk.injEq] at h
  obtain ⟨hb, -⟩ := h
  subst hb
  simp [buf_at]

/-- A file that cannot be opened, an empty file and a file whose first line is
not `P5` or `P6` followed by a newline are refused with -1, and the image is left
as it was. -/
theorem import_pnm_wrong_magic (ext : PnmExternals) (file : Option (List Nat)) (fit : fits)
    (malloc_ok realloc_ok : Bool)
    (h : ∀ bytes, file = some bytes →
      line_of 255 bytes ≠ [80, 53, 10] ∧ line_of 255 bytes ≠ [80, 54, 10]) :
    import_pnm_to_fits ext file fit malloc_ok realloc_ok = some (-1, fit) := by
  cases file with
  | none => rfl
  | some bytes =>
    obtain ⟨h5, h6⟩ := h bytes rfl
    unfold import_pnm_to_fits
    cases hf : fgets (List.replicate 256 none) 256 bytes with
    | none => simp only [hf]
    | some p =>
      obtain ⟨buf, rest⟩ := p
      simp only [hf, pnm_magic_first_line bytes _ buf rest hf, h5, h6, or_self, decide_False]

/-- The value that `import_pnm_to_fits` returns is -1, or 1 for a file whose first
line is `P5`, or 3 for a file whose first line is `P6`, whenever the functions
that are not among the sources leave the number of layers as it is. -/
theorem import_pnm_layers (ext : PnmExternals) (hk : KeepLayers ext) (bytes : List Nat)
    (fit : fits) (malloc_ok realloc_ok : Bool) (v : Int) (f : fits)
    (h : import_pnm_to_fits ext (some bytes) fit malloc_ok realloc_ok = some (v, f)) :
    v = -1 ∨ (v = 1 ∧ line_of 255 bytes = [80, 53, 10])
      ∨ (v = 3 ∧ line_of 255 bytes = [80, 54, 10]) := by
  unfold import_pnm_to_fits at h
  cases hf : fgets (List.replicate 256 none) 256 bytes with
  | none =>
    simp only [hf, Option.some.injEq, Prod.mk.injEq] at h
    exact Or.inl h.1.symm
  | some p =>
    obtain ⟨buf, rest⟩ := p
    simp only [hf, pnm_magic_first_line bytes _ buf rest hf] at h
    by_cases h5 : line_of 255 bytes = [80, 53, 10]
    · have hc := fgets_second_char bytes _ buf rest 53 hf h5
      simp only [h5, true_or, decide_True, hc, Option.some.injEq, Nat.reduceEqDiff,
        if_false] at h
      rcases pnm_size_value ext hk _ buf rest malloc_ok realloc_ok v f h with hv | hv
      · exact Or.inl hv
      · exact Or.inr (Or.inl ⟨hv, h5⟩)
    · by_cases h6 : line_of 255 bytes = [80, 54, 10]
      · have hc := fgets_second_char bytes _ buf rest 54 hf h6
        simp only [h6, or_true, decide_True, hc, if_true] at h
        rcases pnm_size_value ext hk _ buf rest malloc_ok realloc_ok v f h with hv | hv
        · exact Or.inl hv
        · exact Or.inr (Or.inr ⟨hv, h6⟩)
      · simp only [h5, h6, or_self, decide_False, Option.some.injEq, Prod.mk.injEq] at h
        exact Or.inl h.1.symm

/-- C34, on a maximum value beyond the range of `int` the code departs from it:
the graymap of width 1 and height 1 whose header gives the maximum value
4294967551 has a first line `P5`, and its maximum value is none of 255, 32767
and 65535; `import_pnm_to_fits` hands the digits to `atoi` without a check, the
value does not fit an `int`, and neither the value that `atoi` returns nor the
value that `import_pnm_to_fits` returns is defined, whatever the functions it
calls. The value 4294967551 is 255 modulo `2 ^ 32`. -/
theorem import_pnm_huge_max_val :
    line_of 255 hugeMaxValFile = [80, 53, 10]
      ∧ atoi (bytes_of "4294967551") = none
      ∧ 4294967551 % 2 ^ 32 = 255
      ∧ ∀ (ext : PnmExternals) (fit : fits) (malloc_ok realloc_ok : Bool),
          import_pnm_to_fits ext (some hugeMaxValFile) fit malloc_ok realloc_ok = none :=
  ⟨by decide, by decide, by decide, fun _ _ _ _ => rfl⟩

/-! ## NetPBM round trip -/

/-- The byte swap exchanges the two bytes of a 16-bit value. -/
theorem swap16_eq (v : Nat) (h : v < 65536) : swap16 v = v / 256 + 256 * (v % 256) := by
  unfold swap16
  have h1 : v >>> 8 = v / 256 := by rw [Nat.shiftRight_eq_div_pow]
  have h2 : v <<< 8 = v * 256 := by rw [Nat.shiftLeft_eq]
  rw [h1, h2]
  have h3 : v * 256 = 2 ^ 8 * v := by ring
  have h4 : v / 256 < 2 ^ 8 := by omega
  rw [Nat.lor_comm, h3, ← Nat.mul_add_lt_is_or h4]
  omega

/-- The byte swap keeps a value within 16 bits. -/
theorem swap16_lt (v : Nat) : swap16 v < 65536 := by
  unfold swap16
  omega

/-- The byte swap applied twice gives a 16-bit value back. -/
theorem swap16_swap16 (v : Nat) (h : v < 65536) : swap16 (swap16 v) = v := by
  rw [swap16_eq _ (swap16_lt v), swap16_eq v h]
  omega

/-- The words read from the bytes written for 16-bit words are these words. -/
theorem words_of_word_bytes : ∀ l : List Nat, (∀ w ∈ l, w < 65536) →
    words_of (l.flatMap word_bytes) = l := by
  intro l
  induction l with
  | nil => intro _; rfl
  | cons w more ih =>
    intro h
    have hw : w < 65536 := h w (List.mem_cons_self _ _)
    have e : w % 256 + 256 * (w / 256) = w := by omega
    rw [List.flatMap_cons, show word_bytes w = [w % 256, w / 256] from rfl]
    show words_of (w % 256 :: w / 256 :: more.flatMap word_bytes) = w :: more
    simp only [words_of]
    rw [ih (fun x hx => h x (List.mem_cons_of_mem _ hx)), e]

/-- A 16-bit sample multiplied by 1.0 converts back to itself when the doubles
hold the integers below 65536. -/
theorem toWORD_times_one (rnd : ℚ → StarFinder.Dbl)
    (hr : ∀ v : Nat, v < 65536 → rnd (v : ℚ) = StarFinder.Dbl.fin (v : ℚ)) (v : Nat)
    (h : v < 65536) :
    StarFinder.Dbl.toWORD
      (StarFinder.Dbl.mul rnd (StarFinder.Dbl.ofInt (v : Int)) (StarFinder.Dbl.fin 1)) = some v := by
  have h1 : (-1 : ℚ) < (v : ℚ) := by
    have : (0 : ℚ) ≤ (v : ℚ) := by positivity
    linarith
  have h2 : (v : ℚ) < 65536 := by exact_mod_cast h
  simp [StarFinder.Dbl.mul, StarFinder.Dbl.ofInt, StarFinder.Dbl.toWORD, hr v h, h1, h2]

/-- The loop of `savepgm` on a 16-bit image writes the samples one after the
other, the high byte first. -/
theorem savepgm_samples (rnd : ℚ → StarFinder.Dbl)
    (hr : ∀ v : Nat, v < 65536 → rnd (v : ℚ) = StarFinder.Dbl.fin (v : ℚ)) (plane : List Nat)
    (hs : ∀ v ∈ plane, v < 65536) :
    ∀ (n i : Nat) (w : List Nat), i + n ≤ plane.length →
      repeat_n (savepgm_sample rnd plane (StarFinder.Dbl.fin 1)) n ⟨i, w⟩
        = some ⟨i + n, w ++ ((plane.drop i).take n).flatMap (fun v => word_bytes (swap16 v))⟩ := by
  intro n
  induction n with
  | zero => intro i w _; simp [repeat_n]
  | succ n ih =>
    intro i w h
    have hi : i < plane.length := by omega
    have e0 := get?_eq_some_getD plane i hi
    have hv : plane.getD i 0 < 65536 := by
      have : plane.getD i 0 = plane[i] := by simp [List.getD, List.getElem?_eq_getElem hi]
      rw [this]
      exact hs _ (List.getElem_mem hi)
    simp only [repeat_n, savepgm_sample, e0, toWORD_times_one rnd hr _ hv]
    rw [ih (i + 1) _ (by omega), take_succ_drop plane i n hi]
    simp [Nat.add_assoc, Nat.add_comm 1 n]

/-- A slot of the second part of a concatenation of slots. -/
theorem get?_append_add_option (pre l : List (Option Nat)) (k : Nat) :
    (pre ++ l).get? (pre.length + k) = l.get? k := by
  rw [List.get?_eq_getElem?, List.getElem?_append_right (by omega)]
  simp

/-- What `fgets` takes from a stream that starts with a short line. -/
theorem line_of_line : ∀ (n : Nat) (l rest : List Nat), (∀ c ∈ l, c ≠ 10) → l.length < n →
    line_of n (l ++ 10 :: rest) = l ++ [10] := by
  intro n
  induction n with
  | zero => intro l rest _ h; omega
  | succ n ih =>
    intro l rest hl hn
    cases l with
    | nil => simp [line_of]
    | cons c more =>
      have hc : c ≠ 10 := hl c (List.mem_cons_self _ _)
      simp only [List.cons_append, line_of, hc, if_false, List.cons.injEq, true_and]
      exact ih more rest (fun x hx => hl x (List.mem_cons_of_mem _ hx))
        (by simp only [List.length_cons] at hn; omega)

/-- The buffer and the stream after `fgets` has read a short line. -/
theorem fgets_line (buf : List (Option Nat)) (l rest : List Nat) (hl : ∀ c ∈ l, c ≠ 10)
    (hn : l.length < 255) :
    fgets buf 256 (l ++ 10 :: rest)
      = some (l.map some ++ some 10 :: some 0 :: buf.drop (l.length + 2), rest) := by
  unfold fgets
  simp only [Nat.add_one_sub_one, line_of_line 255 l rest hl hn]
  have e : (l ++ 10 :: rest).drop (l ++ [10]).length = rest := by
    rw [show l ++ 10 :: rest = (l ++ [10]) ++ rest by simp]
    exact List.drop_left _ _
  simp [e]

/-- The scan of digits stops at the first character that is not a digit. -/
theorem scan_digits_prefix : ∀ (ds : List Nat), (∀ c ∈ ds, 48 ≤ c ∧ c ≤ 57) →
    ∀ (c : Nat) (tail : List (Option Nat)) (i : Nat), ¬ (48 ≤ c ∧ c ≤ 57) →
      scan_digits (ds.map some ++ some c :: tail) i = some (i + ds.length) := by
  intro ds
  induction ds with
  | nil => intro _ c tail i hc; simp [scan_digits, hc]
  | cons d more ih =>
    intro hd c tail i hc
    have h1 := hd d (List.mem_cons_self _ _)
    have e := ih (fun x hx => hd x (List.mem_cons_of_mem _ hx)) c tail (i + 1) hc
    show scan_digits (some d :: (more.map some ++ some c :: tail)) i = _
    simp only [scan_digits, h1, and_self, if_true, e, List.length_cons]
    congr 1
    omega

/-- The assignment to the slot that follows a prefix of the buffer. -/
theorem set_after_prefix (pre : List (Option Nat)) (x y : Option Nat)
    (tail : List (Option Nat)) : (pre ++ x :: tail).set pre.length y = pre ++ y :: tail := by
  induction pre with
  | nil => rfl
  | cons p more ih => simp [List.set, ih]

/-- The slot that follows a prefix of the buffer. -/
theorem buf_at_after_prefix (pre : List (Option Nat)) (x : Option Nat)
    (tail : List (Option Nat)) : buf_at (pre ++ x :: tail) pre.length = x := by
  unfold buf_at
  have := get?_append_add_option pre (x :: tail) 0
  simp only [Nat.add_zero] at this
  rw [this]
  rfl

/-- The string that follows a prefix of the buffer. -/
theorem string_between_after_prefix (pre : List (Option Nat)) (s : List Nat)
    (tail : List (Option Nat)) :
    string_between (pre ++ s.map some ++ tail) pre.length (pre.length + s.length) = s := by
  unfold string_between
  rw [List.append_assoc, List.drop_left, Nat.add_sub_cancel_left]
  have : (s.map some ++ tail).take s.length = s.map some := by
    rw [← List.length_map s some]
    exact List.take_left _ _
  rw [this]
  simp [List.filterMap_map]

/-- The characters printed for `%u` are digits. -/
theorem decimal_digits (n c : Nat) (h : c ∈ decimal n) : 48 ≤ c ∧ c ≤ 57 := by
  unfold decimal at h
  by_cases h0 : n = 0
  · simp [h0] at h
    omega
  · simp only [h0, if_false, List.mem_map, List.mem_reverse] at h
    obtain ⟨d, hd, rfl⟩ := h
    have := Nat.digits_lt_base (by norm_num : 1 < 10) hd
    omega

/-- At least one character is printed for `%u`. -/
theorem decimal_ne_nil (n : Nat) : decimal n ≠ [] := by
  unfold decimal
  by_cases h0 : n = 0
  · simp [h0]
  · simp [h0, Nat.digits_ne_nil_iff_ne_zero]

/-- The value of the digits of a number, most significant first. -/
theorem foldl_digits (l : List Nat) :
    (l.reverse.map (fun d => d + 48)).foldl (fun acc c => 10 * acc + (c - 48)) 0
      = Nat.ofDigits 10 l := by
  induction l with
  | nil => rfl
  | cons d more ih =>
    rw [List.reverse_cons, List.map_append, List.foldl_append, ih, Nat.ofDigits_cons]
    simp
    omega

/-- The function `atoi` reads back what `%u` prints, up to the greatest `int`. -/
theorem atoi_decimal (n : Nat) (h : n ≤ 2147483647) : atoi (decimal n) = some n := by
  unfold atoi decimal
  by_cases h0 : n = 0
  · simp [h0]
  · simp only [h0, if_false, foldl_digits, Nat.ofDigits_digits, h, if_true]

/-- At most 10 characters are printed for a value below `2 ^ 32`. -/
theorem decimal_length (n : Nat) (h : n < 2 ^ 32) : (decimal n).length ≤ 10 := by
  unfold decimal
  by_cases h0 : n = 0
  · simp [h0]
  · simp only [h0, if_false, List.length_map, List.length_reverse]
    rw [Nat.digits_len 10 n (by norm_num) h0]
    have : Nat.log 10 n < 10 := by
      apply Nat.log_lt_of_lt_pow h0
      omega
    omega

/-- The line loop stops at a short line that does not start with `#`. -/
theorem next_line_plain (fuel : Nat) (buf : List (Option Nat)) (l rest : List Nat)
    (hl : ∀ c ∈ l, c ≠ 10) (hn : l.length < 255) (h0 : l.head? ≠ some 35) :
    next_line (fuel + 1) buf (l ++ 10 :: rest)
      = some (l.map some ++ some 10 :: some 0 :: buf.drop (l.length + 2), rest) := by
  have hb : buf_at (l.map some ++ some 10 :: some 0 :: buf.drop (l.length + 2)) 0 ≠ some 35 := by
    cases l with
    | nil => simp [buf_at]
    | cons c more => simpa [buf_at] using h0
  simp only [next_line, fgets_line buf l rest hl hn, hb, if_false]

/-- The line loop goes on after a short line that starts with `#`. -/
theorem next_line_comment (fuel : Nat) (buf : List (Option Nat)) (l rest : List Nat)
    (hl : ∀ c ∈ l, c ≠ 10) (hn : l.length < 255) (h0 : l.head? = some 35) :
    next_line (fuel + 1) buf (l ++ 10 :: rest)
      = next_line fuel (l.map some ++ some 10 :: some 0 :: buf.drop (l.length + 2)) rest := by
  have hb : buf_at (l.map some ++ some 10 :: some 0 :: buf.drop (l.length + 2)) 0 = some 35 := by
    cases l with
    | nil => simp at h0
    | cons c more => simpa [buf_at] using h0
  simp only [next_line, fgets_line buf l rest hl hn, hb, if_true]

/-- The first character printed for `%u` is not `#`, and no character printed is
a newline. -/
theorem decimal_chars (n : Nat) :
    (decimal n).head? ≠ some 35 ∧ (∀ c ∈ decimal n, c ≠ 10) := by
  constructor
  · intro h
    have hm : 35 ∈ decimal n := List.mem_of_mem_head? h
    have := decimal_digits n 35 hm
    omega
  · intro c hc
    have := decimal_digits n c hc
    omega

/-- The maximum value is read back from the line that `%u` and a newline
make. -/
theorem pnm_max_val_decimal (ext : PnmExternals) (fit : fits) (buf : List (Option Nat))
    (data : List Nat) (malloc_ok realloc_ok : Bool) (max_val : Nat) (h : max_val ≤ 2147483647) :
    pnm_max_val ext fit buf (decimal max_val ++ 10 :: data) malloc_ok realloc_ok
      = pnm_data ext fit data max_val malloc_ok realloc_ok := by
  obtain ⟨h0, hnl⟩ := decimal_chars max_val
  have hlen : (decimal max_val).length < 255 := by
    have := decimal_length max_val (by omega)
    omega
  have hfuel : (decimal max_val ++ 10 :: data).length
      = ((decimal max_val).length + data.length) + 1 := by
    simp only [List.length_append, List.length_cons]
    omega
  have hscan := scan_digits_prefix (decimal max_val) (decimal_digits max_val) 10
    (some 0 :: buf.drop ((decimal max_val).length + 2)) 0 (by omega)
  have hat := buf_at_after_prefix ((decimal max_val).map some) (some 10)
    (some 0 :: buf.drop ((decimal max_val).length + 2))
  have hset := set_after_prefix ((decimal max_val).map some) (some 10) (some 0)
    (some 0 :: buf.drop ((decimal max_val).length + 2))
  have hstr := string_between_after_prefix [] (decimal max_val)
    (some 0 :: some 0 :: buf.drop ((decimal max_val).length + 2))
  simp only [List.length_map, Nat.zero_add, List.nil_append, List.length_nil] at hscan hat hset hstr
  unfold pnm_max_val
  rw [hfuel, next_line_plain _ buf (decimal max_val) data hnl hlen h0]
  simp only [hscan, hat, hset, hstr, atoi_decimal max_val h, ne_eq, not_true_eq_false, if_false]

/-- The rest of a buffer after a prefix and one slot. -/
theorem drop_after_prefix (pre : List (Option Nat)) (x : Option Nat)
    (tail : List (Option Nat)) : (pre ++ x :: tail).drop (pre.length + 1) = tail := by
  rw [show pre ++ x :: tail = (pre ++ [x]) ++ tail by simp]
  exact List.drop_left' (by simp)

/-- The width and the height are read back from the lines that `savepgm` prints
after the first: the comment, then the two values separated by a space. -/
theorem pnm_size_printed (ext : PnmExternals) (fit : fits) (buf : List (Option Nat))
    (rest : List Nat) (malloc_ok realloc_ok : Bool) (rx ry : Nat) (hx : rx ≤ 2147483647)
    (hy : ry ≤ 2147483647) :
    ∃ buf1, pnm_size ext fit buf (comment ++ 10 :: (decimal rx ++ 32 :: decimal ry ++ 10 :: rest))
        malloc_ok realloc_ok
      = pnm_max_val ext { fit with rx := rx, ry := ry } buf1 rest malloc_ok realloc_ok := by
  obtain ⟨hx0, hxn⟩ := decimal_chars rx
  obtain ⟨-, hyn⟩ := decimal_chars ry
  have hxl := decimal_length rx (by omega)
  have hyl := decimal_length ry (by omega)
  have hxe := decimal_ne_nil rx
  have hye := decimal_ne_nil ry
  have hxd := decimal_digits rx
  have hyd := decimal_digits ry
  have hax := atoi_decimal rx hx
  have hay := atoi_decimal ry hy
  generalize decimal rx = L at *
  generalize decimal ry = M at *
  have hfuel : (comment ++ 10 :: (L ++ 32 :: M ++ 10 :: rest)).length
      = (L.length + M.length + rest.length + 18) + 1 + 1 := by
    simp only [List.length_append, List.length_cons, comment, List.length_nil]
    omega
  have hnl : ∀ c ∈ L ++ 32 :: M, c ≠ 10 := by
    intro c hc
    rcases List.mem_append.1 hc with h | h
    · exact hxn c h
    · rcases List.mem_cons.1 h with h | h
      · omega
      · exact hyn c h
  have hlen : (L ++ 32 :: M).length < 255 := by
    simp only [List.length_append, List.length_cons]
    omega
  have hhead : (L ++ 32 :: M).head? ≠ some 35 := by
    cases L with
    | nil => exact absurd rfl hxe
    | cons c more => simpa using hx0
  have hLpos : L.length ≠ 0 := by
    cases L with
    | nil => exact absurd rfl hxe
    | cons c more => simp
  have hMpos : M.length ≠ 0 := by
    cases M with
    | nil => exact absurd rfl hye
    | cons c more => simp
  obtain ⟨T, hT⟩ : ∃ T, next_line (comment ++ 10 :: (L ++ 32 :: M ++ 10 :: rest)).length buf
      (comment ++ 10 :: (L ++ 32 :: M ++ 10 :: rest))
        = some (L.map some ++ some 32 :: (M.map some ++ some 10 :: some 0 :: T), rest) := by
    refine ⟨(comment.map some ++ some 10 :: some 0 :: buf.drop (comment.length + 2)).drop
      ((L ++ 32 :: M).length + 2), ?_⟩
    rw [hfuel, next_line_comment _ buf comment _ (by decide) (by decide) (by decide),
      next_line_plain _ _ (L ++ 32 :: M) rest hnl hlen hhead]
    simp
  have hscan1 := scan_digits_prefix L hxd 32 (M.map some ++ some 10 :: some 0 :: T) 0 (by omega)
  have hset1 := set_after_prefix (L.map some) (some 32) (some 0)
    (M.map some ++ some 10 :: some 0 :: T)
  have hstr1 := string_between_after_prefix [] L (some 0 :: (M.map some ++ some 10 :: some 0 :: T))
  have hdrop := drop_after_prefix (L.map some) (some 0) (M.map some ++ some 10 :: some 0 :: T)
  have hscan2 := scan_digits_prefix M hyd 10 (some 0 :: T) (L.length + 1) (by omega)
  have hform : L.map some ++ some 0 :: (M.map some ++ some 10 :: some 0 :: T)
      = (L.map some ++ some 0 :: M.map some) ++ some 10 :: some 0 :: T := by simp
  have hplen : (L.map some ++ some 0 :: M.map some).length = L.length + 1 + M.length := by
    simp only [List.length_append, List.length_cons, List.length_map]
    omega
  have hat2 := buf_at_after_prefix (L.map some ++ some 0 :: M.map some) (some 10) (some 0 :: T)
  have hset2 := set_after_prefix (L.map some ++ some 0 :: M.map some) (some 10) (some 0)
    (some 0 :: T)
  have hstr2 := string_between_after_prefix (L.map some ++ [some 0]) M (some 0 :: some 0 :: T)
  have hform2 : (L.map some ++ some 0 :: M.map some) ++ some 0 :: some 0 :: T
      = (L.map some ++ [some 0]) ++ M.map some ++ some 0 :: some 0 :: T := by simp
  have hqlen : (L.map some ++ [some 0]).length = L.length + 1 := by simp
  simp only [List.length_map, Nat.zero_add, List.nil_append,
    List.length_nil] at hscan1 hset1 hstr1 hdrop
  rw [hplen] at hat2 hset2
  rw [hqlen, ← hform2] at hstr2
  have hj : L.length + 1 + M.length ≠ L.length + 1 := by omega
  rw [hform] at hstr1 hdrop hset1
  refine ⟨L.map some ++ some 0 :: M.map some ++ some 0 :: some 0 :: T, ?_⟩
  unfold pnm_size
  rw [hT]
  simp only [hscan1, hLpos, if_false, hset1, hstr1, hax, hdrop, hscan2, hj, hat2, hset2,
    hstr2, hay, ne_eq, not_true_eq_false]

/-- Two bytes are written for each sample. -/
theorem flatMap_word_bytes_length (f : Nat → Nat) (l : List Nat) :
    (l.flatMap (fun v => word_bytes (f v))).length = 2 * l.length := by
  induction l with
  | nil => rfl
  | cons v more ih =>
    rw [List.flatMap_cons, List.length_append, ih]
    simp [word_bytes]
    omega

/-- The rows of a 16-bit graymap are all read when the file holds them all. -/
theorem fread_rows (stream : List Nat) (rx ry : Nat) (hl : stream.length = 2 * (rx * ry))
    (hxy : rx = 0 → ry = 0) : fread stream (rx * 2) ry = (ry, stream) := by
  unfold fread
  by_cases h0 : rx = 0
  · have hy := hxy h0
    subst h0
    subst hy
    have : stream = [] := List.eq_nil_of_length_eq_zero (by simpa using hl)
    simp [this]
  · have hpos : 0 < rx * 2 := by omega
    have hd : stream.length / (rx * 2) = ry := by
      rw [hl, show 2 * (rx * ry) = ry * (rx * 2) by ring]
      exact Nat.mul_div_cancel _ hpos
    have h2 : rx * 2 ≠ 0 := by omega
    simp only [h2, if_false, hd, Nat.min_self]
    rw [List.take_of_length_le]
    rw [hl]
    exact le_of_eq (by ring)

/-- The 16-bit samples of a graymap are read back from the bytes that hold them
with the high byte first. -/
theorem pnm_data_gray16 (ext : PnmExternals) (fit : fits) (words : List Nat)
    (malloc_ok : Bool) (hn : fit.naxes 2 = 1) (hw : ∀ w ∈ words, w < 65536)
    (hl : words.length = fit.rx * fit.ry) (hxy : fit.rx = 0 → fit.ry = 0) :
    pnm_data ext fit (words.flatMap (fun v => word_bytes (swap16 v))) 65535 malloc_ok true
      = some ((ext.fits_flip_top_to_bottom
            { fit with
              data := some words
              pdata := fun k => if k < 3 then words else fit.pdata k
              bitpix := USHORT_IMG
              binning_x := 1
              binning_y := 1 }).naxes 2,
          ext.fits_flip_top_to_bottom
            { fit with
              data := some words
              pdata := fun k => if k < 3 then words else fit.pdata k
              bitpix := USHORT_IMG
              binning_x := 1
              binning_y := 1 }) := by
  have hlen : (words.flatMap (fun v => word_bytes (swap16 v))).length
      = 2 * (fit.rx * fit.ry) := by
    rw [flatMap_word_bytes_length, hl]
  have hread := fread_rows _ fit.rx fit.ry hlen hxy
  have hwords : words_of (words.flatMap (fun v => word_bytes (swap16 v)))
      = words.map swap16 := by
    have e : words.flatMap (fun v => word_bytes (swap16 v))
        = (words.map swap16).flatMap word_bytes := by
      rw [List.flatMap_map]
    rw [e]
    apply words_of_word_bytes
    intro w hw1
    obtain ⟨v, -, rfl⟩ := List.mem_map.1 hw1
    exact swap16_lt v
  have hback : (words.map swap16).map swap16 = words := by
    rw [List.map_map]
    conv_rhs => rw [← List.map_id words]
    apply List.map_congr_left
    intro v hv
    exact swap16_swap16 v (hw v hv)
  have htake : (words.map swap16).take (fit.rx * fit.ry) = words.map swap16 := by
    apply List.take_of_length_le
    rw [List.length_map, hl]
  have hdrop : (words.map swap16).drop (fit.rx * fit.ry) = [] := by
    apply List.drop_of_length_le
    rw [List.length_map, hl]
  unfold pnm_data
  simp only [hread, hwords, htake, hdrop, hback, hn, List.append_nil]
  simp

/-- The buffer and the stream after `fgets` has read the line `P5`. -/
theorem fgets_P5 (buf : List (Option Nat)) (rest : List Nat) :
    fgets buf 256 (80 :: 53 :: 10 :: rest)
      = some (some 80 :: some 53 :: some 10 :: some 0 :: buf.drop 4, rest) := by
  have h := fgets_line buf [80, 53] rest (by decide) (by decide)
  simpa using h

/-- The bytes of a graymap, one line after the other. -/
theorem header_shape (c a b d w : List Nat) :
    [80, 53, 10] ++ c ++ [10] ++ a ++ [32] ++ b ++ [10] ++ d ++ [10] ++ w
      = 80 :: 53 :: 10 :: (c ++ 10 :: (a ++ 32 :: b ++ 10 :: (d ++ 10 :: w))) := by
  simp

/-- The file made of the header that `savepgm` prints and of 16-bit samples
stored with the high byte first is read as the graymap of these samples. -/
theorem import_pnm_printed_graymap (ext : PnmExternals) (fit0 : fits) (malloc_ok : Bool)
    (rx ry : Nat) (P : List Nat)
    (hPl : P.length = rx * ry) (hPs : ∀ v ∈ P, v < 65536)
    (hx : rx ≤ 2147483647) (hy : ry ≤ 2147483647) (hxy : rx = 0 → ry = 0) :
    import_pnm_to_fits ext (some (pgm_header rx ry ++ P.flatMap (fun v => word_bytes (swap16 v))))
        fit0 malloc_ok true
      = some ((ext.fits_flip_top_to_bottom
    { fit0 with
      naxes := fun k => if k = 2 then 1 else fit0.naxes k
      naxis := 2
      rx := rx
      ry := ry
      data := some P
      pdata := fun k => if k < 3 then P else fit0.pdata k
      bitpix := USHORT_IMG
      binning_x := 1
      binning_y := 1 }).naxes 2, ext.fits_flip_top_to_bottom
    { fit0 with
      naxes := fun k => if k = 2 then 1 else fit0.naxes k
      naxis := 2
      rx := rx
      ry := ry
      data := some P
      pdata := fun k => if k < 3 then P else fit0.pdata k
      bitpix := USHORT_IMG
      binning_x := 1
      binning_y := 1 }) := by
  generalize hT : (List.replicate 256 (none : Option Nat)).drop 4 = T
  have hbytes : pgm_header rx ry ++ P.flatMap (fun v => word_bytes (swap16 v))
      = 80 :: 53 :: 10 :: (comment ++ 10 :: (decimal rx ++ 32 :: decimal ry ++ 10
          :: (decimal 65535 ++ 10 :: P.flatMap (fun v => word_bytes (swap16 v))))) := by
    unfold pgm_header
    exact header_shape _ _ _ _ _
  obtain ⟨buf1, hsize⟩ := pnm_size_printed ext
    { fit0 with naxes := fun k => if k = 2 then 1 else fit0.naxes k, naxis := 2 }
    (some 80 :: some 53 :: some 10 :: some 0 :: T)
    (decimal 65535 ++ 10 :: P.flatMap (fun v => word_bytes (swap16 v)))
    malloc_ok true rx ry hx hy
  have hdata := pnm_data_gray16 ext
    { fit0 with
      naxes := fun k => if k = 2 then 1 else fit0.naxes k, naxis := 2, rx := rx, ry := ry }
    P malloc_ok rfl hPs hPl hxy
  have hmagic : pnm_magic (some 80 :: some 53 :: some 10 :: some 0 :: T) = some true := by
    simp [pnm_magic, buf_at]
  have hsecond : buf_at (some 80 :: some 53 :: some 10 :: some 0 :: T) 1 ≠ some 54 := by
    simp [buf_at]
  rw [hbytes]
  unfold import_pnm_to_fits
  simp only [fgets_P5, hT, hmagic, hsecond, if_false, hsize,
      pnm_max_val_decimal ext _ buf1 _ malloc_ok true 65535 (by decide), hdata]

/-- The file that `savepgm` writes for an image of one layer that is not 8-bit:
the header, then the samples of the flipped first plane, the high byte first. -/
theorem savepgm_written (rnd : ℚ → StarFinder.Dbl) (flip : fits → fits)
    (rows : Nat → Nat → List Nat → List Nat) (fit : fits)
    (hr : ∀ v : Nat, v < 65536 → rnd (v : ℚ) = StarFinder.Dbl.fin (v : ℚ))
    (hflip : FlipsRows flip rows) (h16 : fit.orig_bitpix ≠ BYTE_IMG) (hn : fit.naxes 2 = 1)
    (hl : (fit.pdata 0).length = fit.rx * fit.ry) (hs : ∀ v ∈ fit.pdata 0, v < 65536) :
    savepgm rnd flip true fit
      = some (0, flip (flip fit),
          some (pgm_header fit.rx fit.ry
            ++ (rows fit.rx fit.ry (fit.pdata 0)).flatMap (fun v => word_bytes (swap16 v)))) := by
  obtain ⟨k1, k2, -, k4, k5⟩ := hflip
  have hP : (flip fit).pdata 0 = rows fit.rx fit.ry (fit.pdata 0) := k1 fit hn
  have hPl : (rows fit.rx fit.ry (fit.pdata 0)).length = fit.rx * fit.ry := by
    rw [k4 _ _ _ hl, hl]
  have hPs : ∀ v ∈ rows fit.rx fit.ry (fit.pdata 0), v < 65536 :=
    fun v hv => hs v (k5 _ _ _ v hv)
  have hloop := savepgm_samples rnd hr _ hPs (fit.rx * fit.ry) 0 [] (by omega)
  have htake : (rows fit.rx fit.ry (fit.pdata 0)).take (fit.rx * fit.ry)
      = rows fit.rx fit.ry (fit.pdata 0) :=
    List.take_of_length_le (le_of_eq hPl)
  simp only [List.drop_zero, htake, List.nil_append, Nat.zero_add] at hloop
  have hb1 : ¬ ((flip fit).orig_bitpix = BYTE_IMG) := by
    rw [(k2 fit).2]
    exact h16
  simp only [savepgm, hP, ne_eq, hb1, not_false_eq_true, if_true, hloop]
  simp

/-- C33: the byte swap `(v >> 8) | (v << 8)` truncated to 16 bits, applied twice,
gives every 16-bit sample back; and for an image of one layer that is not 8-bit,
the file that `savepgm` writes is read by `import_pnm_to_fits` as a graymap
whose samples are the samples of the image. The doubles are taken to hold the
integers below 65536, the flip to be its own inverse on the rows, the width and
the height to fit an `int`, an image without columns to have no rows, and the
file and the buffer to be obtained. -/
theorem savepgm_import_round_trip (rnd : ℚ → StarFinder.Dbl) (ext : PnmExternals)
    (rows : Nat → Nat → List Nat → List Nat) (fit fit0 : fits) (malloc_ok : Bool)
    (hr : ∀ v : Nat, v < 65536 → rnd (v : ℚ) = StarFinder.Dbl.fin (v : ℚ))
    (hflip : FlipsRows ext.fits_flip_top_to_bottom rows)
    (h16 : fit.orig_bitpix ≠ BYTE_IMG) (hn : fit.naxes 2 = 1)
    (hl : (fit.pdata 0).length = fit.rx * fit.ry) (hs : ∀ v ∈ fit.pdata 0, v < 65536)
    (hx : fit.rx ≤ 2147483647) (hy : fit.ry ≤ 2147483647) (hxy : fit.rx = 0 → fit.ry = 0) :
    (∀ v : Nat, v < 65536 → swap16 (swap16 v) = v)
      ∧ ∃ (fit2 : fits) (bytes : List Nat),
          savepgm rnd ext.fits_flip_top_to_bottom true fit = some (0, fit2, some bytes)
          ∧ ∃ fit1, import_pnm_to_fits ext (some bytes) fit0 malloc_ok true = some (1, fit1)
            ∧ fit1.pdata 0 = fit.pdata 0 := by
  have hsave := savepgm_written rnd ext.fits_flip_top_to_bottom rows fit hr hflip h16 hn hl hs
  obtain ⟨k1, k2, k3, k4, k5⟩ := hflip
  refine ⟨swap16_swap16, _, _, hsave, ?_⟩
  have hPl : (rows fit.rx fit.ry (fit.pdata 0)).length = fit.rx * fit.ry := by
    rw [k4 _ _ _ hl, hl]
  have hPs : ∀ v ∈ rows fit.rx fit.ry (fit.pdata 0), v < 65536 :=
    fun v hv => hs v (k5 _ _ _ v hv)
  have himport := import_pnm_printed_graymap ext fit0 malloc_ok fit.rx fit.ry
    (rows fit.rx fit.ry (fit.pdata 0)) hPl hPs hx hy hxy
  refine ⟨ext.fits_flip_top_to_bottom
    { fit0 with
      naxes := fun k => if k = 2 then 1 else fit0.naxes k
      naxis := 2
      rx := fit.rx
      ry := fit.ry
      data := some (rows fit.rx fit.ry (fit.pdata 0))
      pdata := fun k => if k < 3 then rows fit.rx fit.ry (fit.pdata 0) else fit0.pdata k
      bitpix := USHORT_IMG
      binning_x := 1
      binning_y := 1 }, ?_, ?_⟩
  · rw [himport, (k2 _).1]
    simp
  · rw [k1 _ rfl]
    exact k3 _ _ _ hl

/-- The rows of a concatenation of rows of the same length are these rows. -/
theorem rows_of_flatten (rx : Nat) : ∀ rows : List (List Nat), (∀ r ∈ rows, r.length = rx) →
    rows_of rx rows.length rows.flatten = rows := by
  intro rows
  induction rows with
  | nil => intro _; rfl
  | cons r more ih =>
    intro h
    have hr : r.length = rx := h r (List.mem_cons_self _ _)
    simp only [List.length_cons, List.flatten_cons, rows_of]
    rw [List.take_left' hr, List.drop_left' hr, ih (fun x hx => h x (List.mem_cons_of_mem _ hx))]

/-- The concatenation of the rows of a plane is the plane. -/
theorem flatten_rows_of (rx : Nat) : ∀ (ry : Nat) (plane : List Nat), plane.length = rx * ry →
    (rows_of rx ry plane).flatten = plane := by
  intro ry
  induction ry with
  | zero =>
    intro plane h
    have : plane = [] := List.eq_nil_of_length_eq_zero (by simpa using h)
    simp [rows_of, this]
  | succ ry ih =>
    intro plane h
    simp only [rows_of, List.flatten_cons]
    rw [ih (plane.drop rx) (by rw [List.length_drop, h]; rw [Nat.mul_succ]; omega),
      List.take_append_drop]

/-- The rows of a plane have the length of a row and are as many as the height. -/
theorem rows_of_lengths (rx : Nat) : ∀ (ry : Nat) (plane : List Nat), plane.length = rx * ry →
    (rows_of rx ry plane).length = ry ∧ ∀ r ∈ rows_of rx ry plane, r.length = rx := by
  intro ry
  induction ry with
  | zero => intro plane _; simp [rows_of]
  | succ ry ih =>
    intro plane h
    have hd : (plane.drop rx).length = rx * ry := by
      rw [List.length_drop, h, Nat.mul_succ]; omega
    obtain ⟨h1, h2⟩ := ih (plane.drop rx) hd
    refine ⟨by simp [rows_of, h1], ?_⟩
    intro r hr
    simp only [rows_of, List.mem_cons] at hr
    rcases hr with rfl | hr
    · rw [List.length_take, h, Nat.mul_succ]; omega
    · exact h2 r hr

/-- The samples of the rows of a plane are samples of the plane. -/
theorem mem_rows_of (rx : Nat) : ∀ (ry : Nat) (plane : List Nat), ∀ r ∈ rows_of rx ry plane,
    ∀ v ∈ r, v ∈ plane := by
  intro ry
  induction ry with
  | zero => intro plane r hr; simp [rows_of] at hr
  | succ ry ih =>
    intro plane r hr v hv
    simp only [rows_of, List.mem_cons] at hr
    rcases hr with rfl | hr
    · exact List.mem_of_mem_take hv
    · exact List.mem_of_mem_drop (ih _ r hr v hv)

/-- The length of a concatenation of rows of the same length. -/
theorem flatten_length (rx : Nat) : ∀ rows : List (List Nat), (∀ r ∈ rows, r.length = rx) →
    rows.flatten.length = rows.length * rx := by
  intro rows
  induction rows with
  | nil => intro _; simp
  | cons r more ih =>
    intro h
    simp only [List.flatten_cons, List.length_append, List.length_cons,
      ih (fun x hx => h x (List.mem_cons_of_mem _ hx)), h r (List.mem_cons_self _ _)]
    ring

/-- The sample flip is a flip of the rows. -/
theorem flipFirstPlane_flips : FlipsRows flipFirstPlane flip_rows := by
  refine ⟨fun f _ => rfl, fun f => ⟨rfl, rfl⟩, ?_, ?_, ?_⟩
  · intro rx ry l hl
    obtain ⟨h1, h2⟩ := rows_of_lengths rx ry l hl
    have h3 : ∀ r ∈ (rows_of rx ry l).reverse, r.length = rx :=
      fun r hr => h2 r (List.mem_reverse.1 hr)
    have h4 : ((rows_of rx ry l).reverse).length = ry := by rw [List.length_reverse, h1]
    unfold flip_rows
    have h5 := rows_of_flatten rx (rows_of rx ry l).reverse h3
    rw [h4] at h5
    rw [h5, List.reverse_reverse, flatten_rows_of rx ry l hl]
  · intro rx ry l hl
    obtain ⟨h1, h2⟩ := rows_of_lengths rx ry l hl
    unfold flip_rows
    rw [flatten_length rx _ (fun r hr => h2 r (List.mem_reverse.1 hr)), List.length_reverse, h1,
      hl, Nat.mul_comm]
  · intro rx ry l v hv
    unfold flip_rows at hv
    obtain ⟨r, hr, hvr⟩ := List.mem_flatten.1 hv
    exact mem_rows_of rx ry l r (List.mem_reverse.1 hr) v hvr

/-- An instance of `savepgm_import_round_trip`: the 16-bit graymap of width 2 and
height 2, written with its rows in the reverse order and read back. -/
theorem savepgm_import_round_trip_witness :
    (∀ v : Nat, v < 65536 → StarFinder.Dbl.exact (v : ℚ) = StarFinder.Dbl.fin (v : ℚ))
      ∧ FlipsRows flippingExternals.fits_flip_top_to_bottom flip_rows
      ∧ grayFourPixels.orig_bitpix ≠ BYTE_IMG ∧ grayFourPixels.naxes 2 = 1
      ∧ (grayFourPixels.pdata 0).length = grayFourPixels.rx * grayFourPixels.ry
      ∧ (∀ v ∈ grayFourPixels.pdata 0, v < 65536)
      ∧ ((∀ v : Nat, v < 65536 → swap16 (swap16 v) = v)
        ∧ ∃ (fit2 : fits) (bytes : List Nat),
            savepgm StarFinder.Dbl.exact flippingExternals.fits_flip_top_to_bottom true
                grayFourPixels = some (0, fit2, some bytes)
            ∧ ∃ fit1, import_pnm_to_fits flippingExternals (some bytes) blankFits true true
                = some (1, fit1)
              ∧ fit1.pdata 0 = grayFourPixels.pdata 0) :=
  ⟨fun _ _ => rfl, flipFirstPlane_flips, by decide, rfl, rfl, by decide,
    savepgm_import_round_trip StarFinder.Dbl.exact flippingExternals flip_rows grayFourPixels
      blankFits true (fun _ _ => rfl) flipFirstPlane_flips (by decide) rfl rfl (by decide)
      (by decide) (by decide) (by decide)⟩

/-- The file written for the 16-bit graymap of width 2 and height 2: the header,
then the two rows in the reverse order, each sample with its high byte first. -/
theorem savepgm_grayFourPixels :
    savepgm StarFinder.Dbl.exact flipFirstPlane true grayFourPixels
      = some (0, flipFirstPlane (flipFirstPlane grayFourPixels),
          some (bytes_of "P5\n# CREATOR : SIRIL\n2 2\n65535\n" ++ [1, 44, 255, 255, 0, 1, 0, 2])) := by
  rw [savepgm_written StarFinder.Dbl.exact flipFirstPlane flip_rows grayFourPixels
    (fun _ _ => rfl) flipFirstPlane_flips (by decide) rfl rfl (by decide)]
  have h1 : pgm_header grayFourPixels.rx grayFourPixels.ry
      = bytes_of "P5\n# CREATOR : SIRIL\n2 2\n65535\n" := by
    simp [pgm_header, decimal, comment, grayFourPixels, bytes_of]
  have h2 : (flip_rows grayFourPixels.rx grayFourPixels.ry (grayFourPixels.pdata 0)).flatMap
      (fun v => word_bytes (swap16 v)) = [1, 44, 255, 255, 0, 1, 0, 2] := by
    decide
  rw [h1, h2]

/-- The file written for the 16-bit graymap of width 2 and height 2 is read back
as a graymap of one layer with the samples of the image. -/
theorem import_pnm_grayFourPixels :
    (import_pnm_to_fits flippingExternals
        (some (bytes_of "P5\n# CREATOR : SIRIL\n2 2\n65535\n" ++ [1, 44, 255, 255, 0, 1, 0, 2]))
        blankFits true true).map (fun r => (r.1, r.2.rx, r.2.ry, r.2.pdata 0))
      = some (1, 2, 2, [1, 2, 300, 65535]) := by
  decide

/-! ## The offsets read by the BMP converters -/

/-- One more turn of a loop is a turn after the others. -/
theorem repeat_n_succ {σ : Type} (body : σ → Option σ) :
    ∀ (n : Nat) (s : σ), repeat_n body (n + 1) s = (repeat_n body n s).bind body := by
  intro n
  induction n with
  | zero =>
    intro s
    cases h : body s <;> simp [repeat_n, h]
  | succ n ih =>
    intro s
    cases h : body s with
    | none => simp [repeat_n, h]
    | some s1 =>
      have e1 : repeat_n body (n + 1 + 1) s = repeat_n body (n + 1) s1 := by
        simp only [repeat_n, h]
      have e2 : repeat_n body (n + 1) s = repeat_n body n s1 := by
        simp only [repeat_n, h]
      rw [e1, e2, ih s1]

/-- The pixel loop of `bmp24tofits48` from the offset `p`: pixel `j` is read at the
offset `p + j * 3`. -/
theorem bmp24_pixels_at (rvb : List Nat) :
    ∀ (n p : Nat) (r g b : List Nat), p + n * 3 ≤ rvb.length →
      repeat_n (bmp24_pixel rvb) n ⟨p, r, g, b⟩
        = some ⟨p + n * 3, r ++ (List.range n).map (fun j => rvb.getD (p + j * 3 + 2) 0),
            g ++ (List.range n).map (fun j => rvb.getD (p + j * 3 + 1) 0),
            b ++ (List.range n).map (fun j => rvb.getD (p + j * 3 + 0) 0)⟩ := by
  intro n
  induction n with
  | zero => intro p r g b _; simp [repeat_n]
  | succ n ih =>
    intro p r g b h
    rw [repeat_n_succ, ih p r g b (by omega)]
    have e0 := get?_eq_some_getD rvb (p + n * 3) (by omega)
    have e1 := get?_eq_some_getD rvb (p + n * 3 + 1) (by omega)
    have e2 := get?_eq_some_getD rvb (p + n * 3 + 2) (by omega)
    simp only [Option.some_bind, bmp24_pixel, e0, e1, e2, List.range_succ, List.map_append,
      List.map_cons, List.map_nil, List.append_assoc, Nat.add_zero]
    congr 2
    omega

/-- The row loop of `bmp24tofits48` from the offset `p`: pixel `j` of row `i` is
read at the offset `p + i * (rx * 3 + padsize) + j * 3`. -/
theorem bmp24_rows_at (rvb : List Nat) (rx padsize : Nat) :
    ∀ (m p : Nat) (r g b : List Nat), p + m * (rx * 3 + padsize) ≤ rvb.length →
      repeat_n (bmp24_row rvb rx padsize) m ⟨p, r, g, b⟩
        = some ⟨p + m * (rx * 3 + padsize),
            r ++ (List.range m).flatMap (fun i => (List.range rx).map
              (fun j => rvb.getD (p + i * (rx * 3 + padsize) + j * 3 + 2) 0)),
            g ++ (List.range m).flatMap (fun i => (List.range rx).map
              (fun j => rvb.getD (p + i * (rx * 3 + padsize) + j * 3 + 1) 0)),
            b ++ (List.range m).flatMap (fun i => (List.range rx).map
              (fun j => rvb.getD (p + i * (rx * 3 + padsize) + j * 3 + 0) 0))⟩ := by
  intro m
  induction m with
  | zero => intro p r g b _; simp [repeat_n]
  | succ m ih =>
    intro p r g b h
    have hm : (m + 1) * (rx * 3 + padsize) = m * (rx * 3 + padsize) + (rx * 3 + padsize) := by
      ring
    rw [repeat_n_succ, ih p r g b (by omega)]
    simp only [Option.some_bind, bmp24_row,
      bmp24_pixels_at rvb rx (p + m * (rx * 3 + padsize)) _ _ _ (by omega), List.range_succ,
      List.flatMap_append, List.flatMap_cons, List.flatMap_nil, List.append_nil,
      List.append_assoc]
    congr 2
    omega

/-- The converter of 24-bit pixels honours the padding that `readbmp` counts: on a
buffer that holds the `nbdata` bytes, the sample of row `i` and column `j` of the
red, green and blue planes is the byte at the offset
`i * (rx * 3 + padsize) + j * 3` plus 2, 1 and 0, and every such offset is below
`nbdata`. -/
theorem bmp24tofits48_offsets (rvb : List Nat) (rx ry : Nat) (fit : fits)
    (h : readbmp_nbdata rx ry 3 ≤ rvb.length) :
    bmp24tofits48 rvb rx ry fit true
        = some (0, colour_image fit rx ry ⟨readbmp_nbdata rx ry 3,
            samples_at rvb rx ry 3 (rx * 3 + readbmp_padsize rx 3) 2,
            samples_at rvb rx ry 3 (rx * 3 + readbmp_padsize rx 3) 1,
            samples_at rvb rx ry 3 (rx * 3 + readbmp_padsize rx 3) 0⟩)
      ∧ ∀ i j, i < ry → j < rx →
          i * (rx * 3 + readbmp_padsize rx 3) + j * 3 + 2 < readbmp_nbdata rx ry 3 := by
  have hn : readbmp_nbdata rx ry 3 = ry * (rx * 3 + readbmp_padsize rx 3) := by
    unfold readbmp_nbdata
    ring
  constructor
  · have hrows := bmp24_rows_at rvb rx (readbmp_padsize rx 3) ry 0 [] [] []
      (by rw [← hn]; omega)
    simp only [Nat.zero_add, List.nil_append] at hrows
    unfold bmp24tofits48
    simp only [Bool.true_eq_false, if_false]
    rw [show (4 - rx * 3 % 4) % 4 = readbmp_padsize rx 3 from rfl, hrows, hn]
    rfl
  · intro i j hi hj
    rw [hn]
    have h1 : (i + 1) * (rx * 3 + readbmp_padsize rx 3)
        ≤ ry * (rx * 3 + readbmp_padsize rx 3) := Nat.mul_le_mul_right _ hi
    have h2 : (i + 1) * (rx * 3 + readbmp_padsize rx 3)
        = i * (rx * 3 + readbmp_padsize rx 3) + (rx * 3 + readbmp_padsize rx 3) := by ring
    omega

/-- The pixel loop of `bmp8tofits` from the offset `p`: pixel `j` is read at the
offset `p + j`. -/
theorem bmp8_pixels_at (rgb : List Nat) :
    ∀ (n p : Nat) (d : List Nat), p + n ≤ rgb.length →
      repeat_n (bmp8_pixel rgb) n ⟨p, d⟩
        = some ⟨p + n, d ++ (List.range n).map (fun j => rgb.getD (p + j * 1 + 0) 0)⟩ := by
  intro n
  induction n with
  | zero => intro p d _; simp [repeat_n]
  | succ n ih =>
    intro p d h
    rw [repeat_n_succ, ih p d (by omega)]
    have e0 := get?_eq_some_getD rgb (p + n) (by omega)
    simp only [Option.some_bind, bmp8_pixel, e0, List.range_succ, List.map_append,
      List.map_cons, List.map_nil, List.append_assoc, Nat.add_zero, Nat.mul_one]
    rfl

/-- The row loop of `bmp8tofits` from the offset `p`: pixel `j` of row `i` is read
at the offset `p + i * (rx * 1 + padsize) + j`. -/
theorem bmp8_rows_at (rgb : List Nat) (rx padsize : Nat) :
    ∀ (m p : Nat) (d : List Nat), p + m * (rx * 1 + padsize) ≤ rgb.length →
      repeat_n (bmp8_row rgb rx padsize) m ⟨p, d⟩
        = some ⟨p + m * (rx * 1 + padsize),
            d ++ (List.range m).flatMap (fun i => (List.range rx).map
              (fun j => rgb.getD (p + i * (rx * 1 + padsize) + j * 1 + 0) 0))⟩ := by
  intro m
  induction m with
  | zero => intro p d _; simp [repeat_n]
  | succ m ih =>
    intro p d h
    have hm : (m + 1) * (rx * 1 + padsize) = m * (rx * 1 + padsize) + (rx * 1 + padsize) := by
      ring
    rw [repeat_n_succ, ih p d (by omega)]
    simp only [Option.some_bind, bmp8_row,
      bmp8_pixels_at rgb rx (p + m * (rx * 1 + padsize)) _ (by omega), List.range_succ,
      List.flatMap_append, List.flatMap_cons, List.flatMap_nil, List.append_nil,
      List.append_assoc]
    congr 2
    omega

/-- The converter of 8-bit pixels honours the padding that `readbmp` counts: on a
buffer that holds the `nbdata` bytes, the sample of row `i` and column `j` is the
byte at the offset `i * (rx * 1 + padsize) + j * 1`, and every such offset is
below `nbdata`. -/
theorem bmp8tofits_offsets (rgb : List Nat) (rx ry : Nat) (fit : fits)
    (h : readbmp_nbdata rx ry 1 ≤ rgb.length) :
    (∃ fit1, bmp8tofits rgb rx ry fit true = some (0, fit1)
        ∧ fit1.pdata 0 = samples_at rgb rx ry 1 (rx * 1 + readbmp_padsize rx 1) 0)
      ∧ ∀ i j, i < ry → j < rx →
          i * (rx * 1 + readbmp_padsize rx 1) + j * 1 < readbmp_nbdata rx ry 1 := by
  have hn : readbmp_nbdata rx ry 1 = ry * (rx * 1 + readbmp_padsize rx 1) := by
    unfold readbmp_nbdata
    ring
  constructor
  · have hrows := bmp8_rows_at rgb rx (readbmp_padsize rx 1) ry 0 []
      (by rw [← hn]; omega)
    simp only [Nat.zero_add, List.nil_append] at hrows
    have hp : (4 - rx % 4) % 4 = readbmp_padsize rx 1 := by
      unfold readbmp_padsize
      rw [Nat.mul_one]
    unfold bmp8tofits
    simp only [Bool.true_eq_false, if_false, hp, hrows]
    exact ⟨_, rfl, rfl⟩
  · intro i j hi hj
    rw [hn]
    have h1 : (i + 1) * (rx * 1 + readbmp_padsize rx 1)
        ≤ ry * (rx * 1 + readbmp_padsize rx 1) := Nat.mul_le_mul_right _ hi
    have h2 : (i + 1) * (rx * 1 + readbmp_padsize rx 1)
        = i * (rx * 1 + readbmp_padsize rx 1) + (rx * 1 + readbmp_padsize rx 1) := by ring
    omega

/-- The pixel loop of `bmp32tofits48` from the offset `p`: pixel `j` is read at the
offset `p + j * 4`. -/
theorem bmp32_pixels_at (rvb : List Nat) :
    ∀ (n p : Nat) (r g b : List Nat), p + n * 4 ≤ rvb.length →
      repeat_n (bmp32_pixel rvb) n ⟨p, r, g, b⟩
        = some ⟨p + n * 4, r ++ (List.range n).map (fun j => rvb.getD (p + j * 4 + 2) 0),
            g ++ (List.range n).map (fun j => rvb.getD (p + j * 4 + 1) 0),
            b ++ (List.range n).map (fun j => rvb.getD (p + j * 4 + 0) 0)⟩ := by
  intro n
  induction n with
  | zero => intro p r g b _; simp [repeat_n]
  | succ n ih =>
    intro p r g b h
    rw [repeat_n_succ, ih p r g b (by omega)]
    have e0 := get?_eq_some_getD rvb (p + n * 4) (by omega)
    have e1 := get?_eq_some_getD rvb (p + n * 4 + 1) (by omega)
    have e2 := get?_eq_some_getD rvb (p + n * 4 + 2) (by omega)
    simp only [Option.some_bind, bmp32_pixel, e0, e1, e2, List.range_succ, List.map_append,
      List.map_cons, List.map_nil, List.append_assoc, Nat.add_zero]
    congr 2
    omega

/-- The row loop of `bmp32tofits48` from the offset `p`: pixel `j` of row `i` is
read at the offset `p + i * (rx * 4 + 0) + j * 4`. -/
theorem bmp32_rows_at (rvb : List Nat) (rx : Nat) :
    ∀ (m p : Nat) (r g b : List Nat), p + m * (rx * 4 + 0) ≤ rvb.length →
      repeat_n (repeat_n (bmp32_pixel rvb) rx) m ⟨p, r, g, b⟩
        = some ⟨p + m * (rx * 4 + 0),
            r ++ (List.range m).flatMap (fun i => (List.range rx).map
              (fun j => rvb.getD (p + i * (rx * 4 + 0) + j * 4 + 2) 0)),
            g ++ (List.range m).flatMap (fun i => (List.range rx).map
              (fun j => rvb.getD (p + i * (rx * 4 + 0) + j * 4 + 1) 0)),
            b ++ (List.range m).flatMap (fun i => (List.range rx).map
              (fun j => rvb.getD (p + i * (rx * 4 + 0) + j * 4 + 0) 0))⟩ := by
  intro m
  induction m with
  | zero => intro p r g b _; simp [repeat_n]
  | succ m ih =>
    intro p r g b h
    have hm : (m + 1) * (rx * 4 + 0) = m * (rx * 4 + 0) + rx * 4 := by ring
    rw [repeat_n_succ, ih p r g b (by omega)]
    simp only [Option.some_bind,
      bmp32_pixels_at rvb rx (p + m * (rx * 4 + 0)) _ _ _ (by omega), List.range_succ,
      List.flatMap_append, List.flatMap_cons, List.flatMap_nil, List.append_nil,
      List.append_assoc]
    congr 2
    omega

/-- The converter of 32-bit pixels reads rows without padding, as `readbmp` counts
them: on a buffer that holds the `nbdata` bytes, the sample of row `i` and column
`j` of the red, green and blue planes is the byte at the offset
`i * (rx * 4 + padsize) + j * 4` plus 2, 1 and 0, where `padsize` is 0, and every
such offset is below `nbdata`. -/
theorem bmp32tofits48_offsets (rvb : List Nat) (rx ry : Nat) (fit : fits)
    (h : readbmp_nbdata rx ry 4 ≤ rvb.length) :
    readbmp_padsize rx 4 = 0
      ∧ bmp32tofits48 rvb rx ry fit true
        = some (0, colour_image fit rx ry ⟨readbmp_nbdata rx ry 4,
            samples_at rvb rx ry 4 (rx * 4 + 0) 2, samples_at rvb rx ry 4 (rx * 4 + 0) 1,
            samples_at rvb rx ry 4 (rx * 4 + 0) 0⟩)
      ∧ ∀ i j, i < ry → j < rx → i * (rx * 4 + 0) + j * 4 + 2 < readbmp_nbdata rx ry 4 := by
  have hp : readbmp_padsize rx 4 = 0 := by
    unfold readbmp_padsize
    omega
  have hn : readbmp_nbdata rx ry 4 = ry * (rx * 4 + 0) := by
    unfold readbmp_nbdata
    rw [hp]
    ring
  refine ⟨hp, ?_, ?_⟩
  · have hrows := bmp32_rows_at rvb rx ry 0 [] [] [] (by rw [← hn]; omega)
    simp only [Nat.zero_add, List.nil_append] at hrows
    unfold bmp32tofits48
    simp only [Bool.true_eq_false, if_false]
    rw [hrows, hn]
    rfl
  · intro i j hi hj
    rw [hn]
    have h1 : (i + 1) * (rx * 4 + 0) ≤ ry * (rx * 4 + 0) := Nat.mul_le_mul_right _ hi
    have h2 : (i + 1) * (rx * 4 + 0) = i * (rx * 4 + 0) + rx * 4 := by ring
    omega

end ImageFormats
